import Mathlib

/-!
# Shallow embedding of `smart_ptrs` (shared / weak ownership core)

The C++ sources `sw_fwd.h`, `shared.h` and `weak.h` are embedded as pure functions
on an explicit heap:

* control blocks (`ControlBlockBase` with its two strategies `ControlBlockPointer`
  and `ControlBlockEmplace`) live in `Heap.blocks`;
* managed objects live in `Heap.objs`, indexed by their address (`0` is `nullptr`);
* every `SharedPtr<T>` / `WeakPtr<T>` object is a `Handle` in `Heap.sps` / `Heap.wps`.

`size_t` counters wrap modulo `2^64`.  The compile-time test
`std::is_convertible_v<T*, ESFTBase*>` is the boolean parameter `esft`.
Recursion through destructors (`delete ptr_` running `~EnableSharedFromThis`, which
runs `~WeakPtr`, which may run `delete block_`, ...) is bounded by an explicit call
depth; exhausting it is recorded as `Fault.stackOverflow`.
-/

namespace SmartPtrs

/-- Raw addresses; `0` is `nullptr`. -/
abbrev Addr := Nat

/-- Number of values of `size_t` (64 bit). -/
def SIZE_T_MOD : Nat := 18446744073709551616

/-- Pre-increment of a `size_t`: `++n`. -/
def incr (n : Nat) : Nat := (n + 1) % SIZE_T_MOD

/-- Pre-decrement of a `size_t`: `--n` (wraps at zero). -/
def decr (n : Nat) : Nat := (n + SIZE_T_MOD - 1) % SIZE_T_MOD

/-- Undefined behaviour the embedding can detect. -/
inductive Fault
  | nullDeref
  | wildWrite
  | stackOverflow
deriving DecidableEq, Repr

/-- The exception type of `sw_fwd.h:7`. -/
inductive Exn
  | BadWeakPtr
deriving DecidableEq, Repr

/-- A control block: `ControlBlockBase` (`sw_fwd.h:15-23`) together with the members
of both strategies.  `emplace = false` is `ControlBlockPointer<T>` (member `ptr_`),
`emplace = true` is `ControlBlockEmplace<T>` (member `is_delete_`, object stored at
address `obj`).  `obj` is the address handed over at construction and never changes;
`frees` counts executions of `delete block_`, `clear_calls` counts calls of
`ClearPtr()`; both are observation counters that no code path reads. -/
structure ControlBlock where
  strong_cnt : Nat := 1
  weak_cnt : Nat := 0
  emplace : Bool := false
  ptr_ : Addr := 0
  is_delete_ : Bool := false
  obj : Addr := 0
  frees : Nat := 0
  clear_calls : Nat := 0
deriving DecidableEq, Repr

/-- A managed object of type `T`.  `ctor_runs` / `dtor_runs` count constructor and
destructor executions; `weak_this_` is the member of `EnableSharedFromThis<T>`
(`sw_fwd.h:67`), meaningful only when `T` has the capability. -/
structure Obj where
  ctor_runs : Nat := 0
  dtor_runs : Nat := 0
  weak_this_ : Option Nat := none
deriving DecidableEq, Repr

/-- A `SharedPtr<T>` or `WeakPtr<T>` object: the members `block_` and `ptr_`
(`shared.h:205-206`, `weak.h:120-121`).  `live` records that the C++ object has been
constructed and not yet destroyed; `heap` records that it was allocated with `new`
inside `InitWeakThis` and is therefore not a variable of the client program. -/
structure Handle where
  live : Bool := false
  block_ : Option Nat := none
  ptr_ : Addr := 0
  heap : Bool := false
deriving DecidableEq, Repr

/-- The heap: all control blocks, managed objects, shared handles and weak handles
ever created, and the first undefined behaviour met (if any). -/
structure Heap where
  blocks : Nat → ControlBlock
  nblocks : Nat
  objs : Addr → Obj
  nobjs : Nat
  sps : Nat → Handle
  nsps : Nat
  wps : Nat → Handle
  nwps : Nat
  fault : Option Fault

/-- The empty heap. -/
def Heap.init : Heap :=
  { blocks := fun _ => {}, nblocks := 0, objs := fun _ => {}, nobjs := 0,
    sps := fun _ => {}, nsps := 0, wps := fun _ => {}, nwps := 0, fault := none }

/-- Update control block `b` in place. -/
def Heap.modBlock (s : Heap) (b : Nat) (f : ControlBlock → ControlBlock) : Heap :=
  { s with blocks := Function.update s.blocks b (f (s.blocks b)) }

/-- Update the object at address `p` in place. -/
def Heap.modObj (s : Heap) (p : Addr) (f : Obj → Obj) : Heap :=
  { s with objs := Function.update s.objs p (f (s.objs p)) }

/-- Overwrite shared handle `i`. -/
def Heap.setShared (s : Heap) (i : Nat) (h : Handle) : Heap :=
  { s with sps := Function.update s.sps i h }

/-- Overwrite weak handle `w`. -/
def Heap.setWeak (s : Heap) (w : Nat) (h : Handle) : Heap :=
  { s with wps := Function.update s.wps w h }

/-- Storage for a fresh `SharedPtr` whose members are initialised to `(blk, p)`. -/
def Heap.newShared (s : Heap) (blk : Option Nat) (p : Addr) : Heap :=
  { s with sps := Function.update s.sps s.nsps { live := true, block_ := blk, ptr_ := p },
           nsps := s.nsps + 1 }

/-- Storage for a fresh `WeakPtr` whose members are initialised to `(blk, p)`. -/
def Heap.newWeak (s : Heap) (blk : Option Nat) (p : Addr) : Heap :=
  { s with wps := Function.update s.wps s.nwps { live := true, block_ := blk, ptr_ := p },
           nwps := s.nwps + 1 }

/-- Run `new T(...)`: a fresh object at address `nobjs + 1`, constructed once. -/
def Heap.newObj (s : Heap) : Heap :=
  { s with objs := Function.update s.objs (s.nobjs + 1) { ctor_runs := 1 },
           nobjs := s.nobjs + 1 }

/-- Run `new ControlBlockPointer<T>(ptr)` (`sw_fwd.h:74`): `strong_cnt = 1`,
`weak_cnt = 0`, `ptr_ = ptr`.  The new block has index `nblocks`. -/
def Heap.newPointerBlock (s : Heap) (ptr : Addr) : Heap :=
  { s with blocks := Function.update s.blocks s.nblocks
             { strong_cnt := 1, weak_cnt := 0, emplace := false, ptr_ := ptr, obj := ptr },
           nblocks := s.nblocks + 1 }

/-- Run `new ControlBlockEmplace<T>(args...)` (`sw_fwd.h:97-99`): the object is
constructed in place in `storage_`, whose address is the fresh `nobjs + 1`. -/
def Heap.newEmplaceBlock (s : Heap) : Heap :=
  let s1 := s.newObj
  { s1 with blocks := Function.update s1.blocks s1.nblocks
              { strong_cnt := 1, weak_cnt := 0, emplace := true, is_delete_ := false,
                obj := s1.nobjs },
            nblocks := s1.nblocks + 1 }

/-- The three destructor-driven procedures that call each other. -/
inductive Task
  | destroy (p : Addr)
  | weakDeleteBlock (w : Nat)
  | deleteBlock (b : Nat)
deriving DecidableEq, Repr

/-- Destructor cascade, `depth` bounding the nesting of calls.

* `destroy p`: `delete p` / `std::destroy_at(p)` on a managed object: `~T()` runs,
  and when `T` has the capability `~EnableSharedFromThis` (`sw_fwd.h:61-65`) runs
  `delete weak_this_` if it is non-null, which is `~WeakPtr` (`weak.h:76-78`).
* `weakDeleteBlock w`: `WeakPtr::DeleteBlock` (`weak.h:123-135`).
* `deleteBlock b`: `delete block_`: the strategy destructor (`sw_fwd.h:76-80`,
  `sw_fwd.h:101-105`) followed by the release of the block. -/
def exec (esft : Bool) : Nat → Task → Heap → Heap
  | 0, _, s => { s with fault := some Fault.stackOverflow }
  | n + 1, Task.destroy p, s =>
      let s1 := s.modObj p (fun o => { o with dtor_runs := o.dtor_runs + 1 })
      if esft then
        match (s1.objs p).weak_this_ with
        | some w =>
            let s2 := exec esft n (Task.weakDeleteBlock w) s1
            s2.setWeak w { s2.wps w with live := false }
        | none => s1
      else s1
  | n + 1, Task.weakDeleteBlock w, s =>
      match (s.wps w).block_ with
      | some b =>
          let s1 := s.modBlock b (fun c => { c with weak_cnt := decr c.weak_cnt })
          let s2 :=
            if (s1.blocks b).strong_cnt = 0 ∧ (s1.blocks b).weak_cnt = 0 then
              exec esft n (Task.deleteBlock b) s1
            else s1
          s2.setWeak w { s2.wps w with block_ := none, ptr_ := 0 }
      | none => s.setWeak w { s.wps w with ptr_ := 0 }
  | n + 1, Task.deleteBlock b, s =>
      let c := s.blocks b
      let s1 :=
        if c.emplace then
          if c.is_delete_ then s else exec esft n (Task.destroy c.obj) s
        else
          if c.ptr_ ≠ 0 then exec esft n (Task.destroy c.ptr_) s else s
      s1.modBlock b (fun c => { c with frees := c.frees + 1 })

/-- The virtual `ClearPtr()` on block `b`: `ControlBlockPointer::ClearPtr`
(`sw_fwd.h:82-88`) or `ControlBlockEmplace::ClearPtr` (`sw_fwd.h:111-116`). -/
def ClearPtr (esft : Bool) (depth : Nat) (b : Nat) (s : Heap) : Heap :=
  let c := s.blocks b
  let s0 := s.modBlock b (fun c => { c with clear_calls := c.clear_calls + 1 })
  if c.emplace then
    if c.is_delete_ then s0
    else exec esft depth (Task.destroy c.obj)
           (s0.modBlock b (fun c => { c with is_delete_ := true }))
  else
    if c.ptr_ ≠ 0 then
      exec esft depth (Task.destroy c.ptr_) (s0.modBlock b (fun c => { c with ptr_ := 0 }))
    else s0

/-- Embedding of `WeakPtr::DeleteBlock` (`weak.h:123-135`) on weak handle `w`. -/
def WeakPtr.DeleteBlock (esft : Bool) (depth : Nat) (w : Nat) (s : Heap) : Heap :=
  exec esft (depth + 1) (Task.weakDeleteBlock w) s

/-- Embedding of `SharedPtr::DeleteBlock` (`shared.h:208-224`) on shared handle `i`. -/
def SharedPtr.DeleteBlock (esft : Bool) (depth : Nat) (i : Nat) (s : Heap) : Heap :=
  match (s.sps i).block_ with
  | some b =>
      let s1 := s.modBlock b (fun c => { c with strong_cnt := decr c.strong_cnt })
      let s2 :=
        if (s1.blocks b).strong_cnt = 0 then
          let prev_count := (s1.blocks b).weak_cnt
          let s3 := ClearPtr esft depth b s1
          if prev_count = 0 then exec esft depth (Task.deleteBlock b) s3 else s3
        else s1
      s2.setShared i { s2.sps i with block_ := none, ptr_ := 0 }
  | none => s.setShared i { s.sps i with ptr_ := 0 }

/-- Embedding of `WeakPtr(const SharedPtr<T>&)` / `WeakPtr(SharedPtr<Y>*)` (`weak.h:29-40`); the new
weak handle has index `nwps`. -/
def WeakPtr.fromShared (i : Nat) (s : Heap) : Heap :=
  let s1 := s.newWeak (s.sps i).block_ (s.sps i).ptr_
  match (s.sps i).block_ with
  | some b => s1.modBlock b (fun c => { c with weak_cnt := incr c.weak_cnt })
  | none => s1

/-- Embedding of `SharedPtr::InitWeakThis(e)` (`shared.h:226-230`) called on shared handle `i`:
a heap-allocated `WeakPtr` built from `this` is stored into `e->weak_this_`.  The
store faults when `e` is null or is not the address of a live object. -/
def SharedPtr.InitWeakThis (i : Nat) (e : Addr) (s : Heap) : Heap :=
  let temp := s.nwps
  let s0 := WeakPtr.fromShared i s
  let s1 := s0.setWeak temp { s0.wps temp with heap := true }
  if e = 0 then { s1 with fault := some Fault.nullDeref }
  else if e ≤ s1.nobjs ∧ (s1.objs e).dtor_runs = 0 then
    s1.modObj e (fun o => { o with weak_this_ := some temp })
  else { s1 with fault := some Fault.wildWrite }

/-- The tail `if constexpr (std::is_convertible_v<T*, ESFTBase*>) InitWeakThis(ptr_);`
shared by the constructors of `shared.h:15-84`, run on the handle `i` just built. -/
def SharedPtr.wire (esft : Bool) (i : Nat) (s : Heap) : Heap :=
  if esft then SharedPtr.InitWeakThis i (s.sps i).ptr_ s else s

/-- Embedding of `SharedPtr()` (`shared.h:15-19`). -/
def SharedPtr.default (esft : Bool) (s : Heap) : Heap :=
  SharedPtr.wire esft s.nsps (s.newShared none 0)

/-- Embedding of `SharedPtr(std::nullptr_t)` (`shared.h:20`). -/
def SharedPtr.null (s : Heap) : Heap :=
  s.newShared none 0

/-- Embedding of `explicit SharedPtr(T* ptr)` (`shared.h:21-31`). -/
def SharedPtr.fromRaw (esft : Bool) (ptr : Addr) (s : Heap) : Heap :=
  let b := s.nblocks
  SharedPtr.wire esft s.nsps ((s.newPointerBlock ptr).newShared (some b) ptr)

/-- Embedding of `SharedPtr(ControlBlockBase* block, T* ptr)` (`shared.h:32-36`). -/
def SharedPtr.fromBlock (esft : Bool) (b : Nat) (ptr : Addr) (s : Heap) : Heap :=
  SharedPtr.wire esft s.nsps (s.newShared (some b) ptr)

/-- Embedding of `MakeShared<T>(args...)` (`shared.h:234-238`). -/
def MakeShared (esft : Bool) (s : Heap) : Heap :=
  let s1 := s.newEmplaceBlock
  SharedPtr.fromBlock esft s.nblocks s1.nobjs s1

/-- Aliasing constructor `SharedPtr(const SharedPtr<Y>& other, T* ptr)`
(`shared.h:75-84`) with `other` the handle `j`. -/
def SharedPtr.alias (esft : Bool) (j : Nat) (ptr : Addr) (s : Heap) : Heap :=
  let s1 := s.newShared (s.sps j).block_ ptr
  let s2 := match (s.sps j).block_ with
    | some b => s1.modBlock b (fun c => { c with strong_cnt := incr c.strong_cnt })
    | none => s1
  SharedPtr.wire esft s.nsps s2

/-- Copy constructors `SharedPtr(const SharedPtr&)` and
`SharedPtr(const SharedPtr<Another>&)` (`shared.h:38-56`) from handle `j`. -/
def SharedPtr.copy (esft : Bool) (j : Nat) (s : Heap) : Heap :=
  let s1 := s.newShared (s.sps j).block_ (s.sps j).ptr_
  let s2 := match (s.sps j).block_ with
    | some b => s1.modBlock b (fun c => { c with strong_cnt := incr c.strong_cnt })
    | none => s1
  SharedPtr.wire esft s.nsps s2

/-- Move constructors `SharedPtr(SharedPtr<T>&&)` and `SharedPtr(SharedPtr<Another>&&)`
(`shared.h:57-71`) from handle `j`: the source members are nulled. -/
def SharedPtr.move (esft : Bool) (j : Nat) (s : Heap) : Heap :=
  let s1 := s.newShared (s.sps j).block_ (s.sps j).ptr_
  let s2 := s1.setShared j { s1.sps j with block_ := none, ptr_ := 0 }
  SharedPtr.wire esft s.nsps s2

/-- Promotion `explicit SharedPtr(const WeakPtr<T>&)` / `SharedPtr(WeakPtr<T>*)`
(`shared.h:88-106`) from weak handle `w`.  A `throw` leaves no constructed handle. -/
def SharedPtr.fromWeak (w : Nat) (s : Heap) : Except Exn Heap :=
  match (s.wps w).block_ with
  | some b =>
      if (s.blocks b).strong_cnt = 0 then Except.error Exn.BadWeakPtr
      else
        Except.ok ((s.newShared (some b) (s.wps w).ptr_).modBlock b
          (fun c => { c with strong_cnt := incr c.strong_cnt }))
  | none => Except.ok (s.newShared none (s.wps w).ptr_)

/-- Copy assignment `SharedPtr::operator=(const SharedPtr&)` (`shared.h:111-125`),
`this` the handle `i`, `other` the handle `j`. -/
def SharedPtr.assign (esft : Bool) (depth : Nat) (i j : Nat) (s : Heap) : Heap :=
  if j = i then s
  else
    let s1 := SharedPtr.DeleteBlock esft depth i s
    let s2 := s1.setShared i { s1.sps i with ptr_ := (s1.sps j).ptr_ }
    match (s2.sps j).block_ with
    | some b =>
        (s2.setShared i { s2.sps i with block_ := some b }).modBlock b
          (fun c => { c with strong_cnt := incr c.strong_cnt })
    | none => s2

/-- Embedding of `SharedPtr::Swap` (`shared.h:165-168`) and the two `std::swap` calls of the move
assignments. -/
def SharedPtr.Swap (i j : Nat) (s : Heap) : Heap :=
  let hi := s.sps i
  let hj := s.sps j
  (s.setShared i { hi with block_ := hj.block_, ptr_ := hj.ptr_ }).setShared j
    { hj with block_ := hi.block_, ptr_ := hi.ptr_ }

/-- Move assignment `SharedPtr::operator=(SharedPtr&&)` (`shared.h:126-137`). -/
def SharedPtr.moveAssign (esft : Bool) (depth : Nat) (i j : Nat) (s : Heap) : Heap :=
  if j = i then s
  else SharedPtr.Swap i j (SharedPtr.DeleteBlock esft depth i s)

/-- Embedding of `SharedPtr::~SharedPtr` (`shared.h:142-144`); the storage of the handle ends. -/
def SharedPtr.destroy (esft : Bool) (depth : Nat) (i : Nat) (s : Heap) : Heap :=
  let s1 := SharedPtr.DeleteBlock esft depth i s
  s1.setShared i { s1.sps i with live := false }

/-- Embedding of `SharedPtr::Reset()` (`shared.h:149-151`). -/
def SharedPtr.Reset (esft : Bool) (depth : Nat) (i : Nat) (s : Heap) : Heap :=
  SharedPtr.DeleteBlock esft depth i s

/-- Embedding of `SharedPtr::Reset(T* ptr)` (`shared.h:152-164`). -/
def SharedPtr.ResetPtr (esft : Bool) (depth : Nat) (i : Nat) (ptr : Addr) (s : Heap) : Heap :=
  let s1 := SharedPtr.DeleteBlock esft depth i s
  let s2 := s1.setShared i { s1.sps i with ptr_ := ptr }
  let b := s2.nblocks
  (s2.newPointerBlock ptr).setShared i { s2.sps i with block_ := some b }

/-- Embedding of `SharedPtr::GetBlock` (`shared.h:172-174`). -/
def SharedPtr.GetBlock (i : Nat) (s : Heap) : Option Nat := (s.sps i).block_

/-- Embedding of `SharedPtr::Get` (`shared.h:180-182`). -/
def SharedPtr.Get (i : Nat) (s : Heap) : Addr := (s.sps i).ptr_

/-- Embedding of `SharedPtr::UseCount` (`shared.h:189-195`). -/
def SharedPtr.UseCount (i : Nat) (s : Heap) : Nat :=
  match (s.sps i).block_ with
  | some b => (s.blocks b).strong_cnt
  | none => 0

/-- Embedding of `SharedPtr::operator bool` (`shared.h:196-202`). -/
def SharedPtr.toBool (i : Nat) (s : Heap) : Bool :=
  match (s.sps i).block_ with
  | some _ => true
  | none => false

/-- Embedding of `operator==` on shared handles (`shared.h:240-243`). -/
def SharedPtr.eq (i j : Nat) (s : Heap) : Bool :=
  decide ((s.sps i).block_ = (s.sps j).block_)

/-- Embedding of `WeakPtr()` (`weak.h:13-15`). -/
def WeakPtr.default (s : Heap) : Heap :=
  s.newWeak none 0

/-- Embedding of `WeakPtr(const WeakPtr&)` (`weak.h:17-21`) from weak handle `v`. -/
def WeakPtr.copy (v : Nat) (s : Heap) : Heap :=
  let s1 := s.newWeak (s.wps v).block_ (s.wps v).ptr_
  match (s.wps v).block_ with
  | some b => s1.modBlock b (fun c => { c with weak_cnt := incr c.weak_cnt })
  | none => s1

/-- Embedding of `WeakPtr(WeakPtr&&)` (`weak.h:22-25`) from weak handle `v`. -/
def WeakPtr.move (v : Nat) (s : Heap) : Heap :=
  let s1 := s.newWeak (s.wps v).block_ (s.wps v).ptr_
  s1.setWeak v { s1.wps v with ptr_ := 0, block_ := none }

/-- Embedding of `WeakPtr::operator=(const WeakPtr&)` (`weak.h:45-59`). -/
def WeakPtr.assign (esft : Bool) (depth : Nat) (w v : Nat) (s : Heap) : Heap :=
  if v = w then s
  else
    let s1 := WeakPtr.DeleteBlock esft depth w s
    let s2 := s1.setWeak w { s1.wps w with ptr_ := (s1.wps v).ptr_ }
    match (s2.wps v).block_ with
    | some b =>
        (s2.setWeak w { s2.wps w with block_ := some b }).modBlock b
          (fun c => { c with weak_cnt := incr c.weak_cnt })
    | none => s2

/-- Embedding of `WeakPtr::Swap` (`weak.h:86-89`). -/
def WeakPtr.Swap (w v : Nat) (s : Heap) : Heap :=
  let hw := s.wps w
  let hv := s.wps v
  (s.setWeak w { hw with block_ := hv.block_, ptr_ := hv.ptr_ }).setWeak v
    { hv with block_ := hw.block_, ptr_ := hw.ptr_ }

/-- Embedding of `WeakPtr::operator=(WeakPtr&&)` (`weak.h:60-71`). -/
def WeakPtr.moveAssign (esft : Bool) (depth : Nat) (w v : Nat) (s : Heap) : Heap :=
  if v = w then s
  else WeakPtr.Swap w v (WeakPtr.DeleteBlock esft depth w s)

/-- Embedding of `WeakPtr::~WeakPtr` (`weak.h:76-78`); the storage of the handle ends. -/
def WeakPtr.destroy (esft : Bool) (depth : Nat) (w : Nat) (s : Heap) : Heap :=
  let s1 := WeakPtr.DeleteBlock esft depth w s
  s1.setWeak w { s1.wps w with live := false }

/-- Embedding of `WeakPtr::Reset` (`weak.h:83-85`). -/
def WeakPtr.Reset (esft : Bool) (depth : Nat) (w : Nat) (s : Heap) : Heap :=
  WeakPtr.DeleteBlock esft depth w s

/-- Embedding of `WeakPtr::UseCount` (`weak.h:94-100`). -/
def WeakPtr.UseCount (w : Nat) (s : Heap) : Nat :=
  match (s.wps w).block_ with
  | some b => (s.blocks b).strong_cnt
  | none => 0

/-- Embedding of `WeakPtr::Expired` (`weak.h:101-107`). -/
def WeakPtr.Expired (w : Nat) (s : Heap) : Bool :=
  match (s.wps w).block_ with
  | some b => decide ((s.blocks b).strong_cnt = 0)
  | none => true

/-- Embedding of `WeakPtr::Lock` (`weak.h:108-110`): `Expired() ? SharedPtr<T>() : SharedPtr<T>(*this)`. -/
def WeakPtr.Lock (esft : Bool) (w : Nat) (s : Heap) : Except Exn Heap :=
  if WeakPtr.Expired w s then Except.ok (SharedPtr.default esft s)
  else SharedPtr.fromWeak w s

/-- Embedding of `EnableSharedFromThis<T>::SharedFromThis()` (`sw_fwd.h:31-37`) on the object at
address `p`; `T` has the capability. -/
def SharedFromThis (p : Addr) (s : Heap) : Except Exn Heap :=
  match (s.objs p).weak_this_ with
  | none => Except.ok (SharedPtr.default true s)
  | some w => SharedPtr.fromWeak w s

/-- Embedding of `EnableSharedFromThis<T>::WeakFromThis()` (`sw_fwd.h:46-52`) on the object at
address `p`. -/
def WeakFromThis (p : Addr) (s : Heap) : Heap :=
  match (s.objs p).weak_this_ with
  | none => WeakPtr.default s
  | some w => WeakPtr.copy w s

/-- One operation of a client program.  Shared handles are named by their index in
`Heap.sps`, weak handles by their index in `Heap.wps`, objects by their address. -/
inductive Op
  | sDefault
  | sNull
  | sWrapNew
  | sWrapNull
  | sMake
  | sCopy (j : Nat)
  | sMove (j : Nat)
  | sAlias (j : Nat) (p : Addr)
  | sPromote (w : Nat)
  | sAssign (i j : Nat)
  | sMoveAssign (i j : Nat)
  | sReset (i : Nat)
  | sResetNew (i : Nat)
  | sResetNull (i : Nat)
  | sSwap (i j : Nat)
  | sDestroy (i : Nat)
  | wDefault
  | wFromShared (i : Nat)
  | wCopy (v : Nat)
  | wMove (v : Nat)
  | wAssign (w v : Nat)
  | wMoveAssign (w v : Nat)
  | wReset (w : Nat)
  | wSwap (w v : Nat)
  | wDestroy (w : Nat)
  | wLock (w : Nat)
  | oSharedFromThis (p : Addr)
  | oWeakFromThis (p : Addr)
deriving DecidableEq, Repr

/-- Shared handle `i` is a live variable of the client program. -/
def Heap.liveS (s : Heap) (i : Nat) : Bool :=
  decide (i < s.nsps) && (s.sps i).live

/-- Weak handle `w` is a live variable of the client program. -/
def Heap.liveW (s : Heap) (w : Nat) : Bool :=
  decide (w < s.nwps) && (s.wps w).live && !(s.wps w).heap

/-- Address `p` holds an object whose destructor has not run. -/
def Heap.liveObj (s : Heap) (p : Addr) : Bool :=
  decide (0 < p) && decide (p ≤ s.nobjs) && decide ((s.objs p).dtor_runs = 0)

/-- The state reached when a constructor call returns or throws: a thrown exception
leaves no new handle behind. -/
def settle (s : Heap) : Except Exn Heap → Heap
  | Except.ok s1 => s1
  | Except.error _ => s

/-- One step of a client program.  An operation naming a handle that is not a live
variable is not a program step and leaves the heap alone; after undefined behaviour
nothing runs any more. -/
def step (esft : Bool) (depth : Nat) (s : Heap) (op : Op) : Heap :=
  if s.fault.isSome then s
  else
    match op with
    | Op.sDefault => SharedPtr.default esft s
    | Op.sNull => SharedPtr.null s
    | Op.sWrapNew => SharedPtr.fromRaw esft (s.nobjs + 1) s.newObj
    | Op.sWrapNull => SharedPtr.fromRaw esft 0 s
    | Op.sMake => MakeShared esft s
    | Op.sCopy j => if s.liveS j then SharedPtr.copy esft j s else s
    | Op.sMove j => if s.liveS j then SharedPtr.move esft j s else s
    | Op.sAlias j p => if s.liveS j then SharedPtr.alias esft j p s else s
    | Op.sPromote w => if s.liveW w then settle s (SharedPtr.fromWeak w s) else s
    | Op.sAssign i j =>
        if s.liveS i && s.liveS j then SharedPtr.assign esft depth i j s else s
    | Op.sMoveAssign i j =>
        if s.liveS i && s.liveS j then SharedPtr.moveAssign esft depth i j s else s
    | Op.sReset i => if s.liveS i then SharedPtr.Reset esft depth i s else s
    | Op.sResetNew i =>
        if s.liveS i then SharedPtr.ResetPtr esft depth i (s.nobjs + 1) s.newObj else s
    | Op.sResetNull i => if s.liveS i then SharedPtr.ResetPtr esft depth i 0 s else s
    | Op.sSwap i j => if s.liveS i && s.liveS j then SharedPtr.Swap i j s else s
    | Op.sDestroy i => if s.liveS i then SharedPtr.destroy esft depth i s else s
    | Op.wDefault => WeakPtr.default s
    | Op.wFromShared i => if s.liveS i then WeakPtr.fromShared i s else s
    | Op.wCopy v => if s.liveW v then WeakPtr.copy v s else s
    | Op.wMove v => if s.liveW v then WeakPtr.move v s else s
    | Op.wAssign w v =>
        if s.liveW w && s.liveW v then WeakPtr.assign esft depth w v s else s
    | Op.wMoveAssign w v =>
        if s.liveW w && s.liveW v then WeakPtr.moveAssign esft depth w v s else s
    | Op.wReset w => if s.liveW w then WeakPtr.Reset esft depth w s else s
    | Op.wSwap w v => if s.liveW w && s.liveW v then WeakPtr.Swap w v s else s
    | Op.wDestroy w => if s.liveW w then WeakPtr.destroy esft depth w s else s
    | Op.wLock w => if s.liveW w then settle s (WeakPtr.Lock esft w s) else s
    | Op.oSharedFromThis p =>
        if esft && s.liveObj p then settle s (SharedFromThis p s) else s
    | Op.oWeakFromThis p => if esft && s.liveObj p then WeakFromThis p s else s

/-- Run a client program from heap `s`. -/
def run (esft : Bool) (depth : Nat) (ops : List Op) (s : Heap) : Heap :=
  ops.foldl (step esft depth) s

/-- Contribution of one handle to the number of live handles over block `b`. -/
def ind (h : Handle) (b : Nat) : Nat :=
  if h.live = true ∧ h.block_ = some b then 1 else 0

/-- Number of live handles among the first `n` of `f` whose `block_` is `b`. -/
def cnt (f : Nat → Handle) : Nat → Nat → Nat
  | 0, _ => 0
  | n + 1, b => cnt f n b + ind (f n) b

/-- Number of live `SharedPtr` objects whose `block_` is `b`. -/
def Heap.liveShared (s : Heap) (b : Nat) : Nat := cnt s.sps s.nsps b

/-- Number of live `WeakPtr` objects whose `block_` is `b`. -/
def Heap.liveWeak (s : Heap) (b : Nat) : Nat := cnt s.wps s.nwps b

/-- Block `c` has been torn down: a later strategy destructor destroys nothing. -/
def ControlBlock.cleared (c : ControlBlock) : Prop :=
  if c.emplace = true then c.is_delete_ = true else c.ptr_ = 0

instance ControlBlock.decidableCleared (c : ControlBlock) : Decidable c.cleared := by
  unfold ControlBlock.cleared
  exact inferInstance

/-- Handles and counters agree: every handle with a block is live and names an
allocated block, and each counter equals the number of live handles over its block.
The number of handles ever created fits a `size_t`. -/
structure InvC (s : Heap) : Prop where
  sps_ok : ∀ i b, i < s.nsps → (s.sps i).block_ = some b →
    (s.sps i).live = true ∧ b < s.nblocks
  wps_ok : ∀ w b, w < s.nwps → (s.wps w).block_ = some b →
    (s.wps w).live = true ∧ b < s.nblocks
  strong : ∀ b, b < s.nblocks → (s.blocks b).strong_cnt = s.liveShared b
  weak : ∀ b, b < s.nblocks → (s.blocks b).weak_cnt = s.liveWeak b
  cap_s : s.nsps < SIZE_T_MOD
  cap_w : s.nwps < SIZE_T_MOD

/-- Teardown state of every block: torn down exactly when `strong_cnt` is zero, by
exactly one `ClearPtr` call that ran the destructor of its object exactly once. -/
structure InvT (s : Heap) : Prop where
  clears : ∀ b, b < s.nblocks →
    (s.blocks b).clear_calls = if (s.blocks b).strong_cnt = 0 then 1 else 0
  flag : ∀ b, b < s.nblocks → (s.blocks b).emplace = true →
    ((s.blocks b).is_delete_ = true ↔ (s.blocks b).strong_cnt = 0) ∧ (s.blocks b).obj ≠ 0
  ptr : ∀ b, b < s.nblocks → (s.blocks b).emplace = false →
    (s.blocks b).ptr_ = if (s.blocks b).strong_cnt = 0 then 0 else (s.blocks b).obj
  obj_le : ∀ b, b < s.nblocks → (s.blocks b).obj ≤ s.nobjs
  obj_inj : ∀ b c, b < s.nblocks → c < s.nblocks → (s.blocks b).obj ≠ 0 →
    (s.blocks b).obj = (s.blocks c).obj → b = c
  dtor : ∀ b, b < s.nblocks → (s.blocks b).obj ≠ 0 →
    (s.objs (s.blocks b).obj).dtor_runs = if (s.blocks b).strong_cnt = 0 then 1 else 0
  ctor : ∀ b, b < s.nblocks → (s.blocks b).obj ≠ 0 →
    (s.objs (s.blocks b).obj).ctor_runs = 1
  pristine : ∀ p, p ≤ s.nobjs → (∀ c, c < s.nblocks → (s.blocks c).obj ≠ p) →
    (s.objs p).dtor_runs = 0

/-- Capability slots name allocated weak handles; the call depth never ran out; without
the capability no undefined behaviour occurred. -/
structure InvM (esft : Bool) (s : Heap) : Prop where
  slot_ok : ∀ p w, (s.objs p).weak_this_ = some w → w < s.nwps
  no_overflow : s.fault ≠ some Fault.stackOverflow
  no_fault : esft = false → s.fault = none

/-- A block is freed exactly when both counters are zero.  `pend` names a block whose
`delete block_` is still due in the operation under way (`none` between operations). -/
def InvF (pend : Option Nat) (s : Heap) : Prop :=
  ∀ b, b < s.nblocks →
    (s.blocks b).frees + (if pend = some b then 1 else 0) =
      if (s.blocks b).strong_cnt = 0 ∧ (s.blocks b).weak_cnt = 0 then 1 else 0

/-- Well-formedness of a heap. -/
structure Inv (esft : Bool) (pend : Option Nat) (s : Heap) : Prop where
  C : InvC s
  T : InvT s
  F : InvF pend s
  M : InvM esft s

/-- Two states of a block that agree on everything the teardown invariant reads. -/
def ControlBlock.sameCore (c d : ControlBlock) : Prop :=
  (c.strong_cnt = 0 ↔ d.strong_cnt = 0) ∧ c.emplace = d.emplace ∧ c.ptr_ = d.ptr_ ∧
  c.is_delete_ = d.is_delete_ ∧ c.obj = d.obj ∧ c.clear_calls = d.clear_calls

/-! ## Auxiliary definitions used by the proofs -/

/-- The heap after `WeakPtr::DeleteBlock` on handle `w` over block `b`. -/
def weakReleased (w b : Nat) (s : Heap) : Heap :=
  (s.modBlock b (fun c =>
      { c with weak_cnt := decr c.weak_cnt,
               frees := if c.strong_cnt = 0 ∧ decr c.weak_cnt = 0 then c.frees + 1
                        else c.frees })).setWeak w
    { s.wps w with block_ := none, ptr_ := 0 }

/-- A block record appended to the heap. -/
def Heap.addBlock (s : Heap) (c0 : ControlBlock) : Heap :=
  { s with blocks := Function.update s.blocks s.nblocks c0, nblocks := s.nblocks + 1 }

/-- What a freshly constructed block record satisfies. -/
structure FreshBlock (s : Heap) (c0 : ControlBlock) : Prop where
  strong : c0.strong_cnt = 1
  weak : c0.weak_cnt = 0
  frees : c0.frees = 0
  clears : c0.clear_calls = 0
  flag : c0.emplace = true → c0.is_delete_ = false ∧ c0.obj ≠ 0
  ptr : c0.emplace = false → c0.ptr_ = c0.obj
  obj_le : c0.obj ≤ s.nobjs
  obj_new : c0.obj ≠ 0 → ∀ c, c < s.nblocks → (s.blocks c).obj ≠ c0.obj
  dtor : c0.obj ≠ 0 → (s.objs c0.obj).dtor_runs = 0
  ctor : c0.obj ≠ 0 → (s.objs c0.obj).ctor_runs = 1

/-- Heap `t` has at least as many handle slots as heap `s`. -/
def Heap.le (s t : Heap) : Prop := s.nsps ≤ t.nsps ∧ s.nwps ≤ t.nwps

/-- Heap `t` extends heap `s`: blocks and objects of `s` are still there, each block
manages the same object, and no free or destructor run has been forgotten. -/
def Heap.grows (s t : Heap) : Prop :=
  s.nblocks ≤ t.nblocks ∧ s.nobjs ≤ t.nobjs ∧
  (∀ c, c < s.nblocks →
    (t.blocks c).obj = (s.blocks c).obj ∧ (s.blocks c).frees ≤ (t.blocks c).frees) ∧
  (∀ p, p ≤ s.nobjs → (s.objs p).dtor_runs ≤ (t.objs p).dtor_runs)

/-- Heap `t` has the blocks and objects of `s`, with counters at least as large. -/
def Heap.keeps (s t : Heap) : Prop :=
  t.nblocks = s.nblocks ∧ t.nobjs = s.nobjs ∧
  (∀ c, (t.blocks c).obj = (s.blocks c).obj ∧ (s.blocks c).frees ≤ (t.blocks c).frees) ∧
  (∀ p, (s.objs p).dtor_runs ≤ (t.objs p).dtor_runs)

/-- A program over one block exercising every shared-handle operation named in C1:
wrap, copy, move, copy-assign, move-assign, swap, reset, destroy. -/
def demoShared : List Op :=
  [Op.sWrapNew, Op.sCopy 0, Op.sMove 1, Op.sNull, Op.sAssign 3 0, Op.sMoveAssign 1 3,
   Op.sSwap 0 2, Op.sReset 2, Op.sDestroy 3]

/-- A program over one block exercising every weak-handle operation named in C8:
construction from a shared handle, copy and move construction, copy and move
assignment, swap, reset, destroy and `Lock`. -/
def demoWeak : List Op :=
  [Op.sWrapNew, Op.wFromShared 0, Op.wCopy 0, Op.wMove 1, Op.wDefault, Op.wAssign 3 0,
   Op.wMoveAssign 1 3, Op.wSwap 0 2, Op.wReset 2, Op.wDestroy 3, Op.wLock 0]

/-- A program over a capability-bearing object: the last strong release tears the
object down, whose destructor releases the weak back-reference from inside
`ClearPtr`, which frees the block. -/
def demoCascade : List Op := [Op.sWrapNew, Op.sDestroy 0]

/-- A program in which the object outlives its first owner, is torn down by the last
strong release while a weak handle remains, and whose block is freed afterwards by the
last weak release. -/
def demoTeardown : List Op :=
  [Op.sMake, Op.sCopy 0, Op.wFromShared 1, Op.sDestroy 0, Op.sDestroy 1]

/-- A program leaving one shared and one weak handle over a live object. -/
def demoLock : List Op := [Op.sWrapNew, Op.wFromShared 0]

/-- Two shared handles, each the only owner of its own object. -/
def demoTwo : List Op := [Op.sWrapNew, Op.sWrapNew]

/-- A program over a capability-bearing object whose only strong owner is released
while a weak handle (index `1`; index `0` is the back-reference) remains. -/
def demoExpired : List Op := [Op.sWrapNew, Op.wFromShared 0, Op.sReset 0]

/-- One object behind a `ControlBlockPointer` (block `0`) and one inside a
`ControlBlockEmplace` (block `1`). -/
def demoBlocks : List Op := [Op.sWrapNew, Op.sMake]

/-- A program that makes an object with `MakeShared`, copies the handle, demotes it to a
weak handle and releases weak and strong units in a mixed order. -/
def demoMake : List Op :=
  [Op.sCopy 0, Op.wFromShared 0, Op.sDestroy 0, Op.wDestroy 0, Op.sReset 1]

/-- The `WeakPtr` operations other than `Lock()`: default construction, construction
from a `SharedPtr`, copy and move construction, copy and move assignment, `Swap`,
`Reset` and destruction. -/
def Op.weakNoLock : Op → Bool
  | Op.wDefault => true
  | Op.wFromShared _ => true
  | Op.wCopy _ => true
  | Op.wMove _ => true
  | Op.wAssign _ _ => true
  | Op.wMoveAssign _ _ => true
  | Op.wReset _ => true
  | Op.wSwap _ _ => true
  | Op.wDestroy _ => true
  | _ => false

/-- A program whose last strong owner is gone while one weak handle remains. -/
def demoWeakLast : List Op := [Op.sWrapNew, Op.wFromShared 0, Op.sDestroy 0]

/-- State of the heap after `SharedPtr<T> a(new T)` and `k` copies of `a`, for a
capability-bearing `T`: every construction has installed a weak handle of its own. -/
structure Wired (k : Nat) (t : Heap) : Prop where
  fault : t.fault = none
  nsps : 0 < t.nsps
  live : (t.sps 0).live = true
  block : (t.sps 0).block_ = some 0
  ptr : (t.sps 0).ptr_ = 1
  nobjs : 1 ≤ t.nobjs
  dtor : (t.objs 1).dtor_runs = 0
  strong : (t.blocks 0).strong_cnt = k + 1
  weak : (t.blocks 0).weak_cnt = k + 1
  nwps : t.nwps = k + 1
  slot : (t.objs 1).weak_this_ = some k
  handles : ∀ w, w < k + 1 →
    t.wps w = { live := true, block_ := some 0, ptr_ := 1, heap := true }

/-- Two owners of one capability-bearing object, both destroyed. -/
def demoLeak : List Op := [Op.sWrapNew, Op.sCopy 0, Op.sDestroy 0, Op.sDestroy 1]

/-! ## Intrusive handles (`intrusive.h`) -/

/-- An object of a class derived from `RefCounted<Derived, SimpleCounter, Deleter>`:
`count_` is the member of its `SimpleCounter` (`intrusive.h:26`).  `ctor_runs` counts
constructor executions and `destroy_runs` counts calls of `Deleter::Destroy` on the
object (`DefaultDelete` deletes it); both are observation counters. -/
structure RefObj where
  ctor_runs : Nat := 0
  count_ : Nat := 0
  destroy_runs : Nat := 0
deriving DecidableEq, Repr

/-- An `IntrusivePtr<T>` object: the member `ptr_` (`intrusive.h:170`).  `live` records
that the C++ object has been constructed and not yet destroyed. -/
structure IHandle where
  live : Bool := false
  ptr_ : Addr := 0
deriving DecidableEq, Repr

/-- The heap of the intrusive handles: all reference-counted objects and all
`IntrusivePtr` objects ever created, and the first undefined behaviour met (if any). -/
structure RHeap where
  objs : Addr → RefObj
  nobjs : Nat
  ptrs : Nat → IHandle
  nptrs : Nat
  fault : Option Fault

/-- The empty heap of intrusive handles. -/
def RHeap.init : RHeap :=
  { objs := fun _ => {}, nobjs := 0, ptrs := fun _ => {}, nptrs := 0, fault := none }

/-- Update the reference-counted object at address `p` in place. -/
def RHeap.modObj (s : RHeap) (p : Addr) (f : RefObj → RefObj) : RHeap :=
  { s with objs := Function.update s.objs p (f (s.objs p)) }

/-- Overwrite intrusive handle `i`. -/
def RHeap.setPtr (s : RHeap) (i : Nat) (h : IHandle) : RHeap :=
  { s with ptrs := Function.update s.ptrs i h }

/-- Storage for a fresh `IntrusivePtr` whose member is initialised to `p`. -/
def RHeap.newPtr (s : RHeap) (p : Addr) : RHeap :=
  { s with ptrs := Function.update s.ptrs s.nptrs { live := true, ptr_ := p },
           nptrs := s.nptrs + 1 }

/-- Run `new T(...)` for a reference-counted `T`: a fresh object at address
`nobjs + 1`, constructed once, with `count_ = 0`. -/
def RHeap.newObj (s : RHeap) : RHeap :=
  { s with objs := Function.update s.objs (s.nobjs + 1) { ctor_runs := 1 },
           nobjs := s.nobjs + 1 }

/-- Address `p` holds a reference-counted object that has not been destroyed. -/
def RHeap.liveObj (s : RHeap) (p : Addr) : Bool :=
  decide (0 < p) && decide (p ≤ s.nobjs) && decide ((s.objs p).destroy_runs = 0)

/-- Embedding of `SimpleCounter::IncRef` (`intrusive.h:9-13`): the new value of `count_`. -/
def SimpleCounter.IncRef (count_ : Nat) : Nat := incr count_

/-- Embedding of `SimpleCounter::DecRef` (`intrusive.h:14-18`): the new value of `count_`. -/
def SimpleCounter.DecRef (count_ : Nat) : Nat := decr count_

/-- Embedding of `DefaultDelete::Destroy` (`intrusive.h:31-33`): `delete object`. -/
def DefaultDelete.Destroy (p : Addr) (s : RHeap) : RHeap :=
  s.modObj p (fun o => { o with destroy_runs := o.destroy_runs + 1 })

/-- Embedding of `RefCounted::RefCount` (`intrusive.h:55-57`) on the object at `p`. -/
def RefCounted.RefCount (p : Addr) (s : RHeap) : Nat := (s.objs p).count_

/-- Embedding of `RefCounted::IncRef` (`intrusive.h:40-42`) called through the pointer `p`.
Calling a member through a pointer that does not address a live object is undefined
behaviour. -/
def RefCounted.IncRef (p : Addr) (s : RHeap) : RHeap :=
  if s.liveObj p then s.modObj p (fun o => { o with count_ := SimpleCounter.IncRef o.count_ })
  else { s with fault := some Fault.wildWrite }

/-- Embedding of `RefCounted::DecRef` (`intrusive.h:46-52`) called through the pointer `p`:
`if (RefCount() <= 1) deleter_.Destroy(this); else counter_.DecRef();`. -/
def RefCounted.DecRef (p : Addr) (s : RHeap) : RHeap :=
  if s.liveObj p then
    if RefCounted.RefCount p s ≤ 1 then DefaultDelete.Destroy p s
    else s.modObj p (fun o => { o with count_ := SimpleCounter.DecRef o.count_ })
  else { s with fault := some Fault.wildWrite }

/-- Embedding of `IntrusivePtr::UseCount` (`intrusive.h:158-164`). -/
def IntrusivePtr.UseCount (i : Nat) (s : RHeap) : Nat :=
  if (s.ptrs i).ptr_ ≠ 0 then RefCounted.RefCount (s.ptrs i).ptr_ s else 0

/-- Embedding of `IntrusivePtr::Get` (`intrusive.h:149-151`). -/
def IntrusivePtr.Get (i : Nat) (s : RHeap) : Addr := (s.ptrs i).ptr_

/-- Embedding of `IntrusivePtr::IncreaseCount` (`intrusive.h:179-183`). -/
def IntrusivePtr.IncreaseCount (i : Nat) (s : RHeap) : RHeap :=
  if (s.ptrs i).ptr_ ≠ 0 then RefCounted.IncRef (s.ptrs i).ptr_ s else s

/-- Embedding of `IntrusivePtr::DeletePtr` (`intrusive.h:172-177`). -/
def IntrusivePtr.DeletePtr (i : Nat) (s : RHeap) : RHeap :=
  if (s.ptrs i).ptr_ ≠ 0 then
    let s1 := RefCounted.DecRef (s.ptrs i).ptr_ s
    s1.setPtr i { s1.ptrs i with ptr_ := 0 }
  else s

/-- Embedding of `IntrusivePtr::DecreaseCount` (`intrusive.h:185-194`). -/
def IntrusivePtr.DecreaseCount (i : Nat) (s : RHeap) : RHeap :=
  if (s.ptrs i).ptr_ ≠ 0 then
    let prev_count := IntrusivePtr.UseCount i s
    let s1 := RefCounted.DecRef (s.ptrs i).ptr_ s
    if prev_count = 1 then s1.setPtr i { s1.ptrs i with ptr_ := 0 } else s1
  else s

/-- Embedding of `IntrusivePtr()` and `IntrusivePtr(std::nullptr_t)` (`intrusive.h:76-81`); the
new handle has index `nptrs`. -/
def IntrusivePtr.default (s : RHeap) : RHeap :=
  IntrusivePtr.IncreaseCount s.nptrs (s.newPtr 0)

/-- Embedding of `IntrusivePtr(T* ptr)` (`intrusive.h:82-84`). -/
def IntrusivePtr.fromRaw (ptr : Addr) (s : RHeap) : RHeap :=
  IntrusivePtr.IncreaseCount s.nptrs (s.newPtr ptr)

/-- Copy constructors `IntrusivePtr(const IntrusivePtr&)` and
`IntrusivePtr(const IntrusivePtr<Y>&)` (`intrusive.h:86-98`) from handle `j`. -/
def IntrusivePtr.copy (j : Nat) (s : RHeap) : RHeap :=
  IntrusivePtr.IncreaseCount s.nptrs (s.newPtr (IntrusivePtr.Get j s))

/-- Move constructors `IntrusivePtr(IntrusivePtr&&)` and `IntrusivePtr(IntrusivePtr<Y>&&)`
(`intrusive.h:91-101`) from handle `j`. -/
def IntrusivePtr.move (j : Nat) (s : RHeap) : RHeap :=
  let s1 := s.newPtr (IntrusivePtr.Get j s)
  s1.setPtr j { s1.ptrs j with ptr_ := 0 }

/-- Copy assignment `IntrusivePtr::operator=(const IntrusivePtr&)`
(`intrusive.h:104-115`), `this` the handle `i`, `other` the handle `j`. -/
def IntrusivePtr.assign (i j : Nat) (s : RHeap) : RHeap :=
  if j = i then s
  else
    let s1 := IntrusivePtr.DeletePtr i s
    let s2 := s1.setPtr i { s1.ptrs i with ptr_ := IntrusivePtr.Get j s1 }
    IntrusivePtr.IncreaseCount i s2

/-- Move assignment `IntrusivePtr::operator=(IntrusivePtr&&)` (`intrusive.h:116-127`). -/
def IntrusivePtr.moveAssign (i j : Nat) (s : RHeap) : RHeap :=
  if j = i then s
  else
    let s1 := IntrusivePtr.DeletePtr i s
    let s2 := s1.setPtr i { s1.ptrs i with ptr_ := IntrusivePtr.Get j s1 }
    s2.setPtr j { s2.ptrs j with ptr_ := 0 }

/-- Embedding of `IntrusivePtr::~IntrusivePtr` (`intrusive.h:130-132`); the storage of the handle
ends. -/
def IntrusivePtr.destroy (i : Nat) (s : RHeap) : RHeap :=
  let s1 := IntrusivePtr.DeletePtr i s
  s1.setPtr i { s1.ptrs i with live := false }

/-- Embedding of `IntrusivePtr::Reset()` (`intrusive.h:135-138`). -/
def IntrusivePtr.Reset (i : Nat) (s : RHeap) : RHeap :=
  let s1 := IntrusivePtr.DecreaseCount i s
  s1.setPtr i { s1.ptrs i with ptr_ := 0 }

/-- Embedding of `IntrusivePtr::Reset(T* ptr)` (`intrusive.h:139-143`). -/
def IntrusivePtr.ResetPtr (i : Nat) (ptr : Addr) (s : RHeap) : RHeap :=
  let s1 := IntrusivePtr.Reset i s
  let s2 := s1.setPtr i { s1.ptrs i with ptr_ := ptr }
  IntrusivePtr.IncreaseCount i s2

/-- Embedding of `IntrusivePtr::Swap` (`intrusive.h:144-146`). -/
def IntrusivePtr.Swap (i j : Nat) (s : RHeap) : RHeap :=
  let hi := s.ptrs i
  let hj := s.ptrs j
  (s.setPtr i { hi with ptr_ := hj.ptr_ }).setPtr j { hj with ptr_ := hi.ptr_ }

/-- Embedding of `MakeIntrusive<T>(args...)` (`intrusive.h:197-200`):
`IntrusivePtr<T>(new T(args...))`. -/
def MakeIntrusive (s : RHeap) : RHeap :=
  IntrusivePtr.fromRaw (s.nobjs + 1) s.newObj

/-- One operation of a client program over intrusive handles.  Handles are named by
their index in `RHeap.ptrs`, objects by their address. -/
inductive IOp
  | iDefault
  | iMake
  | iWrapNew
  | iWrap (p : Addr)
  | iCopy (j : Nat)
  | iMove (j : Nat)
  | iAssign (i j : Nat)
  | iMoveAssign (i j : Nat)
  | iReset (i : Nat)
  | iResetNew (i : Nat)
  | iSwap (i j : Nat)
  | iDestroy (i : Nat)
deriving DecidableEq, Repr

/-- Intrusive handle `i` is a live variable of the client program. -/
def RHeap.liveP (s : RHeap) (i : Nat) : Bool :=
  decide (i < s.nptrs) && (s.ptrs i).live

/-- One step of a client program over intrusive handles.  An operation naming a handle
that is not a live variable, or a raw pointer that addresses no live object, is not a
program step and leaves the heap alone; after undefined behaviour nothing runs any
more. -/
def istep (s : RHeap) (op : IOp) : RHeap :=
  if s.fault.isSome then s
  else
    match op with
    | IOp.iDefault => IntrusivePtr.default s
    | IOp.iMake => MakeIntrusive s
    | IOp.iWrapNew => IntrusivePtr.fromRaw (s.nobjs + 1) s.newObj
    | IOp.iWrap p => if s.liveObj p then IntrusivePtr.fromRaw p s else s
    | IOp.iCopy j => if s.liveP j then IntrusivePtr.copy j s else s
    | IOp.iMove j => if s.liveP j then IntrusivePtr.move j s else s
    | IOp.iAssign i j => if s.liveP i && s.liveP j then IntrusivePtr.assign i j s else s
    | IOp.iMoveAssign i j =>
        if s.liveP i && s.liveP j then IntrusivePtr.moveAssign i j s else s
    | IOp.iReset i => if s.liveP i then IntrusivePtr.Reset i s else s
    | IOp.iResetNew i =>
        if s.liveP i then IntrusivePtr.ResetPtr i (s.nobjs + 1) s.newObj else s
    | IOp.iSwap i j => if s.liveP i && s.liveP j then IntrusivePtr.Swap i j s else s
    | IOp.iDestroy i => if s.liveP i then IntrusivePtr.destroy i s else s

/-- Run a client program over intrusive handles from heap `s`. -/
def irun (ops : List IOp) (s : RHeap) : RHeap :=
  ops.foldl istep s

/-- Contribution of one intrusive handle to the number of live handles pointing at `p`. -/
def iind (h : IHandle) (p : Addr) : Nat :=
  if h.live = true ∧ h.ptr_ = p then 1 else 0

/-- Number of live handles among the first `n` of `f` whose `ptr_` is `p`. -/
def icnt (f : Nat → IHandle) : Nat → Addr → Nat
  | 0, _ => 0
  | n + 1, p => icnt f n p + iind (f n) p

/-- Number of live `IntrusivePtr` objects pointing at `p`. -/
def RHeap.liveHandles (s : RHeap) (p : Addr) : Nat := icnt s.ptrs s.nptrs p

/-- Well-formedness of a heap of intrusive handles: no undefined behaviour has occurred;
every handle with a non-null pointer is a live handle pointing at a live object; the
counter of every live object equals the number of live handles pointing at it; the
number of handles ever created fits a `size_t`. -/
structure IInv (s : RHeap) : Prop where
  fault : s.fault = none
  ptr_ok : ∀ i, (s.ptrs i).ptr_ ≠ 0 →
    i < s.nptrs ∧ (s.ptrs i).live = true ∧ s.liveObj (s.ptrs i).ptr_ = true
  count : ∀ p, s.liveObj p = true → (s.objs p).count_ = s.liveHandles p
  cap : s.nptrs < SIZE_T_MOD

/-- A program over one object exercising every intrusive operation named in C20. -/
def demoIntrusive : List IOp :=
  [IOp.iMake, IOp.iWrap 1, IOp.iCopy 0, IOp.iMove 1, IOp.iDefault, IOp.iAssign 4 0,
   IOp.iMoveAssign 1 4, IOp.iSwap 0 2, IOp.iReset 2, IOp.iDestroy 3]

/-! ## Exclusive handles (`unique.h`, `compressed_pair.h`) -/

/-- A `UniquePtr<T, Deleter>` object: its member `data_pair_` (`unique.h:153`), a
`CompressedPair<T*, Deleter>` whose `GetFirst()` is the owned pointer and whose
`GetSecond()` is the deleter (`compressed_pair.h:49-63`).  Deleters are named by a
number, `0` being the value-initialised one.  `live` records that the C++ object has
been constructed and not yet destroyed. -/
structure UHandle where
  live : Bool := false
  first : Addr := 0
  second : Nat := 0
deriving DecidableEq, Repr

/-- The heap of the exclusive handles: all `UniquePtr` objects ever created and the log
of the deleter invocations `GetSecond()(ptr)`, oldest first, each with the deleter
called and the pointer passed. -/
structure UHeap where
  us : Nat → UHandle
  nus : Nat
  log : List (Nat × Addr)

/-- The empty heap of exclusive handles. -/
def UHeap.init : UHeap := { us := fun _ => {}, nus := 0, log := [] }

/-- Overwrite exclusive handle `u`. -/
def UHeap.setU (s : UHeap) (u : Nat) (h : UHandle) : UHeap :=
  { s with us := Function.update s.us u h }

/-- Storage for a fresh `UniquePtr` whose `data_pair_` is initialised to `(p, d)`. -/
def UHeap.newU (s : UHeap) (p : Addr) (d : Nat) : UHeap :=
  { s with us := Function.update s.us s.nus { live := true, first := p, second := d },
           nus := s.nus + 1 }

/-- The call `data_pair_.GetSecond()(ptr)` made by handle `u`: the deleter of `u` runs on
`ptr`. -/
def UHeap.callDeleter (s : UHeap) (u : Nat) (ptr : Addr) : UHeap :=
  { s with log := s.log ++ [((s.us u).second, ptr)] }

/-- Embedding of `explicit UniquePtr(T* ptr = nullptr)` (`unique.h:29-31`); the new handle has
index `nus` and a value-initialised deleter. -/
def UniquePtr.fromRaw (ptr : Addr) (s : UHeap) : UHeap :=
  let s1 := s.newU 0 0
  s1.setU s.nus { s1.us s.nus with first := ptr }

/-- Embedding of `UniquePtr(T* ptr, Deleter deleter)` (`unique.h:32`). -/
def UniquePtr.fromRawDeleter (ptr : Addr) (deleter : Nat) (s : UHeap) : UHeap :=
  s.newU ptr deleter

/-- Embedding of `UniquePtr(UniquePtr&& other)` (`unique.h:34-37`) from handle `v`. -/
def UniquePtr.move (v : Nat) (s : UHeap) : UHeap :=
  let s1 := s.newU (s.us v).first (s.us v).second
  s1.setU v { s1.us v with first := 0 }

/-- Upcast constructor `UniquePtr(UniquePtr<Another, AnotherDeleter>&& other)`
(`unique.h:39-43`) from handle `v`: only the pointer is taken. -/
def UniquePtr.upcast (v : Nat) (s : UHeap) : UHeap :=
  let s1 := s.newU 0 0
  let s2 := s1.setU s.nus { s1.us s.nus with first := (s1.us v).first }
  s2.setU v { s2.us v with first := 0 }

/-- Embedding of `UniquePtr::Swap` (`unique.h:118-120`): `std::swap` of the two `data_pair_`. -/
def UniquePtr.Swap (u v : Nat) (s : UHeap) : UHeap :=
  let hu := s.us u
  let hv := s.us v
  (s.setU u { hu with first := hv.first, second := hv.second }).setU v
    { hv with first := hu.first, second := hu.second }

/-- Move assignment `UniquePtr::operator=(UniquePtr&&)` (`unique.h:50-64`), `this` the
handle `u`, `other` the handle `v`. -/
def UniquePtr.moveAssign (u v : Nat) (s : UHeap) : UHeap :=
  if v = u then s
  else
    let s1 := if (s.us u).first ≠ 0 then s.callDeleter u (s.us u).first else s
    let s2 := UniquePtr.Swap u v s1
    s2.setU v { s2.us v with first := 0 }

/-- Embedding of `UniquePtr::operator=(std::nullptr_t)` (`unique.h:79-87`). -/
def UniquePtr.assignNull (u : Nat) (s : UHeap) : UHeap :=
  let s1 := if (s.us u).first ≠ 0 then s.callDeleter u (s.us u).first else s
  s1.setU u { s1.us u with first := 0 }

/-- Embedding of `UniquePtr::Release` (`unique.h:99-103`): the returned pointer and the heap left. -/
def UniquePtr.Release (u : Nat) (s : UHeap) : Addr × UHeap :=
  let temp := (s.us u).first
  (temp, s.setU u { s.us u with first := 0 })

/-- Embedding of `UniquePtr::Reset(T* ptr = nullptr)` (`unique.h:104-110`):
`std::swap(data_pair_.GetFirst(), ptr); if (ptr != nullptr) data_pair_.GetSecond()(ptr);`. -/
def UniquePtr.Reset (u : Nat) (ptr : Addr) (s : UHeap) : UHeap :=
  let old := (s.us u).first
  let s1 := s.setU u { s.us u with first := ptr }
  if old ≠ 0 then s1.callDeleter u old else s1

/-- Embedding of `UniquePtr::~UniquePtr` (`unique.h:92-94`): `Reset()`; the storage of the handle
ends. -/
def UniquePtr.destroy (u : Nat) (s : UHeap) : UHeap :=
  let s1 := UniquePtr.Reset u 0 s
  s1.setU u { s1.us u with live := false }

/-- Embedding of `UniquePtr::Get` (`unique.h:125-131`). -/
def UniquePtr.Get (u : Nat) (s : UHeap) : Addr := (s.us u).first

/-- Embedding of `UniquePtr::GetDeleter` (`unique.h:132-137`). -/
def UniquePtr.GetDeleter (u : Nat) (s : UHeap) : Nat := (s.us u).second

/-- Embedding of `UniquePtr::operator bool` (`unique.h:138-140`). -/
def UniquePtr.toBool (u : Nat) (s : UHeap) : Bool := decide ((s.us u).first ≠ 0)

/-- Number of deleter invocations on the pointer `p` recorded in a log. -/
def deleterRuns (log : List (Nat × Addr)) (p : Addr) : Nat :=
  (log.filter (fun e => decide (e.2 = p))).length

/-! ## Auxiliary definitions for the teardown proofs -/

/-- The weak back-reference of the object at `p` sits on no block that has lost every
strong owner while still holding its object. -/
def Guarded (s : Heap) (p : Addr) : Prop :=
  ∀ w c, (s.objs p).weak_this_ = some w → (s.wps w).block_ = some c →
    (s.blocks c).strong_cnt = 0 → (s.blocks c).cleared

/-- The heap `s` with member `strong_cnt` of block `b` overwritten by `g`.  With
`g = decr (s.blocks b).strong_cnt` this is the heap in which `SharedPtr::DeleteBlock`
calls `block_->ClearPtr()` (`shared.h:210-214`). -/
def Heap.withStrong (s : Heap) (b g : Nat) : Heap :=
  s.modBlock b (fun c => { c with strong_cnt := g })

/-! ## Arithmetic of `size_t` counters -/

theorem incr_eq {n : Nat} (h : n + 1 < SIZE_T_MOD) : incr n = n + 1 := by
  unfold incr; exact Nat.mod_eq_of_lt h

theorem decr_eq {n : Nat} (h0 : 0 < n) (h : n < SIZE_T_MOD) : decr n = n - 1 := by
  unfold decr SIZE_T_MOD at *; omega

/-! ## Counting live handles -/

theorem ind_le_one (h : Handle) (b : Nat) : ind h b ≤ 1 := by
  unfold ind; split <;> omega

theorem ind_of_block_none {h : Handle} (hb : h.block_ = none) (b : Nat) : ind h b = 0 := by
  simp [ind, hb]

theorem ind_of_ne {h : Handle} {b c : Nat} (hb : h.block_ = some c) (hne : c ≠ b) :
    ind h b = 0 := by
  simp [ind, hb, hne]

theorem ind_of_live {h : Handle} {b : Nat} (hl : h.live = true) (hb : h.block_ = some b) :
    ind h b = 1 := by
  simp [ind, hb, hl]

theorem cnt_le (f : Nat → Handle) (n b : Nat) : cnt f n b ≤ n := by
  induction n with
  | zero => simp [cnt]
  | succ n ih => have := ind_le_one (f n) b; simp only [cnt]; omega

theorem cnt_update_ge (f : Nat → Handle) (h : Handle) {n i : Nat} (b : Nat) (hi : n ≤ i) :
    cnt (Function.update f i h) n b = cnt f n b := by
  induction n with
  | zero => simp [cnt]
  | succ n ih =>
    have hne : n ≠ i := by omega
    simp only [cnt, Function.update_noteq hne]
    rw [ih (by omega)]

theorem cnt_update_lt (f : Nat → Handle) (h : Handle) {n i : Nat} (b : Nat) (hi : i < n) :
    cnt (Function.update f i h) n b + ind (f i) b = cnt f n b + ind h b := by
  induction n with
  | zero => omega
  | succ n ih =>
    by_cases hin : i = n
    · subst hin
      simp only [cnt, Function.update_same]
      rw [cnt_update_ge f h b (le_refl i)]
      omega
    · have hne : n ≠ i := fun e => hin e.symm
      simp only [cnt, Function.update_noteq hne]
      have := ih (by omega)
      omega

theorem ind_le_cnt (f : Nat → Handle) {n i : Nat} (b : Nat) (hi : i < n) :
    ind (f i) b ≤ cnt f n b := by
  induction n with
  | zero => omega
  | succ n ih =>
    by_cases hin : i = n
    · subst hin; simp only [cnt]; omega
    · have := ih (by omega); simp only [cnt]; omega

theorem cnt_lt_of_ind_zero (f : Nat → Handle) {n i : Nat} (b : Nat) (hi : i < n)
    (h0 : ind (f i) b = 0) : cnt f n b < n := by
  have h1 := cnt_update_lt f { live := true, block_ := some b } b hi
  have h2 := cnt_le (Function.update f i { live := true, block_ := some b }) n b
  have h3 : ind ({ live := true, block_ := some b } : Handle) b = 1 := by simp [ind]
  omega

/-! ## Field projections of the heap updates -/
@[simp] theorem Heap.modBlock_blocks (s : Heap) (b : Nat) (f : ControlBlock → ControlBlock) :
    (s.modBlock b f).blocks = Function.update s.blocks b (f (s.blocks b)) := rfl
@[simp] theorem Heap.modBlock_nblocks (s : Heap) (b : Nat) (f : ControlBlock → ControlBlock) :
    (s.modBlock b f).nblocks = s.nblocks := rfl
@[simp] theorem Heap.modBlock_objs (s : Heap) (b : Nat) (f : ControlBlock → ControlBlock) :
    (s.modBlock b f).objs = s.objs := rfl
@[simp] theorem Heap.modBlock_nobjs (s : Heap) (b : Nat) (f : ControlBlock → ControlBlock) :
    (s.modBlock b f).nobjs = s.nobjs := rfl
@[simp] theorem Heap.modBlock_sps (s : Heap) (b : Nat) (f : ControlBlock → ControlBlock) :
    (s.modBlock b f).sps = s.sps := rfl
@[simp] theorem Heap.modBlock_nsps (s : Heap) (b : Nat) (f : ControlBlock → ControlBlock) :
    (s.modBlock b f).nsps = s.nsps := rfl
@[simp] theorem Heap.modBlock_wps (s : Heap) (b : Nat) (f : ControlBlock → ControlBlock) :
    (s.modBlock b f).wps = s.wps := rfl
@[simp] theorem Heap.modBlock_nwps (s : Heap) (b : Nat) (f : ControlBlock → ControlBlock) :
    (s.modBlock b f).nwps = s.nwps := rfl
@[simp] theorem Heap.modBlock_fault (s : Heap) (b : Nat) (f : ControlBlock → ControlBlock) :
    (s.modBlock b f).fault = s.fault := rfl
@[simp] theorem Heap.modObj_blocks (s : Heap) (p : Addr) (f : Obj → Obj) :
    (s.modObj p f).blocks = s.blocks := rfl
@[simp] theorem Heap.modObj_nblocks (s : Heap) (p : Addr) (f : Obj → Obj) :
    (s.modObj p f).nblocks = s.nblocks := rfl
@[simp] theorem Heap.modObj_objs (s : Heap) (p : Addr) (f : Obj → Obj) :
    (s.modObj p f).objs = Function.update s.objs p (f (s.objs p)) := rfl
@[simp] theorem Heap.modObj_nobjs (s : Heap) (p : Addr) (f : Obj → Obj) :
    (s.modObj p f).nobjs = s.nobjs := rfl
@[simp] theorem Heap.modObj_sps (s : Heap) (p : Addr) (f : Obj → Obj) :
    (s.modObj p f).sps = s.sps := rfl
@[simp] theorem Heap.modObj_nsps (s : Heap) (p : Addr) (f : Obj → Obj) :
    (s.modObj p f).nsps = s.nsps := rfl
@[simp] theorem Heap.modObj_wps (s : Heap) (p : Addr) (f : Obj → Obj) :
    (s.modObj p f).wps = s.wps := rfl
@[simp] theorem Heap.modObj_nwps (s : Heap) (p : Addr) (f : Obj → Obj) :
    (s.modObj p f).nwps = s.nwps := rfl
@[simp] theorem Heap.modObj_fault (s : Heap) (p : Addr) (f : Obj → Obj) :
    (s.modObj p f).fault = s.fault := rfl
@[simp] theorem Heap.setShared_blocks (s : Heap) (i : Nat) (h : Handle) :
    (s.setShared i h).blocks = s.blocks := rfl
@[simp] theorem Heap.setShared_nblocks (s : Heap) (i : Nat) (h : Handle) :
    (s.setShared i h).nblocks = s.nblocks := rfl
@[simp] theorem Heap.setShared_objs (s : Heap) (i : Nat) (h : Handle) :
    (s.setShared i h).objs = s.objs := rfl
@[simp] theorem Heap.setShared_nobjs (s : Heap) (i : Nat) (h : Handle) :
    (s.setShared i h).nobjs = s.nobjs := rfl
@[simp] theorem Heap.setShared_sps (s : Heap) (i : Nat) (h : Handle) :
    (s.setShared i h).sps = Function.update s.sps i h := rfl
@[simp] theorem Heap.setShared_nsps (s : Heap) (i : Nat) (h : Handle) :
    (s.setShared i h).nsps = s.nsps := rfl
@[simp] theorem Heap.setShared_wps (s : Heap) (i : Nat) (h : Handle) :
    (s.setShared i h).wps = s.wps := rfl
@[simp] theorem Heap.setShared_nwps (s : Heap) (i : Nat) (h : Handle) :
    (s.setShared i h).nwps = s.nwps := rfl
@[simp] theorem Heap.setShared_fault (s : Heap) (i : Nat) (h : Handle) :
    (s.setShared i h).fault = s.fault := rfl
@[simp] theorem Heap.setWeak_blocks (s : Heap) (w : Nat) (h : Handle) :
    (s.setWeak w h).blocks = s.blocks := rfl
@[simp] theorem Heap.setWeak_nblocks (s : Heap) (w : Nat) (h : Handle) :
    (s.setWeak w h).nblocks = s.nblocks := rfl
@[simp] theorem Heap.setWeak_objs (s : Heap) (w : Nat) (h : Handle) :
    (s.setWeak w h).objs = s.objs := rfl
@[simp] theorem Heap.setWeak_nobjs (s : Heap) (w : Nat) (h : Handle) :
    (s.setWeak w h).nobjs = s.nobjs := rfl
@[simp] theorem Heap.setWeak_sps (s : Heap) (w : Nat) (h : Handle) :
    (s.setWeak w h).sps = s.sps := rfl
@[simp] theorem Heap.setWeak_nsps (s : Heap) (w : Nat) (h : Handle) :
    (s.setWeak w h).nsps = s.nsps := rfl
@[simp] theorem Heap.setWeak_wps (s : Heap) (w : Nat) (h : Handle) :
    (s.setWeak w h).wps = Function.update s.wps w h := rfl
@[simp] theorem Heap.setWeak_nwps (s : Heap) (w : Nat) (h : Handle) :
    (s.setWeak w h).nwps = s.nwps := rfl
@[simp] theorem Heap.setWeak_fault (s : Heap) (w : Nat) (h : Handle) :
    (s.setWeak w h).fault = s.fault := rfl
@[simp] theorem Heap.newShared_blocks (s : Heap) (blk : Option Nat) (p : Addr) :
    (s.newShared blk p).blocks = s.blocks := rfl
@[simp] theorem Heap.newShared_nblocks (s : Heap) (blk : Option Nat) (p : Addr) :
    (s.newShared blk p).nblocks = s.nblocks := rfl
@[simp] theorem Heap.newShared_objs (s : Heap) (blk : Option Nat) (p : Addr) :
    (s.newShared blk p).objs = s.objs := rfl
@[simp] theorem Heap.newShared_nobjs (s : Heap) (blk : Option Nat) (p : Addr) :
    (s.newShared blk p).nobjs = s.nobjs := rfl
@[simp] theorem Heap.newShared_sps (s : Heap) (blk : Option Nat) (p : Addr) :
    (s.newShared blk p).sps = Function.update s.sps s.nsps { live := true, block_ := blk, ptr_ := p } := rfl
@[simp] theorem Heap.newShared_nsps (s : Heap) (blk : Option Nat) (p : Addr) :
    (s.newShared blk p).nsps = s.nsps + 1 := rfl
@[simp] theorem Heap.newShared_wps (s : Heap) (blk : Option Nat) (p : Addr) :
    (s.newShared blk p).wps = s.wps := rfl
@[simp] theorem Heap.newShared_nwps (s : Heap) (blk : Option Nat) (p : Addr) :
    (s.newShared blk p).nwps = s.nwps := rfl
@[simp] theorem Heap.newShared_fault (s : Heap) (blk : Option Nat) (p : Addr) :
    (s.newShared blk p).fault = s.fault := rfl
@[simp] theorem Heap.newWeak_blocks (s : Heap) (blk : Option Nat) (p : Addr) :
    (s.newWeak blk p).blocks = s.blocks := rfl
@[simp] theorem Heap.newWeak_nblocks (s : Heap) (blk : Option Nat) (p : Addr) :
    (s.newWeak blk p).nblocks = s.nblocks := rfl
@[simp] theorem Heap.newWeak_objs (s : Heap) (blk : Option Nat) (p : Addr) :
    (s.newWeak blk p).objs = s.objs := rfl
@[simp] theorem Heap.newWeak_nobjs (s : Heap) (blk : Option Nat) (p : Addr) :
    (s.newWeak blk p).nobjs = s.nobjs := rfl
@[simp] theorem Heap.newWeak_sps (s : Heap) (blk : Option Nat) (p : Addr) :
    (s.newWeak blk p).sps = s.sps := rfl
@[simp] theorem Heap.newWeak_nsps (s : Heap) (blk : Option Nat) (p : Addr) :
    (s.newWeak blk p).nsps = s.nsps := rfl
@[simp] theorem Heap.newWeak_wps (s : Heap) (blk : Option Nat) (p : Addr) :
    (s.newWeak blk p).wps = Function.update s.wps s.nwps { live := true, block_ := blk, ptr_ := p } := rfl
@[simp] theorem Heap.newWeak_nwps (s : Heap) (blk : Option Nat) (p : Addr) :
    (s.newWeak blk p).nwps = s.nwps + 1 := rfl
@[simp] theorem Heap.newWeak_fault (s : Heap) (blk : Option Nat) (p : Addr) :
    (s.newWeak blk p).fault = s.fault := rfl
@[simp] theorem Heap.newObj_blocks (s : Heap)  :
    s.newObj.blocks = s.blocks := rfl
@[simp] theorem Heap.newObj_nblocks (s : Heap)  :
    s.newObj.nblocks = s.nblocks := rfl
@[simp] theorem Heap.newObj_objs (s : Heap)  :
    s.newObj.objs = Function.update s.objs (s.nobjs + 1) { ctor_runs := 1 } := rfl
@[simp] theorem Heap.newObj_nobjs (s : Heap)  :
    s.newObj.nobjs = s.nobjs + 1 := rfl
@[simp] theorem Heap.newObj_sps (s : Heap)  :
    s.newObj.sps = s.sps := rfl
@[simp] theorem Heap.newObj_nsps (s : Heap)  :
    s.newObj.nsps = s.nsps := rfl
@[simp] theorem Heap.newObj_wps (s : Heap)  :
    s.newObj.wps = s.wps := rfl
@[simp] theorem Heap.newObj_nwps (s : Heap)  :
    s.newObj.nwps = s.nwps := rfl
@[simp] theorem Heap.newObj_fault (s : Heap)  :
    s.newObj.fault = s.fault := rfl
@[simp] theorem Heap.newPointerBlock_blocks (s : Heap) (ptr : Addr) :
    (s.newPointerBlock ptr).blocks = Function.update s.blocks s.nblocks { strong_cnt := 1, weak_cnt := 0, emplace := false, ptr_ := ptr, obj := ptr } := rfl
@[simp] theorem Heap.newPointerBlock_nblocks (s : Heap) (ptr : Addr) :
    (s.newPointerBlock ptr).nblocks = s.nblocks + 1 := rfl
@[simp] theorem Heap.newPointerBlock_objs (s : Heap) (ptr : Addr) :
    (s.newPointerBlock ptr).objs = s.objs := rfl
@[simp] theorem Heap.newPointerBlock_nobjs (s : Heap) (ptr : Addr) :
    (s.newPointerBlock ptr).nobjs = s.nobjs := rfl
@[simp] theorem Heap.newPointerBlock_sps (s : Heap) (ptr : Addr) :
    (s.newPointerBlock ptr).sps = s.sps := rfl
@[simp] theorem Heap.newPointerBlock_nsps (s : Heap) (ptr : Addr) :
    (s.newPointerBlock ptr).nsps = s.nsps := rfl
@[simp] theorem Heap.newPointerBlock_wps (s : Heap) (ptr : Addr) :
    (s.newPointerBlock ptr).wps = s.wps := rfl
@[simp] theorem Heap.newPointerBlock_nwps (s : Heap) (ptr : Addr) :
    (s.newPointerBlock ptr).nwps = s.nwps := rfl
@[simp] theorem Heap.newPointerBlock_fault (s : Heap) (ptr : Addr) :
    (s.newPointerBlock ptr).fault = s.fault := rfl
@[simp] theorem Heap.withFault_blocks (s : Heap) (x : Option Fault) :
    ({ s with fault := x } : Heap).blocks = s.blocks := rfl
@[simp] theorem Heap.withFault_nblocks (s : Heap) (x : Option Fault) :
    ({ s with fault := x } : Heap).nblocks = s.nblocks := rfl
@[simp] theorem Heap.withFault_objs (s : Heap) (x : Option Fault) :
    ({ s with fault := x } : Heap).objs = s.objs := rfl
@[simp] theorem Heap.withFault_nobjs (s : Heap) (x : Option Fault) :
    ({ s with fault := x } : Heap).nobjs = s.nobjs := rfl
@[simp] theorem Heap.withFault_sps (s : Heap) (x : Option Fault) :
    ({ s with fault := x } : Heap).sps = s.sps := rfl
@[simp] theorem Heap.withFault_nsps (s : Heap) (x : Option Fault) :
    ({ s with fault := x } : Heap).nsps = s.nsps := rfl
@[simp] theorem Heap.withFault_wps (s : Heap) (x : Option Fault) :
    ({ s with fault := x } : Heap).wps = s.wps := rfl
@[simp] theorem Heap.withFault_nwps (s : Heap) (x : Option Fault) :
    ({ s with fault := x } : Heap).nwps = s.nwps := rfl
@[simp] theorem Heap.withFault_fault (s : Heap) (x : Option Fault) :
    ({ s with fault := x } : Heap).fault = x := rfl

theorem Heap.setShared_modObj (s : Heap) (i : Nat) (h : Handle) (p : Addr) (f : Obj → Obj) :
    (s.setShared i h).modObj p f = (s.modObj p f).setShared i h := rfl

theorem Heap.setShared_modBlock (s : Heap) (i : Nat) (h : Handle) (b : Nat)
    (f : ControlBlock → ControlBlock) :
    (s.setShared i h).modBlock b f = (s.modBlock b f).setShared i h := rfl

theorem Heap.setShared_setWeak (s : Heap) (i : Nat) (h : Handle) (w : Nat) (k : Handle) :
    (s.setShared i h).setWeak w k = (s.setWeak w k).setShared i h := rfl

theorem Heap.setShared_withFault (s : Heap) (i : Nat) (h : Handle) (x : Option Fault) :
    ({ s.setShared i h with fault := x } : Heap) = ({ s with fault := x } : Heap).setShared i h :=
  rfl

/-! ## The destructor cascade -/

theorem exec_frame (esft : Bool) : ∀ (n : Nat) (t : Task) (s : Heap),
    (exec esft n t s).sps = s.sps ∧ (exec esft n t s).nsps = s.nsps ∧
    (exec esft n t s).nwps = s.nwps ∧ (exec esft n t s).nblocks = s.nblocks ∧
    (exec esft n t s).nobjs = s.nobjs := by
  intro n
  induction n with
  | zero => intro t s; simp [exec]
  | succ n ih =>
    intro t s
    cases t with
    | destroy p =>
      simp only [exec]
      split
      · split <;> simp [ih]
      · simp
    | weakDeleteBlock w =>
      simp only [exec]
      split
      · split <;> simp [ih]
      · simp
    | deleteBlock b =>
      simp only [exec]
      split
      · split <;> simp [ih]
      · split <;> simp [ih]

theorem exec_setShared (esft : Bool) (i : Nat) (h : Handle) : ∀ (n : Nat) (t : Task) (s : Heap),
    exec esft n t (s.setShared i h) = (exec esft n t s).setShared i h := by
  intro n
  induction n with
  | zero => intro t s; rfl
  | succ n ih =>
    intro t s
    cases t with
    | destroy p =>
      simp only [exec, Heap.setShared_modObj, ih, Heap.setShared_objs, Heap.setShared_wps,
        Heap.setShared_setWeak]
      split
      · split <;> rfl
      · rfl
    | weakDeleteBlock w =>
      simp only [exec, Heap.setShared_modBlock, ih, Heap.setShared_blocks, Heap.setShared_wps,
        Heap.setShared_setWeak]
      split
      · split <;> simp only [Heap.setShared_wps, Heap.setShared_setWeak]
      · rfl
    | deleteBlock b =>
      simp only [exec, Heap.setShared_modBlock, ih, Heap.setShared_blocks]
      split
      · split <;> simp only [Heap.setShared_modBlock]
      · split <;> simp only [Heap.setShared_modBlock]

theorem exec_deleteBlock_cleared (esft : Bool) (n b : Nat) (s : Heap)
    (hc : (s.blocks b).cleared) :
    exec esft (n + 1) (Task.deleteBlock b) s =
      s.modBlock b (fun c => { c with frees := c.frees + 1 }) := by
  unfold ControlBlock.cleared at hc
  simp only [exec]
  split
  · rename_i he
    simp only [he, if_true] at hc
    simp [hc]
  · rename_i he
    simp only [he] at hc
    simp at hc
    simp [hc]

theorem exec_destroy_succ (esft : Bool) (n : Nat) (p : Addr) (s : Heap) :
    exec esft (n + 1) (Task.destroy p) s =
      if esft = true then
        match (s.objs p).weak_this_ with
        | some w =>
            ((exec esft n (Task.weakDeleteBlock w)
              (s.modObj p (fun o => { o with dtor_runs := o.dtor_runs + 1 }))).setWeak w
              { (exec esft n (Task.weakDeleteBlock w)
                  (s.modObj p (fun o => { o with dtor_runs := o.dtor_runs + 1 }))).wps w with
                live := false })
        | none => s.modObj p (fun o => { o with dtor_runs := o.dtor_runs + 1 })
      else s.modObj p (fun o => { o with dtor_runs := o.dtor_runs + 1 }) := by
  simp only [exec, Heap.modObj_objs, Function.update_same]

theorem exec_weakDeleteBlock_succ (esft : Bool) (n w : Nat) (s : Heap) :
    exec esft (n + 1) (Task.weakDeleteBlock w) s =
      match (s.wps w).block_ with
      | some b =>
          let s1 := s.modBlock b (fun c => { c with weak_cnt := decr c.weak_cnt })
          let s2 :=
            if (s1.blocks b).strong_cnt = 0 ∧ (s1.blocks b).weak_cnt = 0 then
              exec esft n (Task.deleteBlock b) s1
            else s1
          s2.setWeak w { s2.wps w with block_ := none, ptr_ := 0 }
      | none => s.setWeak w { s.wps w with ptr_ := 0 } := by
  simp only [exec]

/-- Effect of `WeakPtr::DeleteBlock` on a handle with a block, when the block is
already torn down in case this release frees it. -/
theorem exec_weakDeleteBlock_some (esft : Bool) (n w b : Nat) (s : Heap)
    (hb : (s.wps w).block_ = some b)
    (hc : (s.blocks b).strong_cnt = 0 → (s.blocks b).cleared) :
    exec esft (n + 2) (Task.weakDeleteBlock w) s =
      (s.modBlock b (fun c =>
          { c with weak_cnt := decr c.weak_cnt,
                   frees := if c.strong_cnt = 0 ∧ decr c.weak_cnt = 0 then c.frees + 1
                            else c.frees })).setWeak w
        { s.wps w with block_ := none, ptr_ := 0 } := by
  rw [exec_weakDeleteBlock_succ]
  simp only [hb]
  by_cases h0 : (s.blocks b).strong_cnt = 0 ∧ decr (s.blocks b).weak_cnt = 0
  · have hcl : ((s.modBlock b fun c => { c with weak_cnt := decr c.weak_cnt }).blocks b).cleared := by
      have := hc h0.1
      simpa [ControlBlock.cleared] using this
    simp only [Heap.modBlock_blocks, Function.update_same, h0, and_self, if_true]
    rw [exec_deleteBlock_cleared esft n b _ hcl]
    simp [Heap.modBlock, Heap.setWeak, h0]
  · simp only [Heap.modBlock_blocks, Function.update_same, h0, if_false]
    simp [Heap.modBlock, Heap.setWeak, h0]

theorem exec_weakDeleteBlock_none (esft : Bool) (n w : Nat) (s : Heap)
    (hb : (s.wps w).block_ = none) :
    exec esft (n + 1) (Task.weakDeleteBlock w) s = s.setWeak w { s.wps w with ptr_ := 0 } := by
  rw [exec_weakDeleteBlock_succ]
  simp only [hb]

/-! ## Transfer of the invariants along heap updates -/

theorem ControlBlock.sameCore_refl (c : ControlBlock) : c.sameCore c :=
  ⟨Iff.rfl, rfl, rfl, rfl, rfl, rfl⟩

theorem InvT.transferT {s t : Heap} (h : InvT s) (hn : t.nblocks = s.nblocks)
    (ho : s.nobjs ≤ t.nobjs)
    (hb : ∀ c, c < s.nblocks → (t.blocks c).sameCore (s.blocks c))
    (hd : ∀ p, p ≤ s.nobjs → (t.objs p).dtor_runs = (s.objs p).dtor_runs)
    (hk : ∀ p, p ≤ s.nobjs → (t.objs p).ctor_runs = (s.objs p).ctor_runs)
    (hnew : ∀ p, s.nobjs < p → p ≤ t.nobjs → (t.objs p).dtor_runs = 0) : InvT t := by
  constructor
  · intro b hlt
    rw [hn] at hlt
    obtain ⟨h1, h2, h3, h4, h5, h6⟩ := hb b hlt
    have := h.clears b hlt
    simp only [h1, h6]; exact this
  · intro b hlt he
    rw [hn] at hlt
    obtain ⟨h1, h2, h3, h4, h5, h6⟩ := hb b hlt
    have := h.flag b hlt (h2 ▸ he)
    simp only [h1, h4, h5]; exact this
  · intro b hlt he
    rw [hn] at hlt
    obtain ⟨h1, h2, h3, h4, h5, h6⟩ := hb b hlt
    have := h.ptr b hlt (h2 ▸ he)
    simp only [h1, h3, h5]; exact this
  · intro b hlt
    rw [hn] at hlt
    obtain ⟨h1, h2, h3, h4, h5, h6⟩ := hb b hlt
    rw [h5]; exact le_trans (h.obj_le b hlt) ho
  · intro b c hlt hlt2 hne he
    rw [hn] at hlt hlt2
    rw [(hb b hlt).2.2.2.2.1] at hne he
    rw [(hb c hlt2).2.2.2.2.1] at he
    exact h.obj_inj b c hlt hlt2 hne he
  · intro b hlt hne
    rw [hn] at hlt
    obtain ⟨h1, h2, h3, h4, h5, h6⟩ := hb b hlt
    rw [h5] at hne
    have := h.dtor b hlt hne
    simp only [h1, h5, hd _ (h.obj_le b hlt)]; exact this
  · intro b hlt hne
    rw [hn] at hlt
    obtain ⟨h1, h2, h3, h4, h5, h6⟩ := hb b hlt
    rw [h5] at hne
    have := h.ctor b hlt hne
    simp only [h5, hk _ (h.obj_le b hlt)]; exact this
  · intro p hp hun
    by_cases hps : p ≤ s.nobjs
    · rw [hd p hps]
      refine h.pristine p hps (fun c hc => ?_)
      have := hun c (hn ▸ hc)
      rwa [(hb c hc).2.2.2.2.1] at this
    · exact hnew p (by omega) hp

theorem InvM.transferM {esft : Bool} {s t : Heap} (h : InvM esft s) (hw : s.nwps ≤ t.nwps)
    (hs : ∀ p, (t.objs p).weak_this_ = (s.objs p).weak_this_) (hf : t.fault = s.fault) :
    InvM esft t := by
  constructor
  · intro p w hpw
    rw [hs] at hpw
    exact lt_of_lt_of_le (h.slot_ok p w hpw) hw
  · rw [hf]; exact h.no_overflow
  · rw [hf]; exact h.no_fault

/-! ## Releasing a weak unit -/

@[simp] theorem weakReleased_nblocks (w b : Nat) (s : Heap) :
    (weakReleased w b s).nblocks = s.nblocks := rfl
@[simp] theorem weakReleased_objs (w b : Nat) (s : Heap) :
    (weakReleased w b s).objs = s.objs := rfl
@[simp] theorem weakReleased_nobjs (w b : Nat) (s : Heap) :
    (weakReleased w b s).nobjs = s.nobjs := rfl
@[simp] theorem weakReleased_sps (w b : Nat) (s : Heap) :
    (weakReleased w b s).sps = s.sps := rfl
@[simp] theorem weakReleased_nsps (w b : Nat) (s : Heap) :
    (weakReleased w b s).nsps = s.nsps := rfl
@[simp] theorem weakReleased_nwps (w b : Nat) (s : Heap) :
    (weakReleased w b s).nwps = s.nwps := rfl
@[simp] theorem weakReleased_fault (w b : Nat) (s : Heap) :
    (weakReleased w b s).fault = s.fault := rfl
@[simp] theorem weakReleased_wps (w b : Nat) (s : Heap) :
    (weakReleased w b s).wps =
      Function.update s.wps w { s.wps w with block_ := none, ptr_ := 0 } := rfl
@[simp] theorem weakReleased_blocks (w b : Nat) (s : Heap) :
    (weakReleased w b s).blocks =
      Function.update s.blocks b
        { s.blocks b with
          weak_cnt := decr (s.blocks b).weak_cnt,
          frees := if (s.blocks b).strong_cnt = 0 ∧ decr (s.blocks b).weak_cnt = 0
                   then (s.blocks b).frees + 1 else (s.blocks b).frees } := rfl

theorem Inv.weak_release {esft : Bool} {pend : Option Nat} {s : Heap} (h : Inv esft pend s)
    {w b : Nat} (hw : w < s.nwps) (hb : (s.wps w).block_ = some b) (hp : pend ≠ some b) :
    Inv esft pend (weakReleased w b s) := by
  obtain ⟨hl, hbn⟩ := h.C.wps_ok w b hw hb
  have hind : ind (s.wps w) b = 1 := ind_of_live hl hb
  have hwk := h.C.weak b hbn
  have hge : 1 ≤ (s.blocks b).weak_cnt := by
    rw [hwk]; have := ind_le_cnt s.wps b hw; unfold Heap.liveWeak; omega
  have hlt : (s.blocks b).weak_cnt < SIZE_T_MOD := by
    rw [hwk]; have := cnt_le s.wps s.nwps b; have := h.C.cap_w; unfold Heap.liveWeak; omega
  have hdec : decr (s.blocks b).weak_cnt = (s.blocks b).weak_cnt - 1 := decr_eq hge hlt
  have hcore : ∀ c, ((weakReleased w b s).blocks c).sameCore (s.blocks c) := by
    intro c
    by_cases hcb : c = b
    · subst hcb; simp [ControlBlock.sameCore]
    · simp [Function.update_noteq hcb, ControlBlock.sameCore_refl]
  refine ⟨⟨?_, ?_, ?_, ?_, h.C.cap_s, h.C.cap_w⟩, ?_, ?_, ?_⟩
  · exact h.C.sps_ok
  · intro v c hv hc
    by_cases hvw : v = w
    · subst hvw; simp at hc
    · simp only [weakReleased_wps, Function.update_noteq hvw] at hc ⊢
      exact h.C.wps_ok v c hv hc
  · intro c hc
    have := h.C.strong c hc
    by_cases hcb : c = b
    · subst hcb; simpa [Heap.liveShared] using this
    · simpa [Heap.liveShared, Function.update_noteq hcb] using this
  · intro c hc
    have h1 := cnt_update_lt s.wps
      { live := (s.wps w).live, block_ := none, ptr_ := 0, heap := (s.wps w).heap } c hw
    have h2 : ind ({ live := (s.wps w).live, block_ := none, ptr_ := 0,
                     heap := (s.wps w).heap } : Handle) c = 0 :=
      ind_of_block_none rfl c
    have h3 := h.C.weak c hc
    unfold Heap.liveWeak at h3 ⊢
    by_cases hcb : c = b
    · subst hcb
      simp only [weakReleased_wps, weakReleased_nwps, weakReleased_blocks,
        Function.update_same, hdec]
      omega
    · have h4 : ind (s.wps w) c = 0 := ind_of_ne hb (fun e => hcb e.symm)
      simp only [weakReleased_wps, weakReleased_nwps, weakReleased_blocks,
        Function.update_noteq hcb]
      omega
  · exact h.T.transferT rfl (le_refl _) (fun c _ => hcore c) (fun _ _ => rfl) (fun _ _ => rfl)
      (fun p h1 h2 => absurd h2 (by simpa using h1))
  · intro c hc
    have h3 := h.F c hc
    by_cases hcb : c = b
    · subst hcb
      simp only [weakReleased_blocks, Function.update_same, hdec]
      simp only [hp, if_false] at h3 ⊢
      split_ifs at h3 ⊢ <;> omega
    · simpa [Function.update_noteq hcb] using h3
  · exact h.M.transferM (le_refl _) (fun _ => rfl) rfl

theorem Inv.transfer {esft : Bool} {pend : Option Nat} {s t : Heap} (h : Inv esft pend s)
    (hC : InvC t) (hn : t.nblocks = s.nblocks) (ho : t.nobjs = s.nobjs)
    (hob : t.objs = s.objs) (hf : t.fault = s.fault) (hw : s.nwps ≤ t.nwps)
    (hb : ∀ c, c < s.nblocks → (t.blocks c).sameCore (s.blocks c) ∧
      (t.blocks c).frees = (s.blocks c).frees ∧
      ((t.blocks c).strong_cnt = 0 ∧ (t.blocks c).weak_cnt = 0 ↔
        (s.blocks c).strong_cnt = 0 ∧ (s.blocks c).weak_cnt = 0)) :
    Inv esft pend t := by
  refine ⟨hC, ?_, ?_, ?_⟩
  · exact h.T.transferT hn (le_of_eq ho.symm) (fun c hc => (hb c hc).1) (fun p _ => by rw [hob])
      (fun p _ => by rw [hob]) (fun p h1 h2 => absurd h2 (by rw [ho]; omega))
  · intro c hc
    rw [hn] at hc
    obtain ⟨_, h2, h3⟩ := hb c hc
    have := h.F c hc
    rw [h2]
    simp only [h3]
    exact this
  · exact h.M.transferM hw (fun p => by rw [hob]) hf

/-- A count that is positive and fits a `size_t` stays non-zero when incremented. -/
theorem incr_ne_zero {n : Nat} (h : n + 1 < SIZE_T_MOD) : incr n ≠ 0 := by
  rw [incr_eq h]; omega

theorem cnt_eq_zero_of_ge (f : Nat → Handle) (n b m : Nat)
    (h : ∀ i c, i < n → (f i).block_ = some c → c < m) (hb : m ≤ b) : cnt f n b = 0 := by
  induction n with
  | zero => rfl
  | succ n ih =>
    have h1 := ih (fun i c hi hc => h i c (by omega) hc)
    have h2 : ind (f n) b = 0 := by
      unfold ind
      split
      · rename_i hx
        have := h n b (by omega) hx.2
        omega
      · rfl
    simp only [cnt, h1, h2]

theorem cnt_push (f : Nat → Handle) (h : Handle) (n b : Nat) :
    cnt (Function.update f n h) (n + 1) b = cnt f n b + ind h b := by
  simp only [cnt, Function.update_same]
  rw [cnt_update_ge _ _ _ (le_refl _)]

/-- Frame conditions on the blocks for a heap update that leaves every block alone. -/
theorem blocks_same {s t : Heap} (hb : t.blocks = s.blocks) :
    ∀ c, c < s.nblocks → (t.blocks c).sameCore (s.blocks c) ∧
      (t.blocks c).frees = (s.blocks c).frees ∧
      ((t.blocks c).strong_cnt = 0 ∧ (t.blocks c).weak_cnt = 0 ↔
        (s.blocks c).strong_cnt = 0 ∧ (s.blocks c).weak_cnt = 0) := by
  intro c _
  rw [hb]
  exact ⟨ControlBlock.sameCore_refl _, rfl, Iff.rfl⟩

/-- Frame conditions on the blocks when only `strong_cnt` of block `b` changes and
stays positive. -/
theorem blocks_strong {s : Heap} {b n : Nat} (hpos : 1 ≤ (s.blocks b).strong_cnt)
    (hn : 1 ≤ n) :
    ∀ c, c < s.nblocks →
      ((Function.update s.blocks b { s.blocks b with strong_cnt := n }) c).sameCore
          (s.blocks c) ∧
      ((Function.update s.blocks b { s.blocks b with strong_cnt := n }) c).frees =
          (s.blocks c).frees ∧
      (((Function.update s.blocks b { s.blocks b with strong_cnt := n }) c).strong_cnt = 0 ∧
        ((Function.update s.blocks b { s.blocks b with strong_cnt := n }) c).weak_cnt = 0 ↔
        (s.blocks c).strong_cnt = 0 ∧ (s.blocks c).weak_cnt = 0) := by
  intro c _
  by_cases hcb : c = b
  · subst hcb
    simp only [Function.update_same, ControlBlock.sameCore, and_true, true_and]
    omega
  · rw [Function.update_noteq hcb]
    exact ⟨ControlBlock.sameCore_refl _, rfl, Iff.rfl⟩

/-- Frame conditions on the blocks when only `weak_cnt` of block `b` changes and the
block stays in use. -/
theorem blocks_weak {s : Heap} {b n : Nat}
    (hpos : 1 ≤ (s.blocks b).strong_cnt ∨ 1 ≤ (s.blocks b).weak_cnt) (hn : 1 ≤ n) :
    ∀ c, c < s.nblocks →
      ((Function.update s.blocks b { s.blocks b with weak_cnt := n }) c).sameCore
          (s.blocks c) ∧
      ((Function.update s.blocks b { s.blocks b with weak_cnt := n }) c).frees =
          (s.blocks c).frees ∧
      (((Function.update s.blocks b { s.blocks b with weak_cnt := n }) c).strong_cnt = 0 ∧
        ((Function.update s.blocks b { s.blocks b with weak_cnt := n }) c).weak_cnt = 0 ↔
        (s.blocks c).strong_cnt = 0 ∧ (s.blocks c).weak_cnt = 0) := by
  intro c _
  by_cases hcb : c = b
  · subst hcb
    simp only [Function.update_same, ControlBlock.sameCore, and_true, true_and]
    omega
  · rw [Function.update_noteq hcb]
    exact ⟨ControlBlock.sameCore_refl _, rfl, Iff.rfl⟩

/-! ## Bookkeeping of shared handles -/

theorem Inv.newShared_none {esft : Bool} {pend : Option Nat} {s : Heap} (h : Inv esft pend s)
    (p : Addr) (hcap : s.nsps + 1 < SIZE_T_MOD) : Inv esft pend (s.newShared none p) := by
  refine h.transfer
    { sps_ok := ?sps_ok, wps_ok := h.C.wps_ok, strong := ?strong,
      weak := h.C.weak, cap_s := hcap, cap_w := h.C.cap_w }
    rfl rfl rfl rfl (le_refl _) (blocks_same rfl)
  case sps_ok =>
    intro i b hi hb
    simp only [Heap.newShared_sps, Heap.newShared_nsps] at hi hb ⊢
    by_cases hx : i = s.nsps
    · subst hx; simp at hb
    · simp only [Function.update_noteq hx] at hb ⊢
      exact h.C.sps_ok i b (by omega) hb
  case strong =>
    intro b hb
    have := h.C.strong b hb
    simp only [Heap.liveShared, Heap.newShared_sps, Heap.newShared_nsps, Heap.newShared_blocks,
      cnt, Function.update_same] at this ⊢
    rw [cnt_update_ge _ _ _ (le_refl _), ind_of_block_none rfl]
    exact this

theorem Inv.acquire_shared {esft : Bool} {pend : Option Nat} {s : Heap} (h : Inv esft pend s)
    (p : Addr) {b : Nat} (hb : b < s.nblocks) (hpos : 1 ≤ (s.blocks b).strong_cnt)
    (hcap : s.nsps + 1 < SIZE_T_MOD) :
    Inv esft pend ((s.newShared (some b) p).modBlock b
      (fun c => { c with strong_cnt := incr c.strong_cnt })) := by
  have hs := h.C.strong b hb
  have hle := cnt_le s.sps s.nsps b
  unfold Heap.liveShared at hs
  have hinc : incr (s.blocks b).strong_cnt = (s.blocks b).strong_cnt + 1 :=
    incr_eq (by omega)
  refine h.transfer
    { sps_ok := ?sps_ok, wps_ok := h.C.wps_ok, strong := ?strong,
      weak := ?weak, cap_s := hcap, cap_w := h.C.cap_w }
    rfl rfl rfl rfl (le_refl _) (blocks_strong (n := incr (s.blocks b).strong_cnt) hpos (by rw [hinc]; omega))
  case sps_ok =>
    intro i c hi hc
    simp only [Heap.modBlock_sps, Heap.modBlock_nsps, Heap.modBlock_nblocks, Heap.newShared_sps,
      Heap.newShared_nsps, Heap.newShared_nblocks] at hi hc ⊢
    by_cases hx : i = s.nsps
    · subst hx
      simp only [Function.update_same, Option.some.injEq] at hc ⊢
      subst hc
      exact ⟨by simp, hb⟩
    · simp only [Function.update_noteq hx] at hc ⊢
      exact h.C.sps_ok i c (by omega) hc
  case strong =>
    intro c hc
    have := h.C.strong c hc
    simp only [Heap.liveShared, Heap.modBlock_sps, Heap.modBlock_nsps, Heap.modBlock_blocks,
      Heap.newShared_sps, Heap.newShared_nsps, Heap.newShared_blocks, cnt,
      Function.update_same] at this ⊢
    rw [cnt_update_ge _ _ _ (le_refl _)]
    by_cases hcb : c = b
    · subst hcb
      simp only [Function.update_same, hinc]
      rw [ind_of_live rfl rfl]
      omega
    · simp only [Function.update_noteq hcb]
      rw [ind_of_ne rfl (fun e => hcb e.symm)]
      omega
  case weak =>
    intro c hc
    have := h.C.weak c hc
    by_cases hcb : c = b
    · subst hcb; simpa [Heap.liveWeak] using this
    · simpa [Heap.liveWeak, Function.update_noteq hcb] using this

/-- An update of one shared handle that keeps its contribution to every count. -/
theorem Inv.setShared_same {esft : Bool} {pend : Option Nat} {s : Heap} (h : Inv esft pend s)
    (i : Nat) (k : Handle) (hk : ∀ c, ind k c = ind (s.sps i) c)
    (hv : ∀ c, k.block_ = some c → (s.sps i).block_ = some c ∧ k.live = true) :
    Inv esft pend (s.setShared i k) := by
  refine h.transfer
    { sps_ok := ?sps_ok, wps_ok := h.C.wps_ok, strong := ?strong,
      weak := h.C.weak, cap_s := h.C.cap_s, cap_w := h.C.cap_w }
    rfl rfl rfl rfl (le_refl _) (blocks_same rfl)
  case sps_ok =>
    intro j c hj hc
    simp only [Heap.setShared_sps, Heap.setShared_nsps, Heap.setShared_nblocks] at hj hc ⊢
    by_cases hx : j = i
    · subst hx
      simp only [Function.update_same] at hc ⊢
      exact ⟨(hv c hc).2, (h.C.sps_ok j c hj (hv c hc).1).2⟩
    · simp only [Function.update_noteq hx] at hc ⊢
      exact h.C.sps_ok j c hj hc
  case strong =>
    intro c hc
    have h0 := h.C.strong c hc
    simp only [Heap.liveShared, Heap.setShared_sps, Heap.setShared_nsps,
      Heap.setShared_blocks] at h0 ⊢
    by_cases hi : i < s.nsps
    · have := cnt_update_lt s.sps k c hi
      have := hk c
      omega
    · rw [cnt_update_ge _ _ _ (by omega)]
      exact h0

/-- Swapping two live shared handles with `SharedPtr::Swap` keeps the heap well-formed. -/
theorem Inv.swap_shared {esft : Bool} {pend : Option Nat} {s : Heap} (h : Inv esft pend s)
    {i j : Nat} (hi : i < s.nsps) (hj : j < s.nsps) (hli : (s.sps i).live = true)
    (hlj : (s.sps j).live = true) : Inv esft pend (SharedPtr.Swap i j s) := by
  by_cases hij : i = j
  · subst hij
    have e : SharedPtr.Swap i i s = s.setShared i (s.sps i) := by
      simp [SharedPtr.Swap, Heap.setShared, Function.update_idem]
    rw [e]
    exact h.setShared_same i _ (fun _ => rfl) (fun c hc => ⟨hc, hli⟩)
  have hji : j ≠ i := fun e => hij e.symm
  refine h.transfer
    { sps_ok := ?sps_ok, wps_ok := h.C.wps_ok, strong := ?strong,
      weak := h.C.weak, cap_s := h.C.cap_s, cap_w := h.C.cap_w }
    rfl rfl rfl rfl (le_refl _) (blocks_same rfl)
  case sps_ok =>
    intro k c hk hc
    simp only [SharedPtr.Swap, Heap.setShared_sps, Heap.setShared_nsps,
      Heap.setShared_nblocks] at hk hc ⊢
    by_cases hx : k = j
    · subst hx
      simp only [Function.update_same] at hc ⊢
      exact ⟨hlj, (h.C.sps_ok i c hi hc).2⟩
    · simp only [Function.update_noteq hx] at hc ⊢
      by_cases hy : k = i
      · subst hy
        simp only [Function.update_same] at hc ⊢
        exact ⟨hli, (h.C.sps_ok j c hj hc).2⟩
      · simp only [Function.update_noteq hy] at hc ⊢
        exact h.C.sps_ok k c hk hc
  case strong =>
    intro c hc
    have h0 := h.C.strong c hc
    simp only [Heap.liveShared, SharedPtr.Swap, Heap.setShared_sps, Heap.setShared_nsps,
      Heap.setShared_blocks] at h0 ⊢
    have h1 := cnt_update_lt s.sps
      { live := (s.sps i).live, block_ := (s.sps j).block_, ptr_ := (s.sps j).ptr_,
        heap := (s.sps i).heap } c hi
    have h2 := cnt_update_lt (Function.update s.sps i
      { live := (s.sps i).live, block_ := (s.sps j).block_, ptr_ := (s.sps j).ptr_,
        heap := (s.sps i).heap })
      { live := (s.sps j).live, block_ := (s.sps i).block_, ptr_ := (s.sps i).ptr_,
        heap := (s.sps j).heap } c hj
    rw [Function.update_noteq hji] at h2
    have h3 : ind ({ live := (s.sps i).live, block_ := (s.sps j).block_,
                     ptr_ := (s.sps j).ptr_, heap := (s.sps i).heap } : Handle) c =
        ind (s.sps j) c := by
      simp [ind, hli, hlj]
    have h4 : ind ({ live := (s.sps j).live, block_ := (s.sps i).block_,
                     ptr_ := (s.sps i).ptr_, heap := (s.sps j).heap } : Handle) c =
        ind (s.sps i) c := by
      simp [ind, hli, hlj]
    omega

/-- The move constructor: a fresh handle takes the pair of handle `j`, which is
nulled. -/
theorem Inv.move_shared {esft : Bool} {pend : Option Nat} {s : Heap} (h : Inv esft pend s)
    {j : Nat} (hj : j < s.nsps) (hlj : (s.sps j).live = true)
    (hcap : s.nsps + 1 < SIZE_T_MOD) :
    Inv esft pend ((s.newShared (s.sps j).block_ (s.sps j).ptr_).setShared j
      { live := (s.sps j).live, block_ := none, ptr_ := 0, heap := (s.sps j).heap }) := by
  have hjn : j ≠ s.nsps := by omega
  refine h.transfer
    { sps_ok := ?sps_ok, wps_ok := h.C.wps_ok, strong := ?strong,
      weak := h.C.weak, cap_s := hcap, cap_w := h.C.cap_w }
    rfl rfl rfl rfl (le_refl _) (blocks_same rfl)
  case sps_ok =>
    intro k c hk hc
    simp only [Heap.setShared_sps, Heap.setShared_nsps, Heap.setShared_nblocks,
      Heap.newShared_sps, Heap.newShared_nsps, Heap.newShared_nblocks] at hk hc ⊢
    by_cases hx : k = j
    · subst hx
      simp at hc
    · simp only [Function.update_noteq hx] at hc ⊢
      by_cases hy : k = s.nsps
      · subst hy
        simp only [Function.update_same] at hc ⊢
        exact ⟨by simp, (h.C.sps_ok j c hj hc).2⟩
      · simp only [Function.update_noteq hy] at hc ⊢
        exact h.C.sps_ok k c (by omega) hc
  case strong =>
    intro c hc
    have h0 := h.C.strong c hc
    simp only [Heap.liveShared, Heap.setShared_sps, Heap.setShared_nsps, Heap.setShared_blocks,
      Heap.newShared_sps, Heap.newShared_nsps, Heap.newShared_blocks] at h0 ⊢
    have h1 := cnt_update_lt (Function.update s.sps s.nsps
        { live := true, block_ := (s.sps j).block_, ptr_ := (s.sps j).ptr_ })
      { live := (s.sps j).live, block_ := none, ptr_ := 0, heap := (s.sps j).heap } c
      (show j < s.nsps + 1 by omega)
    rw [Function.update_noteq hjn] at h1
    have h2 : ind ({ live := (s.sps j).live, block_ := none, ptr_ := 0,
                     heap := (s.sps j).heap } : Handle) c = 0 := ind_of_block_none rfl c
    have h3 : ind ({ live := true, block_ := (s.sps j).block_,
                     ptr_ := (s.sps j).ptr_ } : Handle) c = ind (s.sps j) c := by
      simp [ind, hlj]
    rw [cnt_push] at h1
    omega

/-- A live handle without a block takes a unit of block `b`. -/
theorem Inv.attach_shared {esft : Bool} {pend : Option Nat} {s : Heap} (h : Inv esft pend s)
    {i b : Nat} (k : Handle) (hi : i < s.nsps) (hn : (s.sps i).block_ = none)
    (hb : b < s.nblocks) (hpos : 1 ≤ (s.blocks b).strong_cnt) (hkl : k.live = true)
    (hkb : k.block_ = some b) :
    Inv esft pend ((s.setShared i k).modBlock b
      (fun c => { c with strong_cnt := incr c.strong_cnt })) := by
  have hs := h.C.strong b hb
  have hlt := cnt_lt_of_ind_zero s.sps b hi (ind_of_block_none hn b)
  have hcap := h.C.cap_s
  unfold Heap.liveShared at hs
  have hinc : incr (s.blocks b).strong_cnt = (s.blocks b).strong_cnt + 1 :=
    incr_eq (by omega)
  refine h.transfer
    { sps_ok := ?sps_ok, wps_ok := h.C.wps_ok, strong := ?strong,
      weak := ?weak, cap_s := h.C.cap_s, cap_w := h.C.cap_w }
    rfl rfl rfl rfl (le_refl _) (blocks_strong (n := incr (s.blocks b).strong_cnt) hpos (by rw [hinc]; omega))
  case sps_ok =>
    intro j c hj hc
    simp only [Heap.setShared_sps, Heap.setShared_nsps, Heap.setShared_nblocks,
      Heap.modBlock_sps, Heap.modBlock_nsps, Heap.modBlock_nblocks] at hj hc ⊢
    by_cases hx : j = i
    · subst hx
      simp only [Function.update_same, hkb, Option.some.injEq] at hc ⊢
      subst hc
      exact ⟨hkl, hb⟩
    · simp only [Function.update_noteq hx] at hc ⊢
      exact h.C.sps_ok j c hj hc
  case strong =>
    intro c hc
    have h0 := h.C.strong c hc
    simp only [Heap.liveShared, Heap.setShared_sps, Heap.setShared_nsps, Heap.setShared_blocks,
      Heap.modBlock_sps, Heap.modBlock_nsps, Heap.modBlock_blocks] at h0 ⊢
    have h1 := cnt_update_lt s.sps k c hi
    have h3 := ind_of_block_none hn c
    by_cases hcb : c = b
    · subst hcb
      simp only [Function.update_same, hinc]
      have := ind_of_live hkl hkb
      omega
    · simp only [Function.update_noteq hcb]
      have := ind_of_ne (b := c) hkb (fun e => hcb e.symm)
      omega
  case weak =>
    intro c hc
    have := h.C.weak c hc
    by_cases hcb : c = b
    · subst hcb; simpa [Heap.liveWeak] using this
    · simpa [Heap.liveWeak, Function.update_noteq hcb] using this

/-- Release of a strong unit that is not the last one (`shared.h:208-224` with the
inner `if` not taken). -/
theorem Inv.release_shared {esft : Bool} {pend : Option Nat} {s : Heap} (h : Inv esft pend s)
    {i b : Nat} (hi : i < s.nsps) (hb : (s.sps i).block_ = some b)
    (h2 : 2 ≤ (s.blocks b).strong_cnt) :
    Inv esft pend ((s.modBlock b (fun c => { c with strong_cnt := decr c.strong_cnt })).setShared i
      { live := (s.sps i).live, block_ := none, ptr_ := 0, heap := (s.sps i).heap }) := by
  obtain ⟨hl, hbn⟩ := h.C.sps_ok i b hi hb
  have hs := h.C.strong b hbn
  have hle := cnt_le s.sps s.nsps b
  have hcap := h.C.cap_s
  unfold Heap.liveShared at hs
  have hdec : decr (s.blocks b).strong_cnt = (s.blocks b).strong_cnt - 1 :=
    decr_eq (by omega) (by omega)
  refine h.transfer
    { sps_ok := ?sps_ok, wps_ok := h.C.wps_ok, strong := ?strong,
      weak := ?weak, cap_s := h.C.cap_s, cap_w := h.C.cap_w }
    rfl rfl rfl rfl (le_refl _) (blocks_strong (n := decr (s.blocks b).strong_cnt) (by omega) (by rw [hdec]; omega))
  case sps_ok =>
    intro k c hk hc
    simp only [Heap.setShared_sps, Heap.setShared_nsps, Heap.setShared_nblocks,
      Heap.modBlock_sps, Heap.modBlock_nsps, Heap.modBlock_nblocks] at hk hc ⊢
    by_cases hx : k = i
    · subst hx; simp at hc
    · simp only [Function.update_noteq hx] at hc ⊢
      exact h.C.sps_ok k c hk hc
  case strong =>
    intro c hc
    have h0 := h.C.strong c hc
    simp only [Heap.liveShared, Heap.setShared_sps, Heap.setShared_nsps, Heap.setShared_blocks,
      Heap.modBlock_sps, Heap.modBlock_nsps, Heap.modBlock_blocks] at h0 ⊢
    have h1 := cnt_update_lt s.sps
      { live := (s.sps i).live, block_ := none, ptr_ := 0, heap := (s.sps i).heap } c hi
    have h3 : ind ({ live := (s.sps i).live, block_ := none, ptr_ := 0,
                     heap := (s.sps i).heap } : Handle) c = 0 := ind_of_block_none rfl c
    by_cases hcb : c = b
    · subst hcb
      simp only [Function.update_same, hdec]
      have := ind_of_live hl hb
      omega
    · simp only [Function.update_noteq hcb]
      have := ind_of_ne (b := c) hb (fun e => hcb e.symm)
      omega
  case weak =>
    intro c hc
    have := h.C.weak c hc
    by_cases hcb : c = b
    · subst hcb; simpa [Heap.liveWeak] using this
    · simpa [Heap.liveWeak, Function.update_noteq hcb] using this

/-! ## Bookkeeping of weak handles -/

theorem Inv.newWeak_none {esft : Bool} {pend : Option Nat} {s : Heap} (h : Inv esft pend s)
    (p : Addr) (hcap : s.nwps + 1 < SIZE_T_MOD) : Inv esft pend (s.newWeak none p) := by
  refine h.transfer
    { wps_ok := ?wps_ok, sps_ok := h.C.sps_ok, weak := ?weak,
      strong := h.C.strong, cap_w := hcap, cap_s := h.C.cap_s }
    rfl rfl rfl rfl (Nat.le_succ _) (blocks_same rfl)
  case wps_ok =>
    intro i b hi hb
    simp only [Heap.newWeak_wps, Heap.newWeak_nwps] at hi hb ⊢
    by_cases hx : i = s.nwps
    · subst hx; simp at hb
    · simp only [Function.update_noteq hx] at hb ⊢
      exact h.C.wps_ok i b (by omega) hb
  case weak =>
    intro b hb
    have := h.C.weak b hb
    simp only [Heap.liveWeak, Heap.newWeak_wps, Heap.newWeak_nwps, Heap.newWeak_blocks,
      cnt, Function.update_same] at this ⊢
    rw [cnt_update_ge _ _ _ (le_refl _), ind_of_block_none rfl]
    exact this

theorem Inv.acquire_weak {esft : Bool} {pend : Option Nat} {s : Heap} (h : Inv esft pend s)
    (p : Addr) {b : Nat} (hb : b < s.nblocks) (hpos : 1 ≤ (s.blocks b).strong_cnt ∨ 1 ≤ (s.blocks b).weak_cnt)
    (hcap : s.nwps + 1 < SIZE_T_MOD) :
    Inv esft pend ((s.newWeak (some b) p).modBlock b
      (fun c => { c with weak_cnt := incr c.weak_cnt })) := by
  have hs := h.C.weak b hb
  have hle := cnt_le s.wps s.nwps b
  unfold Heap.liveWeak at hs
  have hinc : incr (s.blocks b).weak_cnt = (s.blocks b).weak_cnt + 1 :=
    incr_eq (by omega)
  refine h.transfer
    { wps_ok := ?wps_ok, sps_ok := h.C.sps_ok, weak := ?weak,
      strong := ?strong, cap_w := hcap, cap_s := h.C.cap_s }
    rfl rfl rfl rfl (Nat.le_succ _) (blocks_weak (n := incr (s.blocks b).weak_cnt) hpos (by rw [hinc]; omega))
  case wps_ok =>
    intro i c hi hc
    simp only [Heap.modBlock_wps, Heap.modBlock_nwps, Heap.modBlock_nblocks, Heap.newWeak_wps,
      Heap.newWeak_nwps, Heap.newWeak_nblocks] at hi hc ⊢
    by_cases hx : i = s.nwps
    · subst hx
      simp only [Function.update_same, Option.some.injEq] at hc ⊢
      subst hc
      exact ⟨by simp, hb⟩
    · simp only [Function.update_noteq hx] at hc ⊢
      exact h.C.wps_ok i c (by omega) hc
  case weak =>
    intro c hc
    have := h.C.weak c hc
    simp only [Heap.liveWeak, Heap.modBlock_wps, Heap.modBlock_nwps, Heap.modBlock_blocks,
      Heap.newWeak_wps, Heap.newWeak_nwps, Heap.newWeak_blocks, cnt,
      Function.update_same] at this ⊢
    rw [cnt_update_ge _ _ _ (le_refl _)]
    by_cases hcb : c = b
    · subst hcb
      simp only [Function.update_same, hinc]
      rw [ind_of_live rfl rfl]
      omega
    · simp only [Function.update_noteq hcb]
      rw [ind_of_ne rfl (fun e => hcb e.symm)]
      omega
  case strong =>
    intro c hc
    have := h.C.strong c hc
    by_cases hcb : c = b
    · subst hcb; simpa [Heap.liveShared] using this
    · simpa [Heap.liveShared, Function.update_noteq hcb] using this

/-- An update of one weak handle that keeps its contribution to every count. -/
theorem Inv.setWeak_same {esft : Bool} {pend : Option Nat} {s : Heap} (h : Inv esft pend s)
    (i : Nat) (k : Handle) (hk : ∀ c, ind k c = ind (s.wps i) c)
    (hv : ∀ c, k.block_ = some c → (s.wps i).block_ = some c ∧ k.live = true) :
    Inv esft pend (s.setWeak i k) := by
  refine h.transfer
    { wps_ok := ?wps_ok, sps_ok := h.C.sps_ok, weak := ?weak,
      strong := h.C.strong, cap_w := h.C.cap_w, cap_s := h.C.cap_s }
    rfl rfl rfl rfl (le_refl _) (blocks_same rfl)
  case wps_ok =>
    intro j c hj hc
    simp only [Heap.setWeak_wps, Heap.setWeak_nwps, Heap.setWeak_nblocks] at hj hc ⊢
    by_cases hx : j = i
    · subst hx
      simp only [Function.update_same] at hc ⊢
      exact ⟨(hv c hc).2, (h.C.wps_ok j c hj (hv c hc).1).2⟩
    · simp only [Function.update_noteq hx] at hc ⊢
      exact h.C.wps_ok j c hj hc
  case weak =>
    intro c hc
    have h0 := h.C.weak c hc
    simp only [Heap.liveWeak, Heap.setWeak_wps, Heap.setWeak_nwps,
      Heap.setWeak_blocks] at h0 ⊢
    by_cases hi : i < s.nwps
    · have := cnt_update_lt s.wps k c hi
      have := hk c
      omega
    · rw [cnt_update_ge _ _ _ (by omega)]
      exact h0

/-- Swapping two live weak handles with `WeakPtr::Swap` keeps the heap well-formed. -/
theorem Inv.swap_weak {esft : Bool} {pend : Option Nat} {s : Heap} (h : Inv esft pend s)
    {i j : Nat} (hi : i < s.nwps) (hj : j < s.nwps) (hli : (s.wps i).live = true)
    (hlj : (s.wps j).live = true) : Inv esft pend (WeakPtr.Swap i j s) := by
  by_cases hij : i = j
  · subst hij
    have e : WeakPtr.Swap i i s = s.setWeak i (s.wps i) := by
      simp [WeakPtr.Swap, Heap.setWeak, Function.update_idem]
    rw [e]
    exact h.setWeak_same i _ (fun _ => rfl) (fun c hc => ⟨hc, hli⟩)
  have hji : j ≠ i := fun e => hij e.symm
  refine h.transfer
    { wps_ok := ?wps_ok, sps_ok := h.C.sps_ok, weak := ?weak,
      strong := h.C.strong, cap_w := h.C.cap_w, cap_s := h.C.cap_s }
    rfl rfl rfl rfl (le_refl _) (blocks_same rfl)
  case wps_ok =>
    intro k c hk hc
    simp only [WeakPtr.Swap, Heap.setWeak_wps, Heap.setWeak_nwps,
      Heap.setWeak_nblocks] at hk hc ⊢
    by_cases hx : k = j
    · subst hx
      simp only [Function.update_same] at hc ⊢
      exact ⟨hlj, (h.C.wps_ok i c hi hc).2⟩
    · simp only [Function.update_noteq hx] at hc ⊢
      by_cases hy : k = i
      · subst hy
        simp only [Function.update_same] at hc ⊢
        exact ⟨hli, (h.C.wps_ok j c hj hc).2⟩
      · simp only [Function.update_noteq hy] at hc ⊢
        exact h.C.wps_ok k c hk hc
  case weak =>
    intro c hc
    have h0 := h.C.weak c hc
    simp only [Heap.liveWeak, WeakPtr.Swap, Heap.setWeak_wps, Heap.setWeak_nwps,
      Heap.setWeak_blocks] at h0 ⊢
    have h1 := cnt_update_lt s.wps
      { live := (s.wps i).live, block_ := (s.wps j).block_, ptr_ := (s.wps j).ptr_,
        heap := (s.wps i).heap } c hi
    have h2 := cnt_update_lt (Function.update s.wps i
      { live := (s.wps i).live, block_ := (s.wps j).block_, ptr_ := (s.wps j).ptr_,
        heap := (s.wps i).heap })
      { live := (s.wps j).live, block_ := (s.wps i).block_, ptr_ := (s.wps i).ptr_,
        heap := (s.wps j).heap } c hj
    rw [Function.update_noteq hji] at h2
    have h3 : ind ({ live := (s.wps i).live, block_ := (s.wps j).block_,
                     ptr_ := (s.wps j).ptr_, heap := (s.wps i).heap } : Handle) c =
        ind (s.wps j) c := by
      simp [ind, hli, hlj]
    have h4 : ind ({ live := (s.wps j).live, block_ := (s.wps i).block_,
                     ptr_ := (s.wps i).ptr_, heap := (s.wps j).heap } : Handle) c =
        ind (s.wps i) c := by
      simp [ind, hli, hlj]
    omega

/-- The move constructor: a fresh handle takes the pair of handle `j`, which is
nulled. -/
theorem Inv.move_weak {esft : Bool} {pend : Option Nat} {s : Heap} (h : Inv esft pend s)
    {j : Nat} (hj : j < s.nwps) (hlj : (s.wps j).live = true)
    (hcap : s.nwps + 1 < SIZE_T_MOD) :
    Inv esft pend ((s.newWeak (s.wps j).block_ (s.wps j).ptr_).setWeak j
      { live := (s.wps j).live, block_ := none, ptr_ := 0, heap := (s.wps j).heap }) := by
  have hjn : j ≠ s.nwps := by omega
  refine h.transfer
    { wps_ok := ?wps_ok, sps_ok := h.C.sps_ok, weak := ?weak,
      strong := h.C.strong, cap_w := hcap, cap_s := h.C.cap_s }
    rfl rfl rfl rfl (Nat.le_succ _) (blocks_same rfl)
  case wps_ok =>
    intro k c hk hc
    simp only [Heap.setWeak_wps, Heap.setWeak_nwps, Heap.setWeak_nblocks,
      Heap.newWeak_wps, Heap.newWeak_nwps, Heap.newWeak_nblocks] at hk hc ⊢
    by_cases hx : k = j
    · subst hx
      simp at hc
    · simp only [Function.update_noteq hx] at hc ⊢
      by_cases hy : k = s.nwps
      · subst hy
        simp only [Function.update_same] at hc ⊢
        exact ⟨by simp, (h.C.wps_ok j c hj hc).2⟩
      · simp only [Function.update_noteq hy] at hc ⊢
        exact h.C.wps_ok k c (by omega) hc
  case weak =>
    intro c hc
    have h0 := h.C.weak c hc
    simp only [Heap.liveWeak, Heap.setWeak_wps, Heap.setWeak_nwps, Heap.setWeak_blocks,
      Heap.newWeak_wps, Heap.newWeak_nwps, Heap.newWeak_blocks] at h0 ⊢
    have h1 := cnt_update_lt (Function.update s.wps s.nwps
        { live := true, block_ := (s.wps j).block_, ptr_ := (s.wps j).ptr_ })
      { live := (s.wps j).live, block_ := none, ptr_ := 0, heap := (s.wps j).heap } c
      (show j < s.nwps + 1 by omega)
    rw [Function.update_noteq hjn] at h1
    have h2 : ind ({ live := (s.wps j).live, block_ := none, ptr_ := 0,
                     heap := (s.wps j).heap } : Handle) c = 0 := ind_of_block_none rfl c
    have h3 : ind ({ live := true, block_ := (s.wps j).block_,
                     ptr_ := (s.wps j).ptr_ } : Handle) c = ind (s.wps j) c := by
      simp [ind, hlj]
    rw [cnt_push] at h1
    omega

/-- A live handle without a block takes a unit of block `b`. -/
theorem Inv.attach_weak {esft : Bool} {pend : Option Nat} {s : Heap} (h : Inv esft pend s)
    {i b : Nat} (k : Handle) (hi : i < s.nwps) (hn : (s.wps i).block_ = none)
    (hb : b < s.nblocks) (hpos : 1 ≤ (s.blocks b).strong_cnt ∨ 1 ≤ (s.blocks b).weak_cnt) (hkl : k.live = true)
    (hkb : k.block_ = some b) :
    Inv esft pend ((s.setWeak i k).modBlock b
      (fun c => { c with weak_cnt := incr c.weak_cnt })) := by
  have hs := h.C.weak b hb
  have hlt := cnt_lt_of_ind_zero s.wps b hi (ind_of_block_none hn b)
  have hcap := h.C.cap_w
  unfold Heap.liveWeak at hs
  have hinc : incr (s.blocks b).weak_cnt = (s.blocks b).weak_cnt + 1 :=
    incr_eq (by omega)
  refine h.transfer
    { wps_ok := ?wps_ok, sps_ok := h.C.sps_ok, weak := ?weak,
      strong := ?strong, cap_w := h.C.cap_w, cap_s := h.C.cap_s }
    rfl rfl rfl rfl (le_refl _) (blocks_weak (n := incr (s.blocks b).weak_cnt) hpos (by rw [hinc]; omega))
  case wps_ok =>
    intro j c hj hc
    simp only [Heap.setWeak_wps, Heap.setWeak_nwps, Heap.setWeak_nblocks,
      Heap.modBlock_wps, Heap.modBlock_nwps, Heap.modBlock_nblocks] at hj hc ⊢
    by_cases hx : j = i
    · subst hx
      simp only [Function.update_same, hkb, Option.some.injEq] at hc ⊢
      subst hc
      exact ⟨hkl, hb⟩
    · simp only [Function.update_noteq hx] at hc ⊢
      exact h.C.wps_ok j c hj hc
  case weak =>
    intro c hc
    have h0 := h.C.weak c hc
    simp only [Heap.liveWeak, Heap.setWeak_wps, Heap.setWeak_nwps, Heap.setWeak_blocks,
      Heap.modBlock_wps, Heap.modBlock_nwps, Heap.modBlock_blocks] at h0 ⊢
    have h1 := cnt_update_lt s.wps k c hi
    have h3 := ind_of_block_none hn c
    by_cases hcb : c = b
    · subst hcb
      simp only [Function.update_same, hinc]
      have := ind_of_live hkl hkb
      omega
    · simp only [Function.update_noteq hcb]
      have := ind_of_ne (b := c) hkb (fun e => hcb e.symm)
      omega
  case strong =>
    intro c hc
    have := h.C.strong c hc
    by_cases hcb : c = b
    · subst hcb; simpa [Heap.liveShared] using this
    · simpa [Heap.liveShared, Function.update_noteq hcb] using this

/-! ## Creating control blocks -/

@[simp] theorem Heap.addBlock_objs (s : Heap) (c0 : ControlBlock) :
    (s.addBlock c0).objs = s.objs := rfl
@[simp] theorem Heap.addBlock_nobjs (s : Heap) (c0 : ControlBlock) :
    (s.addBlock c0).nobjs = s.nobjs := rfl
@[simp] theorem Heap.addBlock_sps (s : Heap) (c0 : ControlBlock) :
    (s.addBlock c0).sps = s.sps := rfl
@[simp] theorem Heap.addBlock_nsps (s : Heap) (c0 : ControlBlock) :
    (s.addBlock c0).nsps = s.nsps := rfl
@[simp] theorem Heap.addBlock_wps (s : Heap) (c0 : ControlBlock) :
    (s.addBlock c0).wps = s.wps := rfl
@[simp] theorem Heap.addBlock_nwps (s : Heap) (c0 : ControlBlock) :
    (s.addBlock c0).nwps = s.nwps := rfl
@[simp] theorem Heap.addBlock_fault (s : Heap) (c0 : ControlBlock) :
    (s.addBlock c0).fault = s.fault := rfl
@[simp] theorem Heap.addBlock_nblocks (s : Heap) (c0 : ControlBlock) :
    (s.addBlock c0).nblocks = s.nblocks + 1 := rfl
@[simp] theorem Heap.addBlock_blocks (s : Heap) (c0 : ControlBlock) :
    (s.addBlock c0).blocks = Function.update s.blocks s.nblocks c0 := rfl
@[simp] theorem Heap.newEmplaceBlock_nsps (s : Heap) : s.newEmplaceBlock.nsps = s.nsps := rfl
@[simp] theorem Heap.newEmplaceBlock_nwps (s : Heap) : s.newEmplaceBlock.nwps = s.nwps := rfl
@[simp] theorem Heap.newEmplaceBlock_nobjs (s : Heap) :
    s.newEmplaceBlock.nobjs = s.nobjs + 1 := rfl
@[simp] theorem Heap.newEmplaceBlock_nblocks (s : Heap) :
    s.newEmplaceBlock.nblocks = s.nblocks + 1 := rfl
@[simp] theorem Heap.newEmplaceBlock_sps (s : Heap) : s.newEmplaceBlock.sps = s.sps := rfl
@[simp] theorem Heap.newEmplaceBlock_wps (s : Heap) : s.newEmplaceBlock.wps = s.wps := rfl
@[simp] theorem Heap.newEmplaceBlock_fault (s : Heap) : s.newEmplaceBlock.fault = s.fault := rfl

theorem Inv.newObj {esft : Bool} {pend : Option Nat} {s : Heap} (h : Inv esft pend s) :
    Inv esft pend s.newObj := by
  have hne : ∀ p, p ≤ s.nobjs → p ≠ s.nobjs + 1 := fun p hp => by omega
  refine ⟨⟨h.C.sps_ok, h.C.wps_ok, h.C.strong, h.C.weak, h.C.cap_s, h.C.cap_w⟩, ?_, h.F, ?_⟩
  · refine h.T.transferT rfl (by simp) (fun c _ => ControlBlock.sameCore_refl _) ?_ ?_ ?_
    · intro p hp; simp [Function.update_noteq (hne p hp)]
    · intro p hp; simp [Function.update_noteq (hne p hp)]
    · intro p h1 h2
      have : p = s.nobjs + 1 := by simp at h2; omega
      subst this; simp
  · refine ⟨?_, h.M.no_overflow, h.M.no_fault⟩
    intro p w hpw
    by_cases hp : p = s.nobjs + 1
    · subst hp; simp at hpw
    · simp only [Heap.newObj_objs, Function.update_noteq hp] at hpw
      exact h.M.slot_ok p w hpw

theorem Inv.addBlock_attach {esft : Bool} {s : Heap} (h : Inv esft none s)
    {c0 : ControlBlock} (hc0 : FreshBlock s c0) {i : Nat} (k : Handle) (hi : i < s.nsps)
    (hn : (s.sps i).block_ = none) (hkl : k.live = true) (hkb : k.block_ = some s.nblocks) :
    Inv esft none ((s.addBlock c0).setShared i k) := by
  have hold : ∀ c, c < s.nblocks → ((s.addBlock c0).setShared i k).blocks c = s.blocks c := by
    intro c hc
    have : c ≠ s.nblocks := by omega
    simp [Heap.addBlock, Function.update_noteq this]
  have hnew : ((s.addBlock c0).setShared i k).blocks s.nblocks = c0 := by
    simp [Heap.addBlock]
  have hnb : ((s.addBlock c0).setShared i k).nblocks = s.nblocks + 1 := rfl
  have hcases : ∀ c, c < s.nblocks + 1 → c < s.nblocks ∨ c = s.nblocks := fun c hc => by omega
  refine ⟨⟨?_, ?_, ?_, ?_, h.C.cap_s, h.C.cap_w⟩, ⟨?_, ?_, ?_, ?_, ?_, ?_, ?_, ?pr⟩, ?_, ?_⟩
  case pr =>
    intro p hp hun
    refine h.T.pristine p hp (fun c hc => ?_)
    have := hun c (by rw [hnb]; omega)
    rwa [hold c hc] at this
  · intro j c hj hc
    rw [hnb]
    simp only [Heap.setShared_sps, Heap.setShared_nsps] at hj hc ⊢
    by_cases hx : j = i
    · subst hx
      simp only [Function.update_same, hkb, Option.some.injEq] at hc ⊢
      exact ⟨hkl, by omega⟩
    · simp only [Function.update_noteq hx] at hc ⊢
      have := h.C.sps_ok j c hj hc
      exact ⟨this.1, by omega⟩
  · intro w c hw hc
    rw [hnb]
    have := h.C.wps_ok w c hw hc
    exact ⟨this.1, by omega⟩
  · intro c hc
    rw [hnb] at hc
    simp only [Heap.liveShared, Heap.setShared_sps, Heap.setShared_nsps]
    have h1 := cnt_update_lt s.sps k c hi
    have h3 := ind_of_block_none hn c
    rcases hcases c hc with hlt | heq
    · rw [hold c hlt]
      have h0 := h.C.strong c hlt
      have := ind_of_ne (b := c) hkb (by omega)
      unfold Heap.liveShared at h0
      show (s.blocks c).strong_cnt = cnt (Function.update s.sps i k) s.nsps c
      omega
    · subst heq
      rw [hnew, hc0.strong]
      have := cnt_eq_zero_of_ge s.sps s.nsps s.nblocks s.nblocks
        (fun j c hj hc => (h.C.sps_ok j c hj hc).2) (le_refl _)
      have := ind_of_live hkl hkb
      show 1 = cnt (Function.update s.sps i k) s.nsps s.nblocks
      omega
  · intro c hc
    rw [hnb] at hc
    rcases hcases c hc with hlt | heq
    · rw [hold c hlt]
      exact h.C.weak c hlt
    · subst heq
      rw [hnew, hc0.weak]
      exact (cnt_eq_zero_of_ge s.wps s.nwps s.nblocks s.nblocks
        (fun j c hj hc => (h.C.wps_ok j c hj hc).2) (le_refl _)).symm
  · intro c hc
    rw [hnb] at hc
    rcases hcases c hc with hlt | heq
    · rw [hold c hlt]; exact h.T.clears c hlt
    · subst heq; rw [hnew, hc0.clears, hc0.strong]; rfl
  · intro c hc
    rw [hnb] at hc
    rcases hcases c hc with hlt | heq
    · rw [hold c hlt]; exact h.T.flag c hlt
    · subst heq
      rw [hnew, hc0.strong]
      intro he
      have := hc0.flag he
      simp [this.1, this.2]
  · intro c hc
    rw [hnb] at hc
    rcases hcases c hc with hlt | heq
    · rw [hold c hlt]; exact h.T.ptr c hlt
    · subst heq
      rw [hnew, hc0.strong]
      intro he
      simp [hc0.ptr he]
  · intro c hc
    rw [hnb] at hc
    rcases hcases c hc with hlt | heq
    · rw [hold c hlt]; exact h.T.obj_le c hlt
    · subst heq; rw [hnew]; exact hc0.obj_le
  · intro c d hc hd hne he
    rw [hnb] at hc hd
    rcases hcases c hc with hlt | heq <;> rcases hcases d hd with hlt2 | heq2
    · rw [hold c hlt] at hne he
      rw [hold d hlt2] at he
      exact h.T.obj_inj c d hlt hlt2 hne he
    · subst heq2
      rw [hold c hlt] at hne he
      rw [hnew] at he
      exact absurd he (hc0.obj_new (he ▸ hne) c hlt)
    · subst heq
      rw [hnew] at hne he
      rw [hold d hlt2] at he
      exact absurd he.symm (hc0.obj_new hne d hlt2)
    · omega
  · intro c hc hne
    rw [hnb] at hc
    rcases hcases c hc with hlt | heq
    · rw [hold c hlt] at hne ⊢; exact h.T.dtor c hlt hne
    · subst heq
      rw [hnew] at hne ⊢
      rw [hc0.strong]
      simpa using hc0.dtor hne
  · intro c hc hne
    rw [hnb] at hc
    rcases hcases c hc with hlt | heq
    · rw [hold c hlt] at hne ⊢; exact h.T.ctor c hlt hne
    · subst heq
      rw [hnew] at hne ⊢
      exact hc0.ctor hne
  · intro c hc
    rw [hnb] at hc
    rcases hcases c hc with hlt | heq
    · rw [hold c hlt]; exact h.F c hlt
    · subst heq
      rw [hnew, hc0.strong, hc0.frees]
      simp
  · exact h.M.transferM (le_refl _) (fun _ => rfl) rfl

/-! ## Tearing down the managed object -/

/-- The release of the last strong unit of block `b` by handle `i`, up to the point
where the object has been torn down: any heap `t` that differs from `s` as described
is well-formed, with `delete block_` still due when no weak unit is left. -/
theorem Inv.teardown {esft : Bool} {s t : Heap} (h : Inv esft none s) {i b : Nat}
    (hi : i < s.nsps) (hb : (s.sps i).block_ = some b) (h1 : (s.blocks b).strong_cnt = 1)
    (hsps : t.sps = Function.update s.sps i
      { live := (s.sps i).live, block_ := none, ptr_ := 0, heap := (s.sps i).heap })
    (hnsps : t.nsps = s.nsps) (hwps : t.wps = s.wps) (hnwps : t.nwps = s.nwps)
    (hnb : t.nblocks = s.nblocks) (hno : t.nobjs = s.nobjs) (hf : t.fault = s.fault)
    (hbo : ∀ c, c ≠ b → t.blocks c = s.blocks c)
    (hstrong : (t.blocks b).strong_cnt = 0) (hweak : (t.blocks b).weak_cnt = (s.blocks b).weak_cnt)
    (hemp : (t.blocks b).emplace = (s.blocks b).emplace)
    (hobj : (t.blocks b).obj = (s.blocks b).obj)
    (hclr : (t.blocks b).clear_calls = (s.blocks b).clear_calls + 1)
    (hfr : (t.blocks b).frees = (s.blocks b).frees)
    (hflag : (s.blocks b).emplace = true → (t.blocks b).is_delete_ = true)
    (hptr : (s.blocks b).emplace = false → (t.blocks b).ptr_ = 0)
    (hslot : ∀ p, (t.objs p).weak_this_ = (s.objs p).weak_this_)
    (hctor : ∀ p, (t.objs p).ctor_runs = (s.objs p).ctor_runs)
    (hdtor : ∀ p, (t.objs p).dtor_runs =
      (s.objs p).dtor_runs + if p = (s.blocks b).obj ∧ p ≠ 0 then 1 else 0) :
    Inv esft (if (s.blocks b).weak_cnt = 0 then some b else none) t := by
  obtain ⟨hl, hbn⟩ := h.C.sps_ok i b hi hb
  have hs := h.C.strong b hbn
  unfold Heap.liveShared at hs
  refine ⟨⟨?_, ?_, ?_, ?_, hnsps ▸ h.C.cap_s, hnwps ▸ h.C.cap_w⟩,
    ⟨?_, ?_, ?_, ?_, ?_, ?_, ?_, ?pr⟩, ?_, ⟨?_, hf ▸ h.M.no_overflow, hf ▸ h.M.no_fault⟩⟩
  case pr =>
    intro p hp hun
    rw [hno] at hp
    have hun' : ∀ c, c < s.nblocks → (s.blocks c).obj ≠ p := by
      intro c hc
      have := hun c (by rw [hnb]; exact hc)
      by_cases hcb : c = b
      · subst hcb; rwa [hobj] at this
      · rwa [hbo c hcb] at this
    rw [hdtor]
    have hne : ¬ (p = (s.blocks b).obj ∧ p ≠ 0) := fun hx => hun' b hbn hx.1.symm
    simp only [hne, if_false, Nat.add_zero]
    exact h.T.pristine p hp hun'
  · intro k c hk hc
    rw [hnsps] at hk
    rw [hsps] at hc ⊢
    rw [hnb]
    by_cases hx : k = i
    · subst hx; simp at hc
    · simp only [Function.update_noteq hx] at hc ⊢
      exact h.C.sps_ok k c hk hc
  · intro w c hw hc
    rw [hnwps] at hw
    rw [hwps] at hc ⊢
    rw [hnb]
    exact h.C.wps_ok w c hw hc
  · intro c hc
    rw [hnb] at hc
    have h0 := h.C.strong c hc
    unfold Heap.liveShared at h0 ⊢
    rw [hsps, hnsps]
    have h2 := cnt_update_lt s.sps
      { live := (s.sps i).live, block_ := none, ptr_ := 0, heap := (s.sps i).heap } c hi
    have h3 : ind ({ live := (s.sps i).live, block_ := none, ptr_ := 0,
                     heap := (s.sps i).heap } : Handle) c = 0 := ind_of_block_none rfl c
    by_cases hcb : c = b
    · subst hcb
      have := ind_of_live hl hb
      omega
    · rw [hbo c hcb]
      have := ind_of_ne (b := c) hb (fun e => hcb e.symm)
      omega
  · intro c hc
    rw [hnb] at hc
    have h0 := h.C.weak c hc
    unfold Heap.liveWeak at h0 ⊢
    rw [hwps, hnwps]
    by_cases hcb : c = b
    · subst hcb; rw [hweak]; exact h0
    · rw [hbo c hcb]; exact h0
  · intro c hc
    rw [hnb] at hc
    by_cases hcb : c = b
    · subst hcb
      have := h.T.clears c hc
      rw [h1] at this
      simp only [hstrong, hclr, this, if_true]
      simp
    · rw [hbo c hcb]; exact h.T.clears c hc
  · intro c hc
    rw [hnb] at hc
    by_cases hcb : c = b
    · subst hcb
      intro he
      rw [hemp] at he
      simp only [hstrong, hflag he, hobj, true_iff, true_and]
      exact (h.T.flag c hc he).2
    · rw [hbo c hcb]; exact h.T.flag c hc
  · intro c hc
    rw [hnb] at hc
    by_cases hcb : c = b
    · subst hcb
      intro he
      rw [hemp] at he
      simp only [hstrong, hptr he, if_true]
    · rw [hbo c hcb]; exact h.T.ptr c hc
  · intro c hc
    rw [hnb] at hc
    rw [hno]
    by_cases hcb : c = b
    · subst hcb; rw [hobj]; exact h.T.obj_le c hc
    · rw [hbo c hcb]; exact h.T.obj_le c hc
  · intro c d hc hd hne he
    rw [hnb] at hc hd
    have e1 : (t.blocks c).obj = (s.blocks c).obj := by
      by_cases hcb : c = b
      · subst hcb; exact hobj
      · rw [hbo c hcb]
    have e2 : (t.blocks d).obj = (s.blocks d).obj := by
      by_cases hdb : d = b
      · subst hdb; exact hobj
      · rw [hbo d hdb]
    rw [e1] at hne he
    rw [e2] at he
    exact h.T.obj_inj c d hc hd hne he
  · intro c hc hne
    rw [hnb] at hc
    by_cases hcb : c = b
    · subst hcb
      rw [hobj] at hne ⊢
      have := h.T.dtor c hc hne
      rw [h1] at this
      rw [hdtor, hstrong]
      simp [this, hne]
    · rw [hbo c hcb] at hne ⊢
      have := h.T.dtor c hc hne
      rw [hdtor]
      have hne2 : ¬ ((s.blocks c).obj = (s.blocks b).obj ∧ (s.blocks c).obj ≠ 0) := by
        intro hx
        exact hcb (h.T.obj_inj c b hc hbn hne hx.1)
      simp only [hne2, if_false, Nat.add_zero]
      exact this
  · intro c hc hne
    rw [hnb] at hc
    by_cases hcb : c = b
    · subst hcb
      rw [hobj] at hne ⊢
      rw [hctor]; exact h.T.ctor c hc hne
    · rw [hbo c hcb] at hne ⊢
      rw [hctor]; exact h.T.ctor c hc hne
  · intro c hc
    rw [hnb] at hc
    have h0 := h.F c hc
    by_cases hcb : c = b
    · subst hcb
      rw [hfr, hstrong, hweak]
      rw [h1] at h0
      by_cases hw0 : (s.blocks c).weak_cnt = 0
      · simp [hw0] at h0 ⊢; omega
      · simp [hw0] at h0 ⊢; omega
    · rw [hbo c hcb]
      have hne : (if (s.blocks b).weak_cnt = 0 then some b else none) ≠ some c := by
        split
        · intro hx; exact hcb (Option.some.inj hx).symm
        · simp
      simp only [hne, if_false]
      simpa using h0
  · intro p w hpw
    rw [hslot] at hpw
    rw [hnwps]
    exact h.M.slot_ok p w hpw

/-! ## The release protocol preserves well-formedness -/

theorem decr_one : decr 1 = 0 := by
  unfold decr SIZE_T_MOD; rfl

theorem ClearPtr_eq (esft : Bool) (d b : Nat) (s : Heap) :
    ClearPtr esft d b s =
      if (s.blocks b).emplace = true then
        if (s.blocks b).is_delete_ = true then
          s.modBlock b (fun c => { c with clear_calls := c.clear_calls + 1 })
        else
          exec esft d (Task.destroy (s.blocks b).obj)
            ((s.modBlock b (fun c => { c with clear_calls := c.clear_calls + 1 })).modBlock b
              (fun c => { c with is_delete_ := true }))
      else
        if (s.blocks b).ptr_ ≠ 0 then
          exec esft d (Task.destroy (s.blocks b).ptr_)
            ((s.modBlock b (fun c => { c with clear_calls := c.clear_calls + 1 })).modBlock b
              (fun c => { c with ptr_ := 0 }))
        else s.modBlock b (fun c => { c with clear_calls := c.clear_calls + 1 }) := rfl

theorem ClearPtr_setShared (esft : Bool) (d b i : Nat) (k : Handle) (s : Heap) :
    ClearPtr esft d b (s.setShared i k) = (ClearPtr esft d b s).setShared i k := by
  simp only [ClearPtr_eq, Heap.setShared_blocks, Heap.setShared_modBlock, exec_setShared]
  split
  · split <;> rfl
  · split <;> rfl

theorem ClearPtr_frame (esft : Bool) (d b : Nat) (s : Heap) :
    (ClearPtr esft d b s).sps = s.sps ∧ (ClearPtr esft d b s).nsps = s.nsps ∧
    (ClearPtr esft d b s).nwps = s.nwps ∧ (ClearPtr esft d b s).nblocks = s.nblocks ∧
    (ClearPtr esft d b s).nobjs = s.nobjs := by
  rw [ClearPtr_eq]
  split
  · split
    · simp
    · have := exec_frame esft d (Task.destroy (s.blocks b).obj)
        ((s.modBlock b fun c => { c with clear_calls := c.clear_calls + 1 }).modBlock b
          fun c => { c with is_delete_ := true })
      simpa using this
  · split
    · have := exec_frame esft d (Task.destroy (s.blocks b).ptr_)
        ((s.modBlock b fun c => { c with clear_calls := c.clear_calls + 1 }).modBlock b
          fun c => { c with ptr_ := 0 })
      simpa using this
    · simp

/-- Executing the `delete block_` that is still due. -/
theorem Inv.free_pending {esft : Bool} {s : Heap} {b : Nat} (h : Inv esft (some b) s)
    (hb : b < s.nblocks) (n : Nat) : Inv esft none (exec esft (n + 1) (Task.deleteBlock b) s) := by
  have hF := h.F b hb
  simp only [if_true] at hF
  have h0 : (s.blocks b).strong_cnt = 0 ∧ (s.blocks b).weak_cnt = 0 := by
    by_contra hx
    simp only [hx, if_false] at hF
    omega
  have hfr : (s.blocks b).frees = 0 := by
    simp only [h0, and_self, if_true] at hF
    omega
  have hcl : (s.blocks b).cleared := by
    unfold ControlBlock.cleared
    split
    · rename_i he
      exact ((h.T.flag b hb he).1).2 h0.1
    · rename_i he
      have := h.T.ptr b hb (by simpa using he)
      simpa [h0.1] using this
  rw [exec_deleteBlock_cleared esft n b s hcl]
  have hcore : ∀ c, ((s.modBlock b fun c => { c with frees := c.frees + 1 }).blocks c).sameCore
      (s.blocks c) := by
    intro c
    by_cases hcb : c = b
    · subst hcb; simp [ControlBlock.sameCore]
    · simp [Function.update_noteq hcb, ControlBlock.sameCore_refl]
  refine ⟨⟨h.C.sps_ok, h.C.wps_ok, ?_, ?_, h.C.cap_s, h.C.cap_w⟩, ?_, ?_, ?_⟩
  · intro c hc
    have := h.C.strong c hc
    by_cases hcb : c = b
    · subst hcb; simpa [Heap.liveShared] using this
    · simpa [Heap.liveShared, Function.update_noteq hcb] using this
  · intro c hc
    have := h.C.weak c hc
    by_cases hcb : c = b
    · subst hcb; simpa [Heap.liveWeak] using this
    · simpa [Heap.liveWeak, Function.update_noteq hcb] using this
  · exact h.T.transferT rfl (le_refl _) (fun c _ => hcore c) (fun _ _ => rfl) (fun _ _ => rfl)
      (fun p h1 h2 => absurd h2 (by simpa using h1))
  · intro c hc
    have := h.F c hc
    by_cases hcb : c = b
    · subst hcb
      simp [h0, hfr]
    · have hne : ¬ (b = c) := fun e => hcb e.symm
      simpa [Function.update_noteq hcb, hne] using this
  · exact h.M.transferM (le_refl _) (fun _ => rfl) rfl

/-- Running the destructor of the object at `p`: once the destructor has been counted
the heap is well-formed, and the weak handle in the capability slot (if any) is
released and destroyed. -/
theorem Inv.destroy_cascade {esft : Bool} {pend : Option Nat} {y : Heap} {p : Addr}
    (hZ : Inv esft pend (y.modObj p (fun o => { o with dtor_runs := o.dtor_runs + 1 })))
    (hp : ∀ w b, (y.objs p).weak_this_ = some w → (y.wps w).block_ = some b → pend ≠ some b)
    (n : Nat) : Inv esft pend (exec esft (n + 3) (Task.destroy p) y) := by
  rw [exec_destroy_succ]
  split
  · split
    · rename_i w hw
      have hwlt : w < y.nwps := by
        have := hZ.M.slot_ok p w (by simpa using hw)
        simpa using this
      cases hbw : (y.wps w).block_ with
      | none =>
        rw [exec_weakDeleteBlock_none esft (n + 1) w _ (by simpa using hbw)]
        have h1 := hZ.setWeak_same w
          { live := (y.wps w).live, block_ := (y.wps w).block_, ptr_ := 0,
            heap := (y.wps w).heap }
          (fun c => by simp [ind]) (fun c hc => ⟨by simpa using hc, by
            simp [hbw] at hc⟩)
        have h2 := h1.setWeak_same w
          { live := false, block_ := (y.wps w).block_, ptr_ := 0, heap := (y.wps w).heap }
          (fun c => by simp [ind, hbw]) (fun c hc => by simp [hbw] at hc)
        simpa [Heap.setWeak, Function.update_idem] using h2
      | some b =>
        have hwb : ((y.modObj p fun o => { o with dtor_runs := o.dtor_runs + 1 }).wps w).block_
            = some b := by simpa using hbw
        obtain ⟨hl, hbn⟩ := hZ.C.wps_ok w b hwlt hwb
        have hc : ((y.modObj p fun o => { o with dtor_runs := o.dtor_runs + 1 }).blocks b).strong_cnt
            = 0 → ((y.modObj p fun o => { o with dtor_runs := o.dtor_runs + 1 }).blocks b).cleared := by
          intro h0
          have h0' : (y.blocks b).strong_cnt = 0 := by simpa using h0
          unfold ControlBlock.cleared
          split
          · rename_i he
            exact ((hZ.T.flag b hbn he).1).2 h0
          · rename_i he
            have := hZ.T.ptr b hbn (by simpa using he)
            simpa [h0'] using this
        rw [exec_weakDeleteBlock_some esft n w b _ hwb hc]
        have h1 := hZ.weak_release hwlt hwb (hp w b hw hbw)
        have h2 := h1.setWeak_same w
          { live := false, block_ := none, ptr_ := 0, heap := (y.wps w).heap }
          (fun c => by simp [ind]) (fun c hc => by simp at hc)
        simpa [weakReleased, Heap.setWeak, Function.update_idem] using h2
    · exact hZ
  · exact hZ

theorem SharedPtr.DeleteBlock_none (esft : Bool) (d i : Nat) (s : Heap)
    (hb : (s.sps i).block_ = none) :
    SharedPtr.DeleteBlock esft d i s =
      s.setShared i { live := (s.sps i).live, block_ := (s.sps i).block_, ptr_ := 0,
                      heap := (s.sps i).heap } := by
  simp only [SharedPtr.DeleteBlock, hb]

theorem SharedPtr.DeleteBlock_keep (esft : Bool) (d i b : Nat) (s : Heap)
    (hb : (s.sps i).block_ = some b) (hne : decr (s.blocks b).strong_cnt ≠ 0) :
    SharedPtr.DeleteBlock esft d i s =
      (s.modBlock b (fun c => { c with strong_cnt := decr c.strong_cnt })).setShared i
        { live := (s.sps i).live, block_ := none, ptr_ := 0, heap := (s.sps i).heap } := by
  simp only [SharedPtr.DeleteBlock, hb, Heap.modBlock_blocks, Function.update_same, hne,
    if_false, Heap.modBlock_sps]

theorem SharedPtr.DeleteBlock_last (esft : Bool) (d i b : Nat) (s : Heap)
    (hb : (s.sps i).block_ = some b) (h0 : decr (s.blocks b).strong_cnt = 0) :
    SharedPtr.DeleteBlock esft d i s =
      if (s.blocks b).weak_cnt = 0 then
        exec esft d (Task.deleteBlock b)
          (ClearPtr esft d b
            ((s.modBlock b (fun c => { c with strong_cnt := decr c.strong_cnt })).setShared i
              { live := (s.sps i).live, block_ := none, ptr_ := 0, heap := (s.sps i).heap }))
      else
        ClearPtr esft d b
          ((s.modBlock b (fun c => { c with strong_cnt := decr c.strong_cnt })).setShared i
            { live := (s.sps i).live, block_ := none, ptr_ := 0, heap := (s.sps i).heap }) := by
  simp only [SharedPtr.DeleteBlock, hb, Heap.modBlock_blocks, Function.update_same, h0,
    if_true]
  split
  · rw [ClearPtr_setShared, exec_setShared]
    simp only [(exec_frame esft _ _ _).1, (ClearPtr_frame esft _ _ _).1, Heap.modBlock_sps]
  · rw [ClearPtr_setShared]
    simp only [(ClearPtr_frame esft _ _ _).1, Heap.modBlock_sps]

/-- The call of `ClearPtr` made by the release of the last strong unit. -/
theorem Inv.clearPtr_last {esft : Bool} {s : Heap} (h : Inv esft none s) {i b : Nat}
    (hi : i < s.nsps) (hb : (s.sps i).block_ = some b) (h1 : (s.blocks b).strong_cnt = 1)
    (n : Nat) :
    Inv esft (if (s.blocks b).weak_cnt = 0 then some b else none)
      (ClearPtr esft (n + 3) b
        ((s.modBlock b (fun c => { c with strong_cnt := decr c.strong_cnt })).setShared i
          { live := (s.sps i).live, block_ := none, ptr_ := 0, heap := (s.sps i).heap })) := by
  obtain ⟨hl, hbn⟩ := h.C.sps_ok i b hi hb
  have hp : ∀ w c, w < s.nwps → (s.wps w).block_ = some c →
      (if (s.blocks b).weak_cnt = 0 then some b else none) ≠ some c := by
    intro w c hw hwc
    split
    · rename_i hw0
      intro hx
      have hcb : b = c := Option.some.inj hx
      subst hcb
      obtain ⟨hwl, _⟩ := h.C.wps_ok w b hw hwc
      have h2 := h.C.weak b hbn
      have h3 := ind_le_cnt s.wps b hw
      have h4 := ind_of_live hwl hwc
      unfold Heap.liveWeak at h2
      omega
    · simp
  rw [ClearPtr_eq]
  simp only [Heap.setShared_blocks, Heap.modBlock_blocks, Function.update_same, h1, decr_one]
  by_cases he : (s.blocks b).emplace = true
  · have hfl := h.T.flag b hbn he
    have hnd : ¬ ((s.blocks b).is_delete_ = true) := by
      intro hx
      have := hfl.1.1 hx
      omega
    simp only [he, if_true, hnd, if_false]
    refine Inv.destroy_cascade ?_ ?_ n
    · refine h.teardown hi hb h1 rfl rfl rfl rfl rfl rfl rfl ?_ ?_ ?_ ?_ ?_ ?_ ?_ ?_ ?_ ?_ ?_ ?_
      · intro c hcb; simp [Function.update_noteq hcb]
      · simp [h1, decr_one]
      · simp
      · simp
      · simp
      · simp
      · simp
      · intro _; simp
      · intro hx; simp [he] at hx
      · intro p
        by_cases hpo : p = (s.blocks b).obj
        · subst hpo; simp
        · simp [Function.update_noteq hpo]
      · intro p
        by_cases hpo : p = (s.blocks b).obj
        · subst hpo; simp
        · simp [Function.update_noteq hpo]
      · intro p
        by_cases hpo : p = (s.blocks b).obj
        · subst hpo; simp [hfl.2]
        · simp [Function.update_noteq hpo, hpo]
    · intro w c hw hwc
      exact hp w c (h.M.slot_ok _ w (by simpa using hw)) (by simpa using hwc)
  · have he' : (s.blocks b).emplace = false := by simpa using he
    have hpt := h.T.ptr b hbn he'
    simp only [h1, one_ne_zero, if_false] at hpt
    simp only [he, if_false, hpt]
    by_cases ho : (s.blocks b).obj = 0
    · simp only [ho, ne_eq, not_true_eq_false, if_false]
      refine h.teardown hi hb h1 rfl rfl rfl rfl rfl rfl rfl ?_ ?_ ?_ ?_ ?_ ?_ ?_ ?_ ?_ ?_ ?_ ?_
      · intro c hcb; simp [Function.update_noteq hcb]
      · simp [h1, decr_one]
      · simp
      · simp
      · simp
      · simp
      · simp
      · intro hx; simp [he'] at hx
      · intro _; simp [hpt, ho]
      · intro p; rfl
      · intro p; rfl
      · intro p; simp [ho]
    · simp only [ne_eq, ho, not_false_eq_true, if_true]
      refine Inv.destroy_cascade ?_ ?_ n
      · refine h.teardown hi hb h1 rfl rfl rfl rfl rfl rfl rfl ?_ ?_ ?_ ?_ ?_ ?_ ?_ ?_ ?_ ?_ ?_ ?_
        · intro c hcb; simp [Function.update_noteq hcb]
        · simp [h1, decr_one]
        · simp
        · simp
        · simp
        · simp
        · simp
        · intro hx; simp [he'] at hx
        · intro _; simp
        · intro p
          by_cases hpo : p = (s.blocks b).obj
          · subst hpo; simp
          · simp [Function.update_noteq hpo]
        · intro p
          by_cases hpo : p = (s.blocks b).obj
          · subst hpo; simp
          · simp [Function.update_noteq hpo]
        · intro p
          by_cases hpo : p = (s.blocks b).obj
          · subst hpo; simp [ho]
          · simp [Function.update_noteq hpo, hpo]
      · intro w c hw hwc
        exact hp w c (h.M.slot_ok _ w (by simpa using hw)) (by simpa using hwc)

/-- Running `SharedPtr::DeleteBlock` keeps the heap well-formed. -/
theorem Inv.shared_deleteBlock {esft : Bool} {s : Heap} (h : Inv esft none s) {i : Nat}
    (hi : i < s.nsps) (n : Nat) : Inv esft none (SharedPtr.DeleteBlock esft (n + 3) i s) := by
  cases hb : (s.sps i).block_ with
  | none =>
    rw [SharedPtr.DeleteBlock_none esft _ i s hb]
    exact h.setShared_same i _ (fun c => by simp [ind, hb]) (fun c hc => by simp [hb] at hc)
  | some b =>
    obtain ⟨hl, hbn⟩ := h.C.sps_ok i b hi hb
    have hs := h.C.strong b hbn
    have h1 := ind_le_cnt s.sps b hi
    have h2 := ind_of_live hl hb
    have h3 := cnt_le s.sps s.nsps b
    have h4 := h.C.cap_s
    unfold Heap.liveShared at hs
    by_cases hone : (s.blocks b).strong_cnt = 1
    · rw [SharedPtr.DeleteBlock_last esft _ i b s hb (by rw [hone, decr_one])]
      have hc := h.clearPtr_last hi hb hone n
      split
      · rename_i hw0
        simp only [hw0, if_true] at hc
        refine hc.free_pending ?_ (n + 2)
        rw [(ClearPtr_frame esft _ _ _).2.2.2.1]
        exact hbn
      · rename_i hw0
        simpa only [hw0, if_false] using hc
    · have hdec : decr (s.blocks b).strong_cnt = (s.blocks b).strong_cnt - 1 :=
        decr_eq (by omega) (by omega)
      rw [SharedPtr.DeleteBlock_keep esft _ i b s hb (by rw [hdec]; omega)]
      exact h.release_shared hi hb (by omega)

/-- Running `WeakPtr::DeleteBlock` keeps the heap well-formed. -/
theorem Inv.weak_deleteBlock {esft : Bool} {s : Heap} (h : Inv esft none s) {w : Nat}
    (hw : w < s.nwps) (n : Nat) : Inv esft none (WeakPtr.DeleteBlock esft (n + 1) w s) := by
  unfold WeakPtr.DeleteBlock
  cases hb : (s.wps w).block_ with
  | none =>
    rw [exec_weakDeleteBlock_none esft _ w s hb]
    exact h.setWeak_same w _ (fun c => by simp [ind, hb]) (fun c hc => by simp [hb] at hc)
  | some b =>
    obtain ⟨hl, hbn⟩ := h.C.wps_ok w b hw hb
    have hc : (s.blocks b).strong_cnt = 0 → (s.blocks b).cleared := by
      intro h0
      unfold ControlBlock.cleared
      split
      · rename_i he
        exact ((h.T.flag b hbn he).1).2 h0
      · rename_i he
        have := h.T.ptr b hbn (by simpa using he)
        simpa [h0] using this
    rw [exec_weakDeleteBlock_some esft n w b s hb hc]
    exact h.weak_release hw hb (by simp)

/-! ## Frame properties of the release functions -/

theorem exec_obj (esft : Bool) : ∀ (n : Nat) (t : Task) (s : Heap) (c : Nat),
    ((exec esft n t s).blocks c).obj = (s.blocks c).obj := by
  intro n
  induction n with
  | zero => intro t s c; simp [exec]
  | succ n ih =>
    intro t s c
    cases t with
    | destroy p =>
      simp only [exec]
      split
      · split <;> simp [ih]
      · simp
    | weakDeleteBlock w =>
      simp only [exec]
      split
      · rename_i b hb
        split
        · simp only [Heap.setWeak_blocks, ih, Heap.modBlock_blocks]
          by_cases hcb : c = b
          · subst hcb; simp
          · simp [Function.update_noteq hcb]
        · simp only [Heap.setWeak_blocks, Heap.modBlock_blocks]
          by_cases hcb : c = b
          · subst hcb; simp
          · simp [Function.update_noteq hcb]
      · simp
    | deleteBlock b =>
      simp only [exec]
      have key : ∀ x : Heap, ((x.modBlock b fun c => { c with frees := c.frees + 1 }).blocks c).obj
          = (x.blocks c).obj := by
        intro x
        by_cases hcb : c = b
        · subst hcb; simp
        · simp [Function.update_noteq hcb]
      split
      · split <;> simp only [key, ih]
      · split <;> simp only [key, ih]

theorem ClearPtr_obj (esft : Bool) (d b : Nat) (s : Heap) (c : Nat) :
    ((ClearPtr esft d b s).blocks c).obj = (s.blocks c).obj := by
  rw [ClearPtr_eq]
  by_cases hcb : c = b
  · subst hcb
    split
    · split <;> simp [exec_obj]
    · split <;> simp [exec_obj]
  · split
    · split <;> simp [exec_obj, Function.update_noteq hcb]
    · split <;> simp [exec_obj, Function.update_noteq hcb]

theorem SharedPtr.DeleteBlock_frame (esft : Bool) (d i : Nat) (s : Heap) :
    (SharedPtr.DeleteBlock esft d i s).sps =
      Function.update s.sps i
        { live := (s.sps i).live, block_ := none, ptr_ := 0, heap := (s.sps i).heap } ∧
    (SharedPtr.DeleteBlock esft d i s).nsps = s.nsps ∧
    (SharedPtr.DeleteBlock esft d i s).nwps = s.nwps ∧
    (SharedPtr.DeleteBlock esft d i s).nblocks = s.nblocks ∧
    (SharedPtr.DeleteBlock esft d i s).nobjs = s.nobjs ∧
    ∀ c, ((SharedPtr.DeleteBlock esft d i s).blocks c).obj = (s.blocks c).obj := by
  cases hb : (s.sps i).block_ with
  | none =>
    rw [SharedPtr.DeleteBlock_none esft d i s hb]
    simp [hb]
  | some b =>
    have key : ∀ c, ((s.modBlock b fun c => { c with strong_cnt := decr c.strong_cnt }).blocks c).obj
        = (s.blocks c).obj := by
      intro c
      by_cases hcb : c = b
      · subst hcb; simp
      · simp [Function.update_noteq hcb]
    by_cases h0 : decr (s.blocks b).strong_cnt = 0
    · rw [SharedPtr.DeleteBlock_last esft d i b s hb h0]
      split
      · have h1 := exec_frame esft d (Task.deleteBlock b) (ClearPtr esft d b
          ((s.modBlock b (fun c => { c with strong_cnt := decr c.strong_cnt })).setShared i
            { live := (s.sps i).live, block_ := none, ptr_ := 0, heap := (s.sps i).heap }))
        have h2 := ClearPtr_frame esft d b
          ((s.modBlock b (fun c => { c with strong_cnt := decr c.strong_cnt })).setShared i
            { live := (s.sps i).live, block_ := none, ptr_ := 0, heap := (s.sps i).heap })
        refine ⟨by rw [h1.1, h2.1]; rfl, by rw [h1.2.1, h2.2.1]; rfl, by rw [h1.2.2.1, h2.2.2.1]; rfl,
          by rw [h1.2.2.2.1, h2.2.2.2.1]; rfl, by rw [h1.2.2.2.2, h2.2.2.2.2]; rfl, ?_⟩
        intro c
        rw [exec_obj, ClearPtr_obj]
        exact key c
      · have h2 := ClearPtr_frame esft d b
          ((s.modBlock b (fun c => { c with strong_cnt := decr c.strong_cnt })).setShared i
            { live := (s.sps i).live, block_ := none, ptr_ := 0, heap := (s.sps i).heap })
        refine ⟨by rw [h2.1]; rfl, by rw [h2.2.1]; rfl, by rw [h2.2.2.1]; rfl,
          by rw [h2.2.2.2.1]; rfl, by rw [h2.2.2.2.2]; rfl, ?_⟩
        intro c
        rw [ClearPtr_obj]
        exact key c
    · rw [SharedPtr.DeleteBlock_keep esft d i b s hb h0]
      exact ⟨rfl, rfl, rfl, rfl, rfl, key⟩

theorem WeakPtr.DeleteBlock_wframe (esft : Bool) (d w : Nat) (s : Heap) :
    (WeakPtr.DeleteBlock esft d w s).sps = s.sps ∧
    (WeakPtr.DeleteBlock esft d w s).nsps = s.nsps ∧
    (WeakPtr.DeleteBlock esft d w s).nwps = s.nwps ∧
    (WeakPtr.DeleteBlock esft d w s).nblocks = s.nblocks ∧
    (WeakPtr.DeleteBlock esft d w s).nobjs = s.nobjs :=
  exec_frame esft (d + 1) (Task.weakDeleteBlock w) s

/-- The handle after `WeakPtr::DeleteBlock` on a well-formed heap. -/
theorem Inv.weak_deleteBlock_wps {esft : Bool} {s : Heap} (h : Inv esft none s) {w : Nat}
    (hw : w < s.nwps) (n : Nat) :
    (WeakPtr.DeleteBlock esft (n + 1) w s).wps =
      Function.update s.wps w
        { live := (s.wps w).live, block_ := none, ptr_ := 0, heap := (s.wps w).heap } := by
  unfold WeakPtr.DeleteBlock
  cases hb : (s.wps w).block_ with
  | none =>
    rw [exec_weakDeleteBlock_none esft _ w s hb]
    simp [hb]
  | some b =>
    obtain ⟨hl, hbn⟩ := h.C.wps_ok w b hw hb
    have hc : (s.blocks b).strong_cnt = 0 → (s.blocks b).cleared := by
      intro h0
      unfold ControlBlock.cleared
      split
      · rename_i he
        exact ((h.T.flag b hbn he).1).2 h0
      · rename_i he
        have := h.T.ptr b hbn (by simpa using he)
        simpa [h0] using this
    rw [exec_weakDeleteBlock_some esft n w b s hb hc]
    simp

/-! ## Wiring the capability slot -/

theorem Inv.setFault {esft : Bool} {pend : Option Nat} {s : Heap} (h : Inv esft pend s)
    (he : esft = true) (x : Fault) (hx : x ≠ Fault.stackOverflow) :
    Inv esft pend { s with fault := some x } :=
  ⟨⟨h.C.sps_ok, h.C.wps_ok, h.C.strong, h.C.weak, h.C.cap_s, h.C.cap_w⟩,
   ⟨h.T.clears, h.T.flag, h.T.ptr, h.T.obj_le, h.T.obj_inj, h.T.dtor, h.T.ctor, h.T.pristine⟩,
   h.F,
   ⟨h.M.slot_ok, fun e => hx (Option.some.inj e), fun e => by simp [he] at e⟩⟩

theorem Inv.setSlot {esft : Bool} {pend : Option Nat} {s : Heap} (h : Inv esft pend s)
    (p : Addr) (w : Nat) (hw : w < s.nwps) :
    Inv esft pend (s.modObj p (fun o => { o with weak_this_ := some w })) := by
  refine ⟨⟨h.C.sps_ok, h.C.wps_ok, h.C.strong, h.C.weak, h.C.cap_s, h.C.cap_w⟩, ?_, h.F, ?_⟩
  · refine h.T.transferT rfl (le_refl _) (fun c _ => ControlBlock.sameCore_refl _) ?_ ?_
      (fun q h1 h2 => absurd h2 (by simpa using h1))
    · intro q _
      by_cases hq : q = p
      · subst hq; simp
      · simp [Function.update_noteq hq]
    · intro q _
      by_cases hq : q = p
      · subst hq; simp
      · simp [Function.update_noteq hq]
  · refine ⟨?_, h.M.no_overflow, h.M.no_fault⟩
    intro q v hqv
    by_cases hq : q = p
    · subst hq
      simp only [Heap.modObj_objs, Function.update_same, Option.some.injEq] at hqv
      subst hqv
      exact hw
    · simp only [Heap.modObj_objs, Function.update_noteq hq] at hqv
      exact h.M.slot_ok q v hqv

/-- Positivity of the strong count of a block that a live shared handle names. -/
theorem Inv.strong_pos {esft : Bool} {pend : Option Nat} {s : Heap} (h : Inv esft pend s)
    {i b : Nat} (hi : i < s.nsps) (hb : (s.sps i).block_ = some b) :
    b < s.nblocks ∧ 1 ≤ (s.blocks b).strong_cnt := by
  obtain ⟨hl, hbn⟩ := h.C.sps_ok i b hi hb
  have hs := h.C.strong b hbn
  have h1 := ind_le_cnt s.sps b hi
  have h2 := ind_of_live hl hb
  unfold Heap.liveShared at hs
  exact ⟨hbn, by omega⟩

/-- Positivity of the weak count of a block that a live weak handle names. -/
theorem Inv.weak_pos {esft : Bool} {pend : Option Nat} {s : Heap} (h : Inv esft pend s)
    {w b : Nat} (hw : w < s.nwps) (hb : (s.wps w).block_ = some b) :
    b < s.nblocks ∧ 1 ≤ (s.blocks b).weak_cnt := by
  obtain ⟨hl, hbn⟩ := h.C.wps_ok w b hw hb
  have hs := h.C.weak b hbn
  have h1 := ind_le_cnt s.wps b hw
  have h2 := ind_of_live hl hb
  unfold Heap.liveWeak at hs
  exact ⟨hbn, by omega⟩

/-- Building a weak handle with `WeakPtr(const SharedPtr<T>&)` keeps the heap well-formed. -/
theorem Inv.weak_fromShared {esft : Bool} {pend : Option Nat} {s : Heap} (h : Inv esft pend s)
    {i : Nat} (hi : i < s.nsps) (hcap : s.nwps + 1 < SIZE_T_MOD) :
    Inv esft pend (WeakPtr.fromShared i s) := by
  unfold WeakPtr.fromShared
  cases hb : (s.sps i).block_ with
  | none => exact h.newWeak_none _ hcap
  | some b =>
    obtain ⟨hbn, hpos⟩ := h.strong_pos hi hb
    exact h.acquire_weak _ hbn (Or.inl hpos) hcap

/-- Running `InitWeakThis` behind `if constexpr` keeps the heap well-formed. -/
theorem Inv.wire {esft : Bool} {pend : Option Nat} {s : Heap} (h : Inv esft pend s)
    {i : Nat} (hi : i < s.nsps) (hcap : s.nwps + 1 < SIZE_T_MOD) :
    Inv esft pend (SharedPtr.wire esft i s) := by
  unfold SharedPtr.wire
  split
  · rename_i he
    have h1 := h.weak_fromShared hi hcap
    have hnw : (WeakPtr.fromShared i s).nwps = s.nwps + 1 := by
      unfold WeakPtr.fromShared; split <;> rfl
    have h2 := h1.setWeak_same s.nwps
      { live := ((WeakPtr.fromShared i s).wps s.nwps).live,
        block_ := ((WeakPtr.fromShared i s).wps s.nwps).block_,
        ptr_ := ((WeakPtr.fromShared i s).wps s.nwps).ptr_, heap := true }
      (fun c => by simp [ind]) (fun c hc => ⟨hc, by
        have := (h1.C.wps_ok s.nwps c (by omega) hc).1
        exact this⟩)
    simp only [SharedPtr.InitWeakThis]
    split
    · exact h2.setFault he _ (by decide)
    · split
      · exact h2.setSlot _ _ (by simp [hnw])
      · exact h2.setFault he _ (by decide)
  · exact h

/-! ## Every operation keeps the heap well-formed -/

theorem Heap.liveS_iff (s : Heap) (i : Nat) :
    s.liveS i = true ↔ i < s.nsps ∧ (s.sps i).live = true := by
  simp [Heap.liveS]

theorem Heap.liveW_iff (s : Heap) (w : Nat) :
    s.liveW w = true ↔ w < s.nwps ∧ (s.wps w).live = true ∧ (s.wps w).heap = false := by
  simp [Heap.liveW, and_assoc]

theorem FreshBlock.null (s : Heap) :
    FreshBlock s { strong_cnt := 1, weak_cnt := 0, emplace := false, ptr_ := 0, obj := 0 } :=
  ⟨rfl, rfl, rfl, rfl, fun e => by simp at e, fun _ => rfl, Nat.zero_le _,
   fun e => absurd rfl e, fun e => absurd rfl e, fun e => absurd rfl e⟩

theorem Inv.fresh_pointer {esft : Bool} {s : Heap} (h : Inv esft none s) :
    FreshBlock s.newObj
      { strong_cnt := 1, weak_cnt := 0, emplace := false, ptr_ := s.nobjs + 1,
        obj := s.nobjs + 1 } := by
  refine ⟨rfl, rfl, rfl, rfl, fun e => by simp at e, fun _ => rfl, le_refl _, ?_, ?_, ?_⟩
  · intro _ c hc
    have hc' : c < s.nblocks := hc
    have := h.T.obj_le c hc'
    exact Nat.ne_of_lt (Nat.lt_succ_of_le this)
  · intro _; simp
  · intro _; simp

theorem Inv.fresh_emplace {esft : Bool} {s : Heap} (h : Inv esft none s) :
    FreshBlock s.newObj
      { strong_cnt := 1, weak_cnt := 0, emplace := true, is_delete_ := false,
        obj := s.nobjs + 1 } := by
  refine ⟨rfl, rfl, rfl, rfl, fun _ => ⟨rfl, by simp⟩, fun e => by simp at e, le_refl _,
    ?_, ?_, ?_⟩
  · intro _ c hc
    have hc' : c < s.nblocks := hc
    have := h.T.obj_le c hc'
    exact Nat.ne_of_lt (Nat.lt_succ_of_le this)
  · intro _; simp
  · intro _; simp

theorem Inv.addBlock_new {esft : Bool} {s : Heap} (h : Inv esft none s)
    {c0 : ControlBlock} (hc0 : FreshBlock s c0) (p : Addr) (hcap : s.nsps + 1 < SIZE_T_MOD) :
    Inv esft none ((s.addBlock c0).newShared (some s.nblocks) p) := by
  have h1 := h.newShared_none p hcap
  have hf : FreshBlock (s.newShared none p) c0 :=
    ⟨hc0.strong, hc0.weak, hc0.frees, hc0.clears, hc0.flag, hc0.ptr, hc0.obj_le, hc0.obj_new,
     hc0.dtor, hc0.ctor⟩
  have h2 := h1.addBlock_attach hf (i := s.nsps)
    { live := true, block_ := some s.nblocks, ptr_ := p } (by simp) (by simp) rfl rfl
  have e : (s.addBlock c0).newShared (some s.nblocks) p =
      ((s.newShared none p).addBlock c0).setShared s.nsps
        { live := true, block_ := some s.nblocks, ptr_ := p } := by
    simp [Heap.addBlock, Heap.newShared, Heap.setShared]
  rw [e]; exact h2

theorem Inv.op_default {esft : Bool} {s : Heap} (h : Inv esft none s)
    (hs : s.nsps + 1 < SIZE_T_MOD) (hw : s.nwps + 1 < SIZE_T_MOD) :
    Inv esft none (SharedPtr.default esft s) :=
  (h.newShared_none 0 hs).wire (by simp) hw

theorem Inv.op_fromRaw_new {esft : Bool} {s : Heap} (h : Inv esft none s)
    (hs : s.nsps + 1 < SIZE_T_MOD) (hw : s.nwps + 1 < SIZE_T_MOD) :
    Inv esft none (SharedPtr.fromRaw esft (s.nobjs + 1) s.newObj) :=
  ((h.newObj).addBlock_new h.fresh_pointer (s.nobjs + 1) hs).wire (by simp) hw

theorem Inv.op_fromRaw_null {esft : Bool} {s : Heap} (h : Inv esft none s)
    (hs : s.nsps + 1 < SIZE_T_MOD) (hw : s.nwps + 1 < SIZE_T_MOD) :
    Inv esft none (SharedPtr.fromRaw esft 0 s) :=
  (h.addBlock_new (FreshBlock.null s) 0 hs).wire (by simp) hw

theorem Inv.op_make {esft : Bool} {s : Heap} (h : Inv esft none s)
    (hs : s.nsps + 1 < SIZE_T_MOD) (hw : s.nwps + 1 < SIZE_T_MOD) :
    Inv esft none (MakeShared esft s) :=
  ((h.newObj).addBlock_new h.fresh_emplace (s.nobjs + 1) hs).wire (by simp) hw

theorem Inv.op_alias {esft : Bool} {s : Heap} (h : Inv esft none s) {j : Nat} (p : Addr)
    (hj : j < s.nsps) (hs : s.nsps + 1 < SIZE_T_MOD) (hw : s.nwps + 1 < SIZE_T_MOD) :
    Inv esft none (SharedPtr.alias esft j p s) := by
  unfold SharedPtr.alias
  cases hb : (s.sps j).block_ with
  | none => exact (h.newShared_none p hs).wire (by simp) hw
  | some b =>
    obtain ⟨hbn, hpos⟩ := h.strong_pos hj hb
    exact (h.acquire_shared p hbn hpos hs).wire (by simp) hw

theorem Inv.op_copy {esft : Bool} {s : Heap} (h : Inv esft none s) {j : Nat}
    (hj : j < s.nsps) (hs : s.nsps + 1 < SIZE_T_MOD) (hw : s.nwps + 1 < SIZE_T_MOD) :
    Inv esft none (SharedPtr.copy esft j s) := by
  unfold SharedPtr.copy
  cases hb : (s.sps j).block_ with
  | none => exact (h.newShared_none _ hs).wire (by simp) hw
  | some b =>
    obtain ⟨hbn, hpos⟩ := h.strong_pos hj hb
    exact (h.acquire_shared _ hbn hpos hs).wire (by simp) hw

theorem Inv.op_move {esft : Bool} {s : Heap} (h : Inv esft none s) {j : Nat}
    (hj : j < s.nsps) (hl : (s.sps j).live = true) (hs : s.nsps + 1 < SIZE_T_MOD)
    (hw : s.nwps + 1 < SIZE_T_MOD) :
    Inv esft none (SharedPtr.move esft j s) := by
  have hjn : j ≠ s.nsps := by omega
  have h1 := (h.move_shared hj hl hs).wire (i := s.nsps) (by simp) hw
  unfold SharedPtr.move
  simpa [Function.update_noteq hjn] using h1

theorem Inv.op_fromWeak {esft : Bool} {s : Heap} (h : Inv esft none s) {w : Nat}
    (hw : w < s.nwps) (hs : s.nsps + 1 < SIZE_T_MOD) :
    Inv esft none (settle s (SharedPtr.fromWeak w s)) := by
  unfold SharedPtr.fromWeak
  cases hb : (s.wps w).block_ with
  | none => exact h.newShared_none _ hs
  | some b =>
    by_cases h0 : (s.blocks b).strong_cnt = 0
    · simpa [h0, settle] using h
    · simp only [h0, if_false, settle]
      exact h.acquire_shared _ (h.weak_pos hw hb).1 (by omega) hs

theorem Inv.op_assign {esft : Bool} {s : Heap} (h : Inv esft none s) {i j : Nat}
    (hi : i < s.nsps) (hli : (s.sps i).live = true) (hj : j < s.nsps) (n : Nat) :
    Inv esft none (SharedPtr.assign esft (n + 3) i j s) := by
  unfold SharedPtr.assign
  split
  · exact h
  · rename_i hji
    have h1 := h.shared_deleteBlock hi n
    obtain ⟨f1, f2, f3, f4, f5, f6⟩ := SharedPtr.DeleteBlock_frame esft (n + 3) i s
    have hj1 : (SharedPtr.DeleteBlock esft (n + 3) i s).sps j = s.sps j := by
      rw [f1, Function.update_noteq hji]
    have hi1 : (SharedPtr.DeleteBlock esft (n + 3) i s).sps i =
        { live := (s.sps i).live, block_ := none, ptr_ := 0, heap := (s.sps i).heap } := by
      rw [f1, Function.update_same]
    have h2 := h1.setShared_same i
      { live := (s.sps i).live, block_ := none, ptr_ := (s.sps j).ptr_,
        heap := (s.sps i).heap }
      (fun c => by rw [hi1]; simp [ind]) (fun c hc => by simp at hc)
    simp only [hj1, hi1, Heap.setShared_sps, Function.update_noteq hji]
    cases hb : (s.sps j).block_ with
    | none => exact h2
    | some b =>
      simp only [Function.update_same]
      have hjb : ((SharedPtr.DeleteBlock esft (n + 3) i s).sps j).block_ = some b := by
        rw [hj1]; exact hb
      obtain ⟨hbn, hpos⟩ := h1.strong_pos (by rw [f2]; exact hj) hjb
      have h3 := h2.attach_shared (i := i) (b := b)
        { live := (s.sps i).live, block_ := some b, ptr_ := (s.sps j).ptr_,
          heap := (s.sps i).heap }
        (by simpa [f2] using hi) (by simp) hbn hpos hli rfl
      simpa [Heap.setShared, Function.update_idem] using h3

theorem Inv.op_moveAssign {esft : Bool} {s : Heap} (h : Inv esft none s) {i j : Nat}
    (hi : i < s.nsps) (hli : (s.sps i).live = true) (hj : j < s.nsps)
    (hlj : (s.sps j).live = true) (n : Nat) :
    Inv esft none (SharedPtr.moveAssign esft (n + 3) i j s) := by
  unfold SharedPtr.moveAssign
  split
  · exact h
  · rename_i hji
    have h1 := h.shared_deleteBlock hi n
    obtain ⟨f1, f2, f3, f4, f5, f6⟩ := SharedPtr.DeleteBlock_frame esft (n + 3) i s
    refine h1.swap_shared (by rw [f2]; exact hi) (by rw [f2]; exact hj) ?_ ?_
    · rw [f1, Function.update_same]; exact hli
    · rw [f1, Function.update_noteq hji]; exact hlj

theorem Inv.op_destroy {esft : Bool} {s : Heap} (h : Inv esft none s) {i : Nat}
    (hi : i < s.nsps) (n : Nat) : Inv esft none (SharedPtr.destroy esft (n + 3) i s) := by
  unfold SharedPtr.destroy
  have h1 := h.shared_deleteBlock hi n
  obtain ⟨f1, f2, f3, f4, f5, f6⟩ := SharedPtr.DeleteBlock_frame esft (n + 3) i s
  have hi1 : (SharedPtr.DeleteBlock esft (n + 3) i s).sps i =
      { live := (s.sps i).live, block_ := none, ptr_ := 0, heap := (s.sps i).heap } := by
    rw [f1, Function.update_same]
  refine h1.setShared_same i _ (fun c => ?_) (fun c hc => ?_)
  · rw [hi1]; simp [ind]
  · rw [hi1] at hc; simp at hc

theorem exec_ctor (esft : Bool) : ∀ (n : Nat) (t : Task) (s : Heap) (p : Addr),
    ((exec esft n t s).objs p).ctor_runs = (s.objs p).ctor_runs := by
  intro n
  induction n with
  | zero => intro t s p; simp [exec]
  | succ n ih =>
    intro t s p
    cases t with
    | destroy q =>
      have key : ((s.modObj q fun o => { o with dtor_runs := o.dtor_runs + 1 }).objs p).ctor_runs
          = (s.objs p).ctor_runs := by
        by_cases hpq : p = q
        · subst hpq; simp
        · simp [Function.update_noteq hpq]
      simp only [exec]
      split
      · split
        · simp only [Heap.setWeak_objs, ih, key]
        · exact key
      · exact key
    | weakDeleteBlock w =>
      simp only [exec]
      split
      · split <;> simp [ih]
      · simp
    | deleteBlock b =>
      simp only [exec]
      split
      · split <;> simp [ih]
      · split <;> simp [ih]

theorem SharedPtr.DeleteBlock_ctor (esft : Bool) (d i : Nat) (s : Heap) (p : Addr) :
    ((SharedPtr.DeleteBlock esft d i s).objs p).ctor_runs = (s.objs p).ctor_runs := by
  cases hb : (s.sps i).block_ with
  | none => rw [SharedPtr.DeleteBlock_none esft d i s hb]; rfl
  | some b =>
    have hcl : ∀ x : Heap, ((ClearPtr esft d b x).objs p).ctor_runs = (x.objs p).ctor_runs := by
      intro x
      rw [ClearPtr_eq]
      split
      · split <;> simp [exec_ctor]
      · split <;> simp [exec_ctor]
    by_cases h0 : decr (s.blocks b).strong_cnt = 0
    · rw [SharedPtr.DeleteBlock_last esft d i b s hb h0]
      split
      · rw [exec_ctor, hcl]; rfl
      · rw [hcl]; rfl
    · rw [SharedPtr.DeleteBlock_keep esft d i b s hb h0]; rfl

theorem Inv.op_resetNull {esft : Bool} {s : Heap} (h : Inv esft none s) {i : Nat}
    (hi : i < s.nsps) (hli : (s.sps i).live = true) (n : Nat) :
    Inv esft none (SharedPtr.ResetPtr esft (n + 3) i 0 s) := by
  unfold SharedPtr.ResetPtr
  have h1 := h.shared_deleteBlock hi n
  obtain ⟨f1, f2, f3, f4, f5, f6⟩ := SharedPtr.DeleteBlock_frame esft (n + 3) i s
  have hi1 : (SharedPtr.DeleteBlock esft (n + 3) i s).sps i =
      { live := (s.sps i).live, block_ := none, ptr_ := 0, heap := (s.sps i).heap } := by
    rw [f1, Function.update_same]
  have h2 := h1.setShared_same i
    { live := (s.sps i).live, block_ := none, ptr_ := 0, heap := (s.sps i).heap }
    (fun c => by rw [hi1]) (fun c hc => by simp at hc)
  have h3 := h2.addBlock_attach (FreshBlock.null _) (i := i)
    { live := (s.sps i).live, block_ := some (SharedPtr.DeleteBlock esft (n + 3) i s).nblocks,
      ptr_ := 0, heap := (s.sps i).heap }
    (by simpa [f2] using hi) (by simp) hli rfl
  simpa [hi1, Heap.newPointerBlock, Heap.addBlock, Heap.setShared] using h3

theorem Inv.op_resetNew {esft : Bool} {s : Heap} (h : Inv esft none s) {i : Nat}
    (hi : i < s.nsps) (hli : (s.sps i).live = true) (n : Nat) :
    Inv esft none (SharedPtr.ResetPtr esft (n + 3) i (s.nobjs + 1) s.newObj) := by
  unfold SharedPtr.ResetPtr
  have h0 := h.newObj
  have h1 := h0.shared_deleteBlock (s := s.newObj) hi n
  obtain ⟨f1, f2, f3, f4, f5, f6⟩ := SharedPtr.DeleteBlock_frame esft (n + 3) i s.newObj
  have hi1 : (SharedPtr.DeleteBlock esft (n + 3) i s.newObj).sps i =
      { live := (s.sps i).live, block_ := none, ptr_ := 0, heap := (s.sps i).heap } := by
    rw [f1, Function.update_same]; rfl
  have h2 := h1.setShared_same i
    { live := (s.sps i).live, block_ := none, ptr_ := s.nobjs + 1, heap := (s.sps i).heap }
    (fun c => by rw [hi1]; simp [ind]) (fun c hc => by simp at hc)
  have hnew : ∀ c, c < s.nblocks →
      ((SharedPtr.DeleteBlock esft (n + 3) i s.newObj).blocks c).obj ≠ s.nobjs + 1 := by
    intro c hc
    rw [f6]
    have := h.T.obj_le c hc
    exact Nat.ne_of_lt (Nat.lt_succ_of_le this)
  have hfresh : FreshBlock
      ((SharedPtr.DeleteBlock esft (n + 3) i s.newObj).setShared i
        { live := (s.sps i).live, block_ := none, ptr_ := s.nobjs + 1,
          heap := (s.sps i).heap })
      { strong_cnt := 1, weak_cnt := 0, emplace := false, ptr_ := s.nobjs + 1,
        obj := s.nobjs + 1 } := by
    refine ⟨rfl, rfl, rfl, rfl, fun e => by simp at e, fun _ => rfl, ?_, ?_, ?_, ?_⟩
    · show s.nobjs + 1 ≤ (SharedPtr.DeleteBlock esft (n + 3) i s.newObj).nobjs
      rw [f5]; exact le_refl _
    · intro _ c hc
      have hc' : c < s.nblocks := by
        have : c < (SharedPtr.DeleteBlock esft (n + 3) i s.newObj).nblocks := hc
        rw [f4] at this; exact this
      exact hnew c hc'
    · intro _
      refine h2.T.pristine (s.nobjs + 1) ?_ ?_
      · show s.nobjs + 1 ≤ (SharedPtr.DeleteBlock esft (n + 3) i s.newObj).nobjs
        rw [f5]; exact le_refl _
      · intro c hc
        have hc' : c < s.nblocks := by
          have : c < (SharedPtr.DeleteBlock esft (n + 3) i s.newObj).nblocks := hc
          rw [f4] at this; exact this
        exact hnew c hc'
    · intro _
      show ((SharedPtr.DeleteBlock esft (n + 3) i s.newObj).objs (s.nobjs + 1)).ctor_runs = 1
      rw [SharedPtr.DeleteBlock_ctor]
      simp
  have h3 := h2.addBlock_attach hfresh (i := i)
    { live := (s.sps i).live,
      block_ := some (SharedPtr.DeleteBlock esft (n + 3) i s.newObj).nblocks,
      ptr_ := s.nobjs + 1, heap := (s.sps i).heap }
    (by simpa [f2] using hi) (by simp) hli rfl
  simpa [hi1, Heap.newPointerBlock, Heap.addBlock, Heap.setShared] using h3

theorem Inv.op_wcopy {esft : Bool} {s : Heap} (h : Inv esft none s) {v : Nat}
    (hv : v < s.nwps) (hw : s.nwps + 1 < SIZE_T_MOD) : Inv esft none (WeakPtr.copy v s) := by
  unfold WeakPtr.copy
  cases hb : (s.wps v).block_ with
  | none => exact h.newWeak_none _ hw
  | some b =>
    obtain ⟨hbn, hpos⟩ := h.weak_pos hv hb
    exact h.acquire_weak _ hbn (Or.inr hpos) hw

theorem Inv.op_wmove {esft : Bool} {s : Heap} (h : Inv esft none s) {v : Nat}
    (hv : v < s.nwps) (hl : (s.wps v).live = true) (hw : s.nwps + 1 < SIZE_T_MOD) :
    Inv esft none (WeakPtr.move v s) := by
  have hvn : v ≠ s.nwps := by omega
  have h1 := h.move_weak hv hl hw
  unfold WeakPtr.move
  simpa [Function.update_noteq hvn] using h1

theorem Inv.op_wassign {esft : Bool} {s : Heap} (h : Inv esft none s) {w v : Nat}
    (hw : w < s.nwps) (hlw : (s.wps w).live = true) (hv : v < s.nwps) (n : Nat) :
    Inv esft none (WeakPtr.assign esft (n + 1) w v s) := by
  unfold WeakPtr.assign
  split
  · exact h
  · rename_i hvw
    have h1 := h.weak_deleteBlock hw n
    have f1 := h.weak_deleteBlock_wps hw n
    obtain ⟨_, _, f3, _, _⟩ := WeakPtr.DeleteBlock_wframe esft (n + 1) w s
    have hv1 : (WeakPtr.DeleteBlock esft (n + 1) w s).wps v = s.wps v := by
      rw [f1, Function.update_noteq hvw]
    have hw1 : (WeakPtr.DeleteBlock esft (n + 1) w s).wps w =
        { live := (s.wps w).live, block_ := none, ptr_ := 0, heap := (s.wps w).heap } := by
      rw [f1, Function.update_same]
    have h2 := h1.setWeak_same w
      { live := (s.wps w).live, block_ := none, ptr_ := (s.wps v).ptr_,
        heap := (s.wps w).heap }
      (fun c => by rw [hw1]; simp [ind]) (fun c hc => by simp at hc)
    simp only [hv1, hw1, Heap.setWeak_wps, Function.update_noteq hvw]
    cases hb : (s.wps v).block_ with
    | none => exact h2
    | some b =>
      simp only [Function.update_same]
      have hvb : ((WeakPtr.DeleteBlock esft (n + 1) w s).wps v).block_ = some b := by
        rw [hv1]; exact hb
      obtain ⟨hbn, hpos⟩ := h1.weak_pos (by rw [f3]; exact hv) hvb
      have h3 := h2.attach_weak (i := w) (b := b)
        { live := (s.wps w).live, block_ := some b, ptr_ := (s.wps v).ptr_,
          heap := (s.wps w).heap }
        (by simpa [f3] using hw) (by simp) hbn (Or.inr hpos) hlw rfl
      simpa [Heap.setWeak, Function.update_idem] using h3

theorem Inv.op_wmoveAssign {esft : Bool} {s : Heap} (h : Inv esft none s) {w v : Nat}
    (hw : w < s.nwps) (hlw : (s.wps w).live = true) (hv : v < s.nwps)
    (hlv : (s.wps v).live = true) (n : Nat) :
    Inv esft none (WeakPtr.moveAssign esft (n + 1) w v s) := by
  unfold WeakPtr.moveAssign
  split
  · exact h
  · rename_i hvw
    have h1 := h.weak_deleteBlock hw n
    have f1 := h.weak_deleteBlock_wps hw n
    obtain ⟨_, _, f3, _, _⟩ := WeakPtr.DeleteBlock_wframe esft (n + 1) w s
    refine h1.swap_weak (by rw [f3]; exact hw) (by rw [f3]; exact hv) ?_ ?_
    · rw [f1, Function.update_same]; exact hlw
    · rw [f1, Function.update_noteq hvw]; exact hlv

theorem Inv.op_wdestroy {esft : Bool} {s : Heap} (h : Inv esft none s) {w : Nat}
    (hw : w < s.nwps) (n : Nat) : Inv esft none (WeakPtr.destroy esft (n + 1) w s) := by
  unfold WeakPtr.destroy
  have h1 := h.weak_deleteBlock hw n
  have f1 := h.weak_deleteBlock_wps hw n
  have hw1 : (WeakPtr.DeleteBlock esft (n + 1) w s).wps w =
      { live := (s.wps w).live, block_ := none, ptr_ := 0, heap := (s.wps w).heap } := by
    rw [f1, Function.update_same]
  refine h1.setWeak_same w _ (fun c => ?_) (fun c hc => ?_)
  · rw [hw1]; simp [ind]
  · rw [hw1] at hc; simp at hc

theorem Inv.op_lock {esft : Bool} {s : Heap} (h : Inv esft none s) {w : Nat}
    (hw : w < s.nwps) (hs : s.nsps + 1 < SIZE_T_MOD) (hcw : s.nwps + 1 < SIZE_T_MOD) :
    Inv esft none (settle s (WeakPtr.Lock esft w s)) := by
  unfold WeakPtr.Lock
  split
  · exact h.op_default hs hcw
  · exact h.op_fromWeak hw hs

theorem Inv.op_sharedFromThis {s : Heap} (h : Inv true none s) (p : Addr)
    (hs : s.nsps + 1 < SIZE_T_MOD) (hcw : s.nwps + 1 < SIZE_T_MOD) :
    Inv true none (settle s (SharedFromThis p s)) := by
  unfold SharedFromThis
  cases hsl : (s.objs p).weak_this_ with
  | none => exact h.op_default hs hcw
  | some w => exact h.op_fromWeak (h.M.slot_ok p w hsl) hs

theorem Inv.op_weakFromThis {esft : Bool} {s : Heap} (h : Inv esft none s) (p : Addr)
    (hcw : s.nwps + 1 < SIZE_T_MOD) : Inv esft none (WeakFromThis p s) := by
  unfold WeakFromThis
  cases hsl : (s.objs p).weak_this_ with
  | none => exact h.newWeak_none _ hcw
  | some w => exact h.op_wcopy (h.M.slot_ok p w hsl) hcw

/-- Every program step keeps the heap well-formed, as long as the handle counts fit a
`size_t` and three nested destructor calls are available. -/
theorem step_inv {esft : Bool} {s : Heap} (h : Inv esft none s) (n : Nat) (op : Op)
    (hs : s.nsps + 1 < SIZE_T_MOD) (hw : s.nwps + 1 < SIZE_T_MOD) :
    Inv esft none (step esft (n + 3) s op) := by
  unfold step
  split
  · exact h
  · cases op with
    | sDefault => exact h.op_default hs hw
    | sNull => exact h.newShared_none 0 hs
    | sWrapNew => exact h.op_fromRaw_new hs hw
    | sWrapNull => exact h.op_fromRaw_null hs hw
    | sMake => exact h.op_make hs hw
    | sCopy j =>
      simp only
      split
      · rename_i hl
        exact h.op_copy ((s.liveS_iff j).1 hl).1 hs hw
      · exact h
    | sMove j =>
      simp only
      split
      · rename_i hl
        exact h.op_move ((s.liveS_iff j).1 hl).1 ((s.liveS_iff j).1 hl).2 hs hw
      · exact h
    | sAlias j p =>
      simp only
      split
      · rename_i hl
        exact h.op_alias p ((s.liveS_iff j).1 hl).1 hs hw
      · exact h
    | sPromote w =>
      simp only
      split
      · rename_i hl
        exact h.op_fromWeak ((s.liveW_iff w).1 hl).1 hs
      · exact h
    | sAssign i j =>
      simp only
      split
      · rename_i hl
        simp only [Bool.and_eq_true] at hl
        exact h.op_assign ((s.liveS_iff i).1 hl.1).1 ((s.liveS_iff i).1 hl.1).2
          ((s.liveS_iff j).1 hl.2).1 n
      · exact h
    | sMoveAssign i j =>
      simp only
      split
      · rename_i hl
        simp only [Bool.and_eq_true] at hl
        exact h.op_moveAssign ((s.liveS_iff i).1 hl.1).1 ((s.liveS_iff i).1 hl.1).2
          ((s.liveS_iff j).1 hl.2).1 ((s.liveS_iff j).1 hl.2).2 n
      · exact h
    | sReset i =>
      simp only
      split
      · rename_i hl
        exact h.shared_deleteBlock ((s.liveS_iff i).1 hl).1 n
      · exact h
    | sResetNew i =>
      simp only
      split
      · rename_i hl
        exact h.op_resetNew ((s.liveS_iff i).1 hl).1 ((s.liveS_iff i).1 hl).2 n
      · exact h
    | sResetNull i =>
      simp only
      split
      · rename_i hl
        exact h.op_resetNull ((s.liveS_iff i).1 hl).1 ((s.liveS_iff i).1 hl).2 n
      · exact h
    | sSwap i j =>
      simp only
      split
      · rename_i hl
        simp only [Bool.and_eq_true] at hl
        exact h.swap_shared ((s.liveS_iff i).1 hl.1).1 ((s.liveS_iff j).1 hl.2).1
          ((s.liveS_iff i).1 hl.1).2 ((s.liveS_iff j).1 hl.2).2
      · exact h
    | sDestroy i =>
      simp only
      split
      · rename_i hl
        exact h.op_destroy ((s.liveS_iff i).1 hl).1 n
      · exact h
    | wDefault => exact h.newWeak_none 0 hw
    | wFromShared i =>
      simp only
      split
      · rename_i hl
        exact h.weak_fromShared ((s.liveS_iff i).1 hl).1 hw
      · exact h
    | wCopy v =>
      simp only
      split
      · rename_i hl
        exact h.op_wcopy ((s.liveW_iff v).1 hl).1 hw
      · exact h
    | wMove v =>
      simp only
      split
      · rename_i hl
        exact h.op_wmove ((s.liveW_iff v).1 hl).1 ((s.liveW_iff v).1 hl).2.1 hw
      · exact h
    | wAssign w v =>
      simp only
      split
      · rename_i hl
        simp only [Bool.and_eq_true] at hl
        exact h.op_wassign ((s.liveW_iff w).1 hl.1).1 ((s.liveW_iff w).1 hl.1).2.1
          ((s.liveW_iff v).1 hl.2).1 (n + 2)
      · exact h
    | wMoveAssign w v =>
      simp only
      split
      · rename_i hl
        simp only [Bool.and_eq_true] at hl
        exact h.op_wmoveAssign ((s.liveW_iff w).1 hl.1).1 ((s.liveW_iff w).1 hl.1).2.1
          ((s.liveW_iff v).1 hl.2).1 ((s.liveW_iff v).1 hl.2).2.1 (n + 2)
      · exact h
    | wReset w =>
      simp only
      split
      · rename_i hl
        exact h.weak_deleteBlock ((s.liveW_iff w).1 hl).1 (n + 2)
      · exact h
    | wSwap w v =>
      simp only
      split
      · rename_i hl
        simp only [Bool.and_eq_true] at hl
        exact h.swap_weak ((s.liveW_iff w).1 hl.1).1 ((s.liveW_iff v).1 hl.2).1
          ((s.liveW_iff w).1 hl.1).2.1 ((s.liveW_iff v).1 hl.2).2.1
      · exact h
    | wDestroy w =>
      simp only
      split
      · rename_i hl
        exact h.op_wdestroy ((s.liveW_iff w).1 hl).1 (n + 2)
      · exact h
    | wLock w =>
      simp only
      split
      · rename_i hl
        exact h.op_lock ((s.liveW_iff w).1 hl).1 hs hw
      · exact h
    | oSharedFromThis p =>
      simp only
      split
      · rename_i hl
        simp only [Bool.and_eq_true] at hl
        have he : esft = true := hl.1
        subst he
        exact h.op_sharedFromThis p hs hw
      · exact h
    | oWeakFromThis p =>
      simp only
      split
      · exact h.op_weakFromThis p hw
      · exact h

/-! ## Handles are never deallocated from the model: the tables only grow -/

theorem Heap.le_refl (s : Heap) : s.le s := ⟨Nat.le_refl _, Nat.le_refl _⟩

theorem Heap.le_trans {s t u : Heap} (h1 : s.le t) (h2 : t.le u) : s.le u :=
  ⟨Nat.le_trans h1.1 h2.1, Nat.le_trans h1.2 h2.2⟩

theorem WeakPtr.fromShared_le (i : Nat) (s : Heap) : s.le (WeakPtr.fromShared i s) := by
  unfold WeakPtr.fromShared Heap.le
  split <;> simp

theorem SharedPtr.wire_le (esft : Bool) (i : Nat) (s : Heap) : s.le (SharedPtr.wire esft i s) := by
  unfold SharedPtr.wire
  split
  · have := WeakPtr.fromShared_le i s
    unfold Heap.le at this ⊢
    simp only [SharedPtr.InitWeakThis]
    split
    · simpa using this
    · split <;> simpa using this
  · exact Heap.le_refl s

theorem SharedPtr.DeleteBlock_le (esft : Bool) (d i : Nat) (s : Heap) :
    s.le (SharedPtr.DeleteBlock esft d i s) := by
  obtain ⟨_, f2, f3, _⟩ := SharedPtr.DeleteBlock_frame esft d i s
  exact ⟨by rw [f2], by rw [f3]⟩

theorem WeakPtr.DeleteBlock_wle (esft : Bool) (d w : Nat) (s : Heap) :
    s.le (WeakPtr.DeleteBlock esft d w s) := by
  obtain ⟨_, f2, f3, _⟩ := WeakPtr.DeleteBlock_wframe esft d w s
  exact ⟨by rw [f2], by rw [f3]⟩

theorem SharedPtr.fromWeak_le (w : Nat) (s : Heap) : s.le (settle s (SharedPtr.fromWeak w s)) := by
  unfold SharedPtr.fromWeak Heap.le
  split
  · split <;> simp [settle]
  · simp [settle]

theorem SharedPtr.default_le (esft : Bool) (s : Heap) : s.le (SharedPtr.default esft s) := by
  unfold SharedPtr.default
  refine Heap.le_trans ?_ (SharedPtr.wire_le esft _ _)
  simp [Heap.le]

theorem step_le (esft : Bool) (d : Nat) (s : Heap) (op : Op) : s.le (step esft d s op) := by
  unfold step
  split
  · exact Heap.le_refl s
  · cases op with
    | sDefault => exact SharedPtr.default_le esft s
    | sNull => simp [SharedPtr.null, Heap.le]
    | sWrapNew =>
      simp only [SharedPtr.fromRaw]
      refine Heap.le_trans ?_ (SharedPtr.wire_le esft _ _)
      simp [Heap.le]
    | sWrapNull =>
      simp only [SharedPtr.fromRaw]
      refine Heap.le_trans ?_ (SharedPtr.wire_le esft _ _)
      simp [Heap.le]
    | sMake =>
      simp only [MakeShared, SharedPtr.fromBlock]
      refine Heap.le_trans ?_ (SharedPtr.wire_le esft _ _)
      simp [Heap.le]
    | sCopy j =>
      simp only
      split
      · simp only [SharedPtr.copy]
        refine Heap.le_trans ?_ (SharedPtr.wire_le esft _ _)
        split <;> simp [Heap.le]
      · exact Heap.le_refl s
    | sMove j =>
      simp only
      split
      · simp only [SharedPtr.move]
        refine Heap.le_trans ?_ (SharedPtr.wire_le esft _ _)
        simp [Heap.le]
      · exact Heap.le_refl s
    | sAlias j p =>
      simp only
      split
      · simp only [SharedPtr.alias]
        refine Heap.le_trans ?_ (SharedPtr.wire_le esft _ _)
        split <;> simp [Heap.le]
      · exact Heap.le_refl s
    | sPromote w =>
      simp only
      split
      · exact SharedPtr.fromWeak_le w s
      · exact Heap.le_refl s
    | sAssign i j =>
      simp only
      split
      · simp only [SharedPtr.assign]
        split
        · exact Heap.le_refl s
        · have := SharedPtr.DeleteBlock_le esft d i s
          unfold Heap.le at this ⊢
          split <;> simpa using this
      · exact Heap.le_refl s
    | sMoveAssign i j =>
      simp only
      split
      · simp only [SharedPtr.moveAssign]
        split
        · exact Heap.le_refl s
        · have := SharedPtr.DeleteBlock_le esft d i s
          unfold Heap.le at this ⊢
          simpa [SharedPtr.Swap] using this
      · exact Heap.le_refl s
    | sReset i =>
      simp only
      split
      · exact SharedPtr.DeleteBlock_le esft d i s
      · exact Heap.le_refl s
    | sResetNew i =>
      simp only
      split
      · have := SharedPtr.DeleteBlock_le esft d i s.newObj
        unfold Heap.le at this ⊢
        simpa [SharedPtr.ResetPtr] using this
      · exact Heap.le_refl s
    | sResetNull i =>
      simp only
      split
      · have := SharedPtr.DeleteBlock_le esft d i s
        unfold Heap.le at this ⊢
        simpa [SharedPtr.ResetPtr] using this
      · exact Heap.le_refl s
    | sSwap i j =>
      simp only
      split
      · simp [SharedPtr.Swap, Heap.le]
      · exact Heap.le_refl s
    | sDestroy i =>
      simp only
      split
      · have := SharedPtr.DeleteBlock_le esft d i s
        unfold Heap.le at this ⊢
        simpa [SharedPtr.destroy] using this
      · exact Heap.le_refl s
    | wDefault => simp [WeakPtr.default, Heap.le]
    | wFromShared i =>
      simp only
      split
      · exact WeakPtr.fromShared_le i s
      · exact Heap.le_refl s
    | wCopy v =>
      simp only
      split
      · simp only [WeakPtr.copy]
        split <;> simp [Heap.le]
      · exact Heap.le_refl s
    | wMove v =>
      simp only
      split
      · simp [WeakPtr.move, Heap.le]
      · exact Heap.le_refl s
    | wAssign w v =>
      simp only
      split
      · simp only [WeakPtr.assign]
        split
        · exact Heap.le_refl s
        · have := WeakPtr.DeleteBlock_wle esft d w s
          unfold Heap.le at this ⊢
          split <;> simpa using this
      · exact Heap.le_refl s
    | wMoveAssign w v =>
      simp only
      split
      · simp only [WeakPtr.moveAssign]
        split
        · exact Heap.le_refl s
        · have := WeakPtr.DeleteBlock_wle esft d w s
          unfold Heap.le at this ⊢
          simpa [WeakPtr.Swap] using this
      · exact Heap.le_refl s
    | wReset w =>
      simp only
      split
      · exact WeakPtr.DeleteBlock_wle esft d w s
      · exact Heap.le_refl s
    | wSwap w v =>
      simp only
      split
      · simp [WeakPtr.Swap, Heap.le]
      · exact Heap.le_refl s
    | wDestroy w =>
      simp only
      split
      · have := WeakPtr.DeleteBlock_wle esft d w s
        unfold Heap.le at this ⊢
        simpa [WeakPtr.destroy] using this
      · exact Heap.le_refl s
    | wLock w =>
      simp only
      split
      · simp only [WeakPtr.Lock]
        split
        · exact SharedPtr.default_le esft s
        · exact SharedPtr.fromWeak_le w s
      · exact Heap.le_refl s
    | oSharedFromThis p =>
      simp only
      split
      · simp only [SharedFromThis]
        split
        · exact SharedPtr.default_le true s
        · exact SharedPtr.fromWeak_le _ s
      · exact Heap.le_refl s
    | oWeakFromThis p =>
      simp only
      split
      · simp only [WeakFromThis]
        split
        · simp [WeakPtr.default, Heap.le]
        · simp only [WeakPtr.copy]
          split <;> simp [Heap.le]
      · exact Heap.le_refl s

theorem run_cons (esft : Bool) (d : Nat) (op : Op) (ops : List Op) (s : Heap) :
    run esft d (op :: ops) s = run esft d ops (step esft d s op) := rfl

theorem run_append (esft : Bool) (d : Nat) (ops1 ops2 : List Op) (s : Heap) :
    run esft d (ops1 ++ ops2) s = run esft d ops2 (run esft d ops1 s) := by
  simp [run, List.foldl_append]

theorem run_le (esft : Bool) (d : Nat) (ops : List Op) (s : Heap) : s.le (run esft d ops s) := by
  induction ops generalizing s with
  | nil => exact Heap.le_refl s
  | cons op ops ih => exact Heap.le_trans (step_le esft d s op) (ih _)

theorem Inv.init (esft : Bool) : Inv esft none Heap.init := by
  have hz : ∀ a : Nat, ¬ a < Heap.init.nblocks := fun a => Nat.not_lt_zero a
  have hs : ∀ a : Nat, ¬ a < Heap.init.nsps := fun a => Nat.not_lt_zero a
  have hw : ∀ a : Nat, ¬ a < Heap.init.nwps := fun a => Nat.not_lt_zero a
  refine ⟨⟨?_, ?_, ?_, ?_, ?_, ?_⟩, ⟨?_, ?_, ?_, ?_, ?_, ?_, ?_, ?_⟩, ?_, ⟨?_, ?_, ?_⟩⟩
  · intro i b hi; exact absurd hi (hs i)
  · intro i b hi; exact absurd hi (hw i)
  · intro b hb; exact absurd hb (hz b)
  · intro b hb; exact absurd hb (hz b)
  · show 0 < SIZE_T_MOD
    unfold SIZE_T_MOD; omega
  · show 0 < SIZE_T_MOD
    unfold SIZE_T_MOD; omega
  · intro b hb; exact absurd hb (hz b)
  · intro b hb; exact absurd hb (hz b)
  · intro b hb; exact absurd hb (hz b)
  · intro b hb; exact absurd hb (hz b)
  · intro b c hb; exact absurd hb (hz b)
  · intro b hb; exact absurd hb (hz b)
  · intro b hb; exact absurd hb (hz b)
  · intro p _ _; rfl
  · intro b hb; exact absurd hb (hz b)
  · intro p w hpw; simp [Heap.init] at hpw
  · simp [Heap.init]
  · intro _; rfl

/-- Programs keep the heap well-formed: as long as fewer than `2^64 - 1` handles of
each kind have been created and three nested destructor calls are available, every
reachable heap is well-formed. -/
theorem run_inv (esft : Bool) (n : Nat) (ops : List Op) :
    ∀ s : Heap, Inv esft none s →
      (run esft (n + 3) ops s).nsps + 1 < SIZE_T_MOD →
      (run esft (n + 3) ops s).nwps + 1 < SIZE_T_MOD →
      Inv esft none (run esft (n + 3) ops s) := by
  induction ops with
  | nil => intro s h _ _; exact h
  | cons op ops ih =>
    intro s h hs hw
    rw [run_cons] at hs hw ⊢
    have h1 := step_le esft (n + 3) s op
    have h2 := run_le esft (n + 3) ops (step esft (n + 3) s op)
    unfold Heap.le at h1 h2
    exact ih _ (step_inv h n op (by omega) (by omega)) hs hw

/-! ## Counters of frees and destructor runs never decrease -/

theorem Heap.keeps_refl (s : Heap) : s.keeps s :=
  ⟨rfl, rfl, fun _ => ⟨rfl, Nat.le_refl _⟩, fun _ => Nat.le_refl _⟩

theorem Heap.keeps_trans {s t u : Heap} (h1 : s.keeps t) (h2 : t.keeps u) : s.keeps u :=
  ⟨h2.1.trans h1.1, h2.2.1.trans h1.2.1,
   fun c => ⟨(h2.2.2.1 c).1.trans (h1.2.2.1 c).1, Nat.le_trans (h1.2.2.1 c).2 (h2.2.2.1 c).2⟩,
   fun p => Nat.le_trans (h1.2.2.2 p) (h2.2.2.2 p)⟩

theorem Heap.keeps.grows {s t : Heap} (h : s.keeps t) : s.grows t :=
  ⟨Nat.le_of_eq h.1.symm, Nat.le_of_eq h.2.1.symm, fun c _ => h.2.2.1 c, fun p _ => h.2.2.2 p⟩

theorem Heap.grows_refl (s : Heap) : s.grows s := (Heap.keeps_refl s).grows

theorem Heap.grows_trans {s t u : Heap} (h1 : s.grows t) (h2 : t.grows u) : s.grows u := by
  refine ⟨Nat.le_trans h1.1 h2.1, Nat.le_trans h1.2.1 h2.2.1, ?_, ?_⟩
  · intro c hc
    have a := h1.2.2.1 c hc
    have b := h2.2.2.1 c (Nat.lt_of_lt_of_le hc h1.1)
    exact ⟨b.1.trans a.1, Nat.le_trans a.2 b.2⟩
  · intro p hp
    exact Nat.le_trans (h1.2.2.2 p hp) (h2.2.2.2 p (Nat.le_trans hp h1.2.1))

/-- An update of handles, counters, flags or slots only. -/
theorem Heap.keeps_of_eq {s t : Heap} (hn : t.nblocks = s.nblocks) (ho : t.nobjs = s.nobjs)
    (hb : ∀ c, (t.blocks c).obj = (s.blocks c).obj ∧ (t.blocks c).frees = (s.blocks c).frees)
    (hd : ∀ p, (t.objs p).dtor_runs = (s.objs p).dtor_runs) : s.keeps t :=
  ⟨hn, ho, fun c => ⟨(hb c).1, Nat.le_of_eq (hb c).2.symm⟩, fun p => Nat.le_of_eq (hd p).symm⟩

theorem Heap.keeps_modBlock (s : Heap) (b : Nat) (f : ControlBlock → ControlBlock)
    (ho : (f (s.blocks b)).obj = (s.blocks b).obj)
    (hf : (s.blocks b).frees ≤ (f (s.blocks b)).frees) : s.keeps (s.modBlock b f) := by
  refine ⟨rfl, rfl, ?_, fun _ => Nat.le_refl _⟩
  intro c
  by_cases hcb : c = b
  · subst hcb; simpa using ⟨ho, hf⟩
  · simp [Function.update_noteq hcb]

theorem Heap.keeps_modObj (s : Heap) (p : Addr) (f : Obj → Obj)
    (hf : (s.objs p).dtor_runs ≤ (f (s.objs p)).dtor_runs) : s.keeps (s.modObj p f) := by
  refine ⟨rfl, rfl, fun _ => ⟨rfl, Nat.le_refl _⟩, ?_⟩
  intro q
  by_cases hq : q = p
  · subst hq; simpa using hf
  · simp [Function.update_noteq hq]

theorem exec_keeps (esft : Bool) : ∀ (n : Nat) (t : Task) (s : Heap),
    s.keeps (exec esft n t s) := by
  intro n
  induction n with
  | zero => intro t s; exact Heap.keeps_of_eq rfl rfl (fun _ => ⟨rfl, rfl⟩) (fun _ => rfl)
  | succ n ih =>
    intro t s
    cases t with
    | destroy p =>
      have h1 := s.keeps_modObj p (fun o => { o with dtor_runs := o.dtor_runs + 1 })
        (Nat.le_succ _)
      rw [exec_destroy_succ]
      split
      · split
        · rename_i w _
          refine Heap.keeps_trans h1 (Heap.keeps_trans (ih (Task.weakDeleteBlock w) _) ?_)
          exact Heap.keeps_of_eq rfl rfl (fun _ => ⟨rfl, rfl⟩) (fun _ => rfl)
        · exact h1
      · exact h1
    | weakDeleteBlock w =>
      rw [exec_weakDeleteBlock_succ]
      split
      · rename_i b hb
        have h1 := s.keeps_modBlock b (fun c => { c with weak_cnt := decr c.weak_cnt }) rfl
          (Nat.le_refl _)
        simp only
        split
        · refine Heap.keeps_trans h1 (Heap.keeps_trans (ih (Task.deleteBlock b) _) ?_)
          exact Heap.keeps_of_eq rfl rfl (fun _ => ⟨rfl, rfl⟩) (fun _ => rfl)
        · refine Heap.keeps_trans h1 ?_
          exact Heap.keeps_of_eq rfl rfl (fun _ => ⟨rfl, rfl⟩) (fun _ => rfl)
      · exact Heap.keeps_of_eq rfl rfl (fun _ => ⟨rfl, rfl⟩) (fun _ => rfl)
    | deleteBlock b =>
      simp only [exec]
      have key : ∀ x : Heap, x.keeps (x.modBlock b fun c => { c with frees := c.frees + 1 }) :=
        fun x => x.keeps_modBlock b _ rfl (Nat.le_succ _)
      split
      · split
        · exact key s
        · exact Heap.keeps_trans (ih _ _) (key _)
      · split
        · exact Heap.keeps_trans (ih _ _) (key _)
        · exact key s

theorem ClearPtr_keeps (esft : Bool) (d b : Nat) (s : Heap) : s.keeps (ClearPtr esft d b s) := by
  rw [ClearPtr_eq]
  have h1 := s.keeps_modBlock b (fun c => { c with clear_calls := c.clear_calls + 1 }) rfl
    (Nat.le_refl _)
  split
  · split
    · exact h1
    · refine Heap.keeps_trans h1 (Heap.keeps_trans ?_ (exec_keeps esft _ _ _))
      exact Heap.keeps_modBlock _ b _ rfl (Nat.le_refl _)
  · split
    · refine Heap.keeps_trans h1 (Heap.keeps_trans ?_ (exec_keeps esft _ _ _))
      exact Heap.keeps_modBlock _ b _ rfl (Nat.le_refl _)
    · exact h1

theorem Heap.keeps_setShared (s : Heap) (i : Nat) (k : Handle) : s.keeps (s.setShared i k) :=
  Heap.keeps_of_eq rfl rfl (fun _ => ⟨rfl, rfl⟩) (fun _ => rfl)

theorem Heap.keeps_setWeak (s : Heap) (i : Nat) (k : Handle) : s.keeps (s.setWeak i k) :=
  Heap.keeps_of_eq rfl rfl (fun _ => ⟨rfl, rfl⟩) (fun _ => rfl)

theorem Heap.keeps_newShared (s : Heap) (b : Option Nat) (p : Addr) :
    s.keeps (s.newShared b p) :=
  Heap.keeps_of_eq rfl rfl (fun _ => ⟨rfl, rfl⟩) (fun _ => rfl)

theorem Heap.keeps_newWeak (s : Heap) (b : Option Nat) (p : Addr) :
    s.keeps (s.newWeak b p) :=
  Heap.keeps_of_eq rfl rfl (fun _ => ⟨rfl, rfl⟩) (fun _ => rfl)

theorem Heap.keeps_fault (s : Heap) (x : Option Fault) : s.keeps { s with fault := x } :=
  Heap.keeps_of_eq rfl rfl (fun _ => ⟨rfl, rfl⟩) (fun _ => rfl)

theorem SharedPtr.DeleteBlock_keeps (esft : Bool) (d i : Nat) (s : Heap) :
    s.keeps (SharedPtr.DeleteBlock esft d i s) := by
  cases hb : (s.sps i).block_ with
  | none =>
    rw [SharedPtr.DeleteBlock_none esft d i s hb]
    exact s.keeps_setShared _ _
  | some b =>
    have h1 := s.keeps_modBlock b (fun c => { c with strong_cnt := decr c.strong_cnt }) rfl
      (Nat.le_refl _)
    have h2 := Heap.keeps_trans h1 (Heap.keeps_setShared _ i
      { live := (s.sps i).live, block_ := none, ptr_ := 0, heap := (s.sps i).heap })
    by_cases h0 : decr (s.blocks b).strong_cnt = 0
    · rw [SharedPtr.DeleteBlock_last esft d i b s hb h0]
      split
      · exact Heap.keeps_trans h2 (Heap.keeps_trans (ClearPtr_keeps esft _ _ _)
          (exec_keeps esft _ _ _))
      · exact Heap.keeps_trans h2 (ClearPtr_keeps esft _ _ _)
    · rw [SharedPtr.DeleteBlock_keep esft d i b s hb h0]
      exact h2

theorem WeakPtr.DeleteBlock_wkeeps (esft : Bool) (d w : Nat) (s : Heap) :
    s.keeps (WeakPtr.DeleteBlock esft d w s) :=
  exec_keeps esft _ _ s

theorem WeakPtr.fromShared_keeps (i : Nat) (s : Heap) : s.keeps (WeakPtr.fromShared i s) := by
  unfold WeakPtr.fromShared
  split
  · exact Heap.keeps_trans (s.keeps_newWeak _ _) (Heap.keeps_modBlock _ _ _ rfl (Nat.le_refl _))
  · exact s.keeps_newWeak _ _

theorem SharedPtr.wire_keeps (esft : Bool) (i : Nat) (s : Heap) :
    s.keeps (SharedPtr.wire esft i s) := by
  unfold SharedPtr.wire
  split
  · have h1 := Heap.keeps_trans (WeakPtr.fromShared_keeps i s)
      (Heap.keeps_setWeak _ s.nwps
        { (WeakPtr.fromShared i s).wps s.nwps with heap := true })
    simp only [SharedPtr.InitWeakThis]
    split
    · exact Heap.keeps_trans h1 (Heap.keeps_fault _ _)
    · split
      · exact Heap.keeps_trans h1 (Heap.keeps_modObj _ _ _ (Nat.le_refl _))
      · exact Heap.keeps_trans h1 (Heap.keeps_fault _ _)
  · exact Heap.keeps_refl s

theorem Heap.grows_newObj (s : Heap) : s.grows s.newObj := by
  refine ⟨Nat.le_refl _, Nat.le_succ _, fun c _ => ⟨rfl, Nat.le_refl _⟩, ?_⟩
  intro p hp
  have : p ≠ s.nobjs + 1 := by omega
  simp [Function.update_noteq this]

theorem Heap.grows_newPointerBlock (s : Heap) (ptr : Addr) : s.grows (s.newPointerBlock ptr) := by
  refine ⟨Nat.le_succ _, Nat.le_refl _, ?_, fun p _ => Nat.le_refl _⟩
  intro c hc
  have : c ≠ s.nblocks := by omega
  simp [Function.update_noteq this]

theorem Heap.grows_newEmplaceBlock (s : Heap) : s.grows s.newEmplaceBlock := by
  refine Heap.grows_trans s.grows_newObj ⟨Nat.le_succ _, Nat.le_refl _, ?_, fun p _ => Nat.le_refl _⟩
  intro c hc
  have : c ≠ s.nblocks := Nat.ne_of_lt hc
  simp [Heap.newEmplaceBlock, Function.update_noteq this]

theorem SharedPtr.fromWeak_keeps (w : Nat) (s : Heap) :
    s.keeps (settle s (SharedPtr.fromWeak w s)) := by
  unfold SharedPtr.fromWeak
  split
  · split
    · exact Heap.keeps_refl s
    · simp only [settle]
      exact Heap.keeps_trans (s.keeps_newShared _ _)
        (Heap.keeps_modBlock _ _ _ rfl (Nat.le_refl _))
  · exact s.keeps_newShared _ _

theorem SharedPtr.default_keeps (esft : Bool) (s : Heap) : s.keeps (SharedPtr.default esft s) :=
  Heap.keeps_trans (s.keeps_newShared _ _) (SharedPtr.wire_keeps esft _ _)

theorem SharedPtr.alias_keeps (esft : Bool) (j : Nat) (p : Addr) (s : Heap) :
    s.keeps (SharedPtr.alias esft j p s) := by
  unfold SharedPtr.alias
  refine Heap.keeps_trans ?_ (SharedPtr.wire_keeps esft _ _)
  split
  · exact Heap.keeps_trans (s.keeps_newShared _ _)
      (Heap.keeps_modBlock _ _ _ rfl (Nat.le_refl _))
  · exact s.keeps_newShared _ _

theorem SharedPtr.copy_keeps (esft : Bool) (j : Nat) (s : Heap) :
    s.keeps (SharedPtr.copy esft j s) := by
  unfold SharedPtr.copy
  refine Heap.keeps_trans ?_ (SharedPtr.wire_keeps esft _ _)
  split
  · exact Heap.keeps_trans (s.keeps_newShared _ _)
      (Heap.keeps_modBlock _ _ _ rfl (Nat.le_refl _))
  · exact s.keeps_newShared _ _

theorem WeakPtr.copy_wkeeps (v : Nat) (s : Heap) : s.keeps (WeakPtr.copy v s) := by
  unfold WeakPtr.copy
  split
  · exact Heap.keeps_trans (s.keeps_newWeak _ _)
      (Heap.keeps_modBlock _ _ _ rfl (Nat.le_refl _))
  · exact s.keeps_newWeak _ _

theorem SharedPtr.assign_keeps (esft : Bool) (d i j : Nat) (s : Heap) :
    s.keeps (SharedPtr.assign esft d i j s) := by
  unfold SharedPtr.assign
  split
  · exact Heap.keeps_refl s
  · have h1 := Heap.keeps_trans (SharedPtr.DeleteBlock_keeps esft d i s)
      (Heap.keeps_setShared _ i
        { (SharedPtr.DeleteBlock esft d i s).sps i with
          ptr_ := ((SharedPtr.DeleteBlock esft d i s).sps j).ptr_ })
    simp only
    split
    · exact Heap.keeps_trans h1 (Heap.keeps_trans (Heap.keeps_setShared _ _ _)
        (Heap.keeps_modBlock _ _ _ rfl (Nat.le_refl _)))
    · exact h1

theorem WeakPtr.assign_wkeeps (esft : Bool) (d w v : Nat) (s : Heap) :
    s.keeps (WeakPtr.assign esft d w v s) := by
  unfold WeakPtr.assign
  split
  · exact Heap.keeps_refl s
  · have h1 := Heap.keeps_trans (WeakPtr.DeleteBlock_wkeeps esft d w s)
      (Heap.keeps_setWeak _ w
        { (WeakPtr.DeleteBlock esft d w s).wps w with
          ptr_ := ((WeakPtr.DeleteBlock esft d w s).wps v).ptr_ })
    simp only
    split
    · exact Heap.keeps_trans h1 (Heap.keeps_trans (Heap.keeps_setWeak _ _ _)
        (Heap.keeps_modBlock _ _ _ rfl (Nat.le_refl _)))
    · exact h1

theorem SharedPtr.ResetPtr_grows (esft : Bool) (d i : Nat) (ptr : Addr) (s : Heap) :
    s.grows (SharedPtr.ResetPtr esft d i ptr s) := by
  simp only [SharedPtr.ResetPtr]
  exact Heap.grows_trans
    (Heap.keeps_trans (SharedPtr.DeleteBlock_keeps esft d i s) (Heap.keeps_setShared _ i _)).grows
    (Heap.grows_trans (Heap.grows_newPointerBlock _ ptr) (Heap.keeps_setShared _ i _).grows)

theorem step_grows (esft : Bool) (d : Nat) (s : Heap) (op : Op) : s.grows (step esft d s op) := by
  unfold step
  split
  · exact Heap.grows_refl s
  · cases op with
    | sDefault => exact (SharedPtr.default_keeps esft s).grows
    | sNull => exact (s.keeps_newShared _ _).grows
    | sWrapNew =>
      simp only [SharedPtr.fromRaw]
      exact Heap.grows_trans s.grows_newObj (Heap.grows_trans (Heap.grows_newPointerBlock _ _)
        (Heap.keeps_trans (Heap.keeps_newShared _ _ _) (SharedPtr.wire_keeps esft _ _)).grows)
    | sWrapNull =>
      simp only [SharedPtr.fromRaw]
      exact Heap.grows_trans (Heap.grows_newPointerBlock _ _)
        (Heap.keeps_trans (Heap.keeps_newShared _ _ _) (SharedPtr.wire_keeps esft _ _)).grows
    | sMake =>
      simp only [MakeShared, SharedPtr.fromBlock]
      exact Heap.grows_trans s.grows_newEmplaceBlock
        (Heap.keeps_trans (Heap.keeps_newShared _ _ _) (SharedPtr.wire_keeps esft _ _)).grows
    | sCopy j =>
      simp only
      split
      · exact (SharedPtr.copy_keeps esft j s).grows
      · exact Heap.grows_refl s
    | sMove j =>
      simp only
      split
      · simp only [SharedPtr.move]
        exact (Heap.keeps_trans (Heap.keeps_trans (s.keeps_newShared _ _)
          (Heap.keeps_setShared _ _ _)) (SharedPtr.wire_keeps esft _ _)).grows
      · exact Heap.grows_refl s
    | sAlias j p =>
      simp only
      split
      · exact (SharedPtr.alias_keeps esft j p s).grows
      · exact Heap.grows_refl s
    | sPromote w =>
      simp only
      split
      · exact (SharedPtr.fromWeak_keeps w s).grows
      · exact Heap.grows_refl s
    | sAssign i j =>
      simp only
      split
      · exact (SharedPtr.assign_keeps esft d i j s).grows
      · exact Heap.grows_refl s
    | sMoveAssign i j =>
      simp only
      split
      · simp only [SharedPtr.moveAssign]
        split
        · exact Heap.grows_refl s
        · exact (Heap.keeps_trans (SharedPtr.DeleteBlock_keeps esft d i s)
            (Heap.keeps_trans (Heap.keeps_setShared _ _ _) (Heap.keeps_setShared _ _ _))).grows
      · exact Heap.grows_refl s
    | sReset i =>
      simp only
      split
      · exact (SharedPtr.DeleteBlock_keeps esft d i s).grows
      · exact Heap.grows_refl s
    | sResetNew i =>
      simp only
      split
      · exact Heap.grows_trans s.grows_newObj (SharedPtr.ResetPtr_grows esft d i _ _)
      · exact Heap.grows_refl s
    | sResetNull i =>
      simp only
      split
      · exact SharedPtr.ResetPtr_grows esft d i _ _
      · exact Heap.grows_refl s
    | sSwap i j =>
      simp only
      split
      · exact (Heap.keeps_trans (Heap.keeps_setShared _ _ _) (Heap.keeps_setShared _ _ _)).grows
      · exact Heap.grows_refl s
    | sDestroy i =>
      simp only
      split
      · exact (Heap.keeps_trans (SharedPtr.DeleteBlock_keeps esft d i s)
          (Heap.keeps_setShared _ _ _)).grows
      · exact Heap.grows_refl s
    | wDefault => exact (s.keeps_newWeak _ _).grows
    | wFromShared i =>
      simp only
      split
      · exact (WeakPtr.fromShared_keeps i s).grows
      · exact Heap.grows_refl s
    | wCopy v =>
      simp only
      split
      · exact (WeakPtr.copy_wkeeps v s).grows
      · exact Heap.grows_refl s
    | wMove v =>
      simp only
      split
      · exact (Heap.keeps_trans (s.keeps_newWeak _ _) (Heap.keeps_setWeak _ _ _)).grows
      · exact Heap.grows_refl s
    | wAssign w v =>
      simp only
      split
      · exact (WeakPtr.assign_wkeeps esft d w v s).grows
      · exact Heap.grows_refl s
    | wMoveAssign w v =>
      simp only
      split
      · simp only [WeakPtr.moveAssign]
        split
        · exact Heap.grows_refl s
        · exact (Heap.keeps_trans (WeakPtr.DeleteBlock_wkeeps esft d w s)
            (Heap.keeps_trans (Heap.keeps_setWeak _ _ _) (Heap.keeps_setWeak _ _ _))).grows
      · exact Heap.grows_refl s
    | wReset w =>
      simp only
      split
      · exact (WeakPtr.DeleteBlock_wkeeps esft d w s).grows
      · exact Heap.grows_refl s
    | wSwap w v =>
      simp only
      split
      · exact (Heap.keeps_trans (Heap.keeps_setWeak _ _ _) (Heap.keeps_setWeak _ _ _)).grows
      · exact Heap.grows_refl s
    | wDestroy w =>
      simp only
      split
      · exact (Heap.keeps_trans (WeakPtr.DeleteBlock_wkeeps esft d w s)
          (Heap.keeps_setWeak _ _ _)).grows
      · exact Heap.grows_refl s
    | wLock w =>
      simp only
      split
      · simp only [WeakPtr.Lock]
        split
        · exact (SharedPtr.default_keeps esft s).grows
        · exact (SharedPtr.fromWeak_keeps w s).grows
      · exact Heap.grows_refl s
    | oSharedFromThis p =>
      simp only
      split
      · simp only [SharedFromThis]
        split
        · exact (SharedPtr.default_keeps true s).grows
        · exact (SharedPtr.fromWeak_keeps _ s).grows
      · exact Heap.grows_refl s
    | oWeakFromThis p =>
      simp only
      split
      · simp only [WeakFromThis]
        split
        · exact (s.keeps_newWeak _ _).grows
        · exact (WeakPtr.copy_wkeeps _ s).grows
      · exact Heap.grows_refl s

theorem run_grows (esft : Bool) (d : Nat) (ops : List Op) (s : Heap) :
    s.grows (run esft d ops s) := by
  induction ops generalizing s with
  | nil => exact Heap.grows_refl s
  | cons op ops ih => exact Heap.grows_trans (step_grows esft d s op) (ih _)

/-! ## Claims about whole programs -/

/-- Well-formedness of the heap reached by a program extends to all its prefixes. -/
theorem run_inv_both (esft : Bool) (n : Nat) (ops1 ops2 : List Op)
    (hs : (run esft (n + 3) (ops1 ++ ops2) Heap.init).nsps + 1 < SIZE_T_MOD)
    (hw : (run esft (n + 3) (ops1 ++ ops2) Heap.init).nwps + 1 < SIZE_T_MOD) :
    Inv esft none (run esft (n + 3) ops1 Heap.init) ∧
    Inv esft none (run esft (n + 3) (ops1 ++ ops2) Heap.init) := by
  have h2 := run_inv esft n (ops1 ++ ops2) Heap.init (Inv.init esft) hs hw
  rw [run_append] at hs hw
  have hle := run_le esft (n + 3) ops2 (run esft (n + 3) ops1 Heap.init)
  unfold Heap.le at hle
  exact ⟨run_inv esft n ops1 Heap.init (Inv.init esft) (by omega) (by omega), h2⟩

/-- C1 (strong-count invariant).  For every program over a managed type without the
self-reference capability, run from the empty heap with at least three nested
destructor calls available and fewer than `2^64 - 1` handles of each kind created,
and for every control block `b` that has not been freed: `strong_cnt` of `b` equals
the number of live `SharedPtr` objects whose `block_` is `b`; no undefined behaviour
has occurred on the way. -/
theorem strong_cnt_eq_live_shared (n : Nat) (ops : List Op)
    (hs : (run false (n + 3) ops Heap.init).nsps + 1 < SIZE_T_MOD)
    (hw : (run false (n + 3) ops Heap.init).nwps + 1 < SIZE_T_MOD)
    (b : Nat) (hb : b < (run false (n + 3) ops Heap.init).nblocks)
    (_hfree : ((run false (n + 3) ops Heap.init).blocks b).frees = 0) :
    ((run false (n + 3) ops Heap.init).blocks b).strong_cnt =
        (run false (n + 3) ops Heap.init).liveShared b ∧
      (run false (n + 3) ops Heap.init).fault = none := by
  have h := run_inv false n ops Heap.init (Inv.init false) hs hw
  exact ⟨h.C.strong b hb, h.M.no_fault rfl⟩

/-- Witness of C1: after `demoShared` two live handles remain over block `0`. -/
theorem strong_cnt_eq_live_shared_witness :
    ((run false 3 demoShared Heap.init).nsps + 1 < SIZE_T_MOD ∧
      (run false 3 demoShared Heap.init).nwps + 1 < SIZE_T_MOD ∧
      0 < (run false 3 demoShared Heap.init).nblocks ∧
      ((run false 3 demoShared Heap.init).blocks 0).frees = 0) ∧
    (((run false 3 demoShared Heap.init).blocks 0).strong_cnt =
        (run false 3 demoShared Heap.init).liveShared 0 ∧
      (run false 3 demoShared Heap.init).fault = none) :=
  ⟨⟨by decide, by decide, by decide, by decide⟩,
   strong_cnt_eq_live_shared 0 demoShared (by decide) (by decide) 0 (by decide) (by decide)⟩

/-- C8 (weak-count invariant).  For every program over a managed type without the
self-reference capability, run from the empty heap with at least three nested
destructor calls available and fewer than `2^64 - 1` handles of each kind created,
and for every control block `b` that has not been freed: `weak_cnt` of `b` equals the
number of live `WeakPtr` objects whose `block_` is `b`; no undefined behaviour has
occurred on the way. -/
theorem weak_cnt_eq_live_weak (n : Nat) (ops : List Op)
    (hs : (run false (n + 3) ops Heap.init).nsps + 1 < SIZE_T_MOD)
    (hw : (run false (n + 3) ops Heap.init).nwps + 1 < SIZE_T_MOD)
    (b : Nat) (hb : b < (run false (n + 3) ops Heap.init).nblocks)
    (_hfree : ((run false (n + 3) ops Heap.init).blocks b).frees = 0) :
    ((run false (n + 3) ops Heap.init).blocks b).weak_cnt =
        (run false (n + 3) ops Heap.init).liveWeak b ∧
      (run false (n + 3) ops Heap.init).fault = none := by
  have h := run_inv false n ops Heap.init (Inv.init false) hs hw
  exact ⟨h.C.weak b hb, h.M.no_fault rfl⟩

/-- Witness of C8: after `demoWeak` two live weak handles remain over block `0`. -/
theorem weak_cnt_eq_live_weak_witness :
    ((run false 3 demoWeak Heap.init).nsps + 1 < SIZE_T_MOD ∧
      (run false 3 demoWeak Heap.init).nwps + 1 < SIZE_T_MOD ∧
      0 < (run false 3 demoWeak Heap.init).nblocks ∧
      ((run false 3 demoWeak Heap.init).blocks 0).frees = 0) ∧
    (((run false 3 demoWeak Heap.init).blocks 0).weak_cnt =
        (run false 3 demoWeak Heap.init).liveWeak 0 ∧
      (run false 3 demoWeak Heap.init).fault = none) :=
  ⟨⟨by decide, by decide, by decide, by decide⟩,
   weak_cnt_eq_live_weak 0 demoWeak (by decide) (by decide) 0 (by decide) (by decide)⟩

/-- C3 (block lifetime).  For every program, with or without the self-reference
capability, and every extension of it (fewer than `2^64 - 1` handles of each kind
created, three nested destructor calls available), every control block `b` allocated
by the program satisfies in the final heap: `delete block_` has run at most once on
it; it has not run exactly when `strong_cnt > 0` or `weak_cnt > 0`, so the block was
freed by the release that left both counts at zero; a free is never undone; and the
destructor cascade through `ClearPtr` never ran out of call depth. -/
theorem block_freed_iff_counts_zero (esft : Bool) (n : Nat) (ops1 ops2 : List Op)
    (hs : (run esft (n + 3) (ops1 ++ ops2) Heap.init).nsps + 1 < SIZE_T_MOD)
    (hw : (run esft (n + 3) (ops1 ++ ops2) Heap.init).nwps + 1 < SIZE_T_MOD)
    (b : Nat) (hb : b < (run esft (n + 3) ops1 Heap.init).nblocks) :
    ((run esft (n + 3) (ops1 ++ ops2) Heap.init).blocks b).frees ≤ 1 ∧
    (((run esft (n + 3) (ops1 ++ ops2) Heap.init).blocks b).frees = 0 ↔
      0 < ((run esft (n + 3) (ops1 ++ ops2) Heap.init).blocks b).strong_cnt ∨
      0 < ((run esft (n + 3) (ops1 ++ ops2) Heap.init).blocks b).weak_cnt) ∧
    ((run esft (n + 3) ops1 Heap.init).blocks b).frees ≤
      ((run esft (n + 3) (ops1 ++ ops2) Heap.init).blocks b).frees ∧
    (run esft (n + 3) (ops1 ++ ops2) Heap.init).fault ≠ some Fault.stackOverflow := by
  obtain ⟨_, h2⟩ := run_inv_both esft n ops1 ops2 hs hw
  have hg := run_grows esft (n + 3) ops2 (run esft (n + 3) ops1 Heap.init)
  rw [← run_append] at hg
  have hb2 : b < (run esft (n + 3) (ops1 ++ ops2) Heap.init).nblocks :=
    Nat.lt_of_lt_of_le hb hg.1
  have hF := h2.F b hb2
  simp only [reduceCtorEq, if_false, Nat.add_zero] at hF
  refine ⟨?_, ?_, (hg.2.2.1 b hb).2, h2.M.no_overflow⟩
  · rw [hF]; split <;> omega
  · rw [hF]
    split
    · rename_i h0; omega
    · rename_i h0; simp only [true_iff]; omega

/-- Witness of C3: the block of `demoCascade` is freed exactly once, by the weak
release nested in `ClearPtr`, and stays freed under further operations. -/
theorem block_freed_iff_counts_zero_witness :
    ((run true 3 (demoCascade ++ [Op.sNull]) Heap.init).nsps + 1 < SIZE_T_MOD ∧
      (run true 3 (demoCascade ++ [Op.sNull]) Heap.init).nwps + 1 < SIZE_T_MOD ∧
      0 < (run true 3 demoCascade Heap.init).nblocks) ∧
    (((run true 3 (demoCascade ++ [Op.sNull]) Heap.init).blocks 0).frees ≤ 1 ∧
    (((run true 3 (demoCascade ++ [Op.sNull]) Heap.init).blocks 0).frees = 0 ↔
      0 < ((run true 3 (demoCascade ++ [Op.sNull]) Heap.init).blocks 0).strong_cnt ∨
      0 < ((run true 3 (demoCascade ++ [Op.sNull]) Heap.init).blocks 0).weak_cnt) ∧
    ((run true 3 demoCascade Heap.init).blocks 0).frees ≤
      ((run true 3 (demoCascade ++ [Op.sNull]) Heap.init).blocks 0).frees ∧
    (run true 3 (demoCascade ++ [Op.sNull]) Heap.init).fault ≠ some Fault.stackOverflow) :=
  ⟨⟨by decide, by decide, by decide⟩,
   block_freed_iff_counts_zero true 0 demoCascade [Op.sNull] (by decide) (by decide) 0
     (by decide)⟩

/-- C4 (teardown exactly once, at the last strong release).  For every program, with
or without the self-reference capability, and every extension of it (fewer than
`2^64 - 1` handles of each kind created, three nested destructor calls available),
and every control block `b` of the program that manages an object (created by
wrapping a non-null raw pointer or by `MakeShared`): the block still manages that
object, which was constructed once; its destructor has run zero times while
`strong_cnt > 0` and exactly once when `strong_cnt = 0`, whatever `weak_cnt` and
whether or not the block has been freed since; and once `strong_cnt` is zero it stays
zero, so the destructor never runs again. -/
theorem destructor_runs_once_at_last_release (esft : Bool) (n : Nat) (ops1 ops2 : List Op)
    (hs : (run esft (n + 3) (ops1 ++ ops2) Heap.init).nsps + 1 < SIZE_T_MOD)
    (hw : (run esft (n + 3) (ops1 ++ ops2) Heap.init).nwps + 1 < SIZE_T_MOD)
    (b : Nat) (hb : b < (run esft (n + 3) ops1 Heap.init).nblocks)
    (hobj : ((run esft (n + 3) ops1 Heap.init).blocks b).obj ≠ 0) :
    ((run esft (n + 3) (ops1 ++ ops2) Heap.init).blocks b).obj =
      ((run esft (n + 3) ops1 Heap.init).blocks b).obj ∧
    ((run esft (n + 3) (ops1 ++ ops2) Heap.init).objs
      ((run esft (n + 3) ops1 Heap.init).blocks b).obj).ctor_runs = 1 ∧
    ((run esft (n + 3) (ops1 ++ ops2) Heap.init).objs
      ((run esft (n + 3) ops1 Heap.init).blocks b).obj).dtor_runs =
      (if ((run esft (n + 3) (ops1 ++ ops2) Heap.init).blocks b).strong_cnt = 0 then 1 else 0) ∧
    (((run esft (n + 3) ops1 Heap.init).blocks b).strong_cnt = 0 →
      ((run esft (n + 3) (ops1 ++ ops2) Heap.init).blocks b).strong_cnt = 0) := by
  obtain ⟨h1, h2⟩ := run_inv_both esft n ops1 ops2 hs hw
  have hg := run_grows esft (n + 3) ops2 (run esft (n + 3) ops1 Heap.init)
  rw [← run_append] at hg
  have hb2 : b < (run esft (n + 3) (ops1 ++ ops2) Heap.init).nblocks :=
    Nat.lt_of_lt_of_le hb hg.1
  have ho := (hg.2.2.1 b hb).1
  have hobj2 : ((run esft (n + 3) (ops1 ++ ops2) Heap.init).blocks b).obj ≠ 0 := by
    rw [ho]; exact hobj
  have hd2 := h2.T.dtor b hb2 hobj2
  have hc2 := h2.T.ctor b hb2 hobj2
  rw [ho] at hd2 hc2
  refine ⟨ho, hc2, hd2, ?_⟩
  intro h0
  have hd1 := h1.T.dtor b hb hobj
  rw [h0] at hd1
  simp only [if_true] at hd1
  have hm := hg.2.2.2 _ (h1.T.obj_le b hb)
  rw [hd1, hd2] at hm
  by_contra hne
  simp only [hne, if_false] at hm
  omega

/-- Witness of C4: the object of `demoTeardown` is destroyed once by the last strong
release and not again when the last weak release frees the block. -/
theorem destructor_runs_once_at_last_release_witness :
    ((run false 3 (demoTeardown ++ [Op.wDestroy 0]) Heap.init).nsps + 1 < SIZE_T_MOD ∧
      (run false 3 (demoTeardown ++ [Op.wDestroy 0]) Heap.init).nwps + 1 < SIZE_T_MOD ∧
      0 < (run false 3 demoTeardown Heap.init).nblocks ∧
      ((run false 3 demoTeardown Heap.init).blocks 0).obj ≠ 0) ∧
    (((run false 3 (demoTeardown ++ [Op.wDestroy 0]) Heap.init).blocks 0).obj =
      ((run false 3 demoTeardown Heap.init).blocks 0).obj ∧
    ((run false 3 (demoTeardown ++ [Op.wDestroy 0]) Heap.init).objs
      ((run false 3 demoTeardown Heap.init).blocks 0).obj).ctor_runs = 1 ∧
    ((run false 3 (demoTeardown ++ [Op.wDestroy 0]) Heap.init).objs
      ((run false 3 demoTeardown Heap.init).blocks 0).obj).dtor_runs =
      (if ((run false 3 (demoTeardown ++ [Op.wDestroy 0]) Heap.init).blocks 0).strong_cnt = 0
        then 1 else 0) ∧
    (((run false 3 demoTeardown Heap.init).blocks 0).strong_cnt = 0 →
      ((run false 3 (demoTeardown ++ [Op.wDestroy 0]) Heap.init).blocks 0).strong_cnt = 0)) :=
  ⟨⟨by decide, by decide, by decide, by decide⟩,
   destructor_runs_once_at_last_release false 0 demoTeardown [Op.wDestroy 0] (by decide)
     (by decide) 0 (by decide) (by decide)⟩

/-! ## Claims about single operations -/

theorem exec_destroy_plain (n : Nat) (p : Addr) (s : Heap) :
    exec false (n + 1) (Task.destroy p) s =
      s.modObj p (fun o => { o with dtor_runs := o.dtor_runs + 1 }) := by
  rw [exec_destroy_succ]; simp

/-- Effect of `ClearPtr` on a block of a type without the capability, on any heap. -/
theorem ClearPtr_plain (n b : Nat) (s : Heap) :
    (ClearPtr false (n + 1) b s).blocks =
      Function.update s.blocks b
        { s.blocks b with
          clear_calls := (s.blocks b).clear_calls + 1,
          is_delete_ := (s.blocks b).emplace || (s.blocks b).is_delete_,
          ptr_ := if (s.blocks b).emplace = true then (s.blocks b).ptr_ else 0 } ∧
    (ClearPtr false (n + 1) b s).objs =
      (if (s.blocks b).cleared then s.objs
       else Function.update s.objs
         (if (s.blocks b).emplace = true then (s.blocks b).obj else (s.blocks b).ptr_)
         { s.objs (if (s.blocks b).emplace = true then (s.blocks b).obj else (s.blocks b).ptr_)
           with dtor_runs :=
             (s.objs (if (s.blocks b).emplace = true then (s.blocks b).obj
                      else (s.blocks b).ptr_)).dtor_runs + 1 }) ∧
    (ClearPtr false (n + 1) b s).sps = s.sps ∧ (ClearPtr false (n + 1) b s).wps = s.wps ∧
    (ClearPtr false (n + 1) b s).fault = s.fault := by
  rw [ClearPtr_eq]
  unfold ControlBlock.cleared
  by_cases he : (s.blocks b).emplace = true
  · by_cases hd : (s.blocks b).is_delete_ = true
    · simp [he, hd]
    · simp [he, hd, exec_destroy_plain]
  · by_cases hp : (s.blocks b).ptr_ = 0
    · simp [he, hp]
    · simp [he, hp, exec_destroy_plain]

/-- C5 (constructor-based promotion), evaluated where the code departs from it: a
default-constructed `WeakPtr` has no block, so `Expired()` is true, yet
`SharedPtr<T>(w)` does not throw `BadWeakPtr`: it returns a handle with no block and a
null pointer. -/
theorem promote_blockless_weak_returns_null_handle :
    WeakPtr.Expired 0 (WeakPtr.default Heap.init) = true ∧
    SharedPtr.fromWeak 0 (WeakPtr.default Heap.init) =
      Except.ok ((WeakPtr.default Heap.init).newShared none 0) ∧
    SharedPtr.fromWeak 0 (WeakPtr.default Heap.init) ≠ Except.error Exn.BadWeakPtr ∧
    (((WeakPtr.default Heap.init).newShared none 0).sps 0).block_ = none ∧
    (((WeakPtr.default Heap.init).newShared none 0).sps 0).ptr_ = 0 := by
  refine ⟨by decide, rfl, ?_, by decide, by decide⟩
  intro h
  have e : SharedPtr.fromWeak 0 (WeakPtr.default Heap.init) =
      Except.ok ((WeakPtr.default Heap.init).newShared none 0) := rfl
  rw [e] at h
  cases h

/-- C6 (`Lock()` never fails).  On any heap, for a type without the self-reference
capability and a weak handle `w` whose block (if any) has a strong count below
`SIZE_MAX`: `w.Lock()` returns, never throws, and builds exactly one new shared
handle, leaving weak handles, objects and the fault state alone.  If `w.Expired()`
the new handle has no block and a null pointer and no block is changed.  Otherwise the
new handle has the block and the cached pointer of `w`, `strong_cnt` of that block is
one greater than before while the rest of that block (`weak_cnt` included) and every
other block are unchanged. -/
theorem lock_never_fails (s : Heap) (w : Nat)
    (hno : ∀ b, (s.wps w).block_ = some b → (s.blocks b).strong_cnt + 1 < SIZE_T_MOD) :
    ∃ t, WeakPtr.Lock false w s = Except.ok t ∧
      t.nsps = s.nsps + 1 ∧ t.wps = s.wps ∧ t.nwps = s.nwps ∧ t.objs = s.objs ∧
      t.fault = s.fault ∧ (∀ k, k ≠ s.nsps → t.sps k = s.sps k) ∧
      (WeakPtr.Expired w s = true →
        t.sps s.nsps = { live := true, block_ := none, ptr_ := 0 } ∧ t.blocks = s.blocks) ∧
      (WeakPtr.Expired w s = false →
        ∃ b, (s.wps w).block_ = some b ∧
          t.sps s.nsps = { live := true, block_ := some b, ptr_ := (s.wps w).ptr_ } ∧
          t.blocks b = { s.blocks b with strong_cnt := (s.blocks b).strong_cnt + 1 } ∧
          ∀ c, c ≠ b → t.blocks c = s.blocks c) := by
  unfold WeakPtr.Lock
  by_cases he : WeakPtr.Expired w s = true
  · refine ⟨SharedPtr.default false s, by simp [he], rfl, rfl, rfl, rfl, rfl, ?_, ?_, ?_⟩
    · intro k hk
      simp [SharedPtr.default, SharedPtr.wire, Function.update_noteq hk]
    · intro _
      simp [SharedPtr.default, SharedPtr.wire]
    · intro h; rw [he] at h; cases h
  · have he' : WeakPtr.Expired w s = false := by simpa using he
    cases hb : (s.wps w).block_ with
    | none => simp [WeakPtr.Expired, hb] at he
    | some b =>
      have h0 : (s.blocks b).strong_cnt ≠ 0 := by
        intro h0
        simp [WeakPtr.Expired, hb, h0] at he
      have hinc := incr_eq (hno b hb)
      refine ⟨(s.newShared (some b) (s.wps w).ptr_).modBlock b
          (fun c => { c with strong_cnt := incr c.strong_cnt }), ?_, rfl, rfl, rfl, rfl, rfl,
        ?_, ?_, ?_⟩
      · simp [he', SharedPtr.fromWeak, hb, h0]
      · intro k hk
        simp [Function.update_noteq hk]
      · intro h; rw [he'] at h; cases h
      · intro _
        refine ⟨b, rfl, by simp, by simp [hinc], ?_⟩
        intro c hc
        simp [Function.update_noteq hc]

/-- Witness of C6: `Lock()` on a weak handle over a live object. -/
theorem lock_never_fails_witness :
    (∀ b, ((run false 3 demoLock Heap.init).wps 0).block_ = some b →
      ((run false 3 demoLock Heap.init).blocks b).strong_cnt + 1 < SIZE_T_MOD) ∧
    ∃ t, WeakPtr.Lock false 0 (run false 3 demoLock Heap.init) = Except.ok t ∧
      t.nsps = (run false 3 demoLock Heap.init).nsps + 1 ∧
      t.wps = (run false 3 demoLock Heap.init).wps ∧
      t.nwps = (run false 3 demoLock Heap.init).nwps ∧
      t.objs = (run false 3 demoLock Heap.init).objs ∧
      t.fault = (run false 3 demoLock Heap.init).fault ∧
      (∀ k, k ≠ (run false 3 demoLock Heap.init).nsps →
        t.sps k = (run false 3 demoLock Heap.init).sps k) ∧
      (WeakPtr.Expired 0 (run false 3 demoLock Heap.init) = true →
        t.sps (run false 3 demoLock Heap.init).nsps =
          { live := true, block_ := none, ptr_ := 0 } ∧
        t.blocks = (run false 3 demoLock Heap.init).blocks) ∧
      (WeakPtr.Expired 0 (run false 3 demoLock Heap.init) = false →
        ∃ b, ((run false 3 demoLock Heap.init).wps 0).block_ = some b ∧
          t.sps (run false 3 demoLock Heap.init).nsps =
            { live := true, block_ := some b,
              ptr_ := ((run false 3 demoLock Heap.init).wps 0).ptr_ } ∧
          t.blocks b =
            { (run false 3 demoLock Heap.init).blocks b with
              strong_cnt := ((run false 3 demoLock Heap.init).blocks b).strong_cnt + 1 } ∧
          ∀ c, c ≠ b → t.blocks c = (run false 3 demoLock Heap.init).blocks c) :=
  have hno : ∀ b, ((run false 3 demoLock Heap.init).wps 0).block_ = some b →
      ((run false 3 demoLock Heap.init).blocks b).strong_cnt + 1 < SIZE_T_MOD := by
    intro b hb
    have e : ((run false 3 demoLock Heap.init).wps 0).block_ = some 0 := by decide
    rw [e] at hb
    cases hb
    decide
  ⟨hno, lock_never_fails (run false 3 demoLock Heap.init) 0 hno⟩

/-- The handles after move assignment, on any heap: for two distinct handles `a` (index
`i`) and `b` (index `j`), after `a = std::move(b)` handle `a` holds the former block and
pointer of `b`, `b` holds no block and a null pointer, every other handle is as before,
and blocks, objects, weak handles and fault state are those `DeleteBlock()` on `a`
left. -/
theorem SharedPtr.moveAssign_handles (esft : Bool) (d : Nat) (s : Heap) (i j : Nat)
    (hij : j ≠ i) :
    ((SharedPtr.moveAssign esft d i j s).sps i).block_ = (s.sps j).block_ ∧
    ((SharedPtr.moveAssign esft d i j s).sps i).ptr_ = (s.sps j).ptr_ ∧
    ((SharedPtr.moveAssign esft d i j s).sps j).block_ = none ∧
    ((SharedPtr.moveAssign esft d i j s).sps j).ptr_ = 0 ∧
    (∀ k, k ≠ i → k ≠ j → (SharedPtr.moveAssign esft d i j s).sps k = s.sps k) ∧
    (SharedPtr.moveAssign esft d i j s).blocks = (SharedPtr.Reset esft d i s).blocks ∧
    (SharedPtr.moveAssign esft d i j s).objs = (SharedPtr.Reset esft d i s).objs ∧
    (SharedPtr.moveAssign esft d i j s).wps = (SharedPtr.Reset esft d i s).wps ∧
    (SharedPtr.moveAssign esft d i j s).fault = (SharedPtr.Reset esft d i s).fault := by
  obtain ⟨f1, _⟩ := SharedPtr.DeleteBlock_frame esft d i s
  have hne : i ≠ j := fun e => hij e.symm
  have e : SharedPtr.moveAssign esft d i j s =
      SharedPtr.Swap i j (SharedPtr.DeleteBlock esft d i s) := by
    simp [SharedPtr.moveAssign, hij]
  rw [e]
  refine ⟨?_, ?_, ?_, ?_, ?_, rfl, rfl, rfl, rfl⟩
  · simp [SharedPtr.Swap, f1, Function.update_noteq hne, Function.update_noteq hij]
  · simp [SharedPtr.Swap, f1, Function.update_noteq hne, Function.update_noteq hij]
  · simp [SharedPtr.Swap, f1]
  · simp [SharedPtr.Swap, f1]
  · intro k hki hkj
    simp [SharedPtr.Swap, f1, Function.update_noteq hki, Function.update_noteq hkj]

/-- In every well-formed heap a weak handle with a block observes the number of live
shared handles over the block, and keeps the block from being freed. -/
theorem Inv.weak_observes {esft : Bool} {s : Heap} (h : Inv esft none s) {w b : Nat}
    (hw : w < s.nwps) (hb : (s.wps w).block_ = some b) :
    WeakPtr.UseCount w s = s.liveShared b ∧
    (WeakPtr.Expired w s = true ↔ s.liveShared b = 0) ∧
    (s.blocks b).frees = 0 := by
  obtain ⟨hbn, hpos⟩ := h.weak_pos hw hb
  have hs := h.C.strong b hbn
  have hF := h.F b hbn
  refine ⟨by simp [WeakPtr.UseCount, hb, hs], by simp [WeakPtr.Expired, hb, hs], ?_⟩
  have hne : ¬ ((s.blocks b).strong_cnt = 0 ∧ (s.blocks b).weak_cnt = 0) := by omega
  simpa [hne] using hF

/-- C9, evaluated where the code departs from it: for a capability-bearing type, after
the last shared handle is released the weak handle `W` is expired and its block is
still allocated, but `W.Lock()` does not return an empty handle: it runs
`SharedPtr<T>()`, whose `InitWeakThis(ptr_)` stores through the null `ptr_`.  For a
type without the capability the same program returns an empty handle. -/
theorem lock_expired_capability_null_deref :
    (run true 3 demoExpired Heap.init).fault = none ∧
    (run true 3 demoExpired Heap.init).liveW 1 = true ∧
    WeakPtr.Expired 1 (run true 3 demoExpired Heap.init) = true ∧
    WeakPtr.UseCount 1 (run true 3 demoExpired Heap.init) = 0 ∧
    ((run true 3 demoExpired Heap.init).blocks 0).frees = 0 ∧
    (step true 3 (run true 3 demoExpired Heap.init) (Op.wLock 1)).fault =
      some Fault.nullDeref ∧
    (step false 3 (run false 3 demoExpired Heap.init) (Op.wLock 0)).fault = none ∧
    ((step false 3 (run false 3 demoExpired Heap.init) (Op.wLock 0)).sps 1).block_ = none := by
  decide

/-! ## Claims about construction, assignment and the self-reference capability -/

/-- C17 (move construction transfers the strong unit).  On any heap, for a type without
the self-reference capability and an existing handle `s` (index `j`): after
`SharedPtr d(std::move(s))` the new handle `d` (index `nsps`) holds the block and the
pointer `s` held; `s` has no block and a null pointer, so `s.UseCount() == 0` and
`bool(s) == false`; every other handle, every control block (hence every `strong_cnt`
and `weak_cnt`), every object, every weak handle and the fault state are unchanged. -/
theorem move_construct_transfers_unit (s : Heap) (j : Nat) (hj : j < s.nsps) :
    (SharedPtr.move false j s).nsps = s.nsps + 1 ∧
    ((SharedPtr.move false j s).sps s.nsps).live = true ∧
    ((SharedPtr.move false j s).sps s.nsps).block_ = (s.sps j).block_ ∧
    ((SharedPtr.move false j s).sps s.nsps).ptr_ = (s.sps j).ptr_ ∧
    ((SharedPtr.move false j s).sps j).block_ = none ∧
    ((SharedPtr.move false j s).sps j).ptr_ = 0 ∧
    ((SharedPtr.move false j s).sps j).live = (s.sps j).live ∧
    SharedPtr.UseCount j (SharedPtr.move false j s) = 0 ∧
    SharedPtr.toBool j (SharedPtr.move false j s) = false ∧
    (∀ k, k ≠ j → k ≠ s.nsps → (SharedPtr.move false j s).sps k = s.sps k) ∧
    (SharedPtr.move false j s).blocks = s.blocks ∧
    (SharedPtr.move false j s).objs = s.objs ∧
    (SharedPtr.move false j s).wps = s.wps ∧
    (SharedPtr.move false j s).nwps = s.nwps ∧
    (SharedPtr.move false j s).fault = s.fault := by
  have hne : j ≠ s.nsps := Nat.ne_of_lt hj
  have hne2 : s.nsps ≠ j := fun e => hne e.symm
  refine ⟨rfl, ?_, ?_, ?_, ?_, ?_, ?_, ?_, ?_, ?_, rfl, rfl, rfl, rfl, rfl⟩
  · simp [SharedPtr.move, SharedPtr.wire, Function.update_noteq hne2]
  · simp [SharedPtr.move, SharedPtr.wire, Function.update_noteq hne2]
  · simp [SharedPtr.move, SharedPtr.wire, Function.update_noteq hne2]
  · simp [SharedPtr.move, SharedPtr.wire]
  · simp [SharedPtr.move, SharedPtr.wire]
  · simp [SharedPtr.move, SharedPtr.wire, Function.update_noteq hne]
  · simp [SharedPtr.UseCount, SharedPtr.move, SharedPtr.wire]
  · simp [SharedPtr.toBool, SharedPtr.move, SharedPtr.wire]
  · intro k hk1 hk2
    simp [SharedPtr.move, SharedPtr.wire, Function.update_noteq hk1, Function.update_noteq hk2]

/-- Witness of C17: the only owner of a freshly wrapped object is moved from. -/
theorem move_construct_transfers_unit_witness :
    0 < (run false 3 [Op.sWrapNew] Heap.init).nsps ∧
    ((SharedPtr.move false 0 (run false 3 [Op.sWrapNew] Heap.init)).sps 1).block_ = some 0 ∧
    ((SharedPtr.move false 0 (run false 3 [Op.sWrapNew] Heap.init)).sps 0).block_ = none ∧
    ((SharedPtr.move false 0 (run false 3 [Op.sWrapNew] Heap.init)).blocks 0).strong_cnt = 1 :=
  ⟨by decide,
   Eq.trans (move_construct_transfers_unit (run false 3 [Op.sWrapNew] Heap.init) 0
      (by decide)).2.2.1 (by decide),
   (move_construct_transfers_unit (run false 3 [Op.sWrapNew] Heap.init) 0 (by decide)).2.2.2.2.1,
   Eq.trans (congrArg (fun f => (f 0).strong_cnt)
      (move_construct_transfers_unit (run false 3 [Op.sWrapNew] Heap.init) 0
        (by decide)).2.2.2.2.2.2.2.2.2.2.1) (by decide)⟩

/-- The handle built by `InitWeakThis` and the blocks it leaves. -/
theorem SharedPtr.InitWeakThis_frame (i : Nat) (e : Addr) (s : Heap) :
    (SharedPtr.InitWeakThis i e s).sps = s.sps ∧
    (SharedPtr.InitWeakThis i e s).nsps = s.nsps ∧
    (SharedPtr.InitWeakThis i e s).nwps = s.nwps + 1 ∧
    (SharedPtr.InitWeakThis i e s).nblocks = s.nblocks ∧
    (SharedPtr.InitWeakThis i e s).nobjs = s.nobjs ∧
    (∀ c, ((SharedPtr.InitWeakThis i e s).blocks c).strong_cnt = (s.blocks c).strong_cnt) ∧
    (SharedPtr.InitWeakThis i e s).wps s.nwps =
      { live := true, block_ := (s.sps i).block_, ptr_ := (s.sps i).ptr_, heap := true } := by
  unfold SharedPtr.InitWeakThis WeakPtr.fromShared
  cases hb : (s.sps i).block_ with
  | none =>
    simp only []
    split_ifs <;> simp
  | some b =>
    simp only []
    refine ⟨?_, ?_, ?_, ?_, ?_, ?_, ?_⟩
    all_goals split_ifs
    all_goals first
      | (intro c; by_cases hc : c = b
         · subst hc; simp
         · simp [Function.update_noteq hc])
      | simp

/-- C11 (aliasing construction and equality).  On any heap let `s` (index `j`) hold
block `b` whose strong count is below `SIZE_MAX`, and let `a = SharedPtr(s, p)` (index
`nsps`).  Then `a == s`, `a.Get() == p`, `a.GetBlock()` is `b`, `strong_cnt` of `b` is
one greater than before, no other strong count changes and `s` itself is unchanged.
For a type without the capability nothing else changes at all.  For a type with the
capability the constructor goes on to `InitWeakThis(p)`: this stores through `p`, which
is undefined behaviour when `p` is null, and installs one more weak handle when `p` is
the address of a live object.  Two shared handles compare equal exactly when their
`GetBlock()` values agree. -/
theorem alias_equal_to_origin (esft : Bool) (s : Heap) (j b : Nat) (p : Addr)
    (hj : j < s.nsps) (hb : (s.sps j).block_ = some b)
    (hcap : (s.blocks b).strong_cnt + 1 < SIZE_T_MOD) :
    (SharedPtr.alias esft j p s).nsps = s.nsps + 1 ∧
    SharedPtr.eq s.nsps j (SharedPtr.alias esft j p s) = true ∧
    SharedPtr.Get s.nsps (SharedPtr.alias esft j p s) = p ∧
    SharedPtr.GetBlock s.nsps (SharedPtr.alias esft j p s) = some b ∧
    ((SharedPtr.alias esft j p s).blocks b).strong_cnt = (s.blocks b).strong_cnt + 1 ∧
    (∀ c, c ≠ b →
      ((SharedPtr.alias esft j p s).blocks c).strong_cnt = (s.blocks c).strong_cnt) ∧
    (SharedPtr.alias esft j p s).sps j = s.sps j ∧
    (esft = false →
      (SharedPtr.alias esft j p s).blocks b =
        { s.blocks b with strong_cnt := (s.blocks b).strong_cnt + 1 } ∧
      (∀ c, c ≠ b → (SharedPtr.alias esft j p s).blocks c = s.blocks c) ∧
      (SharedPtr.alias esft j p s).objs = s.objs ∧
      (SharedPtr.alias esft j p s).wps = s.wps ∧
      (SharedPtr.alias esft j p s).fault = s.fault) ∧
    (esft = true → p = 0 → (SharedPtr.alias esft j p s).fault = some Fault.nullDeref) ∧
    (esft = true → s.liveObj p = true →
      (SharedPtr.alias esft j p s).fault = s.fault ∧
      (SharedPtr.alias esft j p s).nwps = s.nwps + 1 ∧
      ((SharedPtr.alias esft j p s).objs p).weak_this_ = some s.nwps) ∧
    (∀ (u : Heap) (i k : Nat),
      SharedPtr.eq i k u = true ↔ SharedPtr.GetBlock i u = SharedPtr.GetBlock k u) := by
  have hne : j ≠ s.nsps := Nat.ne_of_lt hj
  have hinc := incr_eq hcap
  -- the heap before the wiring step
  have e2 : SharedPtr.alias esft j p s =
      SharedPtr.wire esft s.nsps
        ((s.newShared (some b) p).modBlock b
          (fun c => { c with strong_cnt := incr c.strong_cnt })) := by
    simp [SharedPtr.alias, hb]
  obtain ⟨f1, f2, f3, f4, f5, f6, f7⟩ := SharedPtr.InitWeakThis_frame s.nsps p
    ((s.newShared (some b) p).modBlock b (fun c => { c with strong_cnt := incr c.strong_cnt }))
  have hsps : (SharedPtr.alias esft j p s).sps =
      Function.update s.sps s.nsps { live := true, block_ := some b, ptr_ := p } := by
    rw [e2]; unfold SharedPtr.wire
    cases esft
    · simp
    · simp only [if_true, Heap.modBlock_sps, Heap.newShared_sps, Function.update_same]
      rw [f1]; simp
  have hstr : ∀ c, ((SharedPtr.alias esft j p s).blocks c).strong_cnt =
      (((s.newShared (some b) p).modBlock b
          (fun c => { c with strong_cnt := incr c.strong_cnt })).blocks c).strong_cnt := by
    intro c
    rw [e2]; unfold SharedPtr.wire
    cases esft
    · simp
    · simp only [if_true, Heap.modBlock_sps, Heap.newShared_sps, Function.update_same]
      exact f6 c
  refine ⟨?_, ?_, ?_, ?_, ?_, ?_, ?_, ?_, ?_, ?_, ?_⟩
  · rw [e2]; unfold SharedPtr.wire
    cases esft
    · simp
    · simp only [if_true, Heap.modBlock_sps, Heap.newShared_sps, Function.update_same]
      rw [f2]; simp
  · simp [SharedPtr.eq, hsps, Function.update_noteq hne, hb]
  · simp [SharedPtr.Get, hsps]
  · simp [SharedPtr.GetBlock, hsps]
  · rw [hstr]; simp [hinc]
  · intro c hc
    rw [hstr]; simp [Function.update_noteq hc]
  · rw [hsps, Function.update_noteq hne]
  · intro he; subst he
    rw [e2]
    refine ⟨by simp [SharedPtr.wire, hinc], ?_, by simp [SharedPtr.wire],
      by simp [SharedPtr.wire], by simp [SharedPtr.wire]⟩
    intro c hc
    simp [SharedPtr.wire, Function.update_noteq hc]
  · intro he hp; subst he; subst hp
    rw [e2]
    simp [SharedPtr.wire, SharedPtr.InitWeakThis]
  · intro he hp; subst he
    have hp1 : 0 < p ∧ p ≤ s.nobjs ∧ (s.objs p).dtor_runs = 0 := by
      simpa [Heap.liveObj, and_assoc] using hp
    have hp0 : p ≠ 0 := Nat.pos_iff_ne_zero.mp hp1.1
    rw [e2]
    simp [SharedPtr.wire, SharedPtr.InitWeakThis, WeakPtr.fromShared, hp0, hp1.2.1, hp1.2.2]
  · intro u i k
    simp [SharedPtr.eq, SharedPtr.GetBlock]

/-- Witness of C11 where the code departs from it: for a capability-bearing type,
aliasing the owner of a freshly wrapped object with a null pointer is undefined
behaviour. -/
theorem alias_equal_to_origin_witness :
    (0 < (run true 3 [Op.sWrapNew] Heap.init).nsps ∧
      ((run true 3 [Op.sWrapNew] Heap.init).sps 0).block_ = some 0 ∧
      ((run true 3 [Op.sWrapNew] Heap.init).blocks 0).strong_cnt + 1 < SIZE_T_MOD) ∧
    (run true 3 [Op.sWrapNew] Heap.init).fault = none ∧
    (SharedPtr.alias true 0 0 (run true 3 [Op.sWrapNew] Heap.init)).fault =
      some Fault.nullDeref :=
  ⟨⟨by decide, by decide, by decide⟩, by decide,
   (alias_equal_to_origin true (run true 3 [Op.sWrapNew] Heap.init) 0 0 0 (by decide)
     (by decide) (by decide)).2.2.2.2.2.2.2.2.1 rfl rfl⟩

/-- Effect of `InitWeakThis` called with a null argument. -/
theorem SharedPtr.InitWeakThis_null (i : Nat) (s : Heap) :
    (SharedPtr.InitWeakThis i 0 s).fault = some Fault.nullDeref ∧
    (SharedPtr.InitWeakThis i 0 s).objs = s.objs := by
  unfold SharedPtr.InitWeakThis WeakPtr.fromShared
  cases (s.sps i).block_ <;> simp

/-- C12 (wiring when no object is present), as the code behaves.  For a
capability-bearing type and any heap: default construction, copying or moving a handle
`j` whose pointer is null, and wrapping a null `T*` all call `InitWeakThis(ptr_)` with
a null `ptr_`.  Each of them allocates a `WeakPtr` (index `nwps`, built from the new
handle and marked heap-allocated) and then stores through the null pointer: the write
`e->weak_this_ = temp` is reached with `e` null.  No capability slot of an existing
object is written.  Only `SharedPtr(std::nullptr_t)` skips the wiring, as does every
constructor of a type without the capability. -/
theorem null_construction_reaches_wiring (s : Heap) (j : Nat) (hj : j < s.nsps)
    (hnull : (s.sps j).ptr_ = 0) :
    ((SharedPtr.default true s).fault = some Fault.nullDeref ∧
      (SharedPtr.default true s).nwps = s.nwps + 1 ∧
      ((SharedPtr.default true s).wps s.nwps).live = true ∧
      ((SharedPtr.default true s).wps s.nwps).heap = true ∧
      (SharedPtr.default true s).objs = s.objs) ∧
    ((SharedPtr.copy true j s).fault = some Fault.nullDeref ∧
      (SharedPtr.copy true j s).nwps = s.nwps + 1 ∧
      ((SharedPtr.copy true j s).wps s.nwps).live = true ∧
      (SharedPtr.copy true j s).objs = s.objs) ∧
    ((SharedPtr.move true j s).fault = some Fault.nullDeref ∧
      (SharedPtr.move true j s).nwps = s.nwps + 1 ∧
      ((SharedPtr.move true j s).wps s.nwps).live = true ∧
      (SharedPtr.move true j s).objs = s.objs) ∧
    ((SharedPtr.fromRaw true 0 s).fault = some Fault.nullDeref ∧
      (SharedPtr.fromRaw true 0 s).nwps = s.nwps + 1 ∧
      ((SharedPtr.fromRaw true 0 s).wps s.nwps).live = true ∧
      (SharedPtr.fromRaw true 0 s).objs = s.objs) ∧
    ((SharedPtr.null s).fault = s.fault ∧ (SharedPtr.null s).nwps = s.nwps ∧
      (SharedPtr.null s).wps = s.wps ∧ (SharedPtr.null s).objs = s.objs) ∧
    ((SharedPtr.default false s).fault = s.fault ∧ (SharedPtr.default false s).nwps = s.nwps ∧
      (SharedPtr.copy false j s).fault = s.fault ∧ (SharedPtr.copy false j s).nwps = s.nwps ∧
      (SharedPtr.move false j s).fault = s.fault ∧ (SharedPtr.move false j s).nwps = s.nwps ∧
      (SharedPtr.fromRaw false 0 s).fault = s.fault ∧
      (SharedPtr.fromRaw false 0 s).nwps = s.nwps) := by
  have hne : j ≠ s.nsps := Nat.ne_of_lt hj
  have hne2 : s.nsps ≠ j := fun e => hne e.symm
  refine ⟨?_, ?_, ?_, ?_, ⟨rfl, rfl, rfl, rfl⟩, ?_⟩
  · have h := SharedPtr.InitWeakThis_null s.nsps (s.newShared none 0)
    have f := SharedPtr.InitWeakThis_frame s.nsps 0 (s.newShared none 0)
    have e : SharedPtr.default true s = SharedPtr.InitWeakThis s.nsps 0 (s.newShared none 0) := by
      simp [SharedPtr.default, SharedPtr.wire]
    rw [e]
    refine ⟨h.1, by simpa using f.2.2.1, ?_, ?_, by simpa using h.2⟩
    · have := f.2.2.2.2.2.2; simp only [Heap.newShared_nwps] at this; rw [this]
    · have := f.2.2.2.2.2.2; simp only [Heap.newShared_nwps] at this; rw [this]
  · cases hb : (s.sps j).block_ with
    | none =>
      have e : SharedPtr.copy true j s =
          SharedPtr.InitWeakThis s.nsps 0 (s.newShared none 0) := by
        simp [SharedPtr.copy, SharedPtr.wire, hb, hnull]
      have h := SharedPtr.InitWeakThis_null s.nsps (s.newShared none 0)
      have f := SharedPtr.InitWeakThis_frame s.nsps 0 (s.newShared none 0)
      rw [e]
      refine ⟨h.1, by simpa using f.2.2.1, ?_, by simpa using h.2⟩
      have := f.2.2.2.2.2.2; simp only [Heap.newShared_nwps] at this; rw [this]
    | some b =>
      have e : SharedPtr.copy true j s =
          SharedPtr.InitWeakThis s.nsps 0 ((s.newShared (some b) 0).modBlock b
            (fun c => { c with strong_cnt := incr c.strong_cnt })) := by
        simp [SharedPtr.copy, SharedPtr.wire, hb, hnull]
      have h := SharedPtr.InitWeakThis_null s.nsps ((s.newShared (some b) 0).modBlock b
            (fun c => { c with strong_cnt := incr c.strong_cnt }))
      have f := SharedPtr.InitWeakThis_frame s.nsps 0 ((s.newShared (some b) 0).modBlock b
            (fun c => { c with strong_cnt := incr c.strong_cnt }))
      rw [e]
      refine ⟨h.1, by simpa using f.2.2.1, ?_, by simpa using h.2⟩
      have := f.2.2.2.2.2.2
      simp only [Heap.newShared_nwps, Heap.modBlock_nwps] at this; rw [this]
  · have e : SharedPtr.move true j s =
        SharedPtr.InitWeakThis s.nsps 0 ((s.newShared (s.sps j).block_ 0).setShared j
          { live := (s.sps j).live, block_ := none, ptr_ := 0, heap := (s.sps j).heap }) := by
      simp [SharedPtr.move, SharedPtr.wire, hnull, Function.update_noteq hne,
        Function.update_noteq hne2]
    have h := SharedPtr.InitWeakThis_null s.nsps ((s.newShared (s.sps j).block_ 0).setShared j
          { live := (s.sps j).live, block_ := none, ptr_ := 0, heap := (s.sps j).heap })
    have f := SharedPtr.InitWeakThis_frame s.nsps 0 ((s.newShared (s.sps j).block_ 0).setShared j
          { live := (s.sps j).live, block_ := none, ptr_ := 0, heap := (s.sps j).heap })
    rw [e]
    refine ⟨h.1, by simpa using f.2.2.1, ?_, by simpa using h.2⟩
    have := f.2.2.2.2.2.2
    simp only [Heap.newShared_nwps, Heap.setShared_nwps] at this; rw [this]
  · have e : SharedPtr.fromRaw true 0 s =
        SharedPtr.InitWeakThis s.nsps 0 ((s.newPointerBlock 0).newShared (some s.nblocks) 0) := by
      simp [SharedPtr.fromRaw, SharedPtr.wire]
    have h := SharedPtr.InitWeakThis_null s.nsps
      ((s.newPointerBlock 0).newShared (some s.nblocks) 0)
    have f := SharedPtr.InitWeakThis_frame s.nsps 0
      ((s.newPointerBlock 0).newShared (some s.nblocks) 0)
    rw [e]
    refine ⟨h.1, by simpa using f.2.2.1, ?_, by simpa using h.2⟩
    have := f.2.2.2.2.2.2
    simp only [Heap.newShared_nwps, Heap.newPointerBlock_nwps] at this; rw [this]
  · refine ⟨rfl, rfl, ?_, ?_, rfl, rfl, rfl, rfl⟩
    · unfold SharedPtr.copy SharedPtr.wire
      cases (s.sps j).block_ <;> rfl
    · unfold SharedPtr.copy SharedPtr.wire
      cases (s.sps j).block_ <;> rfl

/-- Witness of C12: default construction and the copy of a null handle, for a
capability-bearing type, on the heap holding one `SharedPtr(nullptr)`. -/
theorem null_construction_reaches_wiring_witness :
    (0 < (SharedPtr.null Heap.init).nsps ∧ ((SharedPtr.null Heap.init).sps 0).ptr_ = 0) ∧
    (SharedPtr.null Heap.init).fault = none ∧
    (SharedPtr.default true (SharedPtr.null Heap.init)).fault = some Fault.nullDeref ∧
    (SharedPtr.copy true 0 (SharedPtr.null Heap.init)).fault = some Fault.nullDeref :=
  ⟨⟨by decide, by decide⟩, by decide,
   (null_construction_reaches_wiring (SharedPtr.null Heap.init) 0 (by decide)
     (by decide)).1.1,
   (null_construction_reaches_wiring (SharedPtr.null Heap.init) 0 (by decide)
     (by decide)).2.1.1⟩

theorem incr_one : incr 1 = 2 := by
  unfold incr SIZE_T_MOD; rfl

/-- The heap right after `SharedPtr<T> A(new T)` for a capability-bearing type: the
slot of the new object holds a weak handle over the block of `A`. -/
theorem SharedPtr.fromRaw_new_wired (s : Heap) :
    (SharedPtr.fromRaw true (s.nobjs + 1) s.newObj).fault = s.fault ∧
    ((SharedPtr.fromRaw true (s.nobjs + 1) s.newObj).objs (s.nobjs + 1)).weak_this_ =
      some s.nwps ∧
    ((SharedPtr.fromRaw true (s.nobjs + 1) s.newObj).wps s.nwps).block_ = some s.nblocks ∧
    ((SharedPtr.fromRaw true (s.nobjs + 1) s.newObj).wps s.nwps).ptr_ = s.nobjs + 1 ∧
    ((SharedPtr.fromRaw true (s.nobjs + 1) s.newObj).sps s.nsps).block_ = some s.nblocks ∧
    ((SharedPtr.fromRaw true (s.nobjs + 1) s.newObj).blocks s.nblocks).strong_cnt = 1 ∧
    ((SharedPtr.fromRaw true (s.nobjs + 1) s.newObj).blocks s.nblocks).weak_cnt = 1 ∧
    (SharedPtr.fromRaw true (s.nobjs + 1) s.newObj).nsps = s.nsps + 1 ∧
    (SharedPtr.fromRaw true (s.nobjs + 1) s.newObj).nwps = s.nwps + 1 := by
  have h1 : incr 0 = 1 := by unfold incr SIZE_T_MOD; rfl
  simp [SharedPtr.fromRaw, SharedPtr.wire, SharedPtr.InitWeakThis, WeakPtr.fromShared,
    Heap.newObj, h1]

/-- C13 (self-reference queries), as the code behaves.  First part, for an object at
`p` of a capability-bearing type whose slot `weak_this_` is null: `WeakFromThis()`
returns a weak handle with no block and changes nothing else, but `SharedFromThis()`
returns `SharedPtr<T>()`, whose constructor runs `InitWeakThis(ptr_)` on a null `ptr_`
and stores through the null pointer.  Second part, on any heap, right after
`SharedPtr<T> A(new T)` (handle `nsps`, block `nblocks`, object `nobjs + 1`):
`SharedFromThis()` returns, without throwing, a handle whose block is the block of `A`,
so it compares equal to `A` and `A.UseCount()` has grown from 1 to 2; and
`WeakFromThis()` returns a weak handle whose block is the block of `A`. -/
theorem self_queries (s : Heap) (p : Addr) (hnone : (s.objs p).weak_this_ = none) :
    (WeakFromThis p s = WeakPtr.default s ∧
      ((WeakFromThis p s).wps s.nwps).block_ = none ∧
      (WeakFromThis p s).blocks = s.blocks ∧ (WeakFromThis p s).fault = s.fault) ∧
    (SharedFromThis p s = Except.ok (SharedPtr.default true s) ∧
      (SharedPtr.default true s).fault = some Fault.nullDeref) ∧
    (∃ t, SharedFromThis (s.nobjs + 1) (SharedPtr.fromRaw true (s.nobjs + 1) s.newObj) =
        Except.ok t ∧
      t.fault = s.fault ∧ t.nsps = s.nsps + 2 ∧
      (t.sps (s.nsps + 1)).live = true ∧
      (t.sps (s.nsps + 1)).block_ = (t.sps s.nsps).block_ ∧
      (t.sps s.nsps).block_ = some s.nblocks ∧
      (t.sps (s.nsps + 1)).ptr_ = s.nobjs + 1 ∧
      SharedPtr.eq (s.nsps + 1) s.nsps t = true ∧
      SharedPtr.UseCount s.nsps (SharedPtr.fromRaw true (s.nobjs + 1) s.newObj) = 1 ∧
      SharedPtr.UseCount s.nsps t = 2) ∧
    (((WeakFromThis (s.nobjs + 1) (SharedPtr.fromRaw true (s.nobjs + 1) s.newObj)).wps
        (s.nwps + 1)).block_ = some s.nblocks ∧
      ((WeakFromThis (s.nobjs + 1) (SharedPtr.fromRaw true (s.nobjs + 1) s.newObj)).wps
        (s.nwps + 1)).live = true ∧
      (WeakFromThis (s.nobjs + 1) (SharedPtr.fromRaw true (s.nobjs + 1) s.newObj)).fault =
        s.fault) := by
  obtain ⟨w1, w2, w3, w4, w5, w6, w7, w8, w9⟩ := SharedPtr.fromRaw_new_wired s
  refine ⟨?_, ?_, ?_, ?_⟩
  · have e : WeakFromThis p s = WeakPtr.default s := by simp [WeakFromThis, hnone]
    rw [e]
    exact ⟨rfl, by simp [WeakPtr.default], rfl, rfl⟩
  · refine ⟨by simp [SharedFromThis, hnone], ?_⟩
    have e : SharedPtr.default true s = SharedPtr.InitWeakThis s.nsps 0 (s.newShared none 0) := by
      simp [SharedPtr.default, SharedPtr.wire]
    rw [e]
    exact (SharedPtr.InitWeakThis_null s.nsps (s.newShared none 0)).1
  · have h1 : ((SharedPtr.fromRaw true (s.nobjs + 1) s.newObj).blocks s.nblocks).strong_cnt ≠ 0 := by
      rw [w6]; exact Nat.one_ne_zero
    have hne : s.nsps ≠ s.nsps + 1 := Nat.ne_of_lt (Nat.lt_succ_self _)
    refine ⟨((SharedPtr.fromRaw true (s.nobjs + 1) s.newObj).newShared (some s.nblocks)
        ((SharedPtr.fromRaw true (s.nobjs + 1) s.newObj).wps s.nwps).ptr_).modBlock s.nblocks
        (fun c => { c with strong_cnt := incr c.strong_cnt }),
      by simp only [SharedFromThis, w2, SharedPtr.fromWeak, w3, h1, if_false], ?_⟩
    simp [SharedPtr.eq, SharedPtr.UseCount, Function.update_apply, w8, w5, w4, w6, w1,
      incr_one]
  · have e : WeakFromThis (s.nobjs + 1) (SharedPtr.fromRaw true (s.nobjs + 1) s.newObj) =
        WeakPtr.copy s.nwps (SharedPtr.fromRaw true (s.nobjs + 1) s.newObj) := by
      simp only [WeakFromThis, w2]
    rw [e]
    simp [WeakPtr.copy, w3, Function.update_apply, w9, w1]

/-- Witness of C13 where the code departs from it: `SharedFromThis()` on a freshly
allocated object of a capability-bearing type that no shared handle owns. -/
theorem self_queries_witness :
    (Heap.init.newObj.objs 1).weak_this_ = none ∧
    Heap.init.newObj.fault = none ∧
    SharedFromThis 1 Heap.init.newObj = Except.ok (SharedPtr.default true Heap.init.newObj) ∧
    (SharedPtr.default true Heap.init.newObj).fault = some Fault.nullDeref :=
  ⟨by decide, by decide, (self_queries Heap.init.newObj 1 (by decide)).2.1.1,
   (self_queries Heap.init.newObj 1 (by decide)).2.1.2⟩

theorem Heap.setShared_setShared (s : Heap) (i : Nat) (h1 h2 : Handle) :
    (s.setShared i h1).setShared i h2 = s.setShared i h2 := by
  simp [Heap.setShared]

/-- Copy assignment relative to the release, on any heap: `a = a` returns the heap
unchanged; for two distinct handles `a` (index `i`) and `b` (index `j`), after `a = b`
handle `a` has the block and the cached pointer of `b`, every other handle is unchanged,
objects, weak handles and the fault state are those `DeleteBlock()` on `a` left, and so
are the control blocks except that the block of `b` (if any) has one strong unit more.
When `a` and `b` already shared one block with a strong count of at least 2, every
control block, object and weak handle ends as it started. -/
theorem SharedPtr.assign_handles (esft : Bool) (d : Nat) (s : Heap) (i j : Nat)
    (hij : j ≠ i) :
    SharedPtr.assign esft d i i s = s ∧
    ((SharedPtr.assign esft d i j s).sps i).block_ = (s.sps j).block_ ∧
    ((SharedPtr.assign esft d i j s).sps i).ptr_ = (s.sps j).ptr_ ∧
    ((SharedPtr.assign esft d i j s).sps i).live = (s.sps i).live ∧
    (∀ k, k ≠ i → (SharedPtr.assign esft d i j s).sps k = s.sps k) ∧
    (SharedPtr.assign esft d i j s).objs = (SharedPtr.Reset esft d i s).objs ∧
    (SharedPtr.assign esft d i j s).wps = (SharedPtr.Reset esft d i s).wps ∧
    (SharedPtr.assign esft d i j s).fault = (SharedPtr.Reset esft d i s).fault ∧
    ((s.sps j).block_ = none →
      (SharedPtr.assign esft d i j s).blocks = (SharedPtr.Reset esft d i s).blocks) ∧
    (∀ b, (s.sps j).block_ = some b →
      (SharedPtr.assign esft d i j s).blocks =
        Function.update (SharedPtr.Reset esft d i s).blocks b
          { (SharedPtr.Reset esft d i s).blocks b with
            strong_cnt := incr ((SharedPtr.Reset esft d i s).blocks b).strong_cnt }) ∧
    (∀ b, (s.sps i).block_ = some b → (s.sps j).block_ = some b →
      2 ≤ (s.blocks b).strong_cnt → (s.blocks b).strong_cnt < SIZE_T_MOD →
      (SharedPtr.assign esft d i j s).blocks = s.blocks ∧
      (SharedPtr.assign esft d i j s).objs = s.objs ∧
      (SharedPtr.assign esft d i j s).wps = s.wps ∧
      (SharedPtr.assign esft d i j s).fault = s.fault) := by
  obtain ⟨f1, _⟩ := SharedPtr.DeleteBlock_frame esft d i s
  have hji : (SharedPtr.DeleteBlock esft d i s).sps j = s.sps j := by
    rw [f1, Function.update_noteq hij]
  have hii : (SharedPtr.DeleteBlock esft d i s).sps i =
      { live := (s.sps i).live, block_ := none, ptr_ := 0, heap := (s.sps i).heap } := by
    rw [f1, Function.update_same]
  have key : ∀ ob, (s.sps j).block_ = ob →
      SharedPtr.assign esft d i j s =
        match ob with
        | some b =>
            ((SharedPtr.DeleteBlock esft d i s).setShared i
              { live := (s.sps i).live, block_ := some b, ptr_ := (s.sps j).ptr_,
                heap := (s.sps i).heap }).modBlock b
              (fun c => { c with strong_cnt := incr c.strong_cnt })
        | none =>
            (SharedPtr.DeleteBlock esft d i s).setShared i
              { live := (s.sps i).live, block_ := none, ptr_ := (s.sps j).ptr_,
                heap := (s.sps i).heap } := by
    intro ob hob
    cases ob with
    | none =>
      simp [SharedPtr.assign, hij, hji, hii, hob, Function.update_noteq hij]
    | some b =>
      simp [SharedPtr.assign, hij, hji, hii, hob, Function.update_noteq hij,
        Heap.setShared_setShared]
  refine ⟨by simp [SharedPtr.assign], ?_, ?_, ?_, ?_, ?_, ?_, ?_, ?_, ?_, ?_⟩
  · cases hob : (s.sps j).block_ with
    | none => rw [key none hob]; simp
    | some b => rw [key (some b) hob]; simp
  · cases hob : (s.sps j).block_ with
    | none => rw [key none hob]; simp
    | some b => rw [key (some b) hob]; simp
  · cases hob : (s.sps j).block_ with
    | none => rw [key none hob]; simp
    | some b => rw [key (some b) hob]; simp
  · intro k hk
    cases hob : (s.sps j).block_ with
    | none => rw [key none hob]; simp [Function.update_noteq hk, f1]
    | some b => rw [key (some b) hob]; simp [Function.update_noteq hk, f1]
  · cases hob : (s.sps j).block_ with
    | none => rw [key none hob]; rfl
    | some b => rw [key (some b) hob]; rfl
  · cases hob : (s.sps j).block_ with
    | none => rw [key none hob]; rfl
    | some b => rw [key (some b) hob]; rfl
  · cases hob : (s.sps j).block_ with
    | none => rw [key none hob]; rfl
    | some b => rw [key (some b) hob]; rfl
  · intro hob
    rw [key none hob]; rfl
  · intro b hob
    rw [key (some b) hob]
    simp [SharedPtr.Reset]
  · intro b hbi hbj h2 hlt
    have hdec : decr (s.blocks b).strong_cnt = (s.blocks b).strong_cnt - 1 :=
      decr_eq (by omega) hlt
    have hinc : incr ((s.blocks b).strong_cnt - 1) = (s.blocks b).strong_cnt := by
      rw [incr_eq (by omega)]; omega
    rw [key (some b) hbj, SharedPtr.DeleteBlock_keep esft d i b s hbi (by rw [hdec]; omega)]
    refine ⟨?_, rfl, rfl, rfl⟩
    simp [hdec, hinc]

/-- C15 (colocated factory).  For a type without the capability let `s1` be the heap
reached by any program, `s2` the heap after `MakeShared<T>(args...)` and `s3` the heap
after any further program (fewer than `2^64 - 1` handles of each kind created, three
nested destructor calls available).  In `s2` the new block (index `nblocks` of `s1`) is
a `ControlBlockEmplace` whose storage holds a new object constructed exactly once and
not destroyed; the returned handle (index `nsps` of `s1`) has `Get()` equal to the
address of that storage, `UseCount() == 1`, and the block has `weak_cnt == 0`.  In
`s3`, whatever strong and weak releases happened in whatever order, the object has
still been constructed once, and its destructor has run at most once: not at all while
`strong_cnt > 0`, exactly once when `strong_cnt = 0`, in particular exactly once when
the block has been freed. -/
theorem make_shared_constructs_once (n : Nat) (ops1 ops2 : List Op) (s1 s2 s3 : Heap)
    (h1 : s1 = run false (n + 3) ops1 Heap.init)
    (h2 : s2 = MakeShared false s1)
    (h3 : s3 = run false (n + 3) ops2 s2)
    (hs : s3.nsps + 1 < SIZE_T_MOD) (hw : s3.nwps + 1 < SIZE_T_MOD) :
    s2 = step false (n + 3) s1 Op.sMake ∧
    s2.nblocks = s1.nblocks + 1 ∧ s2.nsps = s1.nsps + 1 ∧ s2.nobjs = s1.nobjs + 1 ∧
    (s2.blocks s1.nblocks).emplace = true ∧
    (s2.blocks s1.nblocks).obj = s1.nobjs + 1 ∧
    (s2.sps s1.nsps).live = true ∧
    (s2.sps s1.nsps).block_ = some s1.nblocks ∧
    SharedPtr.Get s1.nsps s2 = (s2.blocks s1.nblocks).obj ∧
    SharedPtr.UseCount s1.nsps s2 = 1 ∧
    (s2.blocks s1.nblocks).weak_cnt = 0 ∧
    (s2.objs (s1.nobjs + 1)).ctor_runs = 1 ∧
    (s2.objs (s1.nobjs + 1)).dtor_runs = 0 ∧
    (s3.objs (s1.nobjs + 1)).ctor_runs = 1 ∧
    (s3.objs (s1.nobjs + 1)).dtor_runs =
      (if (s3.blocks s1.nblocks).strong_cnt = 0 then 1 else 0) ∧
    (s3.objs (s1.nobjs + 1)).dtor_runs ≤ 1 ∧
    ((s3.blocks s1.nblocks).frees = 1 → (s3.objs (s1.nobjs + 1)).dtor_runs = 1) := by
  have hle3 := run_le false (n + 3) ops2 s2
  rw [← h3] at hle3
  have hle2 : s1.le s2 := by
    rw [h2]; exact ⟨Nat.le_succ _, Nat.le_refl _⟩
  have hi1 : Inv false none s1 := by
    rw [h1]
    refine run_inv false n ops1 Heap.init (Inv.init false) ?_ ?_
    · rw [← h1]; have := hle3.1; have := hle2.1; omega
    · rw [← h1]; have := hle3.2; have := hle2.2; omega
  have hf1 : s1.fault = none := hi1.M.no_fault rfl
  have hstep : s2 = step false (n + 3) s1 Op.sMake := by
    rw [h2]; simp [step, hf1]
  have hi2 : Inv false none s2 := by
    rw [hstep]
    exact step_inv hi1 n Op.sMake (by have := hle3.1; have := hle2.1; omega)
      (by have := hle3.2; have := hle2.2; omega)
  have hi3 : Inv false none s3 := by
    rw [h3]
    exact run_inv false n ops2 s2 hi2 (by rw [← h3]; exact hs) (by rw [← h3]; exact hw)
  have hg := run_grows false (n + 3) ops2 s2
  rw [← h3] at hg
  have e1 : incr 0 = 1 := by unfold incr SIZE_T_MOD; rfl
  have hnb : s2.nblocks = s1.nblocks + 1 := by rw [h2]; rfl
  have hobj2 : (s2.blocks s1.nblocks).obj = s1.nobjs + 1 := by
    rw [h2]; simp [MakeShared, SharedPtr.fromBlock, SharedPtr.wire, Heap.newEmplaceBlock,
      Heap.newObj]
  have hb2 : s1.nblocks < s2.nblocks := by omega
  have hb3 : s1.nblocks < s3.nblocks := Nat.lt_of_lt_of_le hb2 hg.1
  have hobj3 : (s3.blocks s1.nblocks).obj = s1.nobjs + 1 := by
    rw [(hg.2.2.1 _ hb2).1, hobj2]
  have hne3 : (s3.blocks s1.nblocks).obj ≠ 0 := by rw [hobj3]; exact Nat.succ_ne_zero _
  have hd3 := hi3.T.dtor _ hb3 hne3
  have hc3 := hi3.T.ctor _ hb3 hne3
  rw [hobj3] at hd3 hc3
  have hF := hi3.F _ hb3
  simp only [reduceCtorEq, if_false, Nat.add_zero] at hF
  refine ⟨hstep, hnb, by rw [h2]; rfl, by rw [h2]; rfl, ?_, hobj2, ?_, ?_, ?_, ?_, ?_, ?_, ?_,
    hc3, hd3, ?_, ?_⟩
  · rw [h2]; simp [MakeShared, SharedPtr.fromBlock, SharedPtr.wire, Heap.newEmplaceBlock,
      Heap.newObj]
  · rw [h2]; simp [MakeShared, SharedPtr.fromBlock, SharedPtr.wire, Heap.newEmplaceBlock,
      Heap.newObj]
  · rw [h2]; simp [MakeShared, SharedPtr.fromBlock, SharedPtr.wire, Heap.newEmplaceBlock,
      Heap.newObj]
  · rw [hobj2]; rw [h2]
    simp [SharedPtr.Get, MakeShared, SharedPtr.fromBlock, SharedPtr.wire,
      Heap.newEmplaceBlock, Heap.newObj]
  · rw [h2]
    simp [SharedPtr.UseCount, MakeShared, SharedPtr.fromBlock, SharedPtr.wire,
      Heap.newEmplaceBlock, Heap.newObj]
  · rw [h2]; simp [MakeShared, SharedPtr.fromBlock, SharedPtr.wire, Heap.newEmplaceBlock,
      Heap.newObj]
  · rw [h2]; simp [MakeShared, SharedPtr.fromBlock, SharedPtr.wire, Heap.newEmplaceBlock,
      Heap.newObj]
  · rw [h2]; simp [MakeShared, SharedPtr.fromBlock, SharedPtr.wire, Heap.newEmplaceBlock,
      Heap.newObj]
  · rw [hd3]; split <;> omega
  · intro hfr
    rw [hd3]
    rw [hfr] at hF
    have : (s3.blocks s1.nblocks).strong_cnt = 0 := by
      by_contra hne
      simp [hne] at hF
    simp [this]

/-- Witness of C15: the object made by `MakeShared` is destroyed exactly once by the
time the mixed releases of `demoMake` have freed its block. -/
theorem make_shared_constructs_once_witness :
    ((run false 3 demoMake (MakeShared false (run false 3 [] Heap.init))).nsps + 1 <
        SIZE_T_MOD ∧
      (run false 3 demoMake (MakeShared false (run false 3 [] Heap.init))).nwps + 1 <
        SIZE_T_MOD) ∧
    ((run false 3 demoMake (MakeShared false (run false 3 [] Heap.init))).blocks 0).frees = 1 ∧
    ((run false 3 demoMake (MakeShared false (run false 3 [] Heap.init))).objs 1).ctor_runs
      = 1 ∧
    ((run false 3 demoMake (MakeShared false (run false 3 [] Heap.init))).objs 1).dtor_runs
      = 1 :=
  ⟨⟨by decide, by decide⟩, by decide,
   (make_shared_constructs_once 0 [] demoMake _ _ _ rfl rfl rfl (by decide)
     (by decide)).2.2.2.2.2.2.2.2.2.2.2.2.2.1,
   (make_shared_constructs_once 0 [] demoMake _ _ _ rfl rfl rfl (by decide)
     (by decide)).2.2.2.2.2.2.2.2.2.2.2.2.2.2.2.2 (by decide)⟩

/-- The destructor cascade never writes `strong_cnt` and never calls `ClearPtr`. -/
theorem exec_strong (esft : Bool) : ∀ (n : Nat) (t : Task) (s : Heap) (c : Nat),
    ((exec esft n t s).blocks c).strong_cnt = (s.blocks c).strong_cnt ∧
    ((exec esft n t s).blocks c).clear_calls = (s.blocks c).clear_calls := by
  intro n
  induction n with
  | zero => intro t s c; simp [exec]
  | succ n ih =>
    intro t s c
    cases t with
    | destroy p =>
      simp only [exec]
      split
      · split <;> simp [ih]
      · simp
    | weakDeleteBlock w =>
      simp only [exec]
      split
      · rename_i b hb
        split
        · simp only [Heap.setWeak_blocks, ih, Heap.modBlock_blocks]
          by_cases hcb : c = b
          · subst hcb; simp
          · simp [Function.update_noteq hcb]
        · simp only [Heap.setWeak_blocks, Heap.modBlock_blocks]
          by_cases hcb : c = b
          · subst hcb; simp
          · simp [Function.update_noteq hcb]
      · simp
    | deleteBlock b =>
      simp only [exec]
      have key : ∀ x : Heap,
          ((x.modBlock b fun c => { c with frees := c.frees + 1 }).blocks c).strong_cnt
            = (x.blocks c).strong_cnt ∧
          ((x.modBlock b fun c => { c with frees := c.frees + 1 }).blocks c).clear_calls
            = (x.blocks c).clear_calls := by
        intro x
        by_cases hcb : c = b
        · subst hcb; simp
        · simp [Function.update_noteq hcb]
      split
      · split <;> simp only [key, ih, and_self]
      · split <;> simp only [key, ih, and_self]

/-- Incrementing `weak_cnt` of a block leaves `strong_cnt` and the `ClearPtr` count of
every block alone. -/
theorem modBlock_weak_strong (s : Heap) (b c : Nat) (f : Nat → Nat) :
    ((s.modBlock b (fun x => { x with weak_cnt := f x.weak_cnt })).blocks c).strong_cnt =
      (s.blocks c).strong_cnt ∧
    ((s.modBlock b (fun x => { x with weak_cnt := f x.weak_cnt })).blocks c).clear_calls =
      (s.blocks c).clear_calls := by
  by_cases hcb : c = b
  · subst hcb; simp
  · simp [Function.update_noteq hcb]

theorem WeakPtr.assign_strong (esft : Bool) (d w v : Nat) (s : Heap) (c : Nat) :
    ((WeakPtr.assign esft d w v s).blocks c).strong_cnt = (s.blocks c).strong_cnt ∧
    ((WeakPtr.assign esft d w v s).blocks c).clear_calls = (s.blocks c).clear_calls := by
  unfold WeakPtr.assign
  split
  · exact ⟨rfl, rfl⟩
  · simp only []
    split
    · simp only [Heap.modBlock_blocks, Heap.setWeak_blocks]
      have h := modBlock_weak_strong (WeakPtr.DeleteBlock esft d w s) ‹_› c incr
      simp only [Heap.modBlock_blocks] at h
      rw [h.1, h.2]
      exact exec_strong esft _ _ s c
    · exact exec_strong esft _ _ s c

theorem step_weak_strong (esft : Bool) (d : Nat) (s : Heap) (op : Op)
    (hop : op.weakNoLock = true) (c : Nat) :
    ((step esft d s op).blocks c).strong_cnt = (s.blocks c).strong_cnt ∧
    ((step esft d s op).blocks c).clear_calls = (s.blocks c).clear_calls := by
  unfold step
  split
  · exact ⟨rfl, rfl⟩
  · cases op <;> simp only [Op.weakNoLock, Bool.false_eq_true] at hop
    · exact ⟨rfl, rfl⟩
    · -- wFromShared
      simp only []
      split
      · unfold WeakPtr.fromShared
        split
        · exact modBlock_weak_strong _ _ c incr
        · exact ⟨rfl, rfl⟩
      · exact ⟨rfl, rfl⟩
    · -- wCopy
      simp only []
      split
      · unfold WeakPtr.copy
        split
        · exact modBlock_weak_strong _ _ c incr
        · exact ⟨rfl, rfl⟩
      · exact ⟨rfl, rfl⟩
    · -- wMove
      simp only []
      split <;> exact ⟨rfl, rfl⟩
    · -- wAssign
      simp only []
      split
      · exact WeakPtr.assign_strong esft d _ _ s c
      · exact ⟨rfl, rfl⟩
    · -- wMoveAssign
      simp only []
      split
      · unfold WeakPtr.moveAssign
        split
        · exact ⟨rfl, rfl⟩
        · exact exec_strong esft _ _ s c
      · exact ⟨rfl, rfl⟩
    · -- wReset
      simp only []
      split
      · exact exec_strong esft _ _ s c
      · exact ⟨rfl, rfl⟩
    · -- wSwap
      simp only []
      split <;> exact ⟨rfl, rfl⟩
    · -- wDestroy
      simp only []
      split
      · exact exec_strong esft _ _ s c
      · exact ⟨rfl, rfl⟩

/-- On a well-formed heap `WeakPtr::DeleteBlock` destroys no object: a block it frees
has been torn down before. -/
theorem Inv.weak_deleteBlock_objs {esft : Bool} {s : Heap} (h : Inv esft none s) {w : Nat}
    (hw : w < s.nwps) (n : Nat) : (WeakPtr.DeleteBlock esft (n + 1) w s).objs = s.objs := by
  unfold WeakPtr.DeleteBlock
  cases hb : (s.wps w).block_ with
  | none =>
    rw [exec_weakDeleteBlock_none esft _ w s hb]
    rfl
  | some b =>
    obtain ⟨hl, hbn⟩ := h.C.wps_ok w b hw hb
    have hc : (s.blocks b).strong_cnt = 0 → (s.blocks b).cleared := by
      intro h0
      unfold ControlBlock.cleared
      split
      · rename_i he
        exact ((h.T.flag b hbn he).1).2 h0
      · rename_i he
        have := h.T.ptr b hbn (by simpa using he)
        simpa [h0] using this
    rw [exec_weakDeleteBlock_some esft n w b s hb hc]
    rfl

theorem step_weak_objs {esft : Bool} {s : Heap} (h : Inv esft none s) (n : Nat) (op : Op)
    (hop : op.weakNoLock = true) : (step esft (n + 1) s op).objs = s.objs := by
  unfold step
  split
  · rfl
  · cases op <;> simp only [Op.weakNoLock, Bool.false_eq_true] at hop
    · rfl
    · simp only []
      split
      · unfold WeakPtr.fromShared
        split <;> rfl
      · rfl
    · simp only []
      split
      · unfold WeakPtr.copy
        split <;> rfl
      · rfl
    · simp only []
      split <;> rfl
    · rename_i w v
      simp only []
      split
      · rename_i hl
        have hw : w < s.nwps := by
          simp only [Heap.liveW, Bool.and_eq_true, decide_eq_true_eq] at hl
          exact hl.1.1.1
        unfold WeakPtr.assign
        split
        · rfl
        · simp only []
          split
          · exact h.weak_deleteBlock_objs hw n
          · exact h.weak_deleteBlock_objs hw n
      · rfl
    · rename_i w v
      simp only []
      split
      · rename_i hl
        have hw : w < s.nwps := by
          simp only [Heap.liveW, Bool.and_eq_true, decide_eq_true_eq] at hl
          exact hl.1.1.1
        unfold WeakPtr.moveAssign
        split
        · rfl
        · exact h.weak_deleteBlock_objs hw n
      · rfl
    · rename_i w
      simp only []
      split
      · rename_i hl
        have hw : w < s.nwps := by
          simp only [Heap.liveW, Bool.and_eq_true, decide_eq_true_eq] at hl
          exact hl.1.1
        exact h.weak_deleteBlock_objs hw n
      · rfl
    · simp only []
      split <;> rfl
    · rename_i w
      simp only []
      split
      · rename_i hl
        have hw : w < s.nwps := by
          simp only [Heap.liveW, Bool.and_eq_true, decide_eq_true_eq] at hl
          exact hl.1.1
        exact h.weak_deleteBlock_objs hw n
      · rfl

/-- C18 (weak handles never touch strong ownership).  Let `op` be any `WeakPtr`
operation other than `Lock()`, with or without the capability.  On every heap and at
every call depth, `op` leaves `strong_cnt` of every control block unchanged and calls
`ClearPtr` on none.  On every heap reached by a program (fewer than `2^64 - 1` handles
of each kind created) `op` destroys no object and writes no object at all: when the
last weak release frees a block, its object has been torn down before. -/
theorem weak_ops_never_touch_strong (esft : Bool) (op : Op) (hop : op.weakNoLock = true) :
    (∀ (d : Nat) (s : Heap) (b : Nat),
      ((step esft d s op).blocks b).strong_cnt = (s.blocks b).strong_cnt ∧
      ((step esft d s op).blocks b).clear_calls = (s.blocks b).clear_calls) ∧
    (∀ (n : Nat) (ops : List Op),
      (run esft (n + 3) ops Heap.init).nsps + 1 < SIZE_T_MOD →
      (run esft (n + 3) ops Heap.init).nwps + 1 < SIZE_T_MOD →
      (step esft (n + 3) (run esft (n + 3) ops Heap.init) op).objs =
        (run esft (n + 3) ops Heap.init).objs) := by
  refine ⟨fun d s b => step_weak_strong esft d s op hop b, ?_⟩
  intro n ops hs hw
  exact step_weak_objs (run_inv esft n ops Heap.init (Inv.init esft) hs hw) (n + 2) op hop

/-- Witness of C18: destroying the last weak handle of `demoWeakLast` frees the block
and leaves the strong count and the (already destroyed) object alone. -/
theorem weak_ops_never_touch_strong_witness :
    (Op.wDestroy 0).weakNoLock = true ∧
    ((step false 3 (run false 3 demoWeakLast Heap.init) (Op.wDestroy 0)).blocks 0).frees = 1 ∧
    ((step false 3 (run false 3 demoWeakLast Heap.init) (Op.wDestroy 0)).blocks 0).strong_cnt =
      ((run false 3 demoWeakLast Heap.init).blocks 0).strong_cnt ∧
    (step false 3 (run false 3 demoWeakLast Heap.init) (Op.wDestroy 0)).objs =
      (run false 3 demoWeakLast Heap.init).objs :=
  ⟨rfl, by decide,
   ((weak_ops_never_touch_strong false (Op.wDestroy 0) rfl).1 3
     (run false 3 demoWeakLast Heap.init) 0).1,
   (weak_ops_never_touch_strong false (Op.wDestroy 0) rfl).2 0 demoWeakLast (by decide)
     (by decide)⟩

theorem Wired.wrap : Wired 0 (step true 3 Heap.init Op.sWrapNew) := by
  have h1 : incr 0 = 1 := by unfold incr SIZE_T_MOD; rfl
  refine ⟨by decide, by decide, by decide, by decide, by decide, by decide, by decide,
    by decide, by decide, by decide, by decide, ?_⟩
  intro w hw
  have : w = 0 := by omega
  subst this
  decide

theorem Wired.copy {k : Nat} {t : Heap} (h : Wired k t) (hk : k + 2 < SIZE_T_MOD) (d : Nat) :
    Wired (k + 1) (step true d t (Op.sCopy 0)) := by
  have hl : t.liveS 0 = true := by simp [Heap.liveS, h.nsps, h.live]
  have hi1 : incr (k + 1) = k + 2 := incr_eq (by omega)
  have hne : (0 : Nat) ≠ t.nsps := Nat.ne_of_lt h.nsps
  have e : step true d t (Op.sCopy 0) = SharedPtr.copy true 0 t := by
    simp [step, h.fault, hl]
  rw [e]
  have hp : (1 : Addr) ≠ 0 := Nat.one_ne_zero
  refine ⟨?_, ?_, ?_, ?_, ?_, ?_, ?_, ?_, ?_, ?_, ?_, ?_⟩
  · simp [SharedPtr.copy, SharedPtr.wire, SharedPtr.InitWeakThis, WeakPtr.fromShared, h.block,
      h.ptr, h.nobjs, h.dtor, h.fault]
  · simp [SharedPtr.copy, SharedPtr.wire, SharedPtr.InitWeakThis, WeakPtr.fromShared, h.block,
      h.ptr, h.nobjs, h.dtor]
  · simp [SharedPtr.copy, SharedPtr.wire, SharedPtr.InitWeakThis, WeakPtr.fromShared, h.block,
      h.ptr, h.nobjs, h.dtor, Function.update_noteq hne, h.live]
  · simp [SharedPtr.copy, SharedPtr.wire, SharedPtr.InitWeakThis, WeakPtr.fromShared, h.block,
      h.ptr, h.nobjs, h.dtor, Function.update_noteq hne]
  · simp [SharedPtr.copy, SharedPtr.wire, SharedPtr.InitWeakThis, WeakPtr.fromShared, h.block,
      h.ptr, h.nobjs, h.dtor, Function.update_noteq hne]
  · simp [SharedPtr.copy, SharedPtr.wire, SharedPtr.InitWeakThis, WeakPtr.fromShared, h.block,
      h.ptr, h.nobjs, h.dtor]
  · simp [SharedPtr.copy, SharedPtr.wire, SharedPtr.InitWeakThis, WeakPtr.fromShared, h.block,
      h.ptr, h.nobjs, h.dtor]
  · simp [SharedPtr.copy, SharedPtr.wire, SharedPtr.InitWeakThis, WeakPtr.fromShared, h.block,
      h.ptr, h.nobjs, h.dtor, h.strong, hi1]
  · simp [SharedPtr.copy, SharedPtr.wire, SharedPtr.InitWeakThis, WeakPtr.fromShared, h.block,
      h.ptr, h.nobjs, h.dtor, h.weak, hi1]
  · simp [SharedPtr.copy, SharedPtr.wire, SharedPtr.InitWeakThis, WeakPtr.fromShared, h.block,
      h.ptr, h.nobjs, h.dtor, h.nwps]
  · simp [SharedPtr.copy, SharedPtr.wire, SharedPtr.InitWeakThis, WeakPtr.fromShared, h.block,
      h.ptr, h.nobjs, h.dtor, h.nwps]
  · intro w hw
    by_cases hwk : w = k + 1
    · subst hwk
      simp [SharedPtr.copy, SharedPtr.wire, SharedPtr.InitWeakThis, WeakPtr.fromShared, h.block,
        h.ptr, h.nobjs, h.dtor, h.nwps, Function.update_apply]
    · have := h.handles w (by omega)
      simp [SharedPtr.copy, SharedPtr.wire, SharedPtr.InitWeakThis, WeakPtr.fromShared, h.block,
        h.ptr, h.nobjs, h.dtor, h.nwps, Function.update_apply, hwk, this]

theorem Wired.run (k : Nat) (hk : k + 2 < SIZE_T_MOD) :
    Wired k (run true 3 (Op.sWrapNew :: List.replicate k (Op.sCopy 0)) Heap.init) := by
  rw [run_cons]
  induction k with
  | zero => exact Wired.wrap
  | succ k ih =>
    rw [List.replicate_succ', run_append, run_cons]
    exact (ih (by omega)).copy (by omega) 3

/-- C14 (weak handles owned by the capability), as the code behaves.  For a
capability-bearing type, after `SharedPtr<T> a(new T)` followed by `k` copies of `a`
(with `k + 2` below `2^64`): no undefined behaviour has occurred, `strong_cnt` is
`k + 1`, and `weak_cnt` is `k + 1` as well, not 1: every construction ran
`InitWeakThis`, which allocated a weak handle of its own (handles `0 .. k`, all live
over the block) and overwrote the slot, which now names the last one.  A move or an
alias in place of the copy does the same.  When both owners of `demoLeak` are
destroyed the object is destroyed once and only the weak handle in the slot with it,
so `weak_cnt` stays at 1 and the block is never freed; with a single construction
(`demoCascade`) the count returns to 0 and the block is freed. -/
theorem capability_weak_per_construction (k : Nat) (hk : k + 2 < SIZE_T_MOD) :
    ((run true 3 (Op.sWrapNew :: List.replicate k (Op.sCopy 0)) Heap.init).fault = none ∧
      ((run true 3 (Op.sWrapNew :: List.replicate k (Op.sCopy 0)) Heap.init).blocks
        0).strong_cnt = k + 1 ∧
      ((run true 3 (Op.sWrapNew :: List.replicate k (Op.sCopy 0)) Heap.init).blocks
        0).weak_cnt = k + 1 ∧
      (run true 3 (Op.sWrapNew :: List.replicate k (Op.sCopy 0)) Heap.init).nwps = k + 1 ∧
      (∀ w, w < k + 1 →
        (run true 3 (Op.sWrapNew :: List.replicate k (Op.sCopy 0)) Heap.init).wps w =
          { live := true, block_ := some 0, ptr_ := 1, heap := true }) ∧
      ((run true 3 (Op.sWrapNew :: List.replicate k (Op.sCopy 0)) Heap.init).objs
        1).weak_this_ = some k) ∧
    (((run true 3 [Op.sWrapNew, Op.sMove 0] Heap.init).blocks 0).strong_cnt = 1 ∧
      ((run true 3 [Op.sWrapNew, Op.sMove 0] Heap.init).blocks 0).weak_cnt = 2 ∧
      ((run true 3 [Op.sWrapNew, Op.sAlias 0 1] Heap.init).blocks 0).weak_cnt = 2) ∧
    ((run true 3 demoLeak Heap.init).fault = none ∧
      ((run true 3 demoLeak Heap.init).blocks 0).strong_cnt = 0 ∧
      ((run true 3 demoLeak Heap.init).objs 1).dtor_runs = 1 ∧
      ((run true 3 demoLeak Heap.init).wps 1).live = false ∧
      ((run true 3 demoLeak Heap.init).wps 0).live = true ∧
      ((run true 3 demoLeak Heap.init).wps 0).block_ = some 0 ∧
      ((run true 3 demoLeak Heap.init).blocks 0).weak_cnt = 1 ∧
      ((run true 3 demoLeak Heap.init).blocks 0).frees = 0) ∧
    (((run true 3 demoCascade Heap.init).blocks 0).weak_cnt = 0 ∧
      ((run true 3 demoCascade Heap.init).blocks 0).frees = 1) := by
  have h := Wired.run k hk
  exact ⟨⟨h.fault, h.strong, h.weak, h.nwps, h.handles, h.slot⟩,
    ⟨by decide, by decide, by decide⟩,
    ⟨by decide, by decide, by decide, by decide, by decide, by decide, by decide, by decide⟩,
    ⟨by decide, by decide⟩⟩

/-- Witness of C14 where the code departs from it: after one wrap and one copy the
block carries two weak units for the capability. -/
theorem capability_weak_per_construction_witness :
    (1 : Nat) + 2 < SIZE_T_MOD ∧
    ((run true 3 (Op.sWrapNew :: List.replicate 1 (Op.sCopy 0)) Heap.init).blocks
      0).weak_cnt = 1 + 1 :=
  ⟨by decide, (capability_weak_per_construction 1 (by decide)).1.2.2.1⟩

/-! ## Intrusive handles: field projections and counting -/

@[simp] theorem RHeap.modObj_objs_rc (s : RHeap) (p : Addr) (f : RefObj → RefObj) :
    (s.modObj p f).objs = Function.update s.objs p (f (s.objs p)) := rfl
@[simp] theorem RHeap.modObj_nobjs_rc (s : RHeap) (p : Addr) (f : RefObj → RefObj) :
    (s.modObj p f).nobjs = s.nobjs := rfl
@[simp] theorem RHeap.modObj_ptrs_rc (s : RHeap) (p : Addr) (f : RefObj → RefObj) :
    (s.modObj p f).ptrs = s.ptrs := rfl
@[simp] theorem RHeap.modObj_nptrs_rc (s : RHeap) (p : Addr) (f : RefObj → RefObj) :
    (s.modObj p f).nptrs = s.nptrs := rfl
@[simp] theorem RHeap.modObj_fault_rc (s : RHeap) (p : Addr) (f : RefObj → RefObj) :
    (s.modObj p f).fault = s.fault := rfl
@[simp] theorem RHeap.setPtr_objs_rc (s : RHeap) (i : Nat) (h : IHandle) :
    (s.setPtr i h).objs = s.objs := rfl
@[simp] theorem RHeap.setPtr_nobjs_rc (s : RHeap) (i : Nat) (h : IHandle) :
    (s.setPtr i h).nobjs = s.nobjs := rfl
@[simp] theorem RHeap.setPtr_ptrs_rc (s : RHeap) (i : Nat) (h : IHandle) :
    (s.setPtr i h).ptrs = Function.update s.ptrs i h := rfl
@[simp] theorem RHeap.setPtr_nptrs_rc (s : RHeap) (i : Nat) (h : IHandle) :
    (s.setPtr i h).nptrs = s.nptrs := rfl
@[simp] theorem RHeap.setPtr_fault_rc (s : RHeap) (i : Nat) (h : IHandle) :
    (s.setPtr i h).fault = s.fault := rfl
@[simp] theorem RHeap.newPtr_objs_rc (s : RHeap) (p : Addr) :
    (s.newPtr p).objs = s.objs := rfl
@[simp] theorem RHeap.newPtr_nobjs_rc (s : RHeap) (p : Addr) :
    (s.newPtr p).nobjs = s.nobjs := rfl
@[simp] theorem RHeap.newPtr_ptrs_rc (s : RHeap) (p : Addr) :
    (s.newPtr p).ptrs = Function.update s.ptrs s.nptrs { live := true, ptr_ := p } := rfl
@[simp] theorem RHeap.newPtr_nptrs_rc (s : RHeap) (p : Addr) :
    (s.newPtr p).nptrs = s.nptrs + 1 := rfl
@[simp] theorem RHeap.newPtr_fault_rc (s : RHeap) (p : Addr) :
    (s.newPtr p).fault = s.fault := rfl
@[simp] theorem RHeap.newObj_objs_rc (s : RHeap) :
    s.newObj.objs = Function.update s.objs (s.nobjs + 1) { ctor_runs := 1 } := rfl
@[simp] theorem RHeap.newObj_nobjs_rc (s : RHeap) :
    s.newObj.nobjs = s.nobjs + 1 := rfl
@[simp] theorem RHeap.newObj_ptrs_rc (s : RHeap) :
    s.newObj.ptrs = s.ptrs := rfl
@[simp] theorem RHeap.newObj_nptrs_rc (s : RHeap) :
    s.newObj.nptrs = s.nptrs := rfl
@[simp] theorem RHeap.newObj_fault_rc (s : RHeap) :
    s.newObj.fault = s.fault := rfl

theorem iind_le_one (h : IHandle) (p : Addr) : iind h p ≤ 1 := by
  unfold iind; split <;> omega

theorem iind_null {h : IHandle} (h0 : h.ptr_ = 0) {p : Addr} (hp : p ≠ 0) : iind h p = 0 := by
  unfold iind
  split
  · rename_i hx
    exact absurd (h0.symm.trans hx.2).symm hp
  · rfl

theorem icnt_le (f : Nat → IHandle) (n : Nat) (p : Addr) : icnt f n p ≤ n := by
  induction n with
  | zero => simp [icnt]
  | succ n ih => have := iind_le_one (f n) p; simp only [icnt]; omega

theorem icnt_update_ge (f : Nat → IHandle) (h : IHandle) {n i : Nat} (p : Addr) (hi : n ≤ i) :
    icnt (Function.update f i h) n p = icnt f n p := by
  induction n with
  | zero => simp [icnt]
  | succ n ih =>
    have hne : n ≠ i := by omega
    simp only [icnt, Function.update_noteq hne]
    rw [ih (by omega)]

theorem icnt_update_lt (f : Nat → IHandle) (h : IHandle) {n i : Nat} (p : Addr) (hi : i < n) :
    icnt (Function.update f i h) n p + iind (f i) p = icnt f n p + iind h p := by
  induction n with
  | zero => omega
  | succ n ih =>
    by_cases hin : i = n
    · subst hin
      simp only [icnt, Function.update_same]
      rw [icnt_update_ge f h p (le_refl i)]
      omega
    · have hne : n ≠ i := fun e => hin e.symm
      simp only [icnt, Function.update_noteq hne]
      have := ih (by omega)
      omega

theorem iind_le_icnt (f : Nat → IHandle) {n i : Nat} (p : Addr) (hi : i < n) :
    iind (f i) p ≤ icnt f n p := by
  induction n with
  | zero => omega
  | succ n ih =>
    by_cases hin : i = n
    · subst hin; simp only [icnt]; omega
    · have := ih (by omega); simp only [icnt]; omega

theorem icnt_push (f : Nat → IHandle) (h : IHandle) (n : Nat) (p : Addr) :
    icnt (Function.update f n h) (n + 1) p = icnt f n p + iind h p := by
  simp only [icnt, Function.update_same]
  rw [icnt_update_ge _ _ _ (le_refl _)]

/-- No handle points at an address that no handle is known to reach. -/
theorem icnt_eq_zero (f : Nat → IHandle) (n : Nat) (p : Addr)
    (h : ∀ i, i < n → (f i).ptr_ ≠ p) : icnt f n p = 0 := by
  induction n with
  | zero => rfl
  | succ n ih =>
    have h1 := ih (fun i hi => h i (by omega))
    have h2 : iind (f n) p = 0 := by
      unfold iind
      split
      · rename_i hx
        exact absurd hx.2 (h n (by omega))
      · rfl
    simp only [icnt, h1, h2]

/-! ## Intrusive handles: every operation keeps the heap well-formed -/

theorem RHeap.liveObj_iff (s : RHeap) (p : Nat) :
    s.liveObj p = true ↔ 0 < p ∧ p ≤ s.nobjs ∧ (s.objs p).destroy_runs = 0 := by
  simp [RHeap.liveObj, and_assoc]

theorem RHeap.liveObj_ne_zero {s : RHeap} {p : Nat} (h : s.liveObj p = true) : p ≠ 0 :=
  Nat.pos_iff_ne_zero.mp ((s.liveObj_iff p).mp h).1

theorem RHeap.liveObj_congr {s t : RHeap} (hn : t.nobjs = s.nobjs) (ho : t.objs = s.objs)
    (p : Addr) : t.liveObj p = s.liveObj p := by
  simp [RHeap.liveObj, hn, ho]

theorem IInv.init_heap : IInv RHeap.init := by
  refine ⟨rfl, ?_, ?_, by decide⟩
  · intro i hi; exact absurd rfl hi
  · intro p hp
    have := (RHeap.init.liveObj_iff p).mp hp
    have h1 : (p : Nat) ≤ 0 := this.2.1
    have h2 : 0 < (p : Nat) := this.1
    exact absurd h2 (Nat.not_lt.mpr h1)

/-- A fresh null handle keeps the heap well-formed. -/
theorem IInv.newPtr_null {s : RHeap} (h : IInv s) (hcap : s.nptrs + 1 < SIZE_T_MOD) :
    IInv (s.newPtr 0) := by
  refine ⟨h.fault, ?_, ?_, by simp; omega⟩
  · intro i hi
    by_cases hin : i = s.nptrs
    · subst hin; simp at hi
    · simp only [RHeap.newPtr_ptrs_rc, Function.update_noteq hin] at hi ⊢
      obtain ⟨a, b, c⟩ := h.ptr_ok i hi
      exact ⟨Nat.lt_succ_of_lt a, b, c⟩
  · intro p hp
    have hp' : s.liveObj p = true := hp
    have hp0 := RHeap.liveObj_ne_zero hp'
    simp only [RHeap.liveHandles, RHeap.newPtr_ptrs_rc, RHeap.newPtr_nptrs_rc, RHeap.newPtr_objs_rc]
    rw [icnt_push, iind_null rfl hp0, h.count p hp']
    rfl

/-- A fresh object, not yet pointed at, keeps the heap well-formed. -/
theorem IInv.new_object {s : RHeap} (h : IInv s) : IInv s.newObj := by
  have hlive : ∀ p : Nat, p ≠ s.nobjs + 1 → s.newObj.liveObj p = true → s.liveObj p = true := by
    intro p hne hp
    have := (s.newObj.liveObj_iff p).mp hp
    simp only [RHeap.newObj_nobjs_rc, RHeap.newObj_objs_rc, Function.update_noteq hne] at this
    exact (s.liveObj_iff p).mpr ⟨this.1, by omega, this.2.2⟩
  have hlive2 : ∀ p : Nat, s.liveObj p = true → s.newObj.liveObj p = true := by
    intro p hp
    have := (s.liveObj_iff p).mp hp
    have hne : p ≠ s.nobjs + 1 := by omega
    refine (s.newObj.liveObj_iff p).mpr ?_
    simp only [RHeap.newObj_nobjs_rc, RHeap.newObj_objs_rc, Function.update_noteq hne]
    exact ⟨this.1, by omega, this.2.2⟩
  refine ⟨h.fault, ?_, ?_, h.cap⟩
  · intro i hi
    obtain ⟨a, b, c⟩ := h.ptr_ok i hi
    exact ⟨a, b, hlive2 _ c⟩
  · intro p hp
    by_cases hne : p = s.nobjs + 1
    · subst hne
      simp only [RHeap.liveHandles, RHeap.newObj_ptrs_rc, RHeap.newObj_nptrs_rc, RHeap.newObj_objs_rc,
        Function.update_same]
      rw [icnt_eq_zero]
      intro i _ hpi
      have hi : (s.ptrs i).ptr_ ≠ 0 := by rw [hpi]; exact Nat.succ_ne_zero _
      have := (s.liveObj_iff _).mp (h.ptr_ok i hi).2.2
      rw [hpi] at this
      omega
    · simp only [RHeap.liveHandles, RHeap.newObj_ptrs_rc, RHeap.newObj_nptrs_rc, RHeap.newObj_objs_rc,
        Function.update_noteq hne]
      exact h.count p (hlive p hne hp)

/-- Pointing a null handle at a live object and counting it keeps the heap well-formed. -/
theorem IInv.attach {s t : RHeap} (h : IInv s) {i q : Nat} (hi : i < s.nptrs)
    (h0 : (s.ptrs i).ptr_ = 0) (hq : s.liveObj q = true)
    (hp : t.ptrs = Function.update s.ptrs i { live := true, ptr_ := q })
    (hn : t.nptrs = s.nptrs) (ho : t.objs = s.objs) (hno : t.nobjs = s.nobjs)
    (hf : t.fault = s.fault) :
    IInv (IntrusivePtr.IncreaseCount i t) ∧
    IntrusivePtr.IncreaseCount i t =
      t.modObj q (fun o => { o with count_ := o.count_ + 1 }) := by
  have hq0 : q ≠ 0 := RHeap.liveObj_ne_zero hq
  have hqt : t.liveObj q = true := by rw [RHeap.liveObj_congr hno ho]; exact hq
  have hti : (t.ptrs i).ptr_ = q := by rw [hp]; simp
  have hcnt : ∀ p : Nat, p ≠ 0 →
      icnt t.ptrs t.nptrs p = icnt s.ptrs s.nptrs p + (if q = p then 1 else 0) := by
    intro p hp0
    have := icnt_update_lt s.ptrs { live := true, ptr_ := q } p hi
    rw [iind_null h0 hp0] at this
    rw [hp, hn]
    have e : iind ({ live := true, ptr_ := q } : IHandle) p = if q = p then 1 else 0 := by
      simp [iind]
    omega
  have hqc := hcnt q hq0
  simp only [if_true] at hqc
  have hle := icnt_le t.ptrs t.nptrs q
  have hcq := h.count q hq
  unfold RHeap.liveHandles at hcq
  have hcap := h.cap
  have hinc : incr (t.objs q).count_ = (t.objs q).count_ + 1 := by
    rw [ho]; exact incr_eq (by omega)
  have e : IntrusivePtr.IncreaseCount i t =
      t.modObj q (fun o => { o with count_ := o.count_ + 1 }) := by
    simp [IntrusivePtr.IncreaseCount, hti, hq0, RefCounted.IncRef, hqt, SimpleCounter.IncRef,
      RHeap.modObj, hinc]
  refine ⟨?_, e⟩
  rw [e]
  have hlive : ∀ p : Nat, (t.modObj q (fun o => { o with count_ := o.count_ + 1 })).liveObj p
      = s.liveObj p := by
    intro p
    by_cases hpq : p = q
    · subst hpq; simp [RHeap.liveObj, hno, ho]
    · simp [RHeap.liveObj, hno, ho, Function.update_noteq hpq]
  refine ⟨by simpa using hf.trans h.fault, ?_, ?_, by simpa [hn] using h.cap⟩
  · intro k hk
    simp only [RHeap.modObj_ptrs_rc, RHeap.modObj_nptrs_rc] at hk ⊢
    rw [hlive]
    by_cases hki : k = i
    · subst hki
      rw [hp]
      exact ⟨by omega, by simp, by simpa using hq⟩
    · rw [hp, Function.update_noteq hki] at hk ⊢
      obtain ⟨a, b, c⟩ := h.ptr_ok k hk
      exact ⟨by omega, b, c⟩
  · intro p hpl
    rw [hlive] at hpl
    have hp0 : (p : Nat) ≠ 0 := RHeap.liveObj_ne_zero hpl
    have hc := h.count p hpl
    unfold RHeap.liveHandles at hc ⊢
    simp only [RHeap.modObj_ptrs_rc, RHeap.modObj_nptrs_rc, RHeap.modObj_objs_rc]
    rw [hcnt p hp0]
    by_cases hpq : p = q
    · subst hpq; simp [ho, hc]
    · have hqp : ¬ q = p := fun e => hpq e.symm
      simp [Function.update_noteq hpq, ho, hc, hqp]

theorem RefCounted.DecRef_frame (p : Addr) (s : RHeap) :
    (RefCounted.DecRef p s).ptrs = s.ptrs ∧ (RefCounted.DecRef p s).nptrs = s.nptrs ∧
    (RefCounted.DecRef p s).nobjs = s.nobjs := by
  unfold RefCounted.DecRef DefaultDelete.Destroy
  split
  · split <;> exact ⟨rfl, rfl, rfl⟩
  · exact ⟨rfl, rfl, rfl⟩

/-- Releasing the pointer of a handle keeps the heap well-formed. -/
theorem IInv.release {s : RHeap} (h : IInv s) {i : Nat} (ha : (s.ptrs i).ptr_ ≠ 0) :
    IInv (IntrusivePtr.DeletePtr i s) ∧
    (IntrusivePtr.DeletePtr i s).ptrs =
      Function.update s.ptrs i { live := true, ptr_ := 0 } ∧
    (IntrusivePtr.DeletePtr i s).nptrs = s.nptrs ∧
    (IntrusivePtr.DeletePtr i s).nobjs = s.nobjs ∧
    (∀ p : Nat, p ≠ (s.ptrs i).ptr_ → (IntrusivePtr.DeletePtr i s).liveObj p = s.liveObj p) := by
  obtain ⟨hi, hl, hlive⟩ := h.ptr_ok i ha
  have hl3 := (s.liveObj_iff _).mp hlive
  have hc := h.count _ hlive
  unfold RHeap.liveHandles at hc
  have hind : iind (s.ptrs i) (s.ptrs i).ptr_ = 1 := by simp [iind, hl]
  have hge := iind_le_icnt s.ptrs (s.ptrs i).ptr_ hi
  have hle := icnt_le s.ptrs s.nptrs (s.ptrs i).ptr_
  have hcap := h.cap
  have hupd : ∀ p : Nat, icnt (Function.update s.ptrs i { live := true, ptr_ := 0 }) s.nptrs p +
      iind (s.ptrs i) p = icnt s.ptrs s.nptrs p + (if p = 0 then 1 else 0) := by
    intro p
    have := icnt_update_lt s.ptrs { live := true, ptr_ := 0 } p hi
    have e : iind ({ live := true, ptr_ := 0 } : IHandle) p = if p = 0 then 1 else 0 := by
      simp [iind, eq_comm]
    omega
  have hother : ∀ p : Nat, p ≠ (s.ptrs i).ptr_ → iind (s.ptrs i) p = 0 := by
    intro p hp
    unfold iind
    split
    · rename_i hx
      exact absurd hx.2.symm hp
    · rfl
  by_cases h1 : (s.objs (s.ptrs i).ptr_).count_ ≤ 1
  · -- the last handle: the object is destroyed
    have e : IntrusivePtr.DeletePtr i s =
        (s.modObj (s.ptrs i).ptr_
          (fun o => { o with destroy_runs := o.destroy_runs + 1 })).setPtr i
          { live := true, ptr_ := 0 } := by
      simp [IntrusivePtr.DeletePtr, ha, RefCounted.DecRef, hlive, RefCounted.RefCount, h1,
        DefaultDelete.Destroy, hl]
    rw [e]
    have hzero : icnt (Function.update s.ptrs i { live := true, ptr_ := 0 }) s.nptrs
        (s.ptrs i).ptr_ = 0 := by
      have := hupd (s.ptrs i).ptr_
      simp only [ha, if_false] at this
      omega
    have hlv : ∀ p : Nat, p ≠ (s.ptrs i).ptr_ →
        ((s.modObj (s.ptrs i).ptr_
          (fun o => { o with destroy_runs := o.destroy_runs + 1 })).setPtr i
          { live := true, ptr_ := 0 }).liveObj p = s.liveObj p := by
      intro p hp
      simp [RHeap.liveObj, Function.update_noteq hp]
    have hdead : ((s.modObj (s.ptrs i).ptr_
          (fun o => { o with destroy_runs := o.destroy_runs + 1 })).setPtr i
          { live := true, ptr_ := 0 }).liveObj (s.ptrs i).ptr_ = false := by
      simp [RHeap.liveObj]
    refine ⟨⟨h.fault, ?_, ?_, h.cap⟩, rfl, rfl, rfl, hlv⟩
    · intro k hk
      by_cases hki : k = i
      · subst hki; simp at hk
      · have hk2 : (s.ptrs k).ptr_ ≠ 0 := by simpa [Function.update_noteq hki] using hk
        obtain ⟨a, b, c⟩ := h.ptr_ok k hk2
        have hne : (s.ptrs k).ptr_ ≠ (s.ptrs i).ptr_ := by
          intro heq
          have := iind_le_icnt (Function.update s.ptrs i { live := true, ptr_ := 0 })
            (s.ptrs i).ptr_ a
          rw [hzero, Function.update_noteq hki] at this
          have h2 : iind (s.ptrs k) (s.ptrs i).ptr_ = 1 := by simp [iind, b, heq]
          omega
        refine ⟨by simpa using a, by simpa [Function.update_noteq hki] using b, ?_⟩
        simp only [RHeap.setPtr_ptrs_rc, RHeap.modObj_ptrs_rc, Function.update_noteq hki]
        rw [hlv _ hne]
        exact c
    · intro p hp
      have hpa : (p : Nat) ≠ (s.ptrs i).ptr_ := by
        intro heq
        rw [heq, hdead] at hp
        exact absurd hp (by simp)
      rw [hlv p hpa] at hp
      have hp0 : (p : Nat) ≠ 0 := RHeap.liveObj_ne_zero hp
      have := hupd p
      rw [hother p hpa] at this
      simp only [hp0, if_false] at this
      have hcp := h.count p hp
      unfold RHeap.liveHandles at hcp ⊢
      simp only [RHeap.setPtr_ptrs_rc, RHeap.setPtr_nptrs_rc, RHeap.setPtr_objs_rc, RHeap.modObj_ptrs_rc,
        RHeap.modObj_nptrs_rc, RHeap.modObj_objs_rc, Function.update_noteq hpa]
      omega
  · -- other handles remain: the counter goes down by one
    have hdec : decr (s.objs (s.ptrs i).ptr_).count_ = (s.objs (s.ptrs i).ptr_).count_ - 1 :=
      decr_eq (by omega) (by omega)
    have e : IntrusivePtr.DeletePtr i s =
        (s.modObj (s.ptrs i).ptr_
          (fun o => { o with count_ := o.count_ - 1 })).setPtr i
          { live := true, ptr_ := 0 } := by
      simp [IntrusivePtr.DeletePtr, ha, RefCounted.DecRef, hlive, RefCounted.RefCount, h1,
        SimpleCounter.DecRef, hl, RHeap.modObj, hdec]
    rw [e]
    have hlv : ∀ p : Nat,
        ((s.modObj (s.ptrs i).ptr_
          (fun o => { o with count_ := o.count_ - 1 })).setPtr i
          { live := true, ptr_ := 0 }).liveObj p = s.liveObj p := by
      intro p
      by_cases hp : p = (s.ptrs i).ptr_
      · rw [hp]; simp [RHeap.liveObj]
      · simp [RHeap.liveObj, Function.update_noteq hp]
    refine ⟨⟨h.fault, ?_, ?_, h.cap⟩, rfl, rfl, rfl, fun p _ => hlv p⟩
    · intro k hk
      by_cases hki : k = i
      · subst hki; simp at hk
      · have hk2 : (s.ptrs k).ptr_ ≠ 0 := by simpa [Function.update_noteq hki] using hk
        obtain ⟨a, b, c⟩ := h.ptr_ok k hk2
        refine ⟨by simpa using a, by simpa [Function.update_noteq hki] using b, ?_⟩
        simp only [RHeap.setPtr_ptrs_rc, RHeap.modObj_ptrs_rc, Function.update_noteq hki]
        rw [hlv]
        exact c
    · intro p hp
      rw [hlv] at hp
      have hp0 : (p : Nat) ≠ 0 := RHeap.liveObj_ne_zero hp
      have := hupd p
      simp only [hp0, if_false] at this
      have hcp := h.count p hp
      unfold RHeap.liveHandles at hcp ⊢
      simp only [RHeap.setPtr_ptrs_rc, RHeap.setPtr_nptrs_rc, RHeap.setPtr_objs_rc, RHeap.modObj_ptrs_rc,
        RHeap.modObj_nptrs_rc, RHeap.modObj_objs_rc]
      by_cases hpa : (p : Nat) = (s.ptrs i).ptr_
      · rw [hpa] at this hcp ⊢
        simp only [Function.update_same]
        omega
      · rw [hother p hpa] at this
        simp only [Function.update_noteq hpa]
        omega

theorem IHandle.eta (h : IHandle) : ({ live := h.live, ptr_ := h.ptr_ } : IHandle) = h := by
  cases h; rfl

theorem RHeap.liveP_iff (s : RHeap) (i : Nat) :
    s.liveP i = true ↔ i < s.nptrs ∧ (s.ptrs i).live = true := by
  simp [RHeap.liveP]

/-- The release step `DeletePtr` on a live handle, null or not. -/
theorem IInv.deletePtr {s : RHeap} (h : IInv s) {i : Nat} (hi : s.liveP i = true) :
    IInv (IntrusivePtr.DeletePtr i s) ∧
    (IntrusivePtr.DeletePtr i s).ptrs =
      Function.update s.ptrs i { live := true, ptr_ := 0 } ∧
    (IntrusivePtr.DeletePtr i s).nptrs = s.nptrs ∧
    (IntrusivePtr.DeletePtr i s).nobjs = s.nobjs ∧
    (∀ p : Nat, p ≠ (s.ptrs i).ptr_ → (IntrusivePtr.DeletePtr i s).liveObj p = s.liveObj p) := by
  by_cases ha : (s.ptrs i).ptr_ = 0
  · have e : IntrusivePtr.DeletePtr i s = s := by simp [IntrusivePtr.DeletePtr, ha]
    rw [e]
    refine ⟨h, ?_, rfl, rfl, fun _ _ => rfl⟩
    have hl := ((s.liveP_iff i).mp hi).2
    have : ({ live := true, ptr_ := 0 } : IHandle) = s.ptrs i := by
      rw [← IHandle.eta (s.ptrs i), hl, ha]
    rw [this, Function.update_eq_self]
  · exact h.release ha

/-- `Reset()` and the release step `DeletePtr` are the same function. -/
theorem IntrusivePtr.Reset_eq (i : Nat) (s : RHeap) :
    IntrusivePtr.Reset i s = IntrusivePtr.DeletePtr i s := by
  obtain ⟨f1, f2, f3⟩ := RefCounted.DecRef_frame (s.ptrs i).ptr_ s
  by_cases ha : (s.ptrs i).ptr_ = 0
  · have e : ({ live := (s.ptrs i).live, ptr_ := 0 } : IHandle) = s.ptrs i := by
      rw [← ha]
    simp [IntrusivePtr.Reset, IntrusivePtr.DecreaseCount, IntrusivePtr.DeletePtr, ha,
      RHeap.setPtr, e]
  · unfold IntrusivePtr.Reset IntrusivePtr.DecreaseCount IntrusivePtr.DeletePtr
    simp only [ne_eq, ha, not_false_eq_true, if_true]
    split
    · simp [RHeap.setPtr]
    · rfl

/-- Rewriting a null handle keeps the heap well-formed. -/
theorem IInv.set_null {s : RHeap} (h : IInv s) {i : Nat} (h0 : (s.ptrs i).ptr_ = 0)
    (l : Bool) : IInv (s.setPtr i { live := l, ptr_ := 0 }) := by
  refine ⟨h.fault, ?_, ?_, h.cap⟩
  · intro k hk
    by_cases hki : k = i
    · subst hki; simp at hk
    · have hk2 : (s.ptrs k).ptr_ ≠ 0 := by simpa [Function.update_noteq hki] using hk
      obtain ⟨a, b, c⟩ := h.ptr_ok k hk2
      refine ⟨by simpa using a, by simpa [Function.update_noteq hki] using b, ?_⟩
      simp only [RHeap.setPtr_ptrs_rc, Function.update_noteq hki]
      exact c
  · intro p hp
    have hp' : s.liveObj p = true := hp
    have hp0 : (p : Nat) ≠ 0 := RHeap.liveObj_ne_zero hp'
    have hc := h.count p hp'
    unfold RHeap.liveHandles at hc ⊢
    simp only [RHeap.setPtr_ptrs_rc, RHeap.setPtr_nptrs_rc, RHeap.setPtr_objs_rc]
    rw [hc]
    by_cases hi : i < s.nptrs
    · have := icnt_update_lt s.ptrs { live := l, ptr_ := 0 } p hi
      rw [iind_null h0 hp0, iind_null rfl hp0] at this
      omega
    · rw [icnt_update_ge _ _ _ (by omega)]

/-- Handing the pointer of handle `j` over to the null handle `i` keeps the heap
well-formed. -/
theorem IInv.hand_over {s t : RHeap} (h : IInv s) {i j : Nat} (hij : i ≠ j)
    (hi : i < s.nptrs) (h0 : (s.ptrs i).ptr_ = 0) (hj : s.liveP j = true)
    (hp : t.ptrs = Function.update (Function.update s.ptrs i
        { live := true, ptr_ := (s.ptrs j).ptr_ }) j { live := true, ptr_ := 0 })
    (hn : t.nptrs = s.nptrs) (ho : t.objs = s.objs) (hno : t.nobjs = s.nobjs)
    (hf : t.fault = s.fault) : IInv t := by
  obtain ⟨hjn, hlj⟩ := (s.liveP_iff j).mp hj
  have hji : j ≠ i := fun e => hij e.symm
  have hlv : ∀ p : Nat, t.liveObj p = s.liveObj p := RHeap.liveObj_congr hno ho
  refine ⟨hf.trans h.fault, ?_, ?_, by rw [hn]; exact h.cap⟩
  · intro k hk
    rw [hn, hlv]
    rw [hp] at hk ⊢
    by_cases hkj : k = j
    · subst hkj; simp at hk
    · rw [Function.update_noteq hkj] at hk ⊢
      by_cases hki : k = i
      · subst hki
        simp only [Function.update_same] at hk ⊢
        exact ⟨hi, trivial, (h.ptr_ok j hk).2.2⟩
      · rw [Function.update_noteq hki] at hk ⊢
        exact h.ptr_ok k hk
  · intro p hpl
    rw [hlv] at hpl
    have hp0 : (p : Nat) ≠ 0 := RHeap.liveObj_ne_zero hpl
    have hc := h.count p hpl
    unfold RHeap.liveHandles at hc ⊢
    rw [ho, hc, hp, hn]
    have a1 := icnt_update_lt (Function.update s.ptrs i
        { live := true, ptr_ := (s.ptrs j).ptr_ }) { live := true, ptr_ := 0 } p hjn
    rw [Function.update_noteq hji,
      iind_null (h := { live := true, ptr_ := 0 }) rfl hp0] at a1
    have a2 := icnt_update_lt s.ptrs { live := true, ptr_ := (s.ptrs j).ptr_ } p hi
    rw [iind_null h0 hp0] at a2
    have e : iind ({ live := true, ptr_ := (s.ptrs j).ptr_ } : IHandle) p = iind (s.ptrs j) p := by
      simp [iind, hlj]
    omega

/-- Swapping the pointers of two live handles keeps the heap well-formed. -/
theorem IInv.swap {s : RHeap} (h : IInv s) {i j : Nat} (hi : s.liveP i = true)
    (hj : s.liveP j = true) : IInv (IntrusivePtr.Swap i j s) := by
  obtain ⟨hin, hli⟩ := (s.liveP_iff i).mp hi
  obtain ⟨hjn, hlj⟩ := (s.liveP_iff j).mp hj
  by_cases hij : i = j
  · subst hij
    have e : IntrusivePtr.Swap i i s = s := by
      simp [IntrusivePtr.Swap, RHeap.setPtr, IHandle.eta]
    rw [e]; exact h
  · have hji : j ≠ i := fun e => hij e.symm
    have hptrs : (IntrusivePtr.Swap i j s).ptrs =
        Function.update (Function.update s.ptrs i { live := true, ptr_ := (s.ptrs j).ptr_ }) j
          { live := true, ptr_ := (s.ptrs i).ptr_ } := by
      simp [IntrusivePtr.Swap, hli, hlj]
    refine ⟨h.fault, ?_, ?_, h.cap⟩
    · intro k hk
      rw [hptrs] at hk ⊢
      show k < s.nptrs ∧ _ ∧ s.liveObj _ = true
      by_cases hkj : k = j
      · subst hkj
        simp only [Function.update_same] at hk ⊢
        exact ⟨hjn, trivial, (h.ptr_ok i hk).2.2⟩
      · rw [Function.update_noteq hkj] at hk ⊢
        by_cases hki : k = i
        · subst hki
          simp only [Function.update_same] at hk ⊢
          exact ⟨hin, trivial, (h.ptr_ok j hk).2.2⟩
        · rw [Function.update_noteq hki] at hk ⊢
          exact h.ptr_ok k hk
    · intro p hpl
      have hpl2 : s.liveObj p = true := hpl
      have hc := h.count p hpl2
      unfold RHeap.liveHandles at hc ⊢
      rw [hptrs]
      show (s.objs p).count_ = icnt _ s.nptrs p
      rw [hc]
      have a1 := icnt_update_lt (Function.update s.ptrs i
          { live := true, ptr_ := (s.ptrs j).ptr_ }) { live := true, ptr_ := (s.ptrs i).ptr_ } p hjn
      rw [Function.update_noteq hji] at a1
      have a2 := icnt_update_lt s.ptrs { live := true, ptr_ := (s.ptrs j).ptr_ } p hin
      have e1 : iind ({ live := true, ptr_ := (s.ptrs j).ptr_ } : IHandle) p = iind (s.ptrs j) p := by
        simp [iind, hlj]
      have e2 : iind ({ live := true, ptr_ := (s.ptrs i).ptr_ } : IHandle) p = iind (s.ptrs i) p := by
        simp [iind, hli]
      omega

theorem IInv.iop_default {s : RHeap} (h : IInv s) (hcap : s.nptrs + 1 < SIZE_T_MOD) :
    IInv (IntrusivePtr.default s) := by
  have e : IntrusivePtr.default s = s.newPtr 0 := by
    simp [IntrusivePtr.default, IntrusivePtr.IncreaseCount]
  rw [e]; exact h.newPtr_null hcap

/-- Constructing a handle from a raw pointer to a live object. -/
theorem IInv.iop_fromRaw {s : RHeap} (h : IInv s) (hcap : s.nptrs + 1 < SIZE_T_MOD) {q : Nat}
    (hq : s.liveObj q = true) : IInv (IntrusivePtr.fromRaw q s) := by
  have h1 := h.newPtr_null hcap
  have hq1 : (s.newPtr 0).liveObj q = true := hq
  exact (h1.attach (t := s.newPtr q) (i := s.nptrs) (q := q) (by simp) (by simp) hq1
    (by simp) rfl rfl rfl rfl).1

theorem RHeap.newObj_live (s : RHeap) : s.newObj.liveObj (s.nobjs + 1) = true := by
  simp [RHeap.liveObj]

theorem IInv.iop_make {s : RHeap} (h : IInv s) (hcap : s.nptrs + 1 < SIZE_T_MOD) :
    IInv (MakeIntrusive s) :=
  h.new_object.iop_fromRaw hcap s.newObj_live

theorem IInv.iop_copy {s : RHeap} (h : IInv s) (hcap : s.nptrs + 1 < SIZE_T_MOD) (j : Nat) :
    IInv (IntrusivePtr.copy j s) := by
  by_cases hq : (s.ptrs j).ptr_ = 0
  · have e : IntrusivePtr.copy j s = s.newPtr 0 := by
      simp [IntrusivePtr.copy, IntrusivePtr.Get, hq, IntrusivePtr.IncreaseCount]
    rw [e]; exact h.newPtr_null hcap
  · exact h.iop_fromRaw hcap (h.ptr_ok j hq).2.2

theorem IInv.iop_move {s : RHeap} (h : IInv s) (hcap : s.nptrs + 1 < SIZE_T_MOD) {j : Nat}
    (hj : s.liveP j = true) : IInv (IntrusivePtr.move j s) := by
  obtain ⟨hjn, hlj⟩ := (s.liveP_iff j).mp hj
  have hne : j ≠ s.nptrs := Nat.ne_of_lt hjn
  have h1 := h.newPtr_null hcap
  refine h1.hand_over (i := s.nptrs) (j := j) (fun e => hne e.symm) (by simp) (by simp)
    (by simpa [RHeap.liveP, Function.update_noteq hne] using ⟨Nat.lt_succ_of_lt hjn, hlj⟩)
    ?_ rfl rfl rfl rfl
  simp [IntrusivePtr.move, IntrusivePtr.Get, Function.update_noteq hne, hlj]

theorem IInv.iop_reset {s : RHeap} (h : IInv s) {i : Nat} (hi : s.liveP i = true) :
    IInv (IntrusivePtr.Reset i s) := by
  rw [IntrusivePtr.Reset_eq]; exact (h.deletePtr hi).1

theorem IInv.iop_destroy {s : RHeap} (h : IInv s) {i : Nat} (hi : s.liveP i = true) :
    IInv (IntrusivePtr.destroy i s) := by
  obtain ⟨d1, d2, _⟩ := h.deletePtr hi
  have e : IntrusivePtr.destroy i s =
      (IntrusivePtr.DeletePtr i s).setPtr i { live := false, ptr_ := 0 } := by
    simp [IntrusivePtr.destroy, d2]
  rw [e]
  exact d1.set_null (by rw [d2]; simp) false

theorem IInv.iop_assign {s : RHeap} (h : IInv s) {i j : Nat} (hi : s.liveP i = true) :
    IInv (IntrusivePtr.assign i j s) := by
  unfold IntrusivePtr.assign
  split
  · exact h
  · rename_i hji
    obtain ⟨d1, d2, d3, d4, d5⟩ := h.deletePtr hi
    obtain ⟨hin, hli⟩ := (s.liveP_iff i).mp hi
    have hjq : ((IntrusivePtr.DeletePtr i s).ptrs j).ptr_ = (s.ptrs j).ptr_ := by
      rw [d2, Function.update_noteq hji]
    have hi0 : ((IntrusivePtr.DeletePtr i s).ptrs i).ptr_ = 0 := by rw [d2]; simp
    simp only [IntrusivePtr.Get, hjq]
    by_cases hq : (s.ptrs j).ptr_ = 0
    · have e : IntrusivePtr.IncreaseCount i ((IntrusivePtr.DeletePtr i s).setPtr i
          { (IntrusivePtr.DeletePtr i s).ptrs i with ptr_ := (s.ptrs j).ptr_ }) =
          (IntrusivePtr.DeletePtr i s).setPtr i { live := true, ptr_ := 0 } := by
        simp [IntrusivePtr.IncreaseCount, hq, d2]
      rw [e]
      exact d1.set_null hi0 true
    · have hq1 : (IntrusivePtr.DeletePtr i s).liveObj (s.ptrs j).ptr_ = true := by
        have := (d1.ptr_ok j (by rw [hjq]; exact hq)).2.2
        rwa [hjq] at this
      exact (d1.attach (t := (IntrusivePtr.DeletePtr i s).setPtr i
          { (IntrusivePtr.DeletePtr i s).ptrs i with ptr_ := (s.ptrs j).ptr_ })
        (i := i) (q := (s.ptrs j).ptr_) (by rw [d3]; exact hin) hi0 hq1
        (by simp [d2]) rfl rfl rfl rfl).1

theorem IInv.iop_moveAssign {s : RHeap} (h : IInv s) {i j : Nat} (hi : s.liveP i = true)
    (hj : s.liveP j = true) : IInv (IntrusivePtr.moveAssign i j s) := by
  unfold IntrusivePtr.moveAssign
  split
  · exact h
  · rename_i hji
    obtain ⟨d1, d2, d3, d4, d5⟩ := h.deletePtr hi
    obtain ⟨hin, hli⟩ := (s.liveP_iff i).mp hi
    obtain ⟨hjn, hlj⟩ := (s.liveP_iff j).mp hj
    have hjq : (IntrusivePtr.DeletePtr i s).ptrs j = s.ptrs j := by
      rw [d2, Function.update_noteq hji]
    have hi0 : ((IntrusivePtr.DeletePtr i s).ptrs i).ptr_ = 0 := by rw [d2]; simp
    refine d1.hand_over (i := i) (j := j) (fun e => hji e.symm) (by rw [d3]; exact hin) hi0
      (by rw [RHeap.liveP_iff, d3, hjq]; exact ⟨hjn, hlj⟩) ?_ rfl rfl rfl rfl
    simp [IntrusivePtr.Get, hjq, d2, Function.update_noteq hji, hlj]

theorem IInv.iop_resetNew {s : RHeap} (h : IInv s) {i : Nat} (hi : s.liveP i = true) :
    IInv (IntrusivePtr.ResetPtr i (s.nobjs + 1) s.newObj) := by
  have h0 := h.new_object
  have hi0 : s.newObj.liveP i = true := hi
  obtain ⟨d1, d2, d3, d4, d5⟩ := h0.deletePtr hi0
  obtain ⟨hin, hli⟩ := (s.liveP_iff i).mp hi
  have hne : s.nobjs + 1 ≠ (s.ptrs i).ptr_ := by
    intro e
    have hp : (s.ptrs i).ptr_ ≠ 0 := by
      rw [← e]; exact Nat.succ_ne_zero _
    have := (s.liveObj_iff _).mp (h.ptr_ok i hp).2.2
    omega
  have hq : (IntrusivePtr.DeletePtr i s.newObj).liveObj (s.nobjs + 1) = true := by
    rw [d5 _ hne]; exact s.newObj_live
  unfold IntrusivePtr.ResetPtr
  rw [IntrusivePtr.Reset_eq]
  exact (d1.attach (t := (IntrusivePtr.DeletePtr i s.newObj).setPtr i
      { (IntrusivePtr.DeletePtr i s.newObj).ptrs i with ptr_ := s.nobjs + 1 })
    (i := i) (q := s.nobjs + 1) (by rw [d3]; exact hin) (by rw [d2]; simp) hq
    (by simp [d2]) rfl rfl rfl rfl).1

theorem istep_inv {s : RHeap} (h : IInv s) (op : IOp) (hcap : s.nptrs + 1 < SIZE_T_MOD) :
    IInv (istep s op) := by
  unfold istep
  split
  · exact h
  · cases op with
    | iDefault => exact h.iop_default hcap
    | iMake => exact h.iop_make hcap
    | iWrapNew => exact h.new_object.iop_fromRaw hcap s.newObj_live
    | iWrap p =>
      simp only []
      split
      · rename_i hp; exact h.iop_fromRaw hcap hp
      · exact h
    | iCopy j =>
      simp only []
      split
      · exact h.iop_copy hcap j
      · exact h
    | iMove j =>
      simp only []
      split
      · rename_i hj; exact h.iop_move hcap hj
      · exact h
    | iAssign i j =>
      simp only []
      split
      · rename_i hij
        simp only [Bool.and_eq_true] at hij
        exact h.iop_assign hij.1
      · exact h
    | iMoveAssign i j =>
      simp only []
      split
      · rename_i hij
        simp only [Bool.and_eq_true] at hij
        exact h.iop_moveAssign hij.1 hij.2
      · exact h
    | iReset i =>
      simp only []
      split
      · rename_i hi; exact h.iop_reset hi
      · exact h
    | iResetNew i =>
      simp only []
      split
      · rename_i hi; exact h.iop_resetNew hi
      · exact h
    | iSwap i j =>
      simp only []
      split
      · rename_i hij
        simp only [Bool.and_eq_true] at hij
        exact h.swap hij.1 hij.2
      · exact h
    | iDestroy i =>
      simp only []
      split
      · rename_i hi; exact h.iop_destroy hi
      · exact h

@[simp] theorem IntrusivePtr.IncreaseCount_nptrs (i : Nat) (s : RHeap) :
    (IntrusivePtr.IncreaseCount i s).nptrs = s.nptrs := by
  unfold IntrusivePtr.IncreaseCount RefCounted.IncRef
  split
  · split <;> rfl
  · rfl

@[simp] theorem IntrusivePtr.DeletePtr_nptrs (i : Nat) (s : RHeap) :
    (IntrusivePtr.DeletePtr i s).nptrs = s.nptrs := by
  unfold IntrusivePtr.DeletePtr
  split
  · simp [(RefCounted.DecRef_frame _ s).2.1]
  · rfl

theorem istep_le (s : RHeap) (op : IOp) : s.nptrs ≤ (istep s op).nptrs := by
  unfold istep
  split
  · exact Nat.le_refl _
  · cases op <;> simp only []
    · simp [IntrusivePtr.default]
    · simp [MakeIntrusive, IntrusivePtr.fromRaw]
    · simp [IntrusivePtr.fromRaw]
    · split <;> simp [IntrusivePtr.fromRaw]
    · split <;> simp [IntrusivePtr.copy]
    · split <;> simp [IntrusivePtr.move]
    · split
      · unfold IntrusivePtr.assign; split <;> simp
      · exact Nat.le_refl _
    · split
      · unfold IntrusivePtr.moveAssign; split <;> simp
      · exact Nat.le_refl _
    · split
      · rw [IntrusivePtr.Reset_eq]; simp
      · exact Nat.le_refl _
    · split
      · unfold IntrusivePtr.ResetPtr; rw [IntrusivePtr.Reset_eq]; simp
      · exact Nat.le_refl _
    · split <;> simp [IntrusivePtr.Swap]
    · split <;> simp [IntrusivePtr.destroy]

theorem irun_cons (op : IOp) (ops : List IOp) (s : RHeap) :
    irun (op :: ops) s = irun ops (istep s op) := rfl

theorem irun_le (ops : List IOp) : ∀ s : RHeap, s.nptrs ≤ (irun ops s).nptrs := by
  induction ops with
  | nil => intro s; exact Nat.le_refl _
  | cons op ops ih =>
    intro s
    rw [irun_cons]
    exact Nat.le_trans (istep_le s op) (ih _)

/-- Every program over intrusive handles keeps the heap well-formed. -/
theorem irun_inv (ops : List IOp) :
    ∀ s : RHeap, IInv s → (irun ops s).nptrs + 1 < SIZE_T_MOD → IInv (irun ops s) := by
  induction ops with
  | nil => intro s h _; exact h
  | cons op ops ih =>
    intro s h hcap
    rw [irun_cons] at hcap ⊢
    have h1 := irun_le ops (istep s op)
    have h2 := istep_le s op
    exact ih _ (istep_inv h op (by omega)) hcap

/-! ## Claims about intrusive handles -/

/-- The handle returned by `MakeIntrusive` on any heap. -/
theorem MakeIntrusive_handle (s : RHeap) :
    (MakeIntrusive s).nptrs = s.nptrs + 1 ∧
    ((MakeIntrusive s).ptrs s.nptrs).live = true ∧
    IntrusivePtr.Get s.nptrs (MakeIntrusive s) = s.nobjs + 1 ∧
    IntrusivePtr.UseCount s.nptrs (MakeIntrusive s) = 1 ∧
    ((MakeIntrusive s).objs (s.nobjs + 1)).ctor_runs = 1 ∧
    ((MakeIntrusive s).objs (s.nobjs + 1)).destroy_runs = 0 ∧
    (MakeIntrusive s).fault = s.fault := by
  have h1 : incr 0 = 1 := by unfold incr SIZE_T_MOD; rfl
  simp [MakeIntrusive, IntrusivePtr.fromRaw, IntrusivePtr.IncreaseCount, RefCounted.IncRef,
    RHeap.liveObj, IntrusivePtr.Get, IntrusivePtr.UseCount, RefCounted.RefCount,
    SimpleCounter.IncRef, h1]

/-- C20 (intrusive count invariant).  For every program over intrusive handles, run
from the empty heap with fewer than `2^64 - 1` handles created, and every live object
`p`: `RefCount()` of `p` equals the number of live `IntrusivePtr` objects pointing at
`p`, and no undefined behaviour has occurred.  On the heap reached, `MakeIntrusive`
returns a live handle to a new object constructed once with `UseCount() == 1`; copying
a live handle that points at `p` yields a handle pointing at `p` and adds exactly one
to the count; moving from it yields a handle pointing at `p`, adds nothing to the
count and leaves the source null. -/
theorem intrusive_count_eq_live_handles (ops : List IOp)
    (hcap : (irun ops RHeap.init).nptrs + 1 < SIZE_T_MOD) (p : Nat)
    (hp : (irun ops RHeap.init).liveObj p = true) :
    RefCounted.RefCount p (irun ops RHeap.init) = (irun ops RHeap.init).liveHandles p ∧
    (irun ops RHeap.init).fault = none ∧
    (((MakeIntrusive (irun ops RHeap.init)).ptrs (irun ops RHeap.init).nptrs).live = true ∧
      IntrusivePtr.UseCount (irun ops RHeap.init).nptrs (MakeIntrusive (irun ops RHeap.init))
        = 1 ∧
      ((MakeIntrusive (irun ops RHeap.init)).objs
        (IntrusivePtr.Get (irun ops RHeap.init).nptrs
          (MakeIntrusive (irun ops RHeap.init)))).ctor_runs = 1) ∧
    (∀ j, (irun ops RHeap.init).liveP j = true → ((irun ops RHeap.init).ptrs j).ptr_ = p →
      IntrusivePtr.Get (irun ops RHeap.init).nptrs (IntrusivePtr.copy j (irun ops RHeap.init))
        = p ∧
      RefCounted.RefCount p (IntrusivePtr.copy j (irun ops RHeap.init)) =
        RefCounted.RefCount p (irun ops RHeap.init) + 1 ∧
      IntrusivePtr.Get j (IntrusivePtr.copy j (irun ops RHeap.init)) = p) ∧
    (∀ j, (irun ops RHeap.init).liveP j = true → ((irun ops RHeap.init).ptrs j).ptr_ = p →
      IntrusivePtr.Get (irun ops RHeap.init).nptrs (IntrusivePtr.move j (irun ops RHeap.init))
        = p ∧
      RefCounted.RefCount p (IntrusivePtr.move j (irun ops RHeap.init)) =
        RefCounted.RefCount p (irun ops RHeap.init) ∧
      IntrusivePtr.Get j (IntrusivePtr.move j (irun ops RHeap.init)) = 0) := by
  have h := irun_inv ops RHeap.init IInv.init_heap hcap
  obtain ⟨m1, m2, m3, m4, m5, _⟩ := MakeIntrusive_handle (irun ops RHeap.init)
  refine ⟨h.count p hp, h.fault, ⟨m2, m4, ?_⟩, ?_, ?_⟩
  · rw [m3]; exact m5
  · intro j hj hjp
    obtain ⟨hjn, hlj⟩ := ((irun ops RHeap.init).liveP_iff j).mp hj
    have hne : j ≠ (irun ops RHeap.init).nptrs := Nat.ne_of_lt hjn
    have h1 := h.newPtr_null hcap
    have hq1 : ((irun ops RHeap.init).newPtr 0).liveObj p = true := hp
    have e := (h1.attach (t := (irun ops RHeap.init).newPtr p) (i := (irun ops RHeap.init).nptrs)
      (q := p) (by simp) (by simp) hq1 (by simp) rfl rfl rfl rfl).2
    have e2 : IntrusivePtr.copy j (irun ops RHeap.init) =
        ((irun ops RHeap.init).newPtr p).modObj p (fun o => { o with count_ := o.count_ + 1 }) := by
      rw [← e]; simp [IntrusivePtr.copy, IntrusivePtr.Get, hjp]
    rw [e2]
    simp [IntrusivePtr.Get, RefCounted.RefCount, Function.update_noteq hne, hjp]
  · intro j hj hjp
    obtain ⟨hjn, hlj⟩ := ((irun ops RHeap.init).liveP_iff j).mp hj
    have hne : j ≠ (irun ops RHeap.init).nptrs := Nat.ne_of_lt hjn
    have hne2 : (irun ops RHeap.init).nptrs ≠ j := fun e => hne e.symm
    simp [IntrusivePtr.move, IntrusivePtr.Get, RefCounted.RefCount, Function.update_noteq hne2,
      hjp]

/-- Witness of C20: after `demoIntrusive` two live handles point at object `1`. -/
theorem intrusive_count_eq_live_handles_witness :
    ((irun demoIntrusive RHeap.init).nptrs + 1 < SIZE_T_MOD ∧
      (irun demoIntrusive RHeap.init).liveObj 1 = true) ∧
    (irun demoIntrusive RHeap.init).liveHandles 1 = 2 ∧
    RefCounted.RefCount 1 (irun demoIntrusive RHeap.init) =
      (irun demoIntrusive RHeap.init).liveHandles 1 :=
  ⟨⟨by decide, by decide⟩, by decide,
   (intrusive_count_eq_live_handles demoIntrusive (by decide) 1 (by decide)).1⟩

/-- The release step `DeletePtr` on a handle pointing at a live object with a `size_t`
count of at least 1, on any heap. -/
theorem IntrusivePtr.DeletePtr_live (s : RHeap) (i : Nat) (hp : (s.ptrs i).ptr_ ≠ 0)
    (hlive : s.liveObj (s.ptrs i).ptr_ = true)
    (hn : 1 ≤ (s.objs (s.ptrs i).ptr_).count_)
    (hlt : (s.objs (s.ptrs i).ptr_).count_ < SIZE_T_MOD) :
    IntrusivePtr.DeletePtr i s =
      (s.modObj (s.ptrs i).ptr_ (fun o =>
        if o.count_ = 1 then { o with destroy_runs := o.destroy_runs + 1 }
        else { o with count_ := o.count_ - 1 })).setPtr i
        { live := (s.ptrs i).live, ptr_ := 0 } := by
  have hdec : decr (s.objs (s.ptrs i).ptr_).count_ = (s.objs (s.ptrs i).ptr_).count_ - 1 :=
    decr_eq (by omega) hlt
  by_cases h1 : (s.objs (s.ptrs i).ptr_).count_ = 1
  · simp [IntrusivePtr.DeletePtr, hp, RefCounted.DecRef, hlive, RefCounted.RefCount, h1,
      DefaultDelete.Destroy, RHeap.modObj]
  · have h2 : ¬ (s.objs (s.ptrs i).ptr_).count_ ≤ 1 := by omega
    simp [IntrusivePtr.DeletePtr, hp, RefCounted.DecRef, hlive, RefCounted.RefCount, h1, h2,
      SimpleCounter.DecRef, RHeap.modObj, hdec]

/-- C19 (intrusive teardown condition).  On any heap let the `IntrusivePtr` `p` (index
`i`) point at a live object whose count `n` is a `size_t` value with `n ≥ 1`.  The
destructor, `Reset()` and both assignment operators release `p` by the same step:
`Reset()` is that step, the destructor is that step followed by the end of the
handle, and an assignment from another handle `j` is that step followed by taking (and,
for copy assignment, counting) the pointer of `j`.  The step calls the deleter on the
object exactly when `n = 1`; when `n > 1` the object is not destroyed and `RefCount()`
becomes `n - 1`; no other object and no other handle is touched, nothing undefined
happens, and `p` ends null (after an assignment: holding the pointer of `j`, so null
when `j` is null). -/
theorem intrusive_release_destroys_iff_last (s : RHeap) (i : Nat)
    (hp : (s.ptrs i).ptr_ ≠ 0) (hlive : s.liveObj (s.ptrs i).ptr_ = true)
    (hn : 1 ≤ (s.objs (s.ptrs i).ptr_).count_)
    (hlt : (s.objs (s.ptrs i).ptr_).count_ < SIZE_T_MOD) :
    (IntrusivePtr.Reset i s = IntrusivePtr.DeletePtr i s ∧
      IntrusivePtr.destroy i s =
        (IntrusivePtr.DeletePtr i s).setPtr i { live := false, ptr_ := 0 } ∧
      (∀ j, j ≠ i → IntrusivePtr.moveAssign i j s =
        ((IntrusivePtr.DeletePtr i s).setPtr i
          { live := (s.ptrs i).live, ptr_ := (s.ptrs j).ptr_ }).setPtr j
          { live := (s.ptrs j).live, ptr_ := 0 }) ∧
      (∀ j, j ≠ i → IntrusivePtr.assign i j s =
        IntrusivePtr.IncreaseCount i ((IntrusivePtr.DeletePtr i s).setPtr i
          { live := (s.ptrs i).live, ptr_ := (s.ptrs j).ptr_ })) ∧
      (∀ j, j ≠ i → (s.ptrs j).ptr_ = 0 →
        (IntrusivePtr.assign i j s).objs = (IntrusivePtr.DeletePtr i s).objs ∧
        ((IntrusivePtr.assign i j s).ptrs i).ptr_ = 0)) ∧
    (((IntrusivePtr.DeletePtr i s).objs (s.ptrs i).ptr_).destroy_runs =
        (s.objs (s.ptrs i).ptr_).destroy_runs +
          (if (s.objs (s.ptrs i).ptr_).count_ = 1 then 1 else 0) ∧
      (1 < (s.objs (s.ptrs i).ptr_).count_ →
        RefCounted.RefCount (s.ptrs i).ptr_ (IntrusivePtr.DeletePtr i s) =
          (s.objs (s.ptrs i).ptr_).count_ - 1 ∧
        (IntrusivePtr.DeletePtr i s).liveObj (s.ptrs i).ptr_ = true) ∧
      ((s.objs (s.ptrs i).ptr_).count_ = 1 →
        (IntrusivePtr.DeletePtr i s).liveObj (s.ptrs i).ptr_ = false) ∧
      ((IntrusivePtr.DeletePtr i s).objs (s.ptrs i).ptr_).ctor_runs =
        (s.objs (s.ptrs i).ptr_).ctor_runs) ∧
    (((IntrusivePtr.DeletePtr i s).ptrs i).ptr_ = 0 ∧
      ((IntrusivePtr.Reset i s).ptrs i).ptr_ = 0 ∧
      ((IntrusivePtr.destroy i s).ptrs i).ptr_ = 0 ∧
      ((IntrusivePtr.destroy i s).ptrs i).live = false) ∧
    ((∀ q, q ≠ (s.ptrs i).ptr_ → (IntrusivePtr.DeletePtr i s).objs q = s.objs q) ∧
      (∀ k, k ≠ i → (IntrusivePtr.DeletePtr i s).ptrs k = s.ptrs k) ∧
      (IntrusivePtr.DeletePtr i s).fault = s.fault) := by
  have e := IntrusivePtr.DeletePtr_live s i hp hlive hn hlt
  have hl3 := (s.liveObj_iff _).mp hlive
  refine ⟨⟨IntrusivePtr.Reset_eq i s, ?_, ?_, ?_, ?_⟩, ⟨?_, ?_, ?_, ?_⟩, ⟨?_, ?_, ?_, ?_⟩,
    ⟨?_, ?_, ?_⟩⟩
  · unfold IntrusivePtr.destroy
    rw [e]; simp [RHeap.setPtr]
  · intro j hji
    simp only [IntrusivePtr.moveAssign, hji, if_false, IntrusivePtr.Get]
    rw [e]
    simp [Function.update_noteq hji, Function.update_noteq (fun e : i = j => hji e.symm)]
  · intro j hji
    simp only [IntrusivePtr.assign, hji, if_false, IntrusivePtr.Get]
    rw [e]
    simp [Function.update_noteq hji]
  · intro j hji hj0
    simp only [IntrusivePtr.assign, hji, if_false, IntrusivePtr.Get]
    rw [e]
    simp [Function.update_noteq hji, hj0, IntrusivePtr.IncreaseCount]
  · rw [e]
    by_cases h1 : (s.objs (s.ptrs i).ptr_).count_ = 1 <;> simp [h1]
  · intro h1
    have h2 : (s.objs (s.ptrs i).ptr_).count_ ≠ 1 := by omega
    rw [e]
    simp [RefCounted.RefCount, h2, RHeap.liveObj, hl3.2.1, hl3.2.2, hl3.1]
  · intro h1
    rw [e]
    simp [h1, RHeap.liveObj]
  · rw [e]
    by_cases h1 : (s.objs (s.ptrs i).ptr_).count_ = 1 <;> simp [h1]
  · rw [e]; simp
  · rw [IntrusivePtr.Reset_eq, e]; simp
  · unfold IntrusivePtr.destroy; rw [e]; simp
  · unfold IntrusivePtr.destroy; rw [e]; simp
  · intro q hq
    rw [e]; simp [Function.update_noteq hq]
  · intro k hk
    rw [e]; simp [Function.update_noteq hk]
  · rw [e]; rfl

/-- Witness of C19: releasing one of two handles of an object leaves it alive with
count 1, and releasing the last one calls the deleter. -/
theorem intrusive_release_destroys_iff_last_witness :
    (((irun [IOp.iMake] RHeap.init).ptrs 0).ptr_ ≠ 0 ∧
      (irun [IOp.iMake] RHeap.init).liveObj ((irun [IOp.iMake] RHeap.init).ptrs 0).ptr_ = true ∧
      1 ≤ ((irun [IOp.iMake] RHeap.init).objs
        ((irun [IOp.iMake] RHeap.init).ptrs 0).ptr_).count_ ∧
      ((irun [IOp.iMake] RHeap.init).objs
        ((irun [IOp.iMake] RHeap.init).ptrs 0).ptr_).count_ < SIZE_T_MOD) ∧
    ((IntrusivePtr.DeletePtr 0 (irun [IOp.iMake] RHeap.init)).objs 1).destroy_runs = 1 :=
  ⟨⟨by decide, by decide, by decide, by decide⟩,
   Eq.trans (intrusive_release_destroys_iff_last (irun [IOp.iMake] RHeap.init) 0 (by decide)
     (by decide) (by decide) (by decide)).2.1.1 (by decide)⟩

/-! ## Claims about exclusive handles -/

theorem deleterRuns_append (l : List (Nat × Addr)) (d : Nat) (p r : Addr) :
    deleterRuns (l ++ [(d, p)]) r = deleterRuns l r + (if p = r then 1 else 0) := by
  unfold deleterRuns
  by_cases h : p = r
  · simp [List.filter_append, h]
  · simp [List.filter_append, h]

/-- C21 (exclusive handle: when the teardown policy runs).  On any heap, for every
`UniquePtr` `u` holding pointer `p = u.Get()` with deleter `d = u.GetDeleter()`, and
every pointer `q`.  `u.Release()` returns `p`, leaves `u.Get() == nullptr`, calls no
deleter, and the later destruction of `u` calls none either; no other handle changes.
`u.Reset(q)` leaves `u.Get() == q` and appends to the log of deleter calls exactly the
call `d(p)` when `p` is non-null and nothing when `p` is null, so the number of calls
on `p` grows by one or not at all and the number of calls on any other pointer is
unchanged; the deleter of `u` and all other handles are unchanged.  The destructor makes
the same calls as `Reset(nullptr)` and leaves the same handles, except that `u` has
ended. -/
theorem unique_teardown_policy (s : UHeap) (u : Nat) (q : Addr) :
    ((UniquePtr.Release u s).1 = UniquePtr.Get u s ∧
      UniquePtr.Get u (UniquePtr.Release u s).2 = 0 ∧
      (UniquePtr.Release u s).2.log = s.log ∧
      (UniquePtr.destroy u (UniquePtr.Release u s).2).log = s.log ∧
      (∀ v, (UniquePtr.Release u s).2.us v =
        if v = u then { s.us u with first := 0 } else s.us v)) ∧
    (UniquePtr.Get u (UniquePtr.Reset u q s) = q ∧
      (UniquePtr.Reset u q s).log =
        s.log ++ (if UniquePtr.Get u s = 0 then []
                  else [(UniquePtr.GetDeleter u s, UniquePtr.Get u s)]) ∧
      (∀ r, deleterRuns (UniquePtr.Reset u q s).log r =
        deleterRuns s.log r +
          (if UniquePtr.Get u s = r ∧ UniquePtr.Get u s ≠ 0 then 1 else 0)) ∧
      (∀ v, (UniquePtr.Reset u q s).us v =
        if v = u then { s.us u with first := q } else s.us v)) ∧
    ((UniquePtr.destroy u s).log = (UniquePtr.Reset u 0 s).log ∧
      UniquePtr.Get u (UniquePtr.destroy u s) = 0 ∧
      UniquePtr.Get u (UniquePtr.Reset u 0 s) = 0 ∧
      (∀ v, (UniquePtr.destroy u s).us v =
        if v = u then { (UniquePtr.Reset u 0 s).us u with live := false }
        else (UniquePtr.Reset u 0 s).us v)) := by
  have hreset : ∀ (x : Addr) (t : UHeap), (UniquePtr.Reset u x t).us =
      Function.update t.us u { t.us u with first := x } := by
    intro x t
    by_cases h0 : (t.us u).first = 0
    · simp [UniquePtr.Reset, h0, UHeap.setU]
    · simp [UniquePtr.Reset, h0, UHeap.setU, UHeap.callDeleter]
  have hlog : ∀ (x : Addr) (t : UHeap), (UniquePtr.Reset u x t).log =
      t.log ++ (if (t.us u).first = 0 then [] else [((t.us u).second, (t.us u).first)]) := by
    intro x t
    unfold UniquePtr.Reset
    by_cases h0 : (t.us u).first = 0
    · simp [h0, UHeap.setU]
    · simp [h0, UHeap.setU, UHeap.callDeleter]
  refine ⟨⟨rfl, ?_, rfl, ?_, ?_⟩, ⟨?_, ?_, ?_, ?_⟩, ⟨rfl, ?_, ?_, ?_⟩⟩
  · simp [UniquePtr.Get, UniquePtr.Release, UHeap.setU]
  · unfold UniquePtr.destroy
    show (UniquePtr.Reset u 0 (UniquePtr.Release u s).2).log = s.log
    rw [hlog]
    simp [UniquePtr.Release, UHeap.setU]
  · intro v
    by_cases hv : v = u
    · subst hv; simp [UniquePtr.Release, UHeap.setU]
    · simp [UniquePtr.Release, UHeap.setU, Function.update_noteq hv, hv]
  · simp [UniquePtr.Get, hreset]
  · rw [hlog]; rfl
  · intro r
    rw [hlog]
    by_cases h0 : (s.us u).first = 0
    · simp [h0, UniquePtr.Get]
    · simp only [h0, if_false, deleterRuns_append, UniquePtr.Get, ne_eq, not_false_eq_true,
        and_true]
  · intro v
    rw [hreset]
    by_cases hv : v = u
    · subst hv; simp
    · simp [Function.update_noteq hv, hv]
  · simp [UniquePtr.Get, UniquePtr.destroy, UHeap.setU, hreset]
  · simp [UniquePtr.Get, hreset]
  · intro v
    by_cases hv : v = u
    · subst hv; simp [UniquePtr.destroy, UHeap.setU]
    · simp [UniquePtr.destroy, UHeap.setU, Function.update_noteq hv, hv]

/-- Witness of C21: a handle owning the object at address `7` with deleter `3`; `Reset`
calls that deleter once on `7`, whereas `Release` followed by destruction calls none. -/
theorem unique_teardown_policy_witness :
    (UniquePtr.Reset 0 9 (UniquePtr.fromRawDeleter 7 3 UHeap.init)).log = [(3, 7)] ∧
    (UniquePtr.destroy 0 (UniquePtr.Release 0 (UniquePtr.fromRawDeleter 7 3 UHeap.init)).2).log
      = [] :=
  ⟨Eq.trans (unique_teardown_policy (UniquePtr.fromRawDeleter 7 3 UHeap.init) 0 9).2.1.2.1
     (by decide),
   Eq.trans (unique_teardown_policy (UniquePtr.fromRawDeleter 7 3 UHeap.init) 0 9).1.2.2.2.1
     (by decide)⟩

/-! ## Emptiness of shared handles -/

/-- The wiring step leaves every shared handle and every strong count alone. -/
theorem SharedPtr.wire_frame (esft : Bool) (i : Nat) (t : Heap) :
    (SharedPtr.wire esft i t).sps = t.sps ∧
    (SharedPtr.wire esft i t).nsps = t.nsps ∧
    (∀ c, ((SharedPtr.wire esft i t).blocks c).strong_cnt = (t.blocks c).strong_cnt) := by
  unfold SharedPtr.wire
  split
  · obtain ⟨f1, f2, _, _, _, f6, _⟩ := SharedPtr.InitWeakThis_frame i (t.sps i).ptr_ t
    exact ⟨f1, f2, f6⟩
  · exact ⟨rfl, rfl, fun _ => rfl⟩

/-- C22 (emptiness is decided by the block).  For every program, with or without the
capability (fewer than `2^64 - 1` handles of each kind created, three nested destructor
calls available), and every shared handle `h` that exists in the heap reached:
`bool(h)` is true exactly when `h.GetBlock()` is non-null, which holds exactly when
`h.UseCount() >= 1`.  On any heap, the aliasing constructor applied to a block-less
source and an address `p` builds a handle with `Get() == p`, `bool == false` and
`UseCount() == 0`; wrapping a null raw pointer builds a handle with a null `Get()`,
`bool == true` and `UseCount() == 1`.  For a type without the capability wrapping a
null pointer does nothing undefined; for a capability-bearing type the same constructor
goes on to `InitWeakThis(ptr_)` and stores through the null pointer. -/
theorem emptiness_decided_by_block (esft : Bool) (n : Nat) (ops : List Op)
    (hs : (run esft (n + 3) ops Heap.init).nsps + 1 < SIZE_T_MOD)
    (hw : (run esft (n + 3) ops Heap.init).nwps + 1 < SIZE_T_MOD)
    (i : Nat) (hi : i < (run esft (n + 3) ops Heap.init).nsps) :
    (SharedPtr.toBool i (run esft (n + 3) ops Heap.init) = true ↔
      SharedPtr.GetBlock i (run esft (n + 3) ops Heap.init) ≠ none) ∧
    (SharedPtr.GetBlock i (run esft (n + 3) ops Heap.init) ≠ none ↔
      1 ≤ SharedPtr.UseCount i (run esft (n + 3) ops Heap.init)) ∧
    (∀ (s : Heap) (j : Nat) (p : Addr), j < s.nsps → SharedPtr.GetBlock j s = none →
      SharedPtr.Get s.nsps (SharedPtr.alias esft j p s) = p ∧
      SharedPtr.GetBlock s.nsps (SharedPtr.alias esft j p s) = none ∧
      SharedPtr.toBool s.nsps (SharedPtr.alias esft j p s) = false ∧
      SharedPtr.UseCount s.nsps (SharedPtr.alias esft j p s) = 0) ∧
    (∀ s : Heap,
      SharedPtr.Get s.nsps (SharedPtr.fromRaw esft 0 s) = 0 ∧
      SharedPtr.GetBlock s.nsps (SharedPtr.fromRaw esft 0 s) = some s.nblocks ∧
      SharedPtr.toBool s.nsps (SharedPtr.fromRaw esft 0 s) = true ∧
      SharedPtr.UseCount s.nsps (SharedPtr.fromRaw esft 0 s) = 1) ∧
    (∀ s : Heap, (SharedPtr.fromRaw false 0 s).fault = s.fault) ∧
    (∀ s : Heap, (SharedPtr.fromRaw true 0 s).fault = some Fault.nullDeref) := by
  have h := run_inv esft n ops Heap.init (Inv.init esft) hs hw
  refine ⟨?_, ?_, ?_, ?_, fun _ => rfl, ?_⟩
  · unfold SharedPtr.toBool SharedPtr.GetBlock
    cases ((run esft (n + 3) ops Heap.init).sps i).block_ <;> simp
  · unfold SharedPtr.GetBlock SharedPtr.UseCount
    cases hb : ((run esft (n + 3) ops Heap.init).sps i).block_ with
    | none => simp
    | some b =>
      have := (h.strong_pos hi hb).2
      simp only [ne_eq, reduceCtorEq, not_false_eq_true, true_iff]
      exact this
  · intro s j p _ hb
    have hb2 : (s.sps j).block_ = none := hb
    have e : SharedPtr.alias esft j p s = SharedPtr.wire esft s.nsps (s.newShared none p) := by
      simp [SharedPtr.alias, hb2]
    obtain ⟨f1, _, _⟩ := SharedPtr.wire_frame esft s.nsps (s.newShared none p)
    rw [e]
    simp [SharedPtr.Get, SharedPtr.GetBlock, SharedPtr.toBool, SharedPtr.UseCount, f1]
  · intro s
    obtain ⟨f1, _, f3⟩ := SharedPtr.wire_frame esft s.nsps
      ((s.newPointerBlock 0).newShared (some s.nblocks) 0)
    have e : SharedPtr.fromRaw esft 0 s =
        SharedPtr.wire esft s.nsps ((s.newPointerBlock 0).newShared (some s.nblocks) 0) := rfl
    rw [e]
    simp [SharedPtr.Get, SharedPtr.GetBlock, SharedPtr.toBool, SharedPtr.UseCount, f1, f3]
  · intro s
    have e : SharedPtr.fromRaw true 0 s =
        SharedPtr.InitWeakThis s.nsps 0 ((s.newPointerBlock 0).newShared (some s.nblocks) 0) := by
      simp [SharedPtr.fromRaw, SharedPtr.wire]
    rw [e]
    exact (SharedPtr.InitWeakThis_null _ _).1

/-- Witness of C22 where the code departs from it: for a capability-bearing type the
program that wraps a null raw pointer runs into the null store of `InitWeakThis`. -/
theorem emptiness_decided_by_block_witness :
    ((run true 3 [Op.sWrapNull] Heap.init).nsps + 1 < SIZE_T_MOD ∧
      (run true 3 [Op.sWrapNull] Heap.init).nwps + 1 < SIZE_T_MOD ∧
      0 < (run true 3 [Op.sWrapNull] Heap.init).nsps) ∧
    (run true 3 [Op.sWrapNull] Heap.init).fault = some Fault.nullDeref ∧
    (SharedPtr.fromRaw true 0 Heap.init).fault = some Fault.nullDeref ∧
    (SharedPtr.toBool 0 (run true 3 [Op.sWrapNull] Heap.init) = true ↔
      SharedPtr.GetBlock 0 (run true 3 [Op.sWrapNull] Heap.init) ≠ none) :=
  ⟨⟨by decide, by decide, by decide⟩, by decide,
   (emptiness_decided_by_block true 0 [Op.sWrapNull] (by decide) (by decide) 0
     (by decide)).2.2.2.2.2 Heap.init,
   (emptiness_decided_by_block true 0 [Op.sWrapNull] (by decide) (by decide) 0
     (by decide)).1⟩

/-! ## Repeated teardown, with and without the capability -/

/-- The destructor cascade never writes the members of a block that say whether its
object is still held. -/
theorem exec_core (esft : Bool) : ∀ (n : Nat) (t : Task) (s : Heap) (c : Nat),
    ((exec esft n t s).blocks c).emplace = (s.blocks c).emplace ∧
    ((exec esft n t s).blocks c).ptr_ = (s.blocks c).ptr_ ∧
    ((exec esft n t s).blocks c).is_delete_ = (s.blocks c).is_delete_ := by
  intro n
  induction n with
  | zero => intro t s c; simp [exec]
  | succ n ih =>
    intro t s c
    cases t with
    | destroy p =>
      simp only [exec]
      split
      · split <;> simp [ih]
      · simp
    | weakDeleteBlock w =>
      simp only [exec]
      split
      · rename_i b hb
        split
        · simp only [Heap.setWeak_blocks, ih, Heap.modBlock_blocks]
          by_cases hcb : c = b
          · subst hcb; simp
          · simp [Function.update_noteq hcb]
        · simp only [Heap.setWeak_blocks, Heap.modBlock_blocks]
          by_cases hcb : c = b
          · subst hcb; simp
          · simp [Function.update_noteq hcb]
      · simp
    | deleteBlock b =>
      simp only [exec]
      have key : ∀ x : Heap,
          ((x.modBlock b fun c => { c with frees := c.frees + 1 }).blocks c).emplace
            = (x.blocks c).emplace ∧
          ((x.modBlock b fun c => { c with frees := c.frees + 1 }).blocks c).ptr_
            = (x.blocks c).ptr_ ∧
          ((x.modBlock b fun c => { c with frees := c.frees + 1 }).blocks c).is_delete_
            = (x.blocks c).is_delete_ := by
        intro x
        by_cases hcb : c = b
        · subst hcb; simp
        · simp [Function.update_noteq hcb]
      split
      · split <;> simp only [key, ih, and_self]
      · split <;> simp only [key, ih, and_self]

/-- The destructor cascade never changes whether a block is torn down. -/
theorem exec_cleared (esft : Bool) (n : Nat) (t : Task) (s : Heap) (c : Nat) :
    ((exec esft n t s).blocks c).cleared ↔ (s.blocks c).cleared := by
  obtain ⟨h1, h2, h3⟩ := exec_core esft n t s c
  unfold ControlBlock.cleared
  rw [h1, h2, h3]

/-- The destructor of a managed object.  For a capability-bearing type it needs two
further nested calls and a guarded heap.  Then the destructor runs once and no other
object is touched. -/
theorem exec_destroy_guarded (esft : Bool) (d : Nat) (p : Addr) (x : Heap)
    (hg : esft = true → 2 ≤ d ∧ Guarded x p) :
    (exec esft (d + 1) (Task.destroy p) x).objs =
      Function.update x.objs p { x.objs p with dtor_runs := (x.objs p).dtor_runs + 1 } := by
  rw [exec_destroy_succ]
  cases esft with
  | false => simp
  | true =>
    obtain ⟨hd, hg2⟩ := hg rfl
    obtain ⟨n, rfl⟩ : ∃ n, d = n + 2 := ⟨d - 2, by omega⟩
    simp only [if_true]
    cases hw : (x.objs p).weak_this_ with
    | none => simp [hw]
    | some w =>
      simp only []
      cases hb : (x.wps w).block_ with
      | none =>
        rw [exec_weakDeleteBlock_none true (n + 1) w _ (by simpa using hb)]
        simp [hw]
      | some b =>
        have hc : ((x.modObj p (fun o => { o with dtor_runs := o.dtor_runs + 1 })).blocks
            b).strong_cnt = 0 →
            ((x.modObj p (fun o => { o with dtor_runs := o.dtor_runs + 1 })).blocks b).cleared :=
          fun h0 => hg2 w b hw hb h0
        rw [exec_weakDeleteBlock_some true n w b _ (by simpa using hb) hc]
        simp [hw]

/-- A heap becomes guarded when the one block that was not is torn down and nothing
else changes. -/
theorem Guarded.of_cleared {s x : Heap} {p : Addr} {b : Nat}
    (h : ∀ w c, (s.objs p).weak_this_ = some w → (s.wps w).block_ = some c → c ≠ b →
      (s.blocks c).strong_cnt = 0 → (s.blocks c).cleared)
    (ho : x.objs = s.objs) (hw : x.wps = s.wps) (hb : (x.blocks b).cleared)
    (hc : ∀ c, c ≠ b → x.blocks c = s.blocks c) : Guarded x p := by
  intro w c h1 h2 h3
  by_cases hcb : c = b
  · subst hcb; exact hb
  · rw [hc c hcb] at h3 ⊢
    rw [ho] at h1
    rw [hw] at h2
    exact h w c h1 h2 hcb h3

/-- Calling `ClearPtr` on a block that is already torn down only counts the call, with
or without the capability. -/
theorem ClearPtr_of_cleared (esft : Bool) (d b : Nat) (s : Heap) (hc : (s.blocks b).cleared) :
    ClearPtr esft d b s = s.modBlock b (fun c => { c with clear_calls := c.clear_calls + 1 }) := by
  rw [ClearPtr_eq]
  unfold ControlBlock.cleared at hc
  by_cases he : (s.blocks b).emplace = true
  · simp only [he, if_true] at hc
    simp [he, hc]
  · have he2 : (s.blocks b).emplace = false := by simpa using he
    rw [he2] at hc
    have hp : (s.blocks b).ptr_ = 0 := by simpa using hc
    simp [he2, hp]

/-- The first `ClearPtr()` call on a block that still holds its object. -/
theorem ClearPtr_first (esft : Bool) (d b : Nat) (s : Heap) (hun : ¬ (s.blocks b).cleared)
    (hg : esft = true → 2 ≤ d ∧ ∀ w c,
      (s.objs (if (s.blocks b).emplace = true then (s.blocks b).obj
               else (s.blocks b).ptr_)).weak_this_ = some w →
      (s.wps w).block_ = some c → c ≠ b →
      (s.blocks c).strong_cnt = 0 → (s.blocks c).cleared) :
    (ClearPtr esft (d + 1) b s).objs =
      Function.update s.objs
        (if (s.blocks b).emplace = true then (s.blocks b).obj else (s.blocks b).ptr_)
        { s.objs (if (s.blocks b).emplace = true then (s.blocks b).obj
                  else (s.blocks b).ptr_) with
          dtor_runs := (s.objs (if (s.blocks b).emplace = true then (s.blocks b).obj
                                else (s.blocks b).ptr_)).dtor_runs + 1 } ∧
    ((ClearPtr esft (d + 1) b s).blocks b).cleared ∧
    ((ClearPtr esft (d + 1) b s).blocks b).clear_calls = (s.blocks b).clear_calls + 1 := by
  rw [ClearPtr_eq]
  unfold ControlBlock.cleared at hun
  by_cases he : (s.blocks b).emplace = true
  · simp only [he, if_true] at hun hg ⊢
    have hdl : (s.blocks b).is_delete_ = false := by simpa using hun
    simp only [hdl, Bool.false_eq_true, if_false]
    have hgx : esft = true → 2 ≤ d ∧
        Guarded ((s.modBlock b (fun c => { c with clear_calls := c.clear_calls + 1 })).modBlock b
          (fun c => { c with is_delete_ := true })) (s.blocks b).obj := by
      intro h
      obtain ⟨hd, hg2⟩ := hg h
      refine ⟨hd, Guarded.of_cleared (b := b) hg2 rfl rfl ?_ ?_⟩
      · simp [ControlBlock.cleared, he]
      · intro c hcb; simp [Function.update_noteq hcb]
    refine ⟨?_, ?_, ?_⟩
    · rw [exec_destroy_guarded esft d _ _ hgx]; simp
    · rw [exec_cleared]; simp [ControlBlock.cleared, he]
    · rw [(exec_strong esft _ _ _ b).2]; simp
  · have he2 : (s.blocks b).emplace = false := by simpa using he
    simp only [he2, Bool.false_eq_true, if_false] at hun hg ⊢
    simp only [ne_eq, hun, not_false_eq_true, if_true]
    have hgx : esft = true → 2 ≤ d ∧
        Guarded ((s.modBlock b (fun c => { c with clear_calls := c.clear_calls + 1 })).modBlock b
          (fun c => { c with ptr_ := 0 })) (s.blocks b).ptr_ := by
      intro h
      obtain ⟨hd, hg2⟩ := hg h
      refine ⟨hd, Guarded.of_cleared (b := b) hg2 rfl rfl ?_ ?_⟩
      · simp [ControlBlock.cleared, he2]
      · intro c hcb; simp [Function.update_noteq hcb]
    refine ⟨?_, ?_, ?_⟩
    · rw [exec_destroy_guarded esft d _ _ hgx]; simp
    · rw [exec_cleared]; simp [ControlBlock.cleared, he2]
    · rw [(exec_strong esft _ _ _ b).2]; simp

/-- The destructor of a capability-bearing object whose back-reference sits on block `c`
releases one weak unit of `c` and, when that was the last unit of a block without
strong owners, frees `c`. -/
theorem exec_destroy_blocks (n : Nat) (p : Addr) (x : Heap) (w c : Nat)
    (hw : (x.objs p).weak_this_ = some w) (hb : (x.wps w).block_ = some c)
    (hc : (x.blocks c).strong_cnt = 0 → (x.blocks c).cleared) :
    (exec true (n + 3) (Task.destroy p) x).blocks =
      Function.update x.blocks c
        { x.blocks c with
          weak_cnt := decr (x.blocks c).weak_cnt,
          frees := if (x.blocks c).strong_cnt = 0 ∧ decr (x.blocks c).weak_cnt = 0
                   then (x.blocks c).frees + 1 else (x.blocks c).frees } := by
  rw [exec_destroy_succ]
  simp only [if_true, hw]
  have hc2 : ((x.modObj p (fun o => { o with dtor_runs := o.dtor_runs + 1 })).blocks
      c).strong_cnt = 0 →
      ((x.modObj p (fun o => { o with dtor_runs := o.dtor_runs + 1 })).blocks c).cleared :=
    fun h0 => hc h0
  rw [exec_weakDeleteBlock_some true n w c _ (by simpa using hb) hc2]
  simp

/-- Every reachable heap is guarded: a block without strong owners is torn down. -/
theorem Inv.guarded {esft : Bool} {s : Heap} (h : Inv esft none s) (p : Addr) :
    Guarded s p := by
  intro w c hw hb h0
  have hwn := h.M.slot_ok p w hw
  have hcn := (h.C.wps_ok w c hwn hb).2
  unfold ControlBlock.cleared
  by_cases he : (s.blocks c).emplace = true
  · simp only [he, if_true]
    exact ((h.T.flag c hcn he).1).2 h0
  · have he2 : (s.blocks c).emplace = false := by simpa using he
    simp only [he2, Bool.false_eq_true, if_false]
    rw [h.T.ptr c hcn he2]
    simp [h0]

/-- Any number of `ClearPtr()` calls on a block that still holds its object. -/
theorem ClearPtr_iterate (esft : Bool) (d b : Nat) (s : Heap) (hun : ¬ (s.blocks b).cleared)
    (hg : esft = true → 2 ≤ d ∧ ∀ w c,
      (s.objs (if (s.blocks b).emplace = true then (s.blocks b).obj
               else (s.blocks b).ptr_)).weak_this_ = some w →
      (s.wps w).block_ = some c → c ≠ b →
      (s.blocks c).strong_cnt = 0 → (s.blocks c).cleared) (k : Nat) :
    (Nat.iterate (ClearPtr esft (d + 1) b) (k + 1) s).objs =
      Function.update s.objs
        (if (s.blocks b).emplace = true then (s.blocks b).obj else (s.blocks b).ptr_)
        { s.objs (if (s.blocks b).emplace = true then (s.blocks b).obj
                  else (s.blocks b).ptr_) with
          dtor_runs := (s.objs (if (s.blocks b).emplace = true then (s.blocks b).obj
                                else (s.blocks b).ptr_)).dtor_runs + 1 } ∧
    ((Nat.iterate (ClearPtr esft (d + 1) b) (k + 1) s).blocks b).cleared ∧
    ((Nat.iterate (ClearPtr esft (d + 1) b) (k + 1) s).blocks b).clear_calls =
      (s.blocks b).clear_calls + (k + 1) := by
  induction k with
  | zero =>
    simp only [Function.iterate_succ, Function.iterate_zero, Function.comp_apply, id_eq]
    exact ClearPtr_first esft d b s hun hg
  | succ k ih =>
    rw [Function.iterate_succ_apply']
    obtain ⟨i1, i2, i3⟩ := ih
    rw [ClearPtr_of_cleared esft (d + 1) b _ i2]
    refine ⟨by simpa using i1, ?_, ?_⟩
    · unfold ControlBlock.cleared at i2 ⊢
      simpa using i2
    · simp only [Heap.modBlock_blocks, Function.update_same, i3]
      omega

/-- The re-entrant case: `ClearPtr()` on a block without strong owners whose last weak
unit is the back-reference of its own object runs the block destructor from inside the
destructor of the object, and the block is freed then. -/
theorem ClearPtr_reentrant (d b : Nat) (s : Heap) (w : Nat) (hd : 2 ≤ d)
    (hun : ¬ (s.blocks b).cleared)
    (hw : (s.objs (if (s.blocks b).emplace = true then (s.blocks b).obj
               else (s.blocks b).ptr_)).weak_this_ = some w)
    (hb : (s.wps w).block_ = some b) :
    ((ClearPtr true (d + 1) b s).blocks b).frees =
      if (s.blocks b).strong_cnt = 0 ∧ decr (s.blocks b).weak_cnt = 0
      then (s.blocks b).frees + 1 else (s.blocks b).frees := by
  obtain ⟨n, rfl⟩ : ∃ n, d = n + 2 := ⟨d - 2, by omega⟩
  rw [ClearPtr_eq]
  unfold ControlBlock.cleared at hun
  by_cases he : (s.blocks b).emplace = true
  · simp only [he, if_true] at hun hw ⊢
    have hdl : (s.blocks b).is_delete_ = false := by simpa using hun
    simp only [hdl, Bool.false_eq_true, if_false]
    rw [exec_destroy_blocks n _ _ w b (by simpa using hw) (by simpa using hb)
      (by intro _; simp [ControlBlock.cleared, he])]
    simp
  · have he2 : (s.blocks b).emplace = false := by simpa using he
    simp only [he2, Bool.false_eq_true, if_false] at hun hw ⊢
    simp only [ne_eq, hun, not_false_eq_true, if_true]
    rw [exec_destroy_blocks n _ _ w b (by simpa using hw) (by simpa using hb)
      (by intro _; simp [ControlBlock.cleared, he2])]
    simp

/-- Calling `ClearPtr` again never frees the block again. -/
theorem ClearPtr_iterate_frees (esft : Bool) (d b : Nat) (s : Heap)
    (hc : ((ClearPtr esft (d + 1) b s).blocks b).cleared) (k : Nat) :
    ((Nat.iterate (ClearPtr esft (d + 1) b) (k + 1) s).blocks b).cleared ∧
    ((Nat.iterate (ClearPtr esft (d + 1) b) (k + 1) s).blocks b).frees =
      ((ClearPtr esft (d + 1) b s).blocks b).frees := by
  induction k with
  | zero =>
    simp only [Function.iterate_succ, Function.iterate_zero, Function.comp_apply, id_eq]
    exact ⟨hc, trivial⟩
  | succ k ih =>
    rw [Function.iterate_succ_apply']
    obtain ⟨i1, i2⟩ := ih
    rw [ClearPtr_of_cleared esft (d + 1) b _ i1]
    refine ⟨?_, by simpa using i2⟩
    unfold ControlBlock.cleared at i1 ⊢
    simpa using i1

/-- The strategy destructor on a block that still holds its object, in a guarded
heap. -/
theorem exec_deleteBlock_first (esft : Bool) (d b : Nat) (s : Heap)
    (hun : ¬ (s.blocks b).cleared)
    (hg : esft = true → 2 ≤ d ∧
      Guarded s (if (s.blocks b).emplace = true then (s.blocks b).obj else (s.blocks b).ptr_)) :
    (exec esft (d + 2) (Task.deleteBlock b) s).objs =
      Function.update s.objs
        (if (s.blocks b).emplace = true then (s.blocks b).obj else (s.blocks b).ptr_)
        { s.objs (if (s.blocks b).emplace = true then (s.blocks b).obj
                  else (s.blocks b).ptr_) with
          dtor_runs := (s.objs (if (s.blocks b).emplace = true then (s.blocks b).obj
                                else (s.blocks b).ptr_)).dtor_runs + 1 } := by
  unfold ControlBlock.cleared at hun
  by_cases he : (s.blocks b).emplace = true
  · simp only [he, if_true] at hun hg ⊢
    have hdl : (s.blocks b).is_delete_ = false := by simpa using hun
    simp only [exec, he, hdl, if_true, Bool.false_eq_true, if_false, Heap.modBlock_objs]
    exact exec_destroy_guarded esft d _ s hg
  · have he2 : (s.blocks b).emplace = false := by simpa using he
    simp only [he2, Bool.false_eq_true, if_false] at hun hg ⊢
    simp only [exec, he2, ne_eq, hun, not_false_eq_true, if_true, Bool.false_eq_true, if_false,
      Heap.modBlock_objs]
    exact exec_destroy_guarded esft d _ s hg

/-- Writing the present strong count back leaves the heap as it is. -/
theorem Heap.withStrong_self (s : Heap) (b : Nat) :
    s.withStrong b (s.blocks b).strong_cnt = s := by
  simp [Heap.withStrong, Heap.modBlock]

/-- The virtual `ClearPtr()` never writes a strong counter. -/
theorem ClearPtr_strong (esft : Bool) (d b : Nat) (s : Heap) (c : Nat) :
    ((ClearPtr esft d b s).blocks c).strong_cnt = (s.blocks c).strong_cnt := by
  have key : ∀ f : ControlBlock → ControlBlock, (∀ x, (f x).strong_cnt = x.strong_cnt) →
      ((s.modBlock b f).blocks c).strong_cnt = (s.blocks c).strong_cnt := by
    intro f hf
    by_cases hcb : c = b
    · subst hcb; simp [hf]
    · simp [Function.update_noteq hcb]
  have key2 : ∀ f g : ControlBlock → ControlBlock, (∀ x, (f x).strong_cnt = x.strong_cnt) →
      (∀ x, (g x).strong_cnt = x.strong_cnt) →
      (((s.modBlock b f).modBlock b g).blocks c).strong_cnt = (s.blocks c).strong_cnt := by
    intro f g hf hg
    by_cases hcb : c = b
    · subst hcb; simp [hf, hg]
    · simp [Function.update_noteq hcb]
  rw [ClearPtr_eq]
  split
  · split
    · exact key _ (fun _ => rfl)
    · rw [(exec_strong esft _ _ _ c).1]
      exact key2 _ _ (fun _ => rfl) (fun _ => rfl)
  · split
    · rw [(exec_strong esft _ _ _ c).1]
      exact key2 _ _ (fun _ => rfl) (fun _ => rfl)
    · exact key _ (fun _ => rfl)

/-- What `SharedPtr::DeleteBlock` does to the strong counters, on any heap: the counter
of the block the handle held is decremented, no other is written. -/
theorem SharedPtr.DeleteBlock_strong (esft : Bool) (d i : Nat) (s : Heap) (c : Nat) :
    ((SharedPtr.DeleteBlock esft d i s).blocks c).strong_cnt =
      if (s.sps i).block_ = some c then decr (s.blocks c).strong_cnt
      else (s.blocks c).strong_cnt := by
  cases hb : (s.sps i).block_ with
  | none =>
    rw [SharedPtr.DeleteBlock_none esft d i s hb]
    simp
  | some b =>
    have key : ((s.modBlock b (fun x => { x with strong_cnt := decr x.strong_cnt })).blocks
        c).strong_cnt =
        if some b = some c then decr (s.blocks c).strong_cnt else (s.blocks c).strong_cnt := by
      by_cases hcb : c = b
      · subst hcb; simp
      · have hbc : b ≠ c := fun e => hcb e.symm
        simp [Function.update_noteq hcb, hbc]
    by_cases h0 : decr (s.blocks b).strong_cnt = 0
    · rw [SharedPtr.DeleteBlock_last esft d i b s hb h0]
      split
      · rw [(exec_strong esft _ _ _ c).1, ClearPtr_strong]
        simpa using key
      · rw [ClearPtr_strong]
        simpa using key
    · rw [SharedPtr.DeleteBlock_keep esft d i b s hb h0]
      simpa using key

/-- For a type without the capability `SharedPtr::DeleteBlock` writes no weak counter
and no weak handle, on any heap. -/
theorem SharedPtr.DeleteBlock_plain_weak (n i : Nat) (s : Heap) :
    (∀ c, ((SharedPtr.DeleteBlock false (n + 1) i s).blocks c).weak_cnt =
      (s.blocks c).weak_cnt) ∧
    (SharedPtr.DeleteBlock false (n + 1) i s).wps = s.wps := by
  cases hb : (s.sps i).block_ with
  | none =>
    rw [SharedPtr.DeleteBlock_none false _ i s hb]
    simp
  | some b =>
    have key : ∀ c, ((s.modBlock b (fun x => { x with strong_cnt := decr x.strong_cnt })).blocks
        c).weak_cnt = (s.blocks c).weak_cnt := by
      intro c
      by_cases hcb : c = b
      · subst hcb; simp
      · simp [Function.update_noteq hcb]
    by_cases h0 : decr (s.blocks b).strong_cnt = 0
    · rw [SharedPtr.DeleteBlock_last false _ i b s hb h0]
      obtain ⟨c1, c2, c3, c4, c5⟩ := ClearPtr_plain n b
        ((s.modBlock b (fun c => { c with strong_cnt := decr c.strong_cnt })).setShared i
          { live := (s.sps i).live, block_ := none, ptr_ := 0, heap := (s.sps i).heap })
      have hcl : ((ClearPtr false (n + 1) b
          ((s.modBlock b (fun c => { c with strong_cnt := decr c.strong_cnt })).setShared i
            { live := (s.sps i).live, block_ := none, ptr_ := 0,
              heap := (s.sps i).heap })).blocks b).cleared := by
        rw [c1]
        unfold ControlBlock.cleared
        by_cases he : (s.blocks b).emplace = true <;> simp [he]
      have kc : ∀ c, ((ClearPtr false (n + 1) b
          ((s.modBlock b (fun c => { c with strong_cnt := decr c.strong_cnt })).setShared i
            { live := (s.sps i).live, block_ := none, ptr_ := 0,
              heap := (s.sps i).heap })).blocks c).weak_cnt = (s.blocks c).weak_cnt := by
        intro c
        rw [c1]
        by_cases hcb : c = b
        · subst hcb; simp
        · simp [Function.update_noteq hcb]
      split
      · rw [exec_deleteBlock_cleared false n b _ hcl]
        refine ⟨?_, by simpa using c4⟩
        intro c
        by_cases hcb : c = b
        · subst hcb
          simp only [Heap.modBlock_blocks, Function.update_same]
          exact kc c
        · simp only [Heap.modBlock_blocks, Function.update_noteq hcb]
          exact kc c
      · exact ⟨kc, by simpa using c4⟩
    · rw [SharedPtr.DeleteBlock_keep false _ i b s hb h0]
      exact ⟨fun c => by simpa using key c, rfl⟩

/-- The release of the strong unit of a handle in a well-formed heap, whatever the
type: the strong count of its block drops by one; the block is torn down (one
`ClearPtr()` call, one destructor run of its object) exactly when that was the last
unit; and the block is freed exactly when moreover no weak unit remains. -/
theorem Inv.release_effect {esft : Bool} {s r : Heap} (h : Inv esft none s) {i b : Nat}
    (hi : i < s.nsps) (hb : (s.sps i).block_ = some b) (n : Nat)
    (hr : r = SharedPtr.DeleteBlock esft (n + 3) i s) :
    Inv esft none r ∧
    b < s.nblocks ∧
    1 ≤ (s.blocks b).strong_cnt ∧
    (s.blocks b).strong_cnt < SIZE_T_MOD ∧
    (r.blocks b).strong_cnt = (s.blocks b).strong_cnt - 1 ∧
    (∀ c, c ≠ b → (r.blocks c).strong_cnt = (s.blocks c).strong_cnt) ∧
    (r.blocks b).obj = (s.blocks b).obj ∧
    (s.blocks b).clear_calls = 0 ∧
    (r.blocks b).clear_calls = (if (s.blocks b).strong_cnt = 1 then 1 else 0) ∧
    ((s.blocks b).obj ≠ 0 →
      (s.objs (s.blocks b).obj).dtor_runs = 0 ∧
      (r.objs (s.blocks b).obj).dtor_runs = (if (s.blocks b).strong_cnt = 1 then 1 else 0)) ∧
    (s.blocks b).frees = 0 ∧
    (r.blocks b).frees =
      (if (s.blocks b).strong_cnt = 1 ∧ (r.blocks b).weak_cnt = 0 then 1 else 0) ∧
    (r.blocks b).weak_cnt = r.liveWeak b := by
  have hir : Inv esft none r := by rw [hr]; exact h.shared_deleteBlock hi n
  obtain ⟨hbn, hpos⟩ := h.strong_pos hi hb
  have hlt : (s.blocks b).strong_cnt < SIZE_T_MOD := by
    have e := h.C.strong b hbn
    have l := cnt_le s.sps s.nsps b
    have c := h.C.cap_s
    unfold Heap.liveShared at e
    omega
  obtain ⟨f1, f2, f3, f4, f5, f6⟩ := SharedPtr.DeleteBlock_frame esft (n + 3) i s
  have hbr : b < r.nblocks := by rw [hr, f4]; exact hbn
  have hst : ∀ c, (r.blocks c).strong_cnt =
      if (s.sps i).block_ = some c then decr (s.blocks c).strong_cnt
      else (s.blocks c).strong_cnt := by
    intro c; rw [hr]; exact SharedPtr.DeleteBlock_strong esft (n + 3) i s c
  have hsb : (r.blocks b).strong_cnt = (s.blocks b).strong_cnt - 1 := by
    rw [hst b, hb, if_pos rfl, decr_eq hpos hlt]
  have hob : (r.blocks b).obj = (s.blocks b).obj := by rw [hr]; exact f6 b
  have hz : (r.blocks b).strong_cnt = 0 ↔ (s.blocks b).strong_cnt = 1 := by
    rw [hsb]; omega
  have hnz : ¬ (s.blocks b).strong_cnt = 0 := by omega
  have c1 := h.T.clears b hbn
  have c2 := hir.T.clears b hbr
  have g1 := h.F b hbn
  have g2 := hir.F b hbr
  simp only [hnz, false_and, if_false, reduceCtorEq, Nat.add_zero] at c1 g1
  simp only [hz, reduceCtorEq, if_false, Nat.add_zero] at c2 g2
  refine ⟨hir, hbn, hpos, hlt, hsb, ?_, hob, c1, c2, ?_, g1, g2, hir.C.weak b hbr⟩
  · intro c hc
    have hne : ¬ (some b = some c) := fun e => hc (Option.some.inj e).symm
    rw [hst c, hb, if_neg hne]
  · intro ho
    have d1 := h.T.dtor b hbn ho
    have d2 := hir.T.dtor b hbr (by rw [hob]; exact ho)
    rw [hob] at d2
    simp only [hnz, if_false] at d1
    simp only [hz] at d2
    exact ⟨d1, d2⟩

end SmartPtrs
